import Mathlib

/-!
# AdaptEase: feature-state and content-cache coordination

A shallow embedding of the coordination logic of `src/adaptease.js`
(`setupWidgetLogic`): the per-language feature table, the two per-language
caches, the request flags, the content renderer, the button presenter, the
language switch and the two asynchronous transformation click listeners.

Conventions of the embedding.

* A JavaScript `Map` is an insertion-ordered association list (`JSMap`).
* A tracked DOM element is a natural number (reference identity); its
  `innerHTML` is a string held in `State.innerHTML`.  Writing and reading
  `innerHTML` is taken to be the identity on strings and the tracked elements
  are taken to be independent of one another.
* The browser's markup-to-text conversion
  (`tempDiv.innerHTML = html; tempDiv.textContent || tempDiv.innerText || ""`)
  is not part of the repository: it is the parameter `textContent`.
* An `async` listener runs synchronously up to its next `await fetch(...)`.
  A suspended listener is an `Invocation` in `State.pending`; the delivery of
  the outcome of its request is the event `Event.response`.  The two awaits of
  one request (`fetch` and `response.json()`) are merged in one delivery: the
  listener changes no state between them.
* `State.fetchLog` records every request issued, in order (history variable).
-/

namespace AdaptEase

abbrev Lang := String
abbrev Elem := Nat
abbrev Markup := String

/-! ## JavaScript maps -/

/-- A JavaScript `Map`: association list in insertion order, keys unique by construction of `set`. -/
abbrev JSMap (κ ν : Type) := List (κ × ν)

namespace JSMap

variable {κ ν : Type} [DecidableEq κ]

/-- The method `Map.prototype.get` (`none` is `undefined`). -/
def get : JSMap κ ν → κ → Option ν
  | [], _ => none
  | (k', v) :: t, k => if k' = k then some v else get t k

/-- The method `Map.prototype.has`. -/
def has (m : JSMap κ ν) (k : κ) : Bool := (get m k).isSome

/-- The method `Map.prototype.set`: replaces the value of an existing key in place, appends a new key. -/
def set : JSMap κ ν → κ → ν → JSMap κ ν
  | [], k, v => [(k, v)]
  | (k', v') :: t, k, v => if k' = k then (k, v) :: t else (k', v') :: set t k v

/-- The property `Map.prototype.size`. -/
def size (m : JSMap κ ν) : Nat := m.length

end JSMap

/-! ## Data model -/

/-- The two transformations (`'textInBlocks'`, `'simplifiedText'`). -/
inductive Kind
  | textInBlocks
  | simplifiedText
  deriving DecidableEq, Repr

/-- The opposite transformation. -/
def Kind.other : Kind → Kind
  | .textInBlocks => .simplifiedText
  | .simplifiedText => .textInBlocks

/-- The value type of `activeFeatures_perLang`. -/
structure FeatureStates where
  textInBlocks : Bool
  simplifiedText : Bool
  deriving DecidableEq, Repr

/-- The default `{ textInBlocks: false, simplifiedText: false }`. -/
def FeatureStates.none : FeatureStates := ⟨false, false⟩

/-- Field read by kind. -/
def FeatureStates.get (fs : FeatureStates) : Kind → Bool
  | .textInBlocks => fs.textInBlocks
  | .simplifiedText => fs.simplifiedText

/-- Field write by kind. -/
def FeatureStates.set (fs : FeatureStates) : Kind → Bool → FeatureStates
  | .textInBlocks, b => { fs with textInBlocks := b }
  | .simplifiedText, b => { fs with simplifiedText := b }

/-- The value of `activeApiCallDetails` when not `null`: `{ name, lang }`. -/
structure ApiCallDetails where
  name : Kind
  lang : Lang
  deriving DecidableEq, Repr

/-- The part of a feature button the listeners and the presenter write. -/
structure Button where
  active : Bool
  disabled : Bool
  unavailable : Bool
  processing : Bool
  bumpFeedback : Bool
  deriving DecidableEq, Repr

/-- Pending `setTimeout` callbacks. -/
inductive Timer
  | shortAnimation
  | bump (k : Kind)
  deriving DecidableEq, Repr

/-- The locals of a click listener that survive an `await`. -/
structure Frame where
  kind : Kind
  originalClickLanguage : Lang
  isActivating : Bool
  thisOperationWouldNeedApi : Bool
  setProcessingFlagForThisCall : Bool
  setShortAnimationForCache : Bool
  deriving DecidableEq, Repr

/-- A listener suspended at `await fetch(...)` for `element`; `rest` are the
elements of its `targetTextElements` the loop has not visited yet. -/
structure Invocation where
  frame : Frame
  element : Elem
  rest : List Elem
  deriving DecidableEq, Repr

/-- One issued request: endpoint (by kind), the element it is for, and the JSON body. -/
structure Request where
  kind : Kind
  element : Elem
  text : String
  lang : Lang
  deriving DecidableEq, Repr

/-- The `processed_text` member of a response body. `arr` holds the items as
`Array.prototype.join` renders them; `other` is any value that is neither a
string nor an array; `absent` is `undefined`. -/
inductive ProcessedText
  | absent
  | other
  | str (s : String)
  | arr (items : List String)
  deriving DecidableEq, Repr

/-- The body of a response: not JSON (or JSON without members), or an object. -/
inductive Body
  | invalid
  | json (processed_text : ProcessedText)
  deriving DecidableEq, Repr

/-- What `await fetch(...)` brings: a rejected promise or an HTTP response. -/
inductive FetchOutcome
  | networkError
  | http (status : Nat) (body : Body)
  deriving DecidableEq, Repr

/-- The widget state: the closure variables of `setupWidgetLogic`, the tracked
part of the page, and the suspended listeners. -/
structure State where
  /-- The result of `document.querySelectorAll(WIDGET_CONFIG.textClassName)` -/
  targetTextElements : List Elem
  innerHTML : Elem → Markup
  originalElementHTML : JSMap Elem Markup
  currentLanguage : Lang
  activeFeatures_perLang : JSMap Lang FeatureStates
  isProcessingFeature : Bool
  activeApiCallDetails : Option ApiCallDetails
  isShortAnimationActive : Bool
  cachedChunkedHTML_perLang : JSMap Lang (JSMap Elem Markup)
  cachedSimplifiedText_perLang : JSMap Lang (JSMap Elem Markup)
  buttonTextInBlocks : Button
  buttonSimplifiedText : Button
  /-- Overlay: `none` when the element is absent, `some b` when it is displayed iff `b` -/
  loadingOverlayElement : Option Bool
  /-- Whether every element of `elementsToEnsure` in `updateUIText` exists -/
  uiComplete : Bool
  pending : List Invocation
  timers : List Timer
  fetchLog : List Request

namespace State

/-- The cache of a kind. -/
def cache (s : State) : Kind → JSMap Lang (JSMap Elem Markup)
  | .textInBlocks => s.cachedChunkedHTML_perLang
  | .simplifiedText => s.cachedSimplifiedText_perLang

/-- Replace the cache of a kind. -/
def setCache (s : State) : Kind → JSMap Lang (JSMap Elem Markup) → State
  | .textInBlocks, c => { s with cachedChunkedHTML_perLang := c }
  | .simplifiedText, c => { s with cachedSimplifiedText_perLang := c }

/-- The button of a kind. -/
def button (s : State) : Kind → Button
  | .textInBlocks => s.buttonTextInBlocks
  | .simplifiedText => s.buttonSimplifiedText

/-- Replace the button of a kind. -/
def setButton (s : State) : Kind → Button → State
  | .textInBlocks, b => { s with buttonTextInBlocks := b }
  | .simplifiedText, b => { s with buttonSimplifiedText := b }

/-- The statement `element.innerHTML = html`. -/
def setInnerHTML (s : State) (e : Elem) (html : Markup) : State :=
  { s with innerHTML := fun x => if x = e then html else s.innerHTML x }

/-- The expression `activeFeatures_perLang.get(lang) || { textInBlocks: false, simplifiedText: false }`. -/
def features (s : State) (lang : Lang) : FeatureStates :=
  (s.activeFeatures_perLang.get lang).getD FeatureStates.none

/-- The entry of the cache of kind `k` for `(lang, e)`, if any. -/
def cached (s : State) (k : Kind) (lang : Lang) (e : Elem) : Option Markup :=
  ((s.cache k).get lang).bind (fun m => m.get e)

/-- The statement `langCache.set(element, html)` on the inner map of `lang`. -/
def cachePut (s : State) (k : Kind) (lang : Lang) (e : Elem) (html : Markup) : State :=
  s.setCache k ((s.cache k).set lang ((((s.cache k).get lang).getD []).set e html))

/-- The invocation at position `i` is taken out of the suspended ones (it resumes). -/
def removePending (s : State) (i : Nat) : State :=
  { s with pending := s.pending.eraseIdx i }

/-- The timer at position `i` is taken out of the set ones (it fires). -/
def removeTimer (s : State) (i : Nat) : State :=
  { s with timers := s.timers.eraseIdx i }

end State

/-! ## Text helpers -/

/-- Code points removed by `String.prototype.trim` (WhiteSpace and LineTerminator). -/
def jsWhitespace (c : Char) : Bool :=
  let n := c.toNat
  n = 0x09 || n = 0x0A || n = 0x0B || n = 0x0C || n = 0x0D || n = 0x20 || n = 0xA0 ||
  n = 0x1680 || (0x2000 ≤ n && n ≤ 0x200A) || n = 0x2028 || n = 0x2029 || n = 0x202F ||
  n = 0x205F || n = 0x3000 || n = 0xFEFF

/-- The method `String.prototype.trim`. -/
def jsTrim (s : String) : String :=
  String.mk ((s.data.dropWhile jsWhitespace).reverse.dropWhile jsWhitespace).reverse

/-- The call `Array.prototype.join('<br><br>')`. -/
def joinChunks (items : List String) : Markup := "<br><br>".intercalate items

/-- The markup a listener takes from `data.processed_text`, or `none` when it
throws `Invalid processed_text format`: text-in-blocks accepts an array,
simplify-text an array or a string. -/
def processedHTML : Kind → ProcessedText → Option Markup
  | _, .arr items => some (joinChunks items)
  | .simplifiedText, .str s => some s
  | _, _ => none

/-- The property `response.ok`. -/
def FetchOutcome.ok : FetchOutcome → Bool
  | .networkError => false
  | .http status _ => 200 ≤ status && status ≤ 299

/-- The markup the `try` block of a listener obtains from a request, or `none`
when control reaches its `catch` (rejected fetch, `!response.ok`, body that
does not parse, bad `processed_text`). -/
def fetchResult (k : Kind) : FetchOutcome → Option Markup
  | .networkError => none
  | .http status body =>
    if 200 ≤ status && status ≤ 299 then
      match body with
      | .invalid => none
      | .json pt => processedHTML k pt
    else none

/-! ## Loading overlay, content renderer, presenter -/

/-- The function `showLoadingAnimation`: display the overlay when the element exists. -/
def showLoadingAnimation (s : State) : State :=
  { s with loadingOverlayElement := s.loadingOverlayElement.map (fun _ => true) }

/-- The function `hideLoadingAnimation`: hide the overlay when the element exists. -/
def hideLoadingAnimation (s : State) : State :=
  { s with loadingOverlayElement := s.loadingOverlayElement.map (fun _ => false) }

/-- The body of the `forEach` of `refreshContentElements` for one element. -/
def refreshElement (lang : Lang) (s : State) (e : Elem) : State :=
  match s.originalElementHTML.get e with
  | none => s
  | some originalContent =>
    if (s.features lang).textInBlocks then
      match s.cached .textInBlocks lang e with
      | some html => s.setInnerHTML e html
      | none => s.setInnerHTML e originalContent
    else if (s.features lang).simplifiedText then
      match s.cached .simplifiedText lang e with
      | some html => s.setInnerHTML e html
      | none => s.setInnerHTML e originalContent
    else s.setInnerHTML e originalContent

/-- The function `refreshContentElements(lang)`. -/
def refreshContentElements (lang : Lang) (s : State) : State :=
  s.targetTextElements.foldl (refreshElement lang) s

/-- The test `langCache && langCache.size > 0` of the presenter. -/
def hasAnyCached (s : State) (k : Kind) (lang : Lang) : Bool :=
  match (s.cache k).get lang with
  | some langCache => decide (0 < langCache.size)
  | none => false

/-- The function `updateFeatureButtonStates(lang)`. -/
def updateFeatureButtonStates (lang : Lang) (s : State) : State :=
  let currentLangFeatures := s.features lang
  -- base 'active' class and reset
  let bB : Button := { s.buttonTextInBlocks with
    active := currentLangFeatures.textInBlocks, disabled := false,
    unavailable := false, processing := false }
  let bS : Button := { s.buttonSimplifiedText with
    active := currentLangFeatures.simplifiedText, disabled := false,
    unavailable := false, processing := false }
  -- animation visibility
  let s1 : State :=
    if !s.isShortAnimationActive then
      match s.isProcessingFeature, s.activeApiCallDetails with
      | true, some d => if d.lang = lang then showLoadingAnimation s else hideLoadingAnimation s
      | _, _ => hideLoadingAnimation s
    else s
  match s.isProcessingFeature, s.activeApiCallDetails with
  | true, some d =>
    if d.lang = lang then
      match d.name with
      | .textInBlocks =>
        { s1 with
          buttonTextInBlocks := { bB with processing := true },
          buttonSimplifiedText := { bS with disabled := true, unavailable := true } }
      | .simplifiedText =>
        { s1 with
          buttonSimplifiedText := { bS with processing := true },
          buttonTextInBlocks := { bB with disabled := true, unavailable := true } }
    else
      let canB := currentLangFeatures.textInBlocks ||
        (!currentLangFeatures.textInBlocks && hasAnyCached s .textInBlocks lang)
      let canS := currentLangFeatures.simplifiedText ||
        (!currentLangFeatures.simplifiedText && hasAnyCached s .simplifiedText lang)
      { s1 with
        buttonTextInBlocks := if !canB then { bB with disabled := true, unavailable := true } else bB,
        buttonSimplifiedText := if !canS then { bS with disabled := true, unavailable := true } else bS }
  | _, _ =>
    if currentLangFeatures.textInBlocks then
      { s1 with
        buttonTextInBlocks := bB,
        buttonSimplifiedText := { bS with disabled := true, unavailable := true } }
    else if currentLangFeatures.simplifiedText then
      { s1 with
        buttonTextInBlocks := { bB with disabled := true, unavailable := true },
        buttonSimplifiedText := bS }
    else { s1 with buttonTextInBlocks := bB, buttonSimplifiedText := bS }

/-- The part of `updateUIText(lang)` that concerns the coordination state: it
returns at once when a UI element is missing, else runs the presenter and the
renderer (the translated labels are not modelled). -/
def updateUIText (lang : Lang) (s : State) : State :=
  if !s.uiComplete then s
  else refreshContentElements lang (updateFeatureButtonStates lang s)

/-- The click listener of a language option with `data-lang = selectedLang`. -/
def languageOptionClick (selectedLang : Lang) (s : State) : State :=
  if selectedLang ≠ s.currentLanguage then
    updateUIText selectedLang { s with currentLanguage := selectedLang }
  else s

/-! ## The transformation click listeners

The listeners of `buttonTextInBlocks` and `buttonSimplifiedText` are the same
text up to the feature field, the cache, the endpoint and the accepted shape of
`processed_text`; they are embedded once, with the kind as a parameter. -/

/-- The deactivation guard: `isProcessingFeature && activeApiCallDetails &&
activeApiCallDetails.name === K && activeApiCallDetails.lang === currentLanguage && !isActivating`. -/
def deactivationBlocked (k : Kind) (s : State) : Bool :=
  s.isProcessingFeature &&
  (match s.activeApiCallDetails with
    | some d => decide (d.name = k) && decide (d.lang = s.currentLanguage)
    | none => false) &&
  (s.features s.currentLanguage).get k

/-- The refusal of a deactivation: the bump class is added to the button and
a 300 ms timer is set to remove it. -/
def bumpFeedback (k : Kind) (s : State) : State :=
  let s1 := s.setButton k { s.button k with bumpFeedback := true }
  { s1 with timers := s1.timers ++ [Timer.bump k] }

/-- The body of the revert loop of the mutual-exclusivity block:
`if (originalElementHTML.has(element)) element.innerHTML = originalElementHTML.get(element)`. -/
def restoreElement (s : State) (e : Elem) : State :=
  match s.originalElementHTML.get e with
  | some html => s.setInnerHTML e html
  | none => s

/-- The revert loop of the mutual-exclusivity block: every matched element
that has a captured original gets it back. -/
def restoreOriginals (s : State) : State :=
  s.targetTextElements.foldl restoreElement s

/-- The object `newFeatureStates` at the end of the mutual-exclusivity block:
a copy of the current states in which an activation clears the other kind (when
it is set) and sets the clicked kind, and a deactivation clears the clicked kind. -/
def newFeatureStates (k : Kind) (currentFeatureStates : FeatureStates) : FeatureStates :=
  if !currentFeatureStates.get k then
    if currentFeatureStates.get k.other then
      (currentFeatureStates.set k.other false).set k true
    else currentFeatureStates.set k true
  else currentFeatureStates.set k false

/-- The mutual-exclusivity block: from `const originalClickLanguage = currentLanguage`
to `activeFeatures_perLang.set(originalClickLanguage, newFeatureStates)`. The
revert loop runs when the click activates and the other kind is active. -/
def toggleFeature (k : Kind) (s : State) : State :=
  let currentFeatureStates := s.features s.currentLanguage
  let s1 := if !currentFeatureStates.get k && currentFeatureStates.get k.other
            then restoreOriginals s else s
  { s1 with activeFeatures_perLang :=
      s1.activeFeatures_perLang.set s.currentLanguage (newFeatureStates k currentFeatureStates) }

section
variable (textContent : Markup → String)

/-- One iteration of the need-API scan: the element is not in the cache of the
language, has a captured original, and its trimmed text is not empty. -/
def elementNeedsApi (k : Kind) (lang : Lang) (s : State) (e : Elem) : Bool :=
  match s.cached k lang e with
  | some _ => false
  | none =>
    match s.originalElementHTML.get e with
    | none => false
    | some originalHtmlForCheck => jsTrim (textContent originalHtmlForCheck) != ""

/-- The need-API scan of an activating click (the `for` loop with `break`). -/
def scanNeedsApi (k : Kind) (lang : Lang) (s : State) : Bool :=
  s.targetTextElements.any (elementNeedsApi textContent k lang s)

end

/-- The acquisition block: from `let setProcessingFlagForThisCall = false` to
the end of the `else if (isActivating)` branch. Returns the state and the
locals of the invocation. -/
def acquire (k : Kind) (originalClickLanguage : Lang) (isActivating need : Bool)
    (s : State) : State × Frame :=
  if need then
    if !s.isProcessingFeature then
      ({ s with isProcessingFeature := true,
                activeApiCallDetails := some ⟨k, originalClickLanguage⟩ },
       ⟨k, originalClickLanguage, isActivating, need, true, false⟩)
    else (s, ⟨k, originalClickLanguage, isActivating, need, false, false⟩)
  else if isActivating then
    (showLoadingAnimation { s with isShortAnimationActive := true },
     ⟨k, originalClickLanguage, isActivating, need, false, true⟩)
  else (s, ⟨k, originalClickLanguage, isActivating, need, false, false⟩)

/-- The statements `if (!langCache) { langCache = new Map(); cache.set(lang, langCache); }`. -/
def ensureLangCache (k : Kind) (lang : Lang) (s : State) : State :=
  match (s.cache k).get lang with
  | some _ => s
  | none => s.setCache k ((s.cache k).set lang [])

/-- The block `if (errorDuringActivation)`: the kind of the invocation is
marked not active for the click language. -/
def revertActivation (f : Frame) (s : State) : State :=
  let finalStates := (s.features f.originalClickLanguage).set f.kind false
  { s with activeFeatures_perLang :=
      s.activeFeatures_perLang.set f.originalClickLanguage finalStates }

/-- The statements `isProcessingFeature = false; activeApiCallDetails = null`. -/
def releaseOwnership (s : State) : State :=
  { s with isProcessingFeature := false, activeApiCallDetails := none }

/-- The three-way branch of the `finally` block: release what this invocation
acquired, or start the one-second timer of the short animation, or only run
the presenter. -/
def releaseOrAnimate (f : Frame) (s : State) : State :=
  if f.setProcessingFlagForThisCall then
    updateFeatureButtonStates s.currentLanguage (releaseOwnership s)
  else if f.setShortAnimationForCache then
    { s with timers := s.timers ++ [Timer.shortAnimation] }
  else updateFeatureButtonStates s.currentLanguage s

/-- The end of the `finally` block: `if (originalClickLanguage === currentLanguage)
refreshContentElements(currentLanguage)`. -/
def refreshIfDisplayed (originalClickLanguage : Lang) (s : State) : State :=
  if originalClickLanguage = s.currentLanguage then
    refreshContentElements s.currentLanguage s
  else s

/-- The end of an invocation: the `if (errorDuringActivation)` block and the
`finally` block. -/
def finish (f : Frame) (errorDuringActivation : Bool) (s : State) : State :=
  refreshIfDisplayed f.originalClickLanguage
    (releaseOrAnimate f (if errorDuringActivation then revertActivation f s else s))

/-- The statement `await fetch(...)` for `element`: the request is issued and
the listener is suspended with the elements still to visit. -/
def issueFetch (f : Frame) (e : Elem) (rest : List Elem) (text : String) (s : State) : State :=
  { s with
    fetchLog := s.fetchLog ++ [⟨f.kind, e, text, f.originalClickLanguage⟩],
    pending := s.pending ++ [⟨f, e, rest⟩] }

/-- The empty-text branch of the loop: cache the original markup, and write it
to the element when the click language is displayed. -/
def storeEmpty (f : Frame) (e : Elem) (baseHtmlForProcessing : Markup) (s : State) : State :=
  let s1 := s.cachePut f.kind f.originalClickLanguage e baseHtmlForProcessing
  if s1.currentLanguage = f.originalClickLanguage
  then s1.setInnerHTML e baseHtmlForProcessing else s1

section
variable (textContent : Markup → String)

/-- The `for (const element of targetTextElements)` loop of an activation from
the element at the head of the list on, up to the next `await fetch` (the
invocation is then queued in `pending` and the request logged) or to the end of
the list (the invocation then finishes without error). -/
def processElements (f : Frame) : List Elem → State → State
  | [], s => finish f false s
  | e :: rest, s =>
    match s.cached f.kind f.originalClickLanguage e with
    | some html => processElements f rest (s.setInnerHTML e html)
    | none =>
      match s.originalElementHTML.get e with
      | none => processElements f rest s
      | some baseHtmlForProcessing =>
        let originalTextContentForApi := textContent baseHtmlForProcessing
        if jsTrim originalTextContentForApi = "" then
          processElements f rest (storeEmpty f e baseHtmlForProcessing s)
        else if f.thisOperationWouldNeedApi then
          issueFetch f e rest originalTextContentForApi s
        else
          processElements f rest (s.setInnerHTML e baseHtmlForProcessing)

/-- The success branch after `await response.json()`: write the markup to the
element when the click language is still displayed, and cache it. -/
def storeResult (inv : Invocation) (html : Markup) (s : State) : State :=
  let s1 := if s.currentLanguage = inv.frame.originalClickLanguage
            then s.setInnerHTML inv.element html else s
  s1.cachePut inv.frame.kind inv.frame.originalClickLanguage inv.element html

/-- The continuation of a suspended invocation when the outcome of its request
arrives: on success store and go on with the loop; otherwise
`errorDuringActivation = true; break`. -/
def resume (inv : Invocation) (r : FetchOutcome) (s : State) : State :=
  match fetchResult inv.frame.kind r with
  | some html => processElements textContent inv.frame inv.rest (storeResult inv html s)
  | none => finish inv.frame true s

/-- The click listener after the mutual-exclusivity block, run on the state
`s1` that block leaves: the need-API scan, the acquisition block, the presenter,
and then the loop (activation) or the end of the invocation (deactivation). -/
def completeClick (k : Kind) (isActivating : Bool) (originalClickLanguage : Lang)
    (s1 : State) : State :=
  let need := isActivating && scanNeedsApi textContent k originalClickLanguage s1
  let s2 := (acquire k originalClickLanguage isActivating need s1).1
  let frame := (acquire k originalClickLanguage isActivating need s1).2
  let s3 := updateFeatureButtonStates s2.currentLanguage s2
  if isActivating then
    processElements textContent frame s3.targetTextElements
      (ensureLangCache k originalClickLanguage s3)
  else finish frame false s3

/-- The click listener of the button of kind `k`, up to its first `await`. -/
def clickHandler (k : Kind) (s : State) : State :=
  if deactivationBlocked k s then bumpFeedback k s
  else
    completeClick textContent k (!(s.features s.currentLanguage).get k) s.currentLanguage
      (toggleFeature k s)

end

/-- A timer callback. -/
def fireTimer (t : Timer) (s : State) : State :=
  match t with
  | .shortAnimation =>
    let s1 := hideLoadingAnimation s
    updateFeatureButtonStates s1.currentLanguage { s1 with isShortAnimationActive := false }
  | .bump k => s.setButton k { s.button k with bumpFeedback := false }

/-! ## Start-up and events -/

/-- What the widget finds on the page when `setupWidgetLogic` runs. -/
structure Page where
  targetTextElements : List Elem
  innerHTML : Elem → Markup
  /-- The value of `currentLanguage` after its initialisation -/
  currentLanguage : Lang
  buttonTextInBlocks : Button
  buttonSimplifiedText : Button
  loadingOverlayElement : Option Bool
  uiComplete : Bool

/-- The initial capture: `if (originalElementHTML.size === 0)` snapshot every matched element. -/
def captureOriginals (originalElementHTML : JSMap Elem Markup) (els : List Elem)
    (innerHTML : Elem → Markup) : JSMap Elem Markup :=
  if originalElementHTML.size = 0 then
    els.foldl (fun m e => m.set e (innerHTML e)) originalElementHTML
  else originalElementHTML

/-- The function `setupWidgetLogic`, from the module-level map `originalElementHTML`. -/
def setupWidgetLogic (originalElementHTML : JSMap Elem Markup) (p : Page) : State :=
  updateUIText p.currentLanguage
    { targetTextElements := p.targetTextElements
      innerHTML := p.innerHTML
      originalElementHTML := captureOriginals originalElementHTML p.targetTextElements p.innerHTML
      currentLanguage := p.currentLanguage
      activeFeatures_perLang := []
      isProcessingFeature := false
      activeApiCallDetails := none
      isShortAnimationActive := false
      cachedChunkedHTML_perLang := []
      cachedSimplifiedText_perLang := []
      buttonTextInBlocks := p.buttonTextInBlocks
      buttonSimplifiedText := p.buttonSimplifiedText
      loadingOverlayElement := p.loadingOverlayElement
      uiComplete := p.uiComplete
      pending := []
      timers := []
      fetchLog := [] }

/-- The state after the module is loaded on page `p`. -/
def init (p : Page) : State := setupWidgetLogic [] p

/-- What can happen to the widget. -/
inductive Event
  | click (k : Kind)
  | selectLanguage (lang : Lang)
  | response (i : Nat) (r : FetchOutcome)
  | timer (i : Nat)
  deriving DecidableEq, Repr

section
variable (textContent : Markup → String)

/-- One event, run to its next suspension. An outcome for a request that is not
pending, or a timer that is not set, changes nothing. -/
def step (s : State) : Event → State
  | .click k => clickHandler textContent k s
  | .selectLanguage lang => languageOptionClick lang s
  | .response i r =>
    match s.pending.get? i with
    | some inv => resume textContent inv r (s.removePending i)
    | none => s
  | .timer i =>
    match s.timers.get? i with
    | some t => fireTimer t (s.removeTimer i)
    | none => s

/-- A sequence of events, in order. -/
def run (s : State) (evs : List Event) : State := evs.foldl (step textContent) s

/-- Whether the browser can deliver the event: a click needs a button that is
not disabled, an outcome a pending request, a timer callback a set timer. -/
def enabled (s : State) : Event → Bool
  | .click k => !(s.button k).disabled
  | .selectLanguage _ => true
  | .response i _ => decide (i < s.pending.length)
  | .timer i => decide (i < s.timers.length)

/-- Whether every event of the sequence can be delivered when its turn comes. -/
def feasible : State → List Event → Bool
  | _, [] => true
  | s, ev :: evs => enabled s ev && feasible (step textContent s ev) evs

/-- The states the widget can be in: the start state of some page, followed by
any events. -/
inductive Reachable : State → Prop
  | start (p : Page) : Reachable (init p)
  | next (s : State) (ev : Event) : Reachable s → Reachable (step textContent s ev)

end

/-! ## Predicates and sample inputs -/

/-- Mutual exclusivity of the stored feature states: no language has both
flags set. -/
def Exclusive (s : State) : Prop :=
  ∀ lang fs, s.activeFeatures_perLang.get lang = some fs →
    ¬ (fs.textInBlocks = true ∧ fs.simplifiedText = true)

/-- Removes what stands between `<` and `>`; `inTag` tells whether a tag is open. -/
def stripTags : List Char → Bool → List Char
  | [], _ => []
  | c :: cs, inTag =>
    if c = '<' then stripTags cs true
    else if c = '>' then stripTags cs false
    else if inTag then stripTags cs inTag
    else c :: stripTags cs inTag

/-- A stand-in for the browser's markup-to-text conversion, for concrete runs. -/
def sampleTextContent (html : Markup) : String := String.mk (stripTags html.data false)

/-- A button as it comes from the widget's HTML. -/
def plainButton : Button := ⟨false, false, false, false, false⟩

/-- A page with two tracked elements, `A` and `B`, displayed in `en`. -/
def pageAB : Page :=
  { targetTextElements := [0, 1]
    innerHTML := fun e => if e = 0 then "A" else "B"
    currentLanguage := "en"
    buttonTextInBlocks := plainButton
    buttonSimplifiedText := plainButton
    loadingOverlayElement := some false
    uiComplete := true }

/-- A page with the single tracked element `Hello world`, displayed in `en`. -/
def pageHello : Page :=
  { targetTextElements := [0]
    innerHTML := fun _ => "Hello world"
    currentLanguage := "en"
    buttonTextInBlocks := plainButton
    buttonSimplifiedText := plainButton
    loadingOverlayElement := some false
    uiComplete := true }

/-- A run on `pageAB` in which every click lands on a button that is not
disabled: text-in-blocks for `en` caches element 0 and fails on element 1;
then text-in-blocks for `fr` is left waiting; back on `en` the button is
enabled by the one cached entry and is clicked again. -/
def partialCacheRun : List Event :=
  [ .click .textInBlocks,
    .response 0 (.http 200 (.json (.arr ["a"]))),
    .response 0 (.http 500 .invalid),
    .selectLanguage "fr",
    .click .textInBlocks,
    .selectLanguage "en",
    .click .textInBlocks ]

/-- The state of `pageHello` after one click on text-in-blocks: the request
for the element is outstanding and owned by (text-in-blocks, `en`). -/
def helloRequested : State :=
  run sampleTextContent (init pageHello) [.click .textInBlocks]

/-- What the renderer writes for language `lang` in an element whose captured
original is `originalContent`: the text-in-blocks entry (else the original)
when text-in-blocks is active, else the same for simplified-text, else the
original. -/
def renderedMarkup (s : State) (lang : Lang) (e : Elem) (originalContent : Markup) : Markup :=
  if (s.features lang).textInBlocks then
    (s.cached .textInBlocks lang e).getD originalContent
  else if (s.features lang).simplifiedText then
    (s.cached .simplifiedText lang e).getD originalContent
  else originalContent

/-- Every request ever issued is for an element that has a captured original
whose trimmed text is not empty, and carries the text of that original. -/
def LogSound (textContent : Markup → String) (s : State) : Prop :=
  ∀ r ∈ s.fetchLog, ∃ html, s.originalElementHTML.get r.element = some html ∧
    jsTrim (textContent html) ≠ "" ∧ r.text = textContent html

/-- Scenario A: on `pageHello` text-in-blocks is clicked and the service
answers `{processed_text: ["Hello", "world"]}`. -/
def helloBlocks : State :=
  run sampleTextContent (init pageHello)
    [.click .textInBlocks, .response 0 (.http 200 (.json (.arr ["Hello", "world"])))]

/-- The two ownership variables agree: the flag is set exactly when the
details are not `null`. -/
def OwnershipConsistent (s : State) : Prop :=
  s.isProcessingFeature = s.activeApiCallDetails.isSome

/-- State `s'` differs from `s` at most in what the elements show and in the
two caches. -/
structure SameControl (s s' : State) : Prop where
  targetTextElements : s'.targetTextElements = s.targetTextElements
  originalElementHTML : s'.originalElementHTML = s.originalElementHTML
  currentLanguage : s'.currentLanguage = s.currentLanguage
  activeFeatures_perLang : s'.activeFeatures_perLang = s.activeFeatures_perLang
  isProcessingFeature : s'.isProcessingFeature = s.isProcessingFeature
  activeApiCallDetails : s'.activeApiCallDetails = s.activeApiCallDetails
  isShortAnimationActive : s'.isShortAnimationActive = s.isShortAnimationActive
  buttonTextInBlocks : s'.buttonTextInBlocks = s.buttonTextInBlocks
  buttonSimplifiedText : s'.buttonSimplifiedText = s.buttonSimplifiedText
  loadingOverlayElement : s'.loadingOverlayElement = s.loadingOverlayElement
  uiComplete : s'.uiComplete = s.uiComplete
  pending : s'.pending = s.pending
  timers : s'.timers = s.timers
  fetchLog : s'.fetchLog = s.fetchLog

/-- The request is for element `e` under kind `k` and language `lang`. -/
def Request.isFor (r : Request) (k : Kind) (lang : Lang) (e : Elem) : Prop :=
  r.kind = k ∧ r.lang = lang ∧ r.element = e

/-- From `s` to `s'` the request log only grew, and by no request for
(`k`, `lang`, `e`). -/
def NoNewRequestFor (k : Kind) (lang : Lang) (e : Elem) (s s' : State) : Prop :=
  ∃ new, s'.fetchLog = s.fetchLog ++ new ∧ ∀ r ∈ new, ¬ r.isFor k lang e

/-- Element `e` has an entry in the cache of kind `k` for `lang`. -/
def IsCached (s : State) (k : Kind) (lang : Lang) (e : Elem) : Prop :=
  (s.cached k lang e).isSome = true

/-- Element `y` needs no request for (`k`, `lang`): it is cached, or it has
no captured original (the loop skips it). -/
def Resolved (s : State) (k : Kind) (lang : Lang) (y : Elem) : Prop :=
  IsCached s k lang y ∨ s.originalElementHTML.get y = none

/-- In document order, every element before the first occurrence of a cached
element is resolved (the loop visits the elements in that order). -/
def PrefixResolved (s : State) : Prop :=
  ∀ k lang pre x post, s.targetTextElements = pre ++ x :: post → x ∉ pre →
    IsCached s k lang x → ∀ y ∈ pre, Resolved s k lang y

/-- Every suspended invocation was judged to need the API, waits for an element
that has a captured original, stands at a position of the document list, and
has only resolved elements behind it. -/
def PendingResolved (s : State) : Prop :=
  ∀ inv ∈ s.pending,
    inv.frame.thisOperationWouldNeedApi = true ∧
    s.originalElementHTML.get inv.element ≠ none ∧
    ∃ pre, s.targetTextElements = pre ++ inv.element :: inv.rest ∧
      ∀ y ∈ pre, Resolved s inv.frame.kind inv.frame.originalClickLanguage y

/-- The invariant of the activation loops. -/
def LoopInv (s : State) : Prop := PrefixResolved s ∧ PendingResolved s

/-- From `s` to `s'` the document list and the originals are the same and no
cache entry was lost. -/
structure CacheGrew (s s' : State) : Prop where
  targetTextElements : s'.targetTextElements = s.targetTextElements
  originalElementHTML : s'.originalElementHTML = s.originalElementHTML
  keeps : ∀ k lang e, IsCached s k lang e → IsCached s' k lang e

/-- From `s` to `s'` the document list, the originals and every cache entry
are the same. -/
structure CacheSame (s s' : State) : Prop where
  targetTextElements : s'.targetTextElements = s.targetTextElements
  originalElementHTML : s'.originalElementHTML = s.originalElementHTML
  cached : ∀ k lang e, s'.cached k lang e = s.cached k lang e

/-- Scenario A followed by a click that switches text-in-blocks off again: the
element is cached for (text-in-blocks, `en`) and shows its original. -/
def helloDeactivated : State :=
  run sampleTextContent (init pageHello)
    [.click .textInBlocks, .response 0 (.http 200 (.json (.arr ["Hello", "world"]))),
     .click .textInBlocks]

/-- The effect of delivering outcome `r` to the suspended invocation `inv`
(at position `i`) when the listener takes markup `html` from it: the success
branch stores `html` for the element and, when the click language is
displayed, shows it, and the loop goes on from there; at the end of the step
the entry is still `html`, and the element still shows it when the click
language is displayed and the kind of the invocation is the one the renderer
shows for that language. -/
def SuccessEffect (textContent : Markup → String) (s : State) (i : Nat) (inv : Invocation)
    (r : FetchOutcome) (html : Markup) : Prop :=
  step textContent s (.response i r)
    = processElements textContent inv.frame inv.rest
        (storeResult inv html (s.removePending i)) ∧
  (storeResult inv html (s.removePending i)).cached inv.frame.kind
    inv.frame.originalClickLanguage inv.element = some html ∧
  (s.currentLanguage = inv.frame.originalClickLanguage →
    (storeResult inv html (s.removePending i)).innerHTML inv.element = html) ∧
  (step textContent s (.response i r)).cached inv.frame.kind
    inv.frame.originalClickLanguage inv.element = some html ∧
  (s.currentLanguage = inv.frame.originalClickLanguage →
    (s.features inv.frame.originalClickLanguage).get inv.frame.kind = true →
    (inv.frame.kind = .simplifiedText →
      (s.features inv.frame.originalClickLanguage).textInBlocks = false) →
    (step textContent s (.response i r)).innerHTML inv.element = html)

/-- The state of `pageHello` after one click on simplified-text: the request
for the element is outstanding. -/
def helloSimplifyRequested : State :=
  run sampleTextContent (init pageHello) [.click .simplifiedText]

/-- Request ownership is none: `isProcessingFeature` is false and
`activeApiCallDetails` is `null`. -/
def OwnershipNone (s : State) : Prop :=
  s.isProcessingFeature = false ∧ s.activeApiCallDetails = none

/-- State `t` has the ownership variables of `s`. -/
def SameOwnership (s t : State) : Prop :=
  t.isProcessingFeature = s.isProcessingFeature ∧
  t.activeApiCallDetails = s.activeApiCallDetails

/-- What a segment of an invocation with locals `f`, started with the suspended
invocations `before` and the ownership variables of `s`, leaves in `t`: either
the invocation is suspended again at a request, with the ownership variables as
they were, or it has settled, and then the ownership is none when the invocation
had acquired it and is as it was when the invocation had not. -/
def SegmentOutcome (f : Frame) (before : List Invocation) (s t : State) : Prop :=
  ((∃ e rest, t.pending = before ++ [⟨f, e, rest⟩]) ∧ SameOwnership s t) ∨
  (t.pending = before ∧
    (f.setProcessingFlagForThisCall = true → OwnershipNone t) ∧
    (f.setProcessingFlagForThisCall = false → SameOwnership s t))

/-- The locals of the invocation that a click on kind `k` starts in state `s`
when the deactivation guard does not refuse it (the second component of the
acquisition block, as run by the listener). -/
def clickFrame (textContent : Markup → String) (k : Kind) (s : State) : Frame :=
  (acquire k s.currentLanguage (!(s.features s.currentLanguage).get k)
    (!(s.features s.currentLanguage).get k &&
      scanNeedsApi textContent k s.currentLanguage (toggleFeature k s))
    (toggleFeature k s)).2

/-- The test `isProcessingFeature && activeApiCallDetails &&
activeApiCallDetails.lang === lang` of the presenter: a request is in flight
whose owner language is `lang`. -/
def inFlightFor (s : State) (lang : Lang) : Bool :=
  s.isProcessingFeature &&
  match s.activeApiCallDetails with
  | some d => decide (d.lang = lang)
  | none => false

/-- Whether the loading overlay is displayed; an absent overlay is not. -/
def overlayVisible (s : State) : Bool :=
  match s.loadingOverlayElement with
  | some b => b
  | none => false

/-- The overlay exists and is displayed exactly when the short-animation flag
is set or a request is in flight for the displayed language. -/
def OverlayCorrect (s : State) : Prop :=
  s.loadingOverlayElement
    = some (s.isShortAnimationActive || inFlightFor s s.currentLanguage)

/-- The overlay exists and is displayed while the short-animation flag is set. -/
def OverlayReady (s : State) : Prop :=
  s.loadingOverlayElement.isSome = true ∧
  (s.isShortAnimationActive = true → s.loadingOverlayElement = some true)

/-- The page `pageHello` without its footer text element: `updateUIText`
returns before it reaches the presenter. -/
def pageNoFooter : Page := { pageHello with uiComplete := false }

/-- The page `pageHello` without the loading overlay element. -/
def pageNoOverlay : Page := { pageHello with loadingOverlayElement := none }

/-- A page with two tracked elements displayed in `en`: element 0 holds only a
line break (its text is empty), element 1 holds `Hello`. -/
def pageBlank : Page :=
  { targetTextElements := [0, 1]
    innerHTML := fun e => if e = 0 then "<br>" else "Hello"
    currentLanguage := "en"
    buttonTextInBlocks := plainButton
    buttonSimplifiedText := plainButton
    loadingOverlayElement := some false
    uiComplete := true }

/-- A page with three tracked elements, `A`, `B` and `C`, displayed in `en`. -/
def pageABC : Page :=
  { targetTextElements := [0, 1, 2]
    innerHTML := fun e => if e = 0 then "A" else if e = 1 then "B" else "C"
    currentLanguage := "en"
    buttonTextInBlocks := plainButton
    buttonSimplifiedText := plainButton
    loadingOverlayElement := some false
    uiComplete := true }

/-- The state of `pageABC` after a click on text-in-blocks and a successful
response for element 0: the request for element 1 is outstanding, element 2 is
still to be visited. -/
def abcSecondRequested : State :=
  run sampleTextContent (init pageABC)
    [.click .textInBlocks, .response 0 (.http 200 (.json (.arr ["a"])))]

/-- Every cache entry of `t` was an entry of `s` already, or is the original of
an element whose trimmed text is empty, or is one of the entries `extra`; and
the original store of `t` is that of `s`. -/
def EntriesFrom (textContent : Markup → String) (extra : Kind → Lang → Elem → Markup → Prop)
    (s t : State) : Prop :=
  t.originalElementHTML = s.originalElementHTML ∧
  ∀ k lang e html, t.cached k lang e = some html →
    s.cached k lang e = some html ∨
    (s.originalElementHTML.get e = some html ∧ jsTrim (textContent html) = "") ∨
    extra k lang e html

/-- A run on `pageABC` in which every click lands on a button that is not
disabled. Text-in-blocks for `en` caches element 0 and fails on element 1; a
text-in-blocks request for `fr` is left waiting and keeps the ownership; back
on `en` text-in-blocks is switched on (its invocation waits for element 1
without the ownership), off, and on again (a second invocation waits for
element 1); the second invocation gets its answers for elements 1 and 2 and
ends; `fr` is selected; the first invocation gets its answer for element 1. -/
def staleWriteRun : List Event :=
  [ .click .textInBlocks,
    .response 0 (.http 200 (.json (.arr ["a"]))),
    .response 0 (.http 500 .invalid),
    .selectLanguage "fr",
    .click .textInBlocks,
    .selectLanguage "en",
    .click .textInBlocks,
    .click .textInBlocks,
    .click .textInBlocks,
    .response 2 (.http 200 (.json (.arr ["b"]))),
    .response 2 (.http 200 (.json (.arr ["c"]))),
    .selectLanguage "fr",
    .response 1 (.http 200 (.json (.arr ["b"]))) ]

/-- Whether `ev` is one of the events that follow a click when nothing else is
clicked or selected and every request of its invocation succeeds: a 2xx
response with a well-formed body delivered to the invocation, which is the
suspended invocation at position `n`, or a timer callback. -/
def ownSuccess (k : Kind) (n : Nat) : Event → Bool
  | .response i r => decide (i = n) && (fetchResult k r).isSome
  | .timer _ => true
  | .click _ => false
  | .selectLanguage _ => false

/-- The number of request outcomes among the events. -/
def responseCount : List Event → Nat
  | [] => 0
  | .response _ _ :: evs => responseCount evs + 1
  | _ :: evs => responseCount evs

/-- What stays as the activating click on `k` in state `s` left it while its
invocation runs undisturbed: document list, originals, displayed language, and
for that language `k` on and the other kind off. -/
def ActivationCommon (s : State) (k : Kind) (t : State) : Prop :=
  t.targetTextElements = s.targetTextElements ∧
  t.originalElementHTML = s.originalElementHTML ∧
  t.currentLanguage = s.currentLanguage ∧
  (t.features s.currentLanguage).get k = true ∧
  (t.features s.currentLanguage).get k.other = false

/-- The invocation of the click on `k` in `s` holds the ownership and waits for
a request, behind the invocations that were suspended before the click; the
elements before the one it waits for are resolved, and there are at least `c`
of them. -/
def ActivationInFlight (s : State) (k : Kind) (c : Nat) (t : State) : Prop :=
  ActivationCommon s k t ∧ t.isProcessingFeature = true ∧
  t.activeApiCallDetails = some ⟨k, s.currentLanguage⟩ ∧
  ∃ pre e rest,
    t.pending = s.pending ++ [⟨⟨k, s.currentLanguage, true, true, true, false⟩, e, rest⟩] ∧
    s.targetTextElements = pre ++ e :: rest ∧ c ≤ pre.length ∧
    ∀ y ∈ pre, Resolved t k s.currentLanguage y

/-- The invocation of the click on `k` in `s` has settled: the ownership is
none and every tracked element with a captured original has an entry for
(`k`, click language) and shows it. -/
def ActivationDone (s : State) (k : Kind) (t : State) : Prop :=
  ActivationCommon s k t ∧ t.pending = s.pending ∧ t.isProcessingFeature = false ∧
  t.activeApiCallDetails = none ∧
  ∀ e ∈ s.targetTextElements, ∀ html, s.originalElementHTML.get e = some html →
    ∃ c, t.cached k s.currentLanguage e = some c ∧ t.innerHTML e = c

/-- Whether `ev` is an event that does not start or resume any other
invocation than the one suspended at position `n`: an outcome delivered to that
invocation, a language switch, or a timer callback. -/
def ownOrSwitch (n : Nat) : Event → Bool
  | .response i _ => decide (i = n)
  | .selectLanguage _ => true
  | .timer _ => true
  | .click _ => false

/-- For every language other than `lang`, `t` has the stored feature state and
the cache entries of `s`. -/
def IsolatedFrom (lang : Lang) (s t : State) : Prop :=
  ∀ other, other ≠ lang →
    t.activeFeatures_perLang.get other = s.activeFeatures_perLang.get other ∧
    ∀ k e, t.cached k other e = s.cached k other e

/-- The state of `pageAB` after text-in-blocks was activated for `fr` (both
elements answered) and `en` was selected again. -/
def frenchBlocks : State :=
  run sampleTextContent (init pageAB)
    [.selectLanguage "fr", .click .textInBlocks,
     .response 0 (.http 200 (.json (.arr ["x"]))),
     .response 0 (.http 200 (.json (.arr ["y"]))),
     .selectLanguage "en"]

/-- The invocations suspended in `t` are those that were suspended in `s`,
followed at most by one invocation, whose click language is the language
displayed in `s`. -/
def OwnPending (s t : State) : Prop :=
  t.pending = s.pending ∨
  ∃ inv, t.pending = s.pending ++ [inv] ∧
    inv.frame.originalClickLanguage = s.currentLanguage

/-- Whether the activation loop, run from the element at the head of the list
up to its next `await fetch` or to the end of the list, executes the cache-only
fallback branch (the `else` of `if (thisOperationWouldNeedApi)`, which restores
the original and warns `Expected cache miss within a cache-only operation`).
The recursion follows `processElements` branch by branch. -/
def takesFallback (textContent : Markup → String) (f : Frame) : List Elem → State → Bool
  | [], _ => false
  | e :: rest, s =>
    match s.cached f.kind f.originalClickLanguage e with
    | some html => takesFallback textContent f rest (s.setInnerHTML e html)
    | none =>
      match s.originalElementHTML.get e with
      | none => takesFallback textContent f rest s
      | some baseHtmlForProcessing =>
        if jsTrim (textContent baseHtmlForProcessing) = "" then
          takesFallback textContent f rest (storeEmpty f e baseHtmlForProcessing s)
        else if f.thisOperationWouldNeedApi then false
        else true

/-- A run on `pageAB` in which every click lands on a button that is not
disabled. Text-in-blocks for `en` caches element 0 and fails on element 1; a
text-in-blocks request for `fr` is left waiting and keeps the ownership; back
on `en` text-in-blocks is switched on (its invocation waits for element 1
without the ownership) and off again; the `fr` request fails, which releases
the ownership; text-in-blocks is clicked for `en` once more and acquires the
ownership; the leftover request fails; the request of the last click succeeds. -/
def leftoverFailureRun : List Event :=
  [ .click .textInBlocks,
    .response 0 (.http 200 (.json (.arr ["a"]))),
    .response 0 (.http 500 .invalid),
    .selectLanguage "fr",
    .click .textInBlocks,
    .selectLanguage "en",
    .click .textInBlocks,
    .click .textInBlocks,
    .response 0 (.http 500 .invalid),
    .click .textInBlocks,
    .response 0 (.http 500 .invalid),
    .response 0 (.http 200 (.json (.arr ["b"]))) ]

/-! ## Lemmas on maps -/

namespace JSMap

variable {κ ν : Type} [DecidableEq κ]

theorem get_set_self (m : JSMap κ ν) (k : κ) (v : ν) : (m.set k v).get k = some v := by
  induction m with
  | nil => simp [JSMap.set, JSMap.get]
  | cons p t ih =>
    obtain ⟨k', v'⟩ := p
    by_cases h : k' = k
    · simp [JSMap.set, JSMap.get, h]
    · simp [JSMap.set, JSMap.get, h, ih]

theorem get_set_ne (m : JSMap κ ν) {k k' : κ} (v : ν) (h : k ≠ k') :
    (m.set k v).get k' = m.get k' := by
  induction m with
  | nil => simp [JSMap.set, JSMap.get, h]
  | cons p t ih =>
    obtain ⟨k₀, v₀⟩ := p
    by_cases h0 : k₀ = k
    · subst h0; simp [JSMap.set, JSMap.get, h]
    · by_cases h1 : k₀ = k'
      · subst h1; simp [JSMap.set, JSMap.get, h0]
      · simp [JSMap.set, JSMap.get, h0, h1, ih]

theorem get_set (m : JSMap κ ν) (k k' : κ) (v : ν) :
    (m.set k v).get k' = if k = k' then some v else m.get k' := by
  by_cases h : k = k'
  · subst h; simp [get_set_self]
  · simp [h, get_set_ne]

end JSMap

/-! ## Which fields each block leaves alone -/

theorem foldl_proj {α : Type} (f : State → Elem → State) (π : State → α)
    (h : ∀ s e, π (f s e) = π s) (l : List Elem) (s : State) : π (l.foldl f s) = π s := by
  induction l generalizing s with
  | nil => rfl
  | cons e t ih => simp only [List.foldl_cons]; rw [ih, h]

@[simp] theorem removePending_targetTextElements (s : State) (i : Nat) :
    (s.removePending i).targetTextElements = s.targetTextElements := by
  rfl

@[simp] theorem removePending_innerHTML (s : State) (i : Nat) :
    (s.removePending i).innerHTML = s.innerHTML := by
  rfl

@[simp] theorem removePending_originalElementHTML (s : State) (i : Nat) :
    (s.removePending i).originalElementHTML = s.originalElementHTML := by
  rfl

@[simp] theorem removePending_currentLanguage (s : State) (i : Nat) :
    (s.removePending i).currentLanguage = s.currentLanguage := by
  rfl

@[simp] theorem removePending_activeFeatures_perLang (s : State) (i : Nat) :
    (s.removePending i).activeFeatures_perLang = s.activeFeatures_perLang := by
  rfl

@[simp] theorem removePending_isProcessingFeature (s : State) (i : Nat) :
    (s.removePending i).isProcessingFeature = s.isProcessingFeature := by
  rfl

@[simp] theorem removePending_activeApiCallDetails (s : State) (i : Nat) :
    (s.removePending i).activeApiCallDetails = s.activeApiCallDetails := by
  rfl

@[simp] theorem removePending_isShortAnimationActive (s : State) (i : Nat) :
    (s.removePending i).isShortAnimationActive = s.isShortAnimationActive := by
  rfl

@[simp] theorem removePending_cachedChunkedHTML_perLang (s : State) (i : Nat) :
    (s.removePending i).cachedChunkedHTML_perLang = s.cachedChunkedHTML_perLang := by
  rfl

@[simp] theorem removePending_cachedSimplifiedText_perLang (s : State) (i : Nat) :
    (s.removePending i).cachedSimplifiedText_perLang = s.cachedSimplifiedText_perLang := by
  rfl

@[simp] theorem removePending_buttonTextInBlocks (s : State) (i : Nat) :
    (s.removePending i).buttonTextInBlocks = s.buttonTextInBlocks := by
  rfl

@[simp] theorem removePending_buttonSimplifiedText (s : State) (i : Nat) :
    (s.removePending i).buttonSimplifiedText = s.buttonSimplifiedText := by
  rfl

@[simp] theorem removePending_loadingOverlayElement (s : State) (i : Nat) :
    (s.removePending i).loadingOverlayElement = s.loadingOverlayElement := by
  rfl

@[simp] theorem removePending_uiComplete (s : State) (i : Nat) :
    (s.removePending i).uiComplete = s.uiComplete := by
  rfl

@[simp] theorem removePending_timers (s : State) (i : Nat) :
    (s.removePending i).timers = s.timers := by
  rfl

@[simp] theorem removePending_fetchLog (s : State) (i : Nat) :
    (s.removePending i).fetchLog = s.fetchLog := by
  rfl

@[simp] theorem removeTimer_targetTextElements (s : State) (i : Nat) :
    (s.removeTimer i).targetTextElements = s.targetTextElements := by
  rfl

@[simp] theorem removeTimer_innerHTML (s : State) (i : Nat) :
    (s.removeTimer i).innerHTML = s.innerHTML := by
  rfl

@[simp] theorem removeTimer_originalElementHTML (s : State) (i : Nat) :
    (s.removeTimer i).originalElementHTML = s.originalElementHTML := by
  rfl

@[simp] theorem removeTimer_currentLanguage (s : State) (i : Nat) :
    (s.removeTimer i).currentLanguage = s.currentLanguage := by
  rfl

@[simp] theorem removeTimer_activeFeatures_perLang (s : State) (i : Nat) :
    (s.removeTimer i).activeFeatures_perLang = s.activeFeatures_perLang := by
  rfl

@[simp] theorem removeTimer_isProcessingFeature (s : State) (i : Nat) :
    (s.removeTimer i).isProcessingFeature = s.isProcessingFeature := by
  rfl

@[simp] theorem removeTimer_activeApiCallDetails (s : State) (i : Nat) :
    (s.removeTimer i).activeApiCallDetails = s.activeApiCallDetails := by
  rfl

@[simp] theorem removeTimer_isShortAnimationActive (s : State) (i : Nat) :
    (s.removeTimer i).isShortAnimationActive = s.isShortAnimationActive := by
  rfl

@[simp] theorem removeTimer_cachedChunkedHTML_perLang (s : State) (i : Nat) :
    (s.removeTimer i).cachedChunkedHTML_perLang = s.cachedChunkedHTML_perLang := by
  rfl

@[simp] theorem removeTimer_cachedSimplifiedText_perLang (s : State) (i : Nat) :
    (s.removeTimer i).cachedSimplifiedText_perLang = s.cachedSimplifiedText_perLang := by
  rfl

@[simp] theorem removeTimer_buttonTextInBlocks (s : State) (i : Nat) :
    (s.removeTimer i).buttonTextInBlocks = s.buttonTextInBlocks := by
  rfl

@[simp] theorem removeTimer_buttonSimplifiedText (s : State) (i : Nat) :
    (s.removeTimer i).buttonSimplifiedText = s.buttonSimplifiedText := by
  rfl

@[simp] theorem removeTimer_loadingOverlayElement (s : State) (i : Nat) :
    (s.removeTimer i).loadingOverlayElement = s.loadingOverlayElement := by
  rfl

@[simp] theorem removeTimer_uiComplete (s : State) (i : Nat) :
    (s.removeTimer i).uiComplete = s.uiComplete := by
  rfl

@[simp] theorem removeTimer_pending (s : State) (i : Nat) :
    (s.removeTimer i).pending = s.pending := by
  rfl

@[simp] theorem removeTimer_fetchLog (s : State) (i : Nat) :
    (s.removeTimer i).fetchLog = s.fetchLog := by
  rfl

@[simp] theorem releaseOwnership_targetTextElements (s : State) :
    (releaseOwnership s).targetTextElements = s.targetTextElements := by
  rfl

@[simp] theorem releaseOwnership_innerHTML (s : State) :
    (releaseOwnership s).innerHTML = s.innerHTML := by
  rfl

@[simp] theorem releaseOwnership_originalElementHTML (s : State) :
    (releaseOwnership s).originalElementHTML = s.originalElementHTML := by
  rfl

@[simp] theorem releaseOwnership_currentLanguage (s : State) :
    (releaseOwnership s).currentLanguage = s.currentLanguage := by
  rfl

@[simp] theorem releaseOwnership_activeFeatures_perLang (s : State) :
    (releaseOwnership s).activeFeatures_perLang = s.activeFeatures_perLang := by
  rfl

@[simp] theorem releaseOwnership_isShortAnimationActive (s : State) :
    (releaseOwnership s).isShortAnimationActive = s.isShortAnimationActive := by
  rfl

@[simp] theorem releaseOwnership_cachedChunkedHTML_perLang (s : State) :
    (releaseOwnership s).cachedChunkedHTML_perLang = s.cachedChunkedHTML_perLang := by
  rfl

@[simp] theorem releaseOwnership_cachedSimplifiedText_perLang (s : State) :
    (releaseOwnership s).cachedSimplifiedText_perLang = s.cachedSimplifiedText_perLang := by
  rfl

@[simp] theorem releaseOwnership_buttonTextInBlocks (s : State) :
    (releaseOwnership s).buttonTextInBlocks = s.buttonTextInBlocks := by
  rfl

@[simp] theorem releaseOwnership_buttonSimplifiedText (s : State) :
    (releaseOwnership s).buttonSimplifiedText = s.buttonSimplifiedText := by
  rfl

@[simp] theorem releaseOwnership_loadingOverlayElement (s : State) :
    (releaseOwnership s).loadingOverlayElement = s.loadingOverlayElement := by
  rfl

@[simp] theorem releaseOwnership_uiComplete (s : State) :
    (releaseOwnership s).uiComplete = s.uiComplete := by
  rfl

@[simp] theorem releaseOwnership_pending (s : State) :
    (releaseOwnership s).pending = s.pending := by
  rfl

@[simp] theorem releaseOwnership_timers (s : State) :
    (releaseOwnership s).timers = s.timers := by
  rfl

@[simp] theorem releaseOwnership_fetchLog (s : State) :
    (releaseOwnership s).fetchLog = s.fetchLog := by
  rfl

@[simp] theorem releaseOwnership_isProcessingFeature (s : State) :
    (releaseOwnership s).isProcessingFeature = false := by
  rfl

@[simp] theorem releaseOwnership_activeApiCallDetails (s : State) :
    (releaseOwnership s).activeApiCallDetails = none := by
  rfl

@[simp] theorem setInnerHTML_targetTextElements (s : State) (e : Elem) (html : Markup) :
    (s.setInnerHTML e html).targetTextElements = s.targetTextElements := by
  rfl

@[simp] theorem setInnerHTML_originalElementHTML (s : State) (e : Elem) (html : Markup) :
    (s.setInnerHTML e html).originalElementHTML = s.originalElementHTML := by
  rfl

@[simp] theorem setInnerHTML_currentLanguage (s : State) (e : Elem) (html : Markup) :
    (s.setInnerHTML e html).currentLanguage = s.currentLanguage := by
  rfl

@[simp] theorem setInnerHTML_activeFeatures_perLang (s : State) (e : Elem) (html : Markup) :
    (s.setInnerHTML e html).activeFeatures_perLang = s.activeFeatures_perLang := by
  rfl

@[simp] theorem setInnerHTML_isProcessingFeature (s : State) (e : Elem) (html : Markup) :
    (s.setInnerHTML e html).isProcessingFeature = s.isProcessingFeature := by
  rfl

@[simp] theorem setInnerHTML_activeApiCallDetails (s : State) (e : Elem) (html : Markup) :
    (s.setInnerHTML e html).activeApiCallDetails = s.activeApiCallDetails := by
  rfl

@[simp] theorem setInnerHTML_isShortAnimationActive (s : State) (e : Elem) (html : Markup) :
    (s.setInnerHTML e html).isShortAnimationActive = s.isShortAnimationActive := by
  rfl

@[simp] theorem setInnerHTML_cachedChunkedHTML_perLang (s : State) (e : Elem) (html : Markup) :
    (s.setInnerHTML e html).cachedChunkedHTML_perLang = s.cachedChunkedHTML_perLang := by
  rfl

@[simp] theorem setInnerHTML_cachedSimplifiedText_perLang (s : State) (e : Elem) (html : Markup) :
    (s.setInnerHTML e html).cachedSimplifiedText_perLang = s.cachedSimplifiedText_perLang := by
  rfl

@[simp] theorem setInnerHTML_buttonTextInBlocks (s : State) (e : Elem) (html : Markup) :
    (s.setInnerHTML e html).buttonTextInBlocks = s.buttonTextInBlocks := by
  rfl

@[simp] theorem setInnerHTML_buttonSimplifiedText (s : State) (e : Elem) (html : Markup) :
    (s.setInnerHTML e html).buttonSimplifiedText = s.buttonSimplifiedText := by
  rfl

@[simp] theorem setInnerHTML_loadingOverlayElement (s : State) (e : Elem) (html : Markup) :
    (s.setInnerHTML e html).loadingOverlayElement = s.loadingOverlayElement := by
  rfl

@[simp] theorem setInnerHTML_uiComplete (s : State) (e : Elem) (html : Markup) :
    (s.setInnerHTML e html).uiComplete = s.uiComplete := by
  rfl

@[simp] theorem setInnerHTML_pending (s : State) (e : Elem) (html : Markup) :
    (s.setInnerHTML e html).pending = s.pending := by
  rfl

@[simp] theorem setInnerHTML_timers (s : State) (e : Elem) (html : Markup) :
    (s.setInnerHTML e html).timers = s.timers := by
  rfl

@[simp] theorem setInnerHTML_fetchLog (s : State) (e : Elem) (html : Markup) :
    (s.setInnerHTML e html).fetchLog = s.fetchLog := by
  rfl

@[simp] theorem setCache_targetTextElements (s : State) (k : Kind) (c : JSMap Lang (JSMap Elem Markup)) :
    (s.setCache k c).targetTextElements = s.targetTextElements := by
  cases k <;> rfl

@[simp] theorem setCache_innerHTML (s : State) (k : Kind) (c : JSMap Lang (JSMap Elem Markup)) :
    (s.setCache k c).innerHTML = s.innerHTML := by
  cases k <;> rfl

@[simp] theorem setCache_originalElementHTML (s : State) (k : Kind) (c : JSMap Lang (JSMap Elem Markup)) :
    (s.setCache k c).originalElementHTML = s.originalElementHTML := by
  cases k <;> rfl

@[simp] theorem setCache_currentLanguage (s : State) (k : Kind) (c : JSMap Lang (JSMap Elem Markup)) :
    (s.setCache k c).currentLanguage = s.currentLanguage := by
  cases k <;> rfl

@[simp] theorem setCache_activeFeatures_perLang (s : State) (k : Kind) (c : JSMap Lang (JSMap Elem Markup)) :
    (s.setCache k c).activeFeatures_perLang = s.activeFeatures_perLang := by
  cases k <;> rfl

@[simp] theorem setCache_isProcessingFeature (s : State) (k : Kind) (c : JSMap Lang (JSMap Elem Markup)) :
    (s.setCache k c).isProcessingFeature = s.isProcessingFeature := by
  cases k <;> rfl

@[simp] theorem setCache_activeApiCallDetails (s : State) (k : Kind) (c : JSMap Lang (JSMap Elem Markup)) :
    (s.setCache k c).activeApiCallDetails = s.activeApiCallDetails := by
  cases k <;> rfl

@[simp] theorem setCache_isShortAnimationActive (s : State) (k : Kind) (c : JSMap Lang (JSMap Elem Markup)) :
    (s.setCache k c).isShortAnimationActive = s.isShortAnimationActive := by
  cases k <;> rfl

@[simp] theorem setCache_buttonTextInBlocks (s : State) (k : Kind) (c : JSMap Lang (JSMap Elem Markup)) :
    (s.setCache k c).buttonTextInBlocks = s.buttonTextInBlocks := by
  cases k <;> rfl

@[simp] theorem setCache_buttonSimplifiedText (s : State) (k : Kind) (c : JSMap Lang (JSMap Elem Markup)) :
    (s.setCache k c).buttonSimplifiedText = s.buttonSimplifiedText := by
  cases k <;> rfl

@[simp] theorem setCache_loadingOverlayElement (s : State) (k : Kind) (c : JSMap Lang (JSMap Elem Markup)) :
    (s.setCache k c).loadingOverlayElement = s.loadingOverlayElement := by
  cases k <;> rfl

@[simp] theorem setCache_uiComplete (s : State) (k : Kind) (c : JSMap Lang (JSMap Elem Markup)) :
    (s.setCache k c).uiComplete = s.uiComplete := by
  cases k <;> rfl

@[simp] theorem setCache_pending (s : State) (k : Kind) (c : JSMap Lang (JSMap Elem Markup)) :
    (s.setCache k c).pending = s.pending := by
  cases k <;> rfl

@[simp] theorem setCache_timers (s : State) (k : Kind) (c : JSMap Lang (JSMap Elem Markup)) :
    (s.setCache k c).timers = s.timers := by
  cases k <;> rfl

@[simp] theorem setCache_fetchLog (s : State) (k : Kind) (c : JSMap Lang (JSMap Elem Markup)) :
    (s.setCache k c).fetchLog = s.fetchLog := by
  cases k <;> rfl

@[simp] theorem cachePut_targetTextElements (s : State) (k : Kind) (lang : Lang) (e : Elem) (html : Markup) :
    (s.cachePut k lang e html).targetTextElements = s.targetTextElements := by
  unfold State.cachePut; cases k <;> rfl

@[simp] theorem cachePut_innerHTML (s : State) (k : Kind) (lang : Lang) (e : Elem) (html : Markup) :
    (s.cachePut k lang e html).innerHTML = s.innerHTML := by
  unfold State.cachePut; cases k <;> rfl

@[simp] theorem cachePut_originalElementHTML (s : State) (k : Kind) (lang : Lang) (e : Elem) (html : Markup) :
    (s.cachePut k lang e html).originalElementHTML = s.originalElementHTML := by
  unfold State.cachePut; cases k <;> rfl

@[simp] theorem cachePut_currentLanguage (s : State) (k : Kind) (lang : Lang) (e : Elem) (html : Markup) :
    (s.cachePut k lang e html).currentLanguage = s.currentLanguage := by
  unfold State.cachePut; cases k <;> rfl

@[simp] theorem cachePut_activeFeatures_perLang (s : State) (k : Kind) (lang : Lang) (e : Elem) (html : Markup) :
    (s.cachePut k lang e html).activeFeatures_perLang = s.activeFeatures_perLang := by
  unfold State.cachePut; cases k <;> rfl

@[simp] theorem cachePut_isProcessingFeature (s : State) (k : Kind) (lang : Lang) (e : Elem) (html : Markup) :
    (s.cachePut k lang e html).isProcessingFeature = s.isProcessingFeature := by
  unfold State.cachePut; cases k <;> rfl

@[simp] theorem cachePut_activeApiCallDetails (s : State) (k : Kind) (lang : Lang) (e : Elem) (html : Markup) :
    (s.cachePut k lang e html).activeApiCallDetails = s.activeApiCallDetails := by
  unfold State.cachePut; cases k <;> rfl

@[simp] theorem cachePut_isShortAnimationActive (s : State) (k : Kind) (lang : Lang) (e : Elem) (html : Markup) :
    (s.cachePut k lang e html).isShortAnimationActive = s.isShortAnimationActive := by
  unfold State.cachePut; cases k <;> rfl

@[simp] theorem cachePut_buttonTextInBlocks (s : State) (k : Kind) (lang : Lang) (e : Elem) (html : Markup) :
    (s.cachePut k lang e html).buttonTextInBlocks = s.buttonTextInBlocks := by
  unfold State.cachePut; cases k <;> rfl

@[simp] theorem cachePut_buttonSimplifiedText (s : State) (k : Kind) (lang : Lang) (e : Elem) (html : Markup) :
    (s.cachePut k lang e html).buttonSimplifiedText = s.buttonSimplifiedText := by
  unfold State.cachePut; cases k <;> rfl

@[simp] theorem cachePut_loadingOverlayElement (s : State) (k : Kind) (lang : Lang) (e : Elem) (html : Markup) :
    (s.cachePut k lang e html).loadingOverlayElement = s.loadingOverlayElement := by
  unfold State.cachePut; cases k <;> rfl

@[simp] theorem cachePut_uiComplete (s : State) (k : Kind) (lang : Lang) (e : Elem) (html : Markup) :
    (s.cachePut k lang e html).uiComplete = s.uiComplete := by
  unfold State.cachePut; cases k <;> rfl

@[simp] theorem cachePut_pending (s : State) (k : Kind) (lang : Lang) (e : Elem) (html : Markup) :
    (s.cachePut k lang e html).pending = s.pending := by
  unfold State.cachePut; cases k <;> rfl

@[simp] theorem cachePut_timers (s : State) (k : Kind) (lang : Lang) (e : Elem) (html : Markup) :
    (s.cachePut k lang e html).timers = s.timers := by
  unfold State.cachePut; cases k <;> rfl

@[simp] theorem cachePut_fetchLog (s : State) (k : Kind) (lang : Lang) (e : Elem) (html : Markup) :
    (s.cachePut k lang e html).fetchLog = s.fetchLog := by
  unfold State.cachePut; cases k <;> rfl

@[simp] theorem setButton_targetTextElements (s : State) (k : Kind) (b : Button) :
    (s.setButton k b).targetTextElements = s.targetTextElements := by
  cases k <;> rfl

@[simp] theorem setButton_innerHTML (s : State) (k : Kind) (b : Button) :
    (s.setButton k b).innerHTML = s.innerHTML := by
  cases k <;> rfl

@[simp] theorem setButton_originalElementHTML (s : State) (k : Kind) (b : Button) :
    (s.setButton k b).originalElementHTML = s.originalElementHTML := by
  cases k <;> rfl

@[simp] theorem setButton_currentLanguage (s : State) (k : Kind) (b : Button) :
    (s.setButton k b).currentLanguage = s.currentLanguage := by
  cases k <;> rfl

@[simp] theorem setButton_activeFeatures_perLang (s : State) (k : Kind) (b : Button) :
    (s.setButton k b).activeFeatures_perLang = s.activeFeatures_perLang := by
  cases k <;> rfl

@[simp] theorem setButton_isProcessingFeature (s : State) (k : Kind) (b : Button) :
    (s.setButton k b).isProcessingFeature = s.isProcessingFeature := by
  cases k <;> rfl

@[simp] theorem setButton_activeApiCallDetails (s : State) (k : Kind) (b : Button) :
    (s.setButton k b).activeApiCallDetails = s.activeApiCallDetails := by
  cases k <;> rfl

@[simp] theorem setButton_isShortAnimationActive (s : State) (k : Kind) (b : Button) :
    (s.setButton k b).isShortAnimationActive = s.isShortAnimationActive := by
  cases k <;> rfl

@[simp] theorem setButton_cachedChunkedHTML_perLang (s : State) (k : Kind) (b : Button) :
    (s.setButton k b).cachedChunkedHTML_perLang = s.cachedChunkedHTML_perLang := by
  cases k <;> rfl

@[simp] theorem setButton_cachedSimplifiedText_perLang (s : State) (k : Kind) (b : Button) :
    (s.setButton k b).cachedSimplifiedText_perLang = s.cachedSimplifiedText_perLang := by
  cases k <;> rfl

@[simp] theorem setButton_loadingOverlayElement (s : State) (k : Kind) (b : Button) :
    (s.setButton k b).loadingOverlayElement = s.loadingOverlayElement := by
  cases k <;> rfl

@[simp] theorem setButton_uiComplete (s : State) (k : Kind) (b : Button) :
    (s.setButton k b).uiComplete = s.uiComplete := by
  cases k <;> rfl

@[simp] theorem setButton_pending (s : State) (k : Kind) (b : Button) :
    (s.setButton k b).pending = s.pending := by
  cases k <;> rfl

@[simp] theorem setButton_timers (s : State) (k : Kind) (b : Button) :
    (s.setButton k b).timers = s.timers := by
  cases k <;> rfl

@[simp] theorem setButton_fetchLog (s : State) (k : Kind) (b : Button) :
    (s.setButton k b).fetchLog = s.fetchLog := by
  cases k <;> rfl

@[simp] theorem showLoadingAnimation_targetTextElements (s : State) :
    (showLoadingAnimation s).targetTextElements = s.targetTextElements := by
  rfl

@[simp] theorem showLoadingAnimation_innerHTML (s : State) :
    (showLoadingAnimation s).innerHTML = s.innerHTML := by
  rfl

@[simp] theorem showLoadingAnimation_originalElementHTML (s : State) :
    (showLoadingAnimation s).originalElementHTML = s.originalElementHTML := by
  rfl

@[simp] theorem showLoadingAnimation_currentLanguage (s : State) :
    (showLoadingAnimation s).currentLanguage = s.currentLanguage := by
  rfl

@[simp] theorem showLoadingAnimation_activeFeatures_perLang (s : State) :
    (showLoadingAnimation s).activeFeatures_perLang = s.activeFeatures_perLang := by
  rfl

@[simp] theorem showLoadingAnimation_isProcessingFeature (s : State) :
    (showLoadingAnimation s).isProcessingFeature = s.isProcessingFeature := by
  rfl

@[simp] theorem showLoadingAnimation_activeApiCallDetails (s : State) :
    (showLoadingAnimation s).activeApiCallDetails = s.activeApiCallDetails := by
  rfl

@[simp] theorem showLoadingAnimation_isShortAnimationActive (s : State) :
    (showLoadingAnimation s).isShortAnimationActive = s.isShortAnimationActive := by
  rfl

@[simp] theorem showLoadingAnimation_cachedChunkedHTML_perLang (s : State) :
    (showLoadingAnimation s).cachedChunkedHTML_perLang = s.cachedChunkedHTML_perLang := by
  rfl

@[simp] theorem showLoadingAnimation_cachedSimplifiedText_perLang (s : State) :
    (showLoadingAnimation s).cachedSimplifiedText_perLang = s.cachedSimplifiedText_perLang := by
  rfl

@[simp] theorem showLoadingAnimation_buttonTextInBlocks (s : State) :
    (showLoadingAnimation s).buttonTextInBlocks = s.buttonTextInBlocks := by
  rfl

@[simp] theorem showLoadingAnimation_buttonSimplifiedText (s : State) :
    (showLoadingAnimation s).buttonSimplifiedText = s.buttonSimplifiedText := by
  rfl

@[simp] theorem showLoadingAnimation_uiComplete (s : State) :
    (showLoadingAnimation s).uiComplete = s.uiComplete := by
  rfl

@[simp] theorem showLoadingAnimation_pending (s : State) :
    (showLoadingAnimation s).pending = s.pending := by
  rfl

@[simp] theorem showLoadingAnimation_timers (s : State) :
    (showLoadingAnimation s).timers = s.timers := by
  rfl

@[simp] theorem showLoadingAnimation_fetchLog (s : State) :
    (showLoadingAnimation s).fetchLog = s.fetchLog := by
  rfl

@[simp] theorem hideLoadingAnimation_targetTextElements (s : State) :
    (hideLoadingAnimation s).targetTextElements = s.targetTextElements := by
  rfl

@[simp] theorem hideLoadingAnimation_innerHTML (s : State) :
    (hideLoadingAnimation s).innerHTML = s.innerHTML := by
  rfl

@[simp] theorem hideLoadingAnimation_originalElementHTML (s : State) :
    (hideLoadingAnimation s).originalElementHTML = s.originalElementHTML := by
  rfl

@[simp] theorem hideLoadingAnimation_currentLanguage (s : State) :
    (hideLoadingAnimation s).currentLanguage = s.currentLanguage := by
  rfl

@[simp] theorem hideLoadingAnimation_activeFeatures_perLang (s : State) :
    (hideLoadingAnimation s).activeFeatures_perLang = s.activeFeatures_perLang := by
  rfl

@[simp] theorem hideLoadingAnimation_isProcessingFeature (s : State) :
    (hideLoadingAnimation s).isProcessingFeature = s.isProcessingFeature := by
  rfl

@[simp] theorem hideLoadingAnimation_activeApiCallDetails (s : State) :
    (hideLoadingAnimation s).activeApiCallDetails = s.activeApiCallDetails := by
  rfl

@[simp] theorem hideLoadingAnimation_isShortAnimationActive (s : State) :
    (hideLoadingAnimation s).isShortAnimationActive = s.isShortAnimationActive := by
  rfl

@[simp] theorem hideLoadingAnimation_cachedChunkedHTML_perLang (s : State) :
    (hideLoadingAnimation s).cachedChunkedHTML_perLang = s.cachedChunkedHTML_perLang := by
  rfl

@[simp] theorem hideLoadingAnimation_cachedSimplifiedText_perLang (s : State) :
    (hideLoadingAnimation s).cachedSimplifiedText_perLang = s.cachedSimplifiedText_perLang := by
  rfl

@[simp] theorem hideLoadingAnimation_buttonTextInBlocks (s : State) :
    (hideLoadingAnimation s).buttonTextInBlocks = s.buttonTextInBlocks := by
  rfl

@[simp] theorem hideLoadingAnimation_buttonSimplifiedText (s : State) :
    (hideLoadingAnimation s).buttonSimplifiedText = s.buttonSimplifiedText := by
  rfl

@[simp] theorem hideLoadingAnimation_uiComplete (s : State) :
    (hideLoadingAnimation s).uiComplete = s.uiComplete := by
  rfl

@[simp] theorem hideLoadingAnimation_pending (s : State) :
    (hideLoadingAnimation s).pending = s.pending := by
  rfl

@[simp] theorem hideLoadingAnimation_timers (s : State) :
    (hideLoadingAnimation s).timers = s.timers := by
  rfl

@[simp] theorem hideLoadingAnimation_fetchLog (s : State) :
    (hideLoadingAnimation s).fetchLog = s.fetchLog := by
  rfl

@[simp] theorem refreshElement_targetTextElements (lang : Lang) (s : State) (e : Elem) :
    (refreshElement lang s e).targetTextElements = s.targetTextElements := by
  unfold refreshElement; repeat' split
  all_goals rfl

@[simp] theorem refreshElement_originalElementHTML (lang : Lang) (s : State) (e : Elem) :
    (refreshElement lang s e).originalElementHTML = s.originalElementHTML := by
  unfold refreshElement; repeat' split
  all_goals rfl

@[simp] theorem refreshElement_currentLanguage (lang : Lang) (s : State) (e : Elem) :
    (refreshElement lang s e).currentLanguage = s.currentLanguage := by
  unfold refreshElement; repeat' split
  all_goals rfl

@[simp] theorem refreshElement_activeFeatures_perLang (lang : Lang) (s : State) (e : Elem) :
    (refreshElement lang s e).activeFeatures_perLang = s.activeFeatures_perLang := by
  unfold refreshElement; repeat' split
  all_goals rfl

@[simp] theorem refreshElement_isProcessingFeature (lang : Lang) (s : State) (e : Elem) :
    (refreshElement lang s e).isProcessingFeature = s.isProcessingFeature := by
  unfold refreshElement; repeat' split
  all_goals rfl

@[simp] theorem refreshElement_activeApiCallDetails (lang : Lang) (s : State) (e : Elem) :
    (refreshElement lang s e).activeApiCallDetails = s.activeApiCallDetails := by
  unfold refreshElement; repeat' split
  all_goals rfl

@[simp] theorem refreshElement_isShortAnimationActive (lang : Lang) (s : State) (e : Elem) :
    (refreshElement lang s e).isShortAnimationActive = s.isShortAnimationActive := by
  unfold refreshElement; repeat' split
  all_goals rfl

@[simp] theorem refreshElement_cachedChunkedHTML_perLang (lang : Lang) (s : State) (e : Elem) :
    (refreshElement lang s e).cachedChunkedHTML_perLang = s.cachedChunkedHTML_perLang := by
  unfold refreshElement; repeat' split
  all_goals rfl

@[simp] theorem refreshElement_cachedSimplifiedText_perLang (lang : Lang) (s : State) (e : Elem) :
    (refreshElement lang s e).cachedSimplifiedText_perLang = s.cachedSimplifiedText_perLang := by
  unfold refreshElement; repeat' split
  all_goals rfl

@[simp] theorem refreshElement_buttonTextInBlocks (lang : Lang) (s : State) (e : Elem) :
    (refreshElement lang s e).buttonTextInBlocks = s.buttonTextInBlocks := by
  unfold refreshElement; repeat' split
  all_goals rfl

@[simp] theorem refreshElement_buttonSimplifiedText (lang : Lang) (s : State) (e : Elem) :
    (refreshElement lang s e).buttonSimplifiedText = s.buttonSimplifiedText := by
  unfold refreshElement; repeat' split
  all_goals rfl

@[simp] theorem refreshElement_loadingOverlayElement (lang : Lang) (s : State) (e : Elem) :
    (refreshElement lang s e).loadingOverlayElement = s.loadingOverlayElement := by
  unfold refreshElement; repeat' split
  all_goals rfl

@[simp] theorem refreshElement_uiComplete (lang : Lang) (s : State) (e : Elem) :
    (refreshElement lang s e).uiComplete = s.uiComplete := by
  unfold refreshElement; repeat' split
  all_goals rfl

@[simp] theorem refreshElement_pending (lang : Lang) (s : State) (e : Elem) :
    (refreshElement lang s e).pending = s.pending := by
  unfold refreshElement; repeat' split
  all_goals rfl

@[simp] theorem refreshElement_timers (lang : Lang) (s : State) (e : Elem) :
    (refreshElement lang s e).timers = s.timers := by
  unfold refreshElement; repeat' split
  all_goals rfl

@[simp] theorem refreshElement_fetchLog (lang : Lang) (s : State) (e : Elem) :
    (refreshElement lang s e).fetchLog = s.fetchLog := by
  unfold refreshElement; repeat' split
  all_goals rfl

@[simp] theorem refreshContentElements_targetTextElements (lang : Lang) (s : State) :
    (refreshContentElements lang s).targetTextElements = s.targetTextElements := by
  exact foldl_proj _ (fun s => s.targetTextElements) (refreshElement_targetTextElements lang) _ s

@[simp] theorem refreshContentElements_originalElementHTML (lang : Lang) (s : State) :
    (refreshContentElements lang s).originalElementHTML = s.originalElementHTML := by
  exact foldl_proj _ (fun s => s.originalElementHTML) (refreshElement_originalElementHTML lang) _ s

@[simp] theorem refreshContentElements_currentLanguage (lang : Lang) (s : State) :
    (refreshContentElements lang s).currentLanguage = s.currentLanguage := by
  exact foldl_proj _ (fun s => s.currentLanguage) (refreshElement_currentLanguage lang) _ s

@[simp] theorem refreshContentElements_activeFeatures_perLang (lang : Lang) (s : State) :
    (refreshContentElements lang s).activeFeatures_perLang = s.activeFeatures_perLang := by
  exact foldl_proj _ (fun s => s.activeFeatures_perLang) (refreshElement_activeFeatures_perLang lang) _ s

@[simp] theorem refreshContentElements_isProcessingFeature (lang : Lang) (s : State) :
    (refreshContentElements lang s).isProcessingFeature = s.isProcessingFeature := by
  exact foldl_proj _ (fun s => s.isProcessingFeature) (refreshElement_isProcessingFeature lang) _ s

@[simp] theorem refreshContentElements_activeApiCallDetails (lang : Lang) (s : State) :
    (refreshContentElements lang s).activeApiCallDetails = s.activeApiCallDetails := by
  exact foldl_proj _ (fun s => s.activeApiCallDetails) (refreshElement_activeApiCallDetails lang) _ s

@[simp] theorem refreshContentElements_isShortAnimationActive (lang : Lang) (s : State) :
    (refreshContentElements lang s).isShortAnimationActive = s.isShortAnimationActive := by
  exact foldl_proj _ (fun s => s.isShortAnimationActive) (refreshElement_isShortAnimationActive lang) _ s

@[simp] theorem refreshContentElements_cachedChunkedHTML_perLang (lang : Lang) (s : State) :
    (refreshContentElements lang s).cachedChunkedHTML_perLang = s.cachedChunkedHTML_perLang := by
  exact foldl_proj _ (fun s => s.cachedChunkedHTML_perLang) (refreshElement_cachedChunkedHTML_perLang lang) _ s

@[simp] theorem refreshContentElements_cachedSimplifiedText_perLang (lang : Lang) (s : State) :
    (refreshContentElements lang s).cachedSimplifiedText_perLang = s.cachedSimplifiedText_perLang := by
  exact foldl_proj _ (fun s => s.cachedSimplifiedText_perLang) (refreshElement_cachedSimplifiedText_perLang lang) _ s

@[simp] theorem refreshContentElements_buttonTextInBlocks (lang : Lang) (s : State) :
    (refreshContentElements lang s).buttonTextInBlocks = s.buttonTextInBlocks := by
  exact foldl_proj _ (fun s => s.buttonTextInBlocks) (refreshElement_buttonTextInBlocks lang) _ s

@[simp] theorem refreshContentElements_buttonSimplifiedText (lang : Lang) (s : State) :
    (refreshContentElements lang s).buttonSimplifiedText = s.buttonSimplifiedText := by
  exact foldl_proj _ (fun s => s.buttonSimplifiedText) (refreshElement_buttonSimplifiedText lang) _ s

@[simp] theorem refreshContentElements_loadingOverlayElement (lang : Lang) (s : State) :
    (refreshContentElements lang s).loadingOverlayElement = s.loadingOverlayElement := by
  exact foldl_proj _ (fun s => s.loadingOverlayElement) (refreshElement_loadingOverlayElement lang) _ s

@[simp] theorem refreshContentElements_uiComplete (lang : Lang) (s : State) :
    (refreshContentElements lang s).uiComplete = s.uiComplete := by
  exact foldl_proj _ (fun s => s.uiComplete) (refreshElement_uiComplete lang) _ s

@[simp] theorem refreshContentElements_pending (lang : Lang) (s : State) :
    (refreshContentElements lang s).pending = s.pending := by
  exact foldl_proj _ (fun s => s.pending) (refreshElement_pending lang) _ s

@[simp] theorem refreshContentElements_timers (lang : Lang) (s : State) :
    (refreshContentElements lang s).timers = s.timers := by
  exact foldl_proj _ (fun s => s.timers) (refreshElement_timers lang) _ s

@[simp] theorem refreshContentElements_fetchLog (lang : Lang) (s : State) :
    (refreshContentElements lang s).fetchLog = s.fetchLog := by
  exact foldl_proj _ (fun s => s.fetchLog) (refreshElement_fetchLog lang) _ s

@[simp] theorem updateFeatureButtonStates_targetTextElements (lang : Lang) (s : State) :
    (updateFeatureButtonStates lang s).targetTextElements = s.targetTextElements := by
  unfold updateFeatureButtonStates showLoadingAnimation hideLoadingAnimation
  dsimp only
  repeat' split
  all_goals rfl

@[simp] theorem updateFeatureButtonStates_innerHTML (lang : Lang) (s : State) :
    (updateFeatureButtonStates lang s).innerHTML = s.innerHTML := by
  unfold updateFeatureButtonStates showLoadingAnimation hideLoadingAnimation
  dsimp only
  repeat' split
  all_goals rfl

@[simp] theorem updateFeatureButtonStates_originalElementHTML (lang : Lang) (s : State) :
    (updateFeatureButtonStates lang s).originalElementHTML = s.originalElementHTML := by
  unfold updateFeatureButtonStates showLoadingAnimation hideLoadingAnimation
  dsimp only
  repeat' split
  all_goals rfl

@[simp] theorem updateFeatureButtonStates_currentLanguage (lang : Lang) (s : State) :
    (updateFeatureButtonStates lang s).currentLanguage = s.currentLanguage := by
  unfold updateFeatureButtonStates showLoadingAnimation hideLoadingAnimation
  dsimp only
  repeat' split
  all_goals rfl

@[simp] theorem updateFeatureButtonStates_activeFeatures_perLang (lang : Lang) (s : State) :
    (updateFeatureButtonStates lang s).activeFeatures_perLang = s.activeFeatures_perLang := by
  unfold updateFeatureButtonStates showLoadingAnimation hideLoadingAnimation
  dsimp only
  repeat' split
  all_goals rfl

@[simp] theorem updateFeatureButtonStates_isProcessingFeature (lang : Lang) (s : State) :
    (updateFeatureButtonStates lang s).isProcessingFeature = s.isProcessingFeature := by
  unfold updateFeatureButtonStates showLoadingAnimation hideLoadingAnimation
  dsimp only
  repeat' split
  all_goals rfl

@[simp] theorem updateFeatureButtonStates_activeApiCallDetails (lang : Lang) (s : State) :
    (updateFeatureButtonStates lang s).activeApiCallDetails = s.activeApiCallDetails := by
  unfold updateFeatureButtonStates showLoadingAnimation hideLoadingAnimation
  dsimp only
  repeat' split
  all_goals rfl

@[simp] theorem updateFeatureButtonStates_isShortAnimationActive (lang : Lang) (s : State) :
    (updateFeatureButtonStates lang s).isShortAnimationActive = s.isShortAnimationActive := by
  unfold updateFeatureButtonStates showLoadingAnimation hideLoadingAnimation
  dsimp only
  repeat' split
  all_goals rfl

@[simp] theorem updateFeatureButtonStates_cachedChunkedHTML_perLang (lang : Lang) (s : State) :
    (updateFeatureButtonStates lang s).cachedChunkedHTML_perLang = s.cachedChunkedHTML_perLang := by
  unfold updateFeatureButtonStates showLoadingAnimation hideLoadingAnimation
  dsimp only
  repeat' split
  all_goals rfl

@[simp] theorem updateFeatureButtonStates_cachedSimplifiedText_perLang (lang : Lang) (s : State) :
    (updateFeatureButtonStates lang s).cachedSimplifiedText_perLang = s.cachedSimplifiedText_perLang := by
  unfold updateFeatureButtonStates showLoadingAnimation hideLoadingAnimation
  dsimp only
  repeat' split
  all_goals rfl

@[simp] theorem updateFeatureButtonStates_uiComplete (lang : Lang) (s : State) :
    (updateFeatureButtonStates lang s).uiComplete = s.uiComplete := by
  unfold updateFeatureButtonStates showLoadingAnimation hideLoadingAnimation
  dsimp only
  repeat' split
  all_goals rfl

@[simp] theorem updateFeatureButtonStates_pending (lang : Lang) (s : State) :
    (updateFeatureButtonStates lang s).pending = s.pending := by
  unfold updateFeatureButtonStates showLoadingAnimation hideLoadingAnimation
  dsimp only
  repeat' split
  all_goals rfl

@[simp] theorem updateFeatureButtonStates_timers (lang : Lang) (s : State) :
    (updateFeatureButtonStates lang s).timers = s.timers := by
  unfold updateFeatureButtonStates showLoadingAnimation hideLoadingAnimation
  dsimp only
  repeat' split
  all_goals rfl

@[simp] theorem updateFeatureButtonStates_fetchLog (lang : Lang) (s : State) :
    (updateFeatureButtonStates lang s).fetchLog = s.fetchLog := by
  unfold updateFeatureButtonStates showLoadingAnimation hideLoadingAnimation
  dsimp only
  repeat' split
  all_goals rfl

@[simp] theorem updateUIText_targetTextElements (lang : Lang) (s : State) :
    (updateUIText lang s).targetTextElements = s.targetTextElements := by
  unfold updateUIText; split <;> simp

@[simp] theorem updateUIText_originalElementHTML (lang : Lang) (s : State) :
    (updateUIText lang s).originalElementHTML = s.originalElementHTML := by
  unfold updateUIText; split <;> simp

@[simp] theorem updateUIText_currentLanguage (lang : Lang) (s : State) :
    (updateUIText lang s).currentLanguage = s.currentLanguage := by
  unfold updateUIText; split <;> simp

@[simp] theorem updateUIText_activeFeatures_perLang (lang : Lang) (s : State) :
    (updateUIText lang s).activeFeatures_perLang = s.activeFeatures_perLang := by
  unfold updateUIText; split <;> simp

@[simp] theorem updateUIText_isProcessingFeature (lang : Lang) (s : State) :
    (updateUIText lang s).isProcessingFeature = s.isProcessingFeature := by
  unfold updateUIText; split <;> simp

@[simp] theorem updateUIText_activeApiCallDetails (lang : Lang) (s : State) :
    (updateUIText lang s).activeApiCallDetails = s.activeApiCallDetails := by
  unfold updateUIText; split <;> simp

@[simp] theorem updateUIText_isShortAnimationActive (lang : Lang) (s : State) :
    (updateUIText lang s).isShortAnimationActive = s.isShortAnimationActive := by
  unfold updateUIText; split <;> simp

@[simp] theorem updateUIText_cachedChunkedHTML_perLang (lang : Lang) (s : State) :
    (updateUIText lang s).cachedChunkedHTML_perLang = s.cachedChunkedHTML_perLang := by
  unfold updateUIText; split <;> simp

@[simp] theorem updateUIText_cachedSimplifiedText_perLang (lang : Lang) (s : State) :
    (updateUIText lang s).cachedSimplifiedText_perLang = s.cachedSimplifiedText_perLang := by
  unfold updateUIText; split <;> simp

@[simp] theorem updateUIText_uiComplete (lang : Lang) (s : State) :
    (updateUIText lang s).uiComplete = s.uiComplete := by
  unfold updateUIText; split <;> simp

@[simp] theorem updateUIText_pending (lang : Lang) (s : State) :
    (updateUIText lang s).pending = s.pending := by
  unfold updateUIText; split <;> simp

@[simp] theorem updateUIText_timers (lang : Lang) (s : State) :
    (updateUIText lang s).timers = s.timers := by
  unfold updateUIText; split <;> simp

@[simp] theorem updateUIText_fetchLog (lang : Lang) (s : State) :
    (updateUIText lang s).fetchLog = s.fetchLog := by
  unfold updateUIText; split <;> simp

@[simp] theorem languageOptionClick_targetTextElements (lang : Lang) (s : State) :
    (languageOptionClick lang s).targetTextElements = s.targetTextElements := by
  unfold languageOptionClick; split <;> simp

@[simp] theorem languageOptionClick_originalElementHTML (lang : Lang) (s : State) :
    (languageOptionClick lang s).originalElementHTML = s.originalElementHTML := by
  unfold languageOptionClick; split <;> simp

@[simp] theorem languageOptionClick_activeFeatures_perLang (lang : Lang) (s : State) :
    (languageOptionClick lang s).activeFeatures_perLang = s.activeFeatures_perLang := by
  unfold languageOptionClick; split <;> simp

@[simp] theorem languageOptionClick_isProcessingFeature (lang : Lang) (s : State) :
    (languageOptionClick lang s).isProcessingFeature = s.isProcessingFeature := by
  unfold languageOptionClick; split <;> simp

@[simp] theorem languageOptionClick_activeApiCallDetails (lang : Lang) (s : State) :
    (languageOptionClick lang s).activeApiCallDetails = s.activeApiCallDetails := by
  unfold languageOptionClick; split <;> simp

@[simp] theorem languageOptionClick_isShortAnimationActive (lang : Lang) (s : State) :
    (languageOptionClick lang s).isShortAnimationActive = s.isShortAnimationActive := by
  unfold languageOptionClick; split <;> simp

@[simp] theorem languageOptionClick_cachedChunkedHTML_perLang (lang : Lang) (s : State) :
    (languageOptionClick lang s).cachedChunkedHTML_perLang = s.cachedChunkedHTML_perLang := by
  unfold languageOptionClick; split <;> simp

@[simp] theorem languageOptionClick_cachedSimplifiedText_perLang (lang : Lang) (s : State) :
    (languageOptionClick lang s).cachedSimplifiedText_perLang = s.cachedSimplifiedText_perLang := by
  unfold languageOptionClick; split <;> simp

@[simp] theorem languageOptionClick_uiComplete (lang : Lang) (s : State) :
    (languageOptionClick lang s).uiComplete = s.uiComplete := by
  unfold languageOptionClick; split <;> simp

@[simp] theorem languageOptionClick_pending (lang : Lang) (s : State) :
    (languageOptionClick lang s).pending = s.pending := by
  unfold languageOptionClick; split <;> simp

@[simp] theorem languageOptionClick_timers (lang : Lang) (s : State) :
    (languageOptionClick lang s).timers = s.timers := by
  unfold languageOptionClick; split <;> simp

@[simp] theorem languageOptionClick_fetchLog (lang : Lang) (s : State) :
    (languageOptionClick lang s).fetchLog = s.fetchLog := by
  unfold languageOptionClick; split <;> simp

@[simp] theorem bumpFeedback_targetTextElements (k : Kind) (s : State) :
    (bumpFeedback k s).targetTextElements = s.targetTextElements := by
  cases k <;> rfl

@[simp] theorem bumpFeedback_innerHTML (k : Kind) (s : State) :
    (bumpFeedback k s).innerHTML = s.innerHTML := by
  cases k <;> rfl

@[simp] theorem bumpFeedback_originalElementHTML (k : Kind) (s : State) :
    (bumpFeedback k s).originalElementHTML = s.originalElementHTML := by
  cases k <;> rfl

@[simp] theorem bumpFeedback_currentLanguage (k : Kind) (s : State) :
    (bumpFeedback k s).currentLanguage = s.currentLanguage := by
  cases k <;> rfl

@[simp] theorem bumpFeedback_activeFeatures_perLang (k : Kind) (s : State) :
    (bumpFeedback k s).activeFeatures_perLang = s.activeFeatures_perLang := by
  cases k <;> rfl

@[simp] theorem bumpFeedback_isProcessingFeature (k : Kind) (s : State) :
    (bumpFeedback k s).isProcessingFeature = s.isProcessingFeature := by
  cases k <;> rfl

@[simp] theorem bumpFeedback_activeApiCallDetails (k : Kind) (s : State) :
    (bumpFeedback k s).activeApiCallDetails = s.activeApiCallDetails := by
  cases k <;> rfl

@[simp] theorem bumpFeedback_isShortAnimationActive (k : Kind) (s : State) :
    (bumpFeedback k s).isShortAnimationActive = s.isShortAnimationActive := by
  cases k <;> rfl

@[simp] theorem bumpFeedback_cachedChunkedHTML_perLang (k : Kind) (s : State) :
    (bumpFeedback k s).cachedChunkedHTML_perLang = s.cachedChunkedHTML_perLang := by
  cases k <;> rfl

@[simp] theorem bumpFeedback_cachedSimplifiedText_perLang (k : Kind) (s : State) :
    (bumpFeedback k s).cachedSimplifiedText_perLang = s.cachedSimplifiedText_perLang := by
  cases k <;> rfl

@[simp] theorem bumpFeedback_loadingOverlayElement (k : Kind) (s : State) :
    (bumpFeedback k s).loadingOverlayElement = s.loadingOverlayElement := by
  cases k <;> rfl

@[simp] theorem bumpFeedback_uiComplete (k : Kind) (s : State) :
    (bumpFeedback k s).uiComplete = s.uiComplete := by
  cases k <;> rfl

@[simp] theorem bumpFeedback_pending (k : Kind) (s : State) :
    (bumpFeedback k s).pending = s.pending := by
  cases k <;> rfl

@[simp] theorem bumpFeedback_fetchLog (k : Kind) (s : State) :
    (bumpFeedback k s).fetchLog = s.fetchLog := by
  cases k <;> rfl

@[simp] theorem restoreElement_targetTextElements (s : State) (e : Elem) :
    (restoreElement s e).targetTextElements = s.targetTextElements := by
  unfold restoreElement; split <;> rfl

@[simp] theorem restoreElement_originalElementHTML (s : State) (e : Elem) :
    (restoreElement s e).originalElementHTML = s.originalElementHTML := by
  unfold restoreElement; split <;> rfl

@[simp] theorem restoreElement_currentLanguage (s : State) (e : Elem) :
    (restoreElement s e).currentLanguage = s.currentLanguage := by
  unfold restoreElement; split <;> rfl

@[simp] theorem restoreElement_activeFeatures_perLang (s : State) (e : Elem) :
    (restoreElement s e).activeFeatures_perLang = s.activeFeatures_perLang := by
  unfold restoreElement; split <;> rfl

@[simp] theorem restoreElement_isProcessingFeature (s : State) (e : Elem) :
    (restoreElement s e).isProcessingFeature = s.isProcessingFeature := by
  unfold restoreElement; split <;> rfl

@[simp] theorem restoreElement_activeApiCallDetails (s : State) (e : Elem) :
    (restoreElement s e).activeApiCallDetails = s.activeApiCallDetails := by
  unfold restoreElement; split <;> rfl

@[simp] theorem restoreElement_isShortAnimationActive (s : State) (e : Elem) :
    (restoreElement s e).isShortAnimationActive = s.isShortAnimationActive := by
  unfold restoreElement; split <;> rfl

@[simp] theorem restoreElement_cachedChunkedHTML_perLang (s : State) (e : Elem) :
    (restoreElement s e).cachedChunkedHTML_perLang = s.cachedChunkedHTML_perLang := by
  unfold restoreElement; split <;> rfl

@[simp] theorem restoreElement_cachedSimplifiedText_perLang (s : State) (e : Elem) :
    (restoreElement s e).cachedSimplifiedText_perLang = s.cachedSimplifiedText_perLang := by
  unfold restoreElement; split <;> rfl

@[simp] theorem restoreElement_buttonTextInBlocks (s : State) (e : Elem) :
    (restoreElement s e).buttonTextInBlocks = s.buttonTextInBlocks := by
  unfold restoreElement; split <;> rfl

@[simp] theorem restoreElement_buttonSimplifiedText (s : State) (e : Elem) :
    (restoreElement s e).buttonSimplifiedText = s.buttonSimplifiedText := by
  unfold restoreElement; split <;> rfl

@[simp] theorem restoreElement_loadingOverlayElement (s : State) (e : Elem) :
    (restoreElement s e).loadingOverlayElement = s.loadingOverlayElement := by
  unfold restoreElement; split <;> rfl

@[simp] theorem restoreElement_uiComplete (s : State) (e : Elem) :
    (restoreElement s e).uiComplete = s.uiComplete := by
  unfold restoreElement; split <;> rfl

@[simp] theorem restoreElement_pending (s : State) (e : Elem) :
    (restoreElement s e).pending = s.pending := by
  unfold restoreElement; split <;> rfl

@[simp] theorem restoreElement_timers (s : State) (e : Elem) :
    (restoreElement s e).timers = s.timers := by
  unfold restoreElement; split <;> rfl

@[simp] theorem restoreElement_fetchLog (s : State) (e : Elem) :
    (restoreElement s e).fetchLog = s.fetchLog := by
  unfold restoreElement; split <;> rfl

@[simp] theorem restoreOriginals_targetTextElements (s : State) :
    (restoreOriginals s).targetTextElements = s.targetTextElements := by
  exact foldl_proj _ (fun s => s.targetTextElements) restoreElement_targetTextElements _ s

@[simp] theorem restoreOriginals_originalElementHTML (s : State) :
    (restoreOriginals s).originalElementHTML = s.originalElementHTML := by
  exact foldl_proj _ (fun s => s.originalElementHTML) restoreElement_originalElementHTML _ s

@[simp] theorem restoreOriginals_currentLanguage (s : State) :
    (restoreOriginals s).currentLanguage = s.currentLanguage := by
  exact foldl_proj _ (fun s => s.currentLanguage) restoreElement_currentLanguage _ s

@[simp] theorem restoreOriginals_activeFeatures_perLang (s : State) :
    (restoreOriginals s).activeFeatures_perLang = s.activeFeatures_perLang := by
  exact foldl_proj _ (fun s => s.activeFeatures_perLang) restoreElement_activeFeatures_perLang _ s

@[simp] theorem restoreOriginals_isProcessingFeature (s : State) :
    (restoreOriginals s).isProcessingFeature = s.isProcessingFeature := by
  exact foldl_proj _ (fun s => s.isProcessingFeature) restoreElement_isProcessingFeature _ s

@[simp] theorem restoreOriginals_activeApiCallDetails (s : State) :
    (restoreOriginals s).activeApiCallDetails = s.activeApiCallDetails := by
  exact foldl_proj _ (fun s => s.activeApiCallDetails) restoreElement_activeApiCallDetails _ s

@[simp] theorem restoreOriginals_isShortAnimationActive (s : State) :
    (restoreOriginals s).isShortAnimationActive = s.isShortAnimationActive := by
  exact foldl_proj _ (fun s => s.isShortAnimationActive) restoreElement_isShortAnimationActive _ s

@[simp] theorem restoreOriginals_cachedChunkedHTML_perLang (s : State) :
    (restoreOriginals s).cachedChunkedHTML_perLang = s.cachedChunkedHTML_perLang := by
  exact foldl_proj _ (fun s => s.cachedChunkedHTML_perLang) restoreElement_cachedChunkedHTML_perLang _ s

@[simp] theorem restoreOriginals_cachedSimplifiedText_perLang (s : State) :
    (restoreOriginals s).cachedSimplifiedText_perLang = s.cachedSimplifiedText_perLang := by
  exact foldl_proj _ (fun s => s.cachedSimplifiedText_perLang) restoreElement_cachedSimplifiedText_perLang _ s

@[simp] theorem restoreOriginals_buttonTextInBlocks (s : State) :
    (restoreOriginals s).buttonTextInBlocks = s.buttonTextInBlocks := by
  exact foldl_proj _ (fun s => s.buttonTextInBlocks) restoreElement_buttonTextInBlocks _ s

@[simp] theorem restoreOriginals_buttonSimplifiedText (s : State) :
    (restoreOriginals s).buttonSimplifiedText = s.buttonSimplifiedText := by
  exact foldl_proj _ (fun s => s.buttonSimplifiedText) restoreElement_buttonSimplifiedText _ s

@[simp] theorem restoreOriginals_loadingOverlayElement (s : State) :
    (restoreOriginals s).loadingOverlayElement = s.loadingOverlayElement := by
  exact foldl_proj _ (fun s => s.loadingOverlayElement) restoreElement_loadingOverlayElement _ s

@[simp] theorem restoreOriginals_uiComplete (s : State) :
    (restoreOriginals s).uiComplete = s.uiComplete := by
  exact foldl_proj _ (fun s => s.uiComplete) restoreElement_uiComplete _ s

@[simp] theorem restoreOriginals_pending (s : State) :
    (restoreOriginals s).pending = s.pending := by
  exact foldl_proj _ (fun s => s.pending) restoreElement_pending _ s

@[simp] theorem restoreOriginals_timers (s : State) :
    (restoreOriginals s).timers = s.timers := by
  exact foldl_proj _ (fun s => s.timers) restoreElement_timers _ s

@[simp] theorem restoreOriginals_fetchLog (s : State) :
    (restoreOriginals s).fetchLog = s.fetchLog := by
  exact foldl_proj _ (fun s => s.fetchLog) restoreElement_fetchLog _ s

@[simp] theorem toggleFeature_targetTextElements (k : Kind) (s : State) :
    (toggleFeature k s).targetTextElements = s.targetTextElements := by
  unfold toggleFeature; dsimp only; repeat' split
  all_goals simp

@[simp] theorem toggleFeature_originalElementHTML (k : Kind) (s : State) :
    (toggleFeature k s).originalElementHTML = s.originalElementHTML := by
  unfold toggleFeature; dsimp only; repeat' split
  all_goals simp

@[simp] theorem toggleFeature_currentLanguage (k : Kind) (s : State) :
    (toggleFeature k s).currentLanguage = s.currentLanguage := by
  unfold toggleFeature; dsimp only; repeat' split
  all_goals simp

@[simp] theorem toggleFeature_isProcessingFeature (k : Kind) (s : State) :
    (toggleFeature k s).isProcessingFeature = s.isProcessingFeature := by
  unfold toggleFeature; dsimp only; repeat' split
  all_goals simp

@[simp] theorem toggleFeature_activeApiCallDetails (k : Kind) (s : State) :
    (toggleFeature k s).activeApiCallDetails = s.activeApiCallDetails := by
  unfold toggleFeature; dsimp only; repeat' split
  all_goals simp

@[simp] theorem toggleFeature_isShortAnimationActive (k : Kind) (s : State) :
    (toggleFeature k s).isShortAnimationActive = s.isShortAnimationActive := by
  unfold toggleFeature; dsimp only; repeat' split
  all_goals simp

@[simp] theorem toggleFeature_cachedChunkedHTML_perLang (k : Kind) (s : State) :
    (toggleFeature k s).cachedChunkedHTML_perLang = s.cachedChunkedHTML_perLang := by
  unfold toggleFeature; dsimp only; repeat' split
  all_goals simp

@[simp] theorem toggleFeature_cachedSimplifiedText_perLang (k : Kind) (s : State) :
    (toggleFeature k s).cachedSimplifiedText_perLang = s.cachedSimplifiedText_perLang := by
  unfold toggleFeature; dsimp only; repeat' split
  all_goals simp

@[simp] theorem toggleFeature_buttonTextInBlocks (k : Kind) (s : State) :
    (toggleFeature k s).buttonTextInBlocks = s.buttonTextInBlocks := by
  unfold toggleFeature; dsimp only; repeat' split
  all_goals simp

@[simp] theorem toggleFeature_buttonSimplifiedText (k : Kind) (s : State) :
    (toggleFeature k s).buttonSimplifiedText = s.buttonSimplifiedText := by
  unfold toggleFeature; dsimp only; repeat' split
  all_goals simp

@[simp] theorem toggleFeature_loadingOverlayElement (k : Kind) (s : State) :
    (toggleFeature k s).loadingOverlayElement = s.loadingOverlayElement := by
  unfold toggleFeature; dsimp only; repeat' split
  all_goals simp

@[simp] theorem toggleFeature_uiComplete (k : Kind) (s : State) :
    (toggleFeature k s).uiComplete = s.uiComplete := by
  unfold toggleFeature; dsimp only; repeat' split
  all_goals simp

@[simp] theorem toggleFeature_pending (k : Kind) (s : State) :
    (toggleFeature k s).pending = s.pending := by
  unfold toggleFeature; dsimp only; repeat' split
  all_goals simp

@[simp] theorem toggleFeature_timers (k : Kind) (s : State) :
    (toggleFeature k s).timers = s.timers := by
  unfold toggleFeature; dsimp only; repeat' split
  all_goals simp

@[simp] theorem toggleFeature_fetchLog (k : Kind) (s : State) :
    (toggleFeature k s).fetchLog = s.fetchLog := by
  unfold toggleFeature; dsimp only; repeat' split
  all_goals simp

@[simp] theorem acquire_targetTextElements (k : Kind) (lang : Lang) (a n : Bool) (s : State) :
    ((acquire k lang a n s).1).targetTextElements = s.targetTextElements := by
  unfold acquire; repeat' split
  all_goals rfl

@[simp] theorem acquire_innerHTML (k : Kind) (lang : Lang) (a n : Bool) (s : State) :
    ((acquire k lang a n s).1).innerHTML = s.innerHTML := by
  unfold acquire; repeat' split
  all_goals rfl

@[simp] theorem acquire_originalElementHTML (k : Kind) (lang : Lang) (a n : Bool) (s : State) :
    ((acquire k lang a n s).1).originalElementHTML = s.originalElementHTML := by
  unfold acquire; repeat' split
  all_goals rfl

@[simp] theorem acquire_currentLanguage (k : Kind) (lang : Lang) (a n : Bool) (s : State) :
    ((acquire k lang a n s).1).currentLanguage = s.currentLanguage := by
  unfold acquire; repeat' split
  all_goals rfl

@[simp] theorem acquire_activeFeatures_perLang (k : Kind) (lang : Lang) (a n : Bool) (s : State) :
    ((acquire k lang a n s).1).activeFeatures_perLang = s.activeFeatures_perLang := by
  unfold acquire; repeat' split
  all_goals rfl

@[simp] theorem acquire_cachedChunkedHTML_perLang (k : Kind) (lang : Lang) (a n : Bool) (s : State) :
    ((acquire k lang a n s).1).cachedChunkedHTML_perLang = s.cachedChunkedHTML_perLang := by
  unfold acquire; repeat' split
  all_goals rfl

@[simp] theorem acquire_cachedSimplifiedText_perLang (k : Kind) (lang : Lang) (a n : Bool) (s : State) :
    ((acquire k lang a n s).1).cachedSimplifiedText_perLang = s.cachedSimplifiedText_perLang := by
  unfold acquire; repeat' split
  all_goals rfl

@[simp] theorem acquire_buttonTextInBlocks (k : Kind) (lang : Lang) (a n : Bool) (s : State) :
    ((acquire k lang a n s).1).buttonTextInBlocks = s.buttonTextInBlocks := by
  unfold acquire; repeat' split
  all_goals rfl

@[simp] theorem acquire_buttonSimplifiedText (k : Kind) (lang : Lang) (a n : Bool) (s : State) :
    ((acquire k lang a n s).1).buttonSimplifiedText = s.buttonSimplifiedText := by
  unfold acquire; repeat' split
  all_goals rfl

@[simp] theorem acquire_uiComplete (k : Kind) (lang : Lang) (a n : Bool) (s : State) :
    ((acquire k lang a n s).1).uiComplete = s.uiComplete := by
  unfold acquire; repeat' split
  all_goals rfl

@[simp] theorem acquire_pending (k : Kind) (lang : Lang) (a n : Bool) (s : State) :
    ((acquire k lang a n s).1).pending = s.pending := by
  unfold acquire; repeat' split
  all_goals rfl

@[simp] theorem acquire_timers (k : Kind) (lang : Lang) (a n : Bool) (s : State) :
    ((acquire k lang a n s).1).timers = s.timers := by
  unfold acquire; repeat' split
  all_goals rfl

@[simp] theorem acquire_fetchLog (k : Kind) (lang : Lang) (a n : Bool) (s : State) :
    ((acquire k lang a n s).1).fetchLog = s.fetchLog := by
  unfold acquire; repeat' split
  all_goals rfl

@[simp] theorem ensureLangCache_targetTextElements (k : Kind) (lang : Lang) (s : State) :
    (ensureLangCache k lang s).targetTextElements = s.targetTextElements := by
  unfold ensureLangCache; split <;> simp

@[simp] theorem ensureLangCache_innerHTML (k : Kind) (lang : Lang) (s : State) :
    (ensureLangCache k lang s).innerHTML = s.innerHTML := by
  unfold ensureLangCache; split <;> simp

@[simp] theorem ensureLangCache_originalElementHTML (k : Kind) (lang : Lang) (s : State) :
    (ensureLangCache k lang s).originalElementHTML = s.originalElementHTML := by
  unfold ensureLangCache; split <;> simp

@[simp] theorem ensureLangCache_currentLanguage (k : Kind) (lang : Lang) (s : State) :
    (ensureLangCache k lang s).currentLanguage = s.currentLanguage := by
  unfold ensureLangCache; split <;> simp

@[simp] theorem ensureLangCache_activeFeatures_perLang (k : Kind) (lang : Lang) (s : State) :
    (ensureLangCache k lang s).activeFeatures_perLang = s.activeFeatures_perLang := by
  unfold ensureLangCache; split <;> simp

@[simp] theorem ensureLangCache_isProcessingFeature (k : Kind) (lang : Lang) (s : State) :
    (ensureLangCache k lang s).isProcessingFeature = s.isProcessingFeature := by
  unfold ensureLangCache; split <;> simp

@[simp] theorem ensureLangCache_activeApiCallDetails (k : Kind) (lang : Lang) (s : State) :
    (ensureLangCache k lang s).activeApiCallDetails = s.activeApiCallDetails := by
  unfold ensureLangCache; split <;> simp

@[simp] theorem ensureLangCache_isShortAnimationActive (k : Kind) (lang : Lang) (s : State) :
    (ensureLangCache k lang s).isShortAnimationActive = s.isShortAnimationActive := by
  unfold ensureLangCache; split <;> simp

@[simp] theorem ensureLangCache_buttonTextInBlocks (k : Kind) (lang : Lang) (s : State) :
    (ensureLangCache k lang s).buttonTextInBlocks = s.buttonTextInBlocks := by
  unfold ensureLangCache; split <;> simp

@[simp] theorem ensureLangCache_buttonSimplifiedText (k : Kind) (lang : Lang) (s : State) :
    (ensureLangCache k lang s).buttonSimplifiedText = s.buttonSimplifiedText := by
  unfold ensureLangCache; split <;> simp

@[simp] theorem ensureLangCache_loadingOverlayElement (k : Kind) (lang : Lang) (s : State) :
    (ensureLangCache k lang s).loadingOverlayElement = s.loadingOverlayElement := by
  unfold ensureLangCache; split <;> simp

@[simp] theorem ensureLangCache_uiComplete (k : Kind) (lang : Lang) (s : State) :
    (ensureLangCache k lang s).uiComplete = s.uiComplete := by
  unfold ensureLangCache; split <;> simp

@[simp] theorem ensureLangCache_pending (k : Kind) (lang : Lang) (s : State) :
    (ensureLangCache k lang s).pending = s.pending := by
  unfold ensureLangCache; split <;> simp

@[simp] theorem ensureLangCache_timers (k : Kind) (lang : Lang) (s : State) :
    (ensureLangCache k lang s).timers = s.timers := by
  unfold ensureLangCache; split <;> simp

@[simp] theorem ensureLangCache_fetchLog (k : Kind) (lang : Lang) (s : State) :
    (ensureLangCache k lang s).fetchLog = s.fetchLog := by
  unfold ensureLangCache; split <;> simp

@[simp] theorem revertActivation_targetTextElements (f : Frame) (s : State) :
    (revertActivation f s).targetTextElements = s.targetTextElements := by
  rfl

@[simp] theorem revertActivation_innerHTML (f : Frame) (s : State) :
    (revertActivation f s).innerHTML = s.innerHTML := by
  rfl

@[simp] theorem revertActivation_originalElementHTML (f : Frame) (s : State) :
    (revertActivation f s).originalElementHTML = s.originalElementHTML := by
  rfl

@[simp] theorem revertActivation_currentLanguage (f : Frame) (s : State) :
    (revertActivation f s).currentLanguage = s.currentLanguage := by
  rfl

@[simp] theorem revertActivation_isProcessingFeature (f : Frame) (s : State) :
    (revertActivation f s).isProcessingFeature = s.isProcessingFeature := by
  rfl

@[simp] theorem revertActivation_activeApiCallDetails (f : Frame) (s : State) :
    (revertActivation f s).activeApiCallDetails = s.activeApiCallDetails := by
  rfl

@[simp] theorem revertActivation_isShortAnimationActive (f : Frame) (s : State) :
    (revertActivation f s).isShortAnimationActive = s.isShortAnimationActive := by
  rfl

@[simp] theorem revertActivation_cachedChunkedHTML_perLang (f : Frame) (s : State) :
    (revertActivation f s).cachedChunkedHTML_perLang = s.cachedChunkedHTML_perLang := by
  rfl

@[simp] theorem revertActivation_cachedSimplifiedText_perLang (f : Frame) (s : State) :
    (revertActivation f s).cachedSimplifiedText_perLang = s.cachedSimplifiedText_perLang := by
  rfl

@[simp] theorem revertActivation_buttonTextInBlocks (f : Frame) (s : State) :
    (revertActivation f s).buttonTextInBlocks = s.buttonTextInBlocks := by
  rfl

@[simp] theorem revertActivation_buttonSimplifiedText (f : Frame) (s : State) :
    (revertActivation f s).buttonSimplifiedText = s.buttonSimplifiedText := by
  rfl

@[simp] theorem revertActivation_loadingOverlayElement (f : Frame) (s : State) :
    (revertActivation f s).loadingOverlayElement = s.loadingOverlayElement := by
  rfl

@[simp] theorem revertActivation_uiComplete (f : Frame) (s : State) :
    (revertActivation f s).uiComplete = s.uiComplete := by
  rfl

@[simp] theorem revertActivation_pending (f : Frame) (s : State) :
    (revertActivation f s).pending = s.pending := by
  rfl

@[simp] theorem revertActivation_timers (f : Frame) (s : State) :
    (revertActivation f s).timers = s.timers := by
  rfl

@[simp] theorem revertActivation_fetchLog (f : Frame) (s : State) :
    (revertActivation f s).fetchLog = s.fetchLog := by
  rfl

@[simp] theorem releaseOrAnimate_targetTextElements (f : Frame) (s : State) :
    (releaseOrAnimate f s).targetTextElements = s.targetTextElements := by
  unfold releaseOrAnimate; repeat' split
  all_goals simp

@[simp] theorem releaseOrAnimate_innerHTML (f : Frame) (s : State) :
    (releaseOrAnimate f s).innerHTML = s.innerHTML := by
  unfold releaseOrAnimate; repeat' split
  all_goals simp

@[simp] theorem releaseOrAnimate_originalElementHTML (f : Frame) (s : State) :
    (releaseOrAnimate f s).originalElementHTML = s.originalElementHTML := by
  unfold releaseOrAnimate; repeat' split
  all_goals simp

@[simp] theorem releaseOrAnimate_currentLanguage (f : Frame) (s : State) :
    (releaseOrAnimate f s).currentLanguage = s.currentLanguage := by
  unfold releaseOrAnimate; repeat' split
  all_goals simp

@[simp] theorem releaseOrAnimate_activeFeatures_perLang (f : Frame) (s : State) :
    (releaseOrAnimate f s).activeFeatures_perLang = s.activeFeatures_perLang := by
  unfold releaseOrAnimate; repeat' split
  all_goals simp

@[simp] theorem releaseOrAnimate_isShortAnimationActive (f : Frame) (s : State) :
    (releaseOrAnimate f s).isShortAnimationActive = s.isShortAnimationActive := by
  unfold releaseOrAnimate; repeat' split
  all_goals simp

@[simp] theorem releaseOrAnimate_cachedChunkedHTML_perLang (f : Frame) (s : State) :
    (releaseOrAnimate f s).cachedChunkedHTML_perLang = s.cachedChunkedHTML_perLang := by
  unfold releaseOrAnimate; repeat' split
  all_goals simp

@[simp] theorem releaseOrAnimate_cachedSimplifiedText_perLang (f : Frame) (s : State) :
    (releaseOrAnimate f s).cachedSimplifiedText_perLang = s.cachedSimplifiedText_perLang := by
  unfold releaseOrAnimate; repeat' split
  all_goals simp

@[simp] theorem releaseOrAnimate_uiComplete (f : Frame) (s : State) :
    (releaseOrAnimate f s).uiComplete = s.uiComplete := by
  unfold releaseOrAnimate; repeat' split
  all_goals simp

@[simp] theorem releaseOrAnimate_pending (f : Frame) (s : State) :
    (releaseOrAnimate f s).pending = s.pending := by
  unfold releaseOrAnimate; repeat' split
  all_goals simp

@[simp] theorem releaseOrAnimate_fetchLog (f : Frame) (s : State) :
    (releaseOrAnimate f s).fetchLog = s.fetchLog := by
  unfold releaseOrAnimate; repeat' split
  all_goals simp

@[simp] theorem refreshIfDisplayed_targetTextElements (lang : Lang) (s : State) :
    (refreshIfDisplayed lang s).targetTextElements = s.targetTextElements := by
  unfold refreshIfDisplayed; split <;> simp

@[simp] theorem refreshIfDisplayed_originalElementHTML (lang : Lang) (s : State) :
    (refreshIfDisplayed lang s).originalElementHTML = s.originalElementHTML := by
  unfold refreshIfDisplayed; split <;> simp

@[simp] theorem refreshIfDisplayed_currentLanguage (lang : Lang) (s : State) :
    (refreshIfDisplayed lang s).currentLanguage = s.currentLanguage := by
  unfold refreshIfDisplayed; split <;> simp

@[simp] theorem refreshIfDisplayed_activeFeatures_perLang (lang : Lang) (s : State) :
    (refreshIfDisplayed lang s).activeFeatures_perLang = s.activeFeatures_perLang := by
  unfold refreshIfDisplayed; split <;> simp

@[simp] theorem refreshIfDisplayed_isProcessingFeature (lang : Lang) (s : State) :
    (refreshIfDisplayed lang s).isProcessingFeature = s.isProcessingFeature := by
  unfold refreshIfDisplayed; split <;> simp

@[simp] theorem refreshIfDisplayed_activeApiCallDetails (lang : Lang) (s : State) :
    (refreshIfDisplayed lang s).activeApiCallDetails = s.activeApiCallDetails := by
  unfold refreshIfDisplayed; split <;> simp

@[simp] theorem refreshIfDisplayed_isShortAnimationActive (lang : Lang) (s : State) :
    (refreshIfDisplayed lang s).isShortAnimationActive = s.isShortAnimationActive := by
  unfold refreshIfDisplayed; split <;> simp

@[simp] theorem refreshIfDisplayed_cachedChunkedHTML_perLang (lang : Lang) (s : State) :
    (refreshIfDisplayed lang s).cachedChunkedHTML_perLang = s.cachedChunkedHTML_perLang := by
  unfold refreshIfDisplayed; split <;> simp

@[simp] theorem refreshIfDisplayed_cachedSimplifiedText_perLang (lang : Lang) (s : State) :
    (refreshIfDisplayed lang s).cachedSimplifiedText_perLang = s.cachedSimplifiedText_perLang := by
  unfold refreshIfDisplayed; split <;> simp

@[simp] theorem refreshIfDisplayed_buttonTextInBlocks (lang : Lang) (s : State) :
    (refreshIfDisplayed lang s).buttonTextInBlocks = s.buttonTextInBlocks := by
  unfold refreshIfDisplayed; split <;> simp

@[simp] theorem refreshIfDisplayed_buttonSimplifiedText (lang : Lang) (s : State) :
    (refreshIfDisplayed lang s).buttonSimplifiedText = s.buttonSimplifiedText := by
  unfold refreshIfDisplayed; split <;> simp

@[simp] theorem refreshIfDisplayed_loadingOverlayElement (lang : Lang) (s : State) :
    (refreshIfDisplayed lang s).loadingOverlayElement = s.loadingOverlayElement := by
  unfold refreshIfDisplayed; split <;> simp

@[simp] theorem refreshIfDisplayed_uiComplete (lang : Lang) (s : State) :
    (refreshIfDisplayed lang s).uiComplete = s.uiComplete := by
  unfold refreshIfDisplayed; split <;> simp

@[simp] theorem refreshIfDisplayed_pending (lang : Lang) (s : State) :
    (refreshIfDisplayed lang s).pending = s.pending := by
  unfold refreshIfDisplayed; split <;> simp

@[simp] theorem refreshIfDisplayed_timers (lang : Lang) (s : State) :
    (refreshIfDisplayed lang s).timers = s.timers := by
  unfold refreshIfDisplayed; split <;> simp

@[simp] theorem refreshIfDisplayed_fetchLog (lang : Lang) (s : State) :
    (refreshIfDisplayed lang s).fetchLog = s.fetchLog := by
  unfold refreshIfDisplayed; split <;> simp

@[simp] theorem finish_targetTextElements (f : Frame) (b : Bool) (s : State) :
    (finish f b s).targetTextElements = s.targetTextElements := by
  unfold finish; split <;> simp

@[simp] theorem finish_originalElementHTML (f : Frame) (b : Bool) (s : State) :
    (finish f b s).originalElementHTML = s.originalElementHTML := by
  unfold finish; split <;> simp

@[simp] theorem finish_currentLanguage (f : Frame) (b : Bool) (s : State) :
    (finish f b s).currentLanguage = s.currentLanguage := by
  unfold finish; split <;> simp

@[simp] theorem finish_isShortAnimationActive (f : Frame) (b : Bool) (s : State) :
    (finish f b s).isShortAnimationActive = s.isShortAnimationActive := by
  unfold finish; split <;> simp

@[simp] theorem finish_cachedChunkedHTML_perLang (f : Frame) (b : Bool) (s : State) :
    (finish f b s).cachedChunkedHTML_perLang = s.cachedChunkedHTML_perLang := by
  unfold finish; split <;> simp

@[simp] theorem finish_cachedSimplifiedText_perLang (f : Frame) (b : Bool) (s : State) :
    (finish f b s).cachedSimplifiedText_perLang = s.cachedSimplifiedText_perLang := by
  unfold finish; split <;> simp

@[simp] theorem finish_uiComplete (f : Frame) (b : Bool) (s : State) :
    (finish f b s).uiComplete = s.uiComplete := by
  unfold finish; split <;> simp

@[simp] theorem finish_pending (f : Frame) (b : Bool) (s : State) :
    (finish f b s).pending = s.pending := by
  unfold finish; split <;> simp

@[simp] theorem finish_fetchLog (f : Frame) (b : Bool) (s : State) :
    (finish f b s).fetchLog = s.fetchLog := by
  unfold finish; split <;> simp

@[simp] theorem issueFetch_targetTextElements (f : Frame) (e : Elem) (rest : List Elem) (text : String) (s : State) :
    (issueFetch f e rest text s).targetTextElements = s.targetTextElements := by
  rfl

@[simp] theorem issueFetch_innerHTML (f : Frame) (e : Elem) (rest : List Elem) (text : String) (s : State) :
    (issueFetch f e rest text s).innerHTML = s.innerHTML := by
  rfl

@[simp] theorem issueFetch_originalElementHTML (f : Frame) (e : Elem) (rest : List Elem) (text : String) (s : State) :
    (issueFetch f e rest text s).originalElementHTML = s.originalElementHTML := by
  rfl

@[simp] theorem issueFetch_currentLanguage (f : Frame) (e : Elem) (rest : List Elem) (text : String) (s : State) :
    (issueFetch f e rest text s).currentLanguage = s.currentLanguage := by
  rfl

@[simp] theorem issueFetch_activeFeatures_perLang (f : Frame) (e : Elem) (rest : List Elem) (text : String) (s : State) :
    (issueFetch f e rest text s).activeFeatures_perLang = s.activeFeatures_perLang := by
  rfl

@[simp] theorem issueFetch_isProcessingFeature (f : Frame) (e : Elem) (rest : List Elem) (text : String) (s : State) :
    (issueFetch f e rest text s).isProcessingFeature = s.isProcessingFeature := by
  rfl

@[simp] theorem issueFetch_activeApiCallDetails (f : Frame) (e : Elem) (rest : List Elem) (text : String) (s : State) :
    (issueFetch f e rest text s).activeApiCallDetails = s.activeApiCallDetails := by
  rfl

@[simp] theorem issueFetch_isShortAnimationActive (f : Frame) (e : Elem) (rest : List Elem) (text : String) (s : State) :
    (issueFetch f e rest text s).isShortAnimationActive = s.isShortAnimationActive := by
  rfl

@[simp] theorem issueFetch_cachedChunkedHTML_perLang (f : Frame) (e : Elem) (rest : List Elem) (text : String) (s : State) :
    (issueFetch f e rest text s).cachedChunkedHTML_perLang = s.cachedChunkedHTML_perLang := by
  rfl

@[simp] theorem issueFetch_cachedSimplifiedText_perLang (f : Frame) (e : Elem) (rest : List Elem) (text : String) (s : State) :
    (issueFetch f e rest text s).cachedSimplifiedText_perLang = s.cachedSimplifiedText_perLang := by
  rfl

@[simp] theorem issueFetch_buttonTextInBlocks (f : Frame) (e : Elem) (rest : List Elem) (text : String) (s : State) :
    (issueFetch f e rest text s).buttonTextInBlocks = s.buttonTextInBlocks := by
  rfl

@[simp] theorem issueFetch_buttonSimplifiedText (f : Frame) (e : Elem) (rest : List Elem) (text : String) (s : State) :
    (issueFetch f e rest text s).buttonSimplifiedText = s.buttonSimplifiedText := by
  rfl

@[simp] theorem issueFetch_loadingOverlayElement (f : Frame) (e : Elem) (rest : List Elem) (text : String) (s : State) :
    (issueFetch f e rest text s).loadingOverlayElement = s.loadingOverlayElement := by
  rfl

@[simp] theorem issueFetch_uiComplete (f : Frame) (e : Elem) (rest : List Elem) (text : String) (s : State) :
    (issueFetch f e rest text s).uiComplete = s.uiComplete := by
  rfl

@[simp] theorem issueFetch_timers (f : Frame) (e : Elem) (rest : List Elem) (text : String) (s : State) :
    (issueFetch f e rest text s).timers = s.timers := by
  rfl

@[simp] theorem storeEmpty_targetTextElements (f : Frame) (e : Elem) (html : Markup) (s : State) :
    (storeEmpty f e html s).targetTextElements = s.targetTextElements := by
  unfold storeEmpty; dsimp only; split <;> simp

@[simp] theorem storeEmpty_originalElementHTML (f : Frame) (e : Elem) (html : Markup) (s : State) :
    (storeEmpty f e html s).originalElementHTML = s.originalElementHTML := by
  unfold storeEmpty; dsimp only; split <;> simp

@[simp] theorem storeEmpty_currentLanguage (f : Frame) (e : Elem) (html : Markup) (s : State) :
    (storeEmpty f e html s).currentLanguage = s.currentLanguage := by
  unfold storeEmpty; dsimp only; split <;> simp

@[simp] theorem storeEmpty_activeFeatures_perLang (f : Frame) (e : Elem) (html : Markup) (s : State) :
    (storeEmpty f e html s).activeFeatures_perLang = s.activeFeatures_perLang := by
  unfold storeEmpty; dsimp only; split <;> simp

@[simp] theorem storeEmpty_isProcessingFeature (f : Frame) (e : Elem) (html : Markup) (s : State) :
    (storeEmpty f e html s).isProcessingFeature = s.isProcessingFeature := by
  unfold storeEmpty; dsimp only; split <;> simp

@[simp] theorem storeEmpty_activeApiCallDetails (f : Frame) (e : Elem) (html : Markup) (s : State) :
    (storeEmpty f e html s).activeApiCallDetails = s.activeApiCallDetails := by
  unfold storeEmpty; dsimp only; split <;> simp

@[simp] theorem storeEmpty_isShortAnimationActive (f : Frame) (e : Elem) (html : Markup) (s : State) :
    (storeEmpty f e html s).isShortAnimationActive = s.isShortAnimationActive := by
  unfold storeEmpty; dsimp only; split <;> simp

@[simp] theorem storeEmpty_buttonTextInBlocks (f : Frame) (e : Elem) (html : Markup) (s : State) :
    (storeEmpty f e html s).buttonTextInBlocks = s.buttonTextInBlocks := by
  unfold storeEmpty; dsimp only; split <;> simp

@[simp] theorem storeEmpty_buttonSimplifiedText (f : Frame) (e : Elem) (html : Markup) (s : State) :
    (storeEmpty f e html s).buttonSimplifiedText = s.buttonSimplifiedText := by
  unfold storeEmpty; dsimp only; split <;> simp

@[simp] theorem storeEmpty_loadingOverlayElement (f : Frame) (e : Elem) (html : Markup) (s : State) :
    (storeEmpty f e html s).loadingOverlayElement = s.loadingOverlayElement := by
  unfold storeEmpty; dsimp only; split <;> simp

@[simp] theorem storeEmpty_uiComplete (f : Frame) (e : Elem) (html : Markup) (s : State) :
    (storeEmpty f e html s).uiComplete = s.uiComplete := by
  unfold storeEmpty; dsimp only; split <;> simp

@[simp] theorem storeEmpty_pending (f : Frame) (e : Elem) (html : Markup) (s : State) :
    (storeEmpty f e html s).pending = s.pending := by
  unfold storeEmpty; dsimp only; split <;> simp

@[simp] theorem storeEmpty_timers (f : Frame) (e : Elem) (html : Markup) (s : State) :
    (storeEmpty f e html s).timers = s.timers := by
  unfold storeEmpty; dsimp only; split <;> simp

@[simp] theorem storeEmpty_fetchLog (f : Frame) (e : Elem) (html : Markup) (s : State) :
    (storeEmpty f e html s).fetchLog = s.fetchLog := by
  unfold storeEmpty; dsimp only; split <;> simp

@[simp] theorem storeResult_targetTextElements (inv : Invocation) (html : Markup) (s : State) :
    (storeResult inv html s).targetTextElements = s.targetTextElements := by
  unfold storeResult; dsimp only; split <;> simp

@[simp] theorem storeResult_originalElementHTML (inv : Invocation) (html : Markup) (s : State) :
    (storeResult inv html s).originalElementHTML = s.originalElementHTML := by
  unfold storeResult; dsimp only; split <;> simp

@[simp] theorem storeResult_currentLanguage (inv : Invocation) (html : Markup) (s : State) :
    (storeResult inv html s).currentLanguage = s.currentLanguage := by
  unfold storeResult; dsimp only; split <;> simp

@[simp] theorem storeResult_activeFeatures_perLang (inv : Invocation) (html : Markup) (s : State) :
    (storeResult inv html s).activeFeatures_perLang = s.activeFeatures_perLang := by
  unfold storeResult; dsimp only; split <;> simp

@[simp] theorem storeResult_isProcessingFeature (inv : Invocation) (html : Markup) (s : State) :
    (storeResult inv html s).isProcessingFeature = s.isProcessingFeature := by
  unfold storeResult; dsimp only; split <;> simp

@[simp] theorem storeResult_activeApiCallDetails (inv : Invocation) (html : Markup) (s : State) :
    (storeResult inv html s).activeApiCallDetails = s.activeApiCallDetails := by
  unfold storeResult; dsimp only; split <;> simp

@[simp] theorem storeResult_isShortAnimationActive (inv : Invocation) (html : Markup) (s : State) :
    (storeResult inv html s).isShortAnimationActive = s.isShortAnimationActive := by
  unfold storeResult; dsimp only; split <;> simp

@[simp] theorem storeResult_buttonTextInBlocks (inv : Invocation) (html : Markup) (s : State) :
    (storeResult inv html s).buttonTextInBlocks = s.buttonTextInBlocks := by
  unfold storeResult; dsimp only; split <;> simp

@[simp] theorem storeResult_buttonSimplifiedText (inv : Invocation) (html : Markup) (s : State) :
    (storeResult inv html s).buttonSimplifiedText = s.buttonSimplifiedText := by
  unfold storeResult; dsimp only; split <;> simp

@[simp] theorem storeResult_loadingOverlayElement (inv : Invocation) (html : Markup) (s : State) :
    (storeResult inv html s).loadingOverlayElement = s.loadingOverlayElement := by
  unfold storeResult; dsimp only; split <;> simp

@[simp] theorem storeResult_uiComplete (inv : Invocation) (html : Markup) (s : State) :
    (storeResult inv html s).uiComplete = s.uiComplete := by
  unfold storeResult; dsimp only; split <;> simp

@[simp] theorem storeResult_pending (inv : Invocation) (html : Markup) (s : State) :
    (storeResult inv html s).pending = s.pending := by
  unfold storeResult; dsimp only; split <;> simp

@[simp] theorem storeResult_timers (inv : Invocation) (html : Markup) (s : State) :
    (storeResult inv html s).timers = s.timers := by
  unfold storeResult; dsimp only; split <;> simp

@[simp] theorem storeResult_fetchLog (inv : Invocation) (html : Markup) (s : State) :
    (storeResult inv html s).fetchLog = s.fetchLog := by
  unfold storeResult; dsimp only; split <;> simp

@[simp] theorem fireTimer_targetTextElements (t : Timer) (s : State) :
    (fireTimer t s).targetTextElements = s.targetTextElements := by
  cases t <;> simp [fireTimer]

@[simp] theorem fireTimer_innerHTML (t : Timer) (s : State) :
    (fireTimer t s).innerHTML = s.innerHTML := by
  cases t <;> simp [fireTimer]

@[simp] theorem fireTimer_originalElementHTML (t : Timer) (s : State) :
    (fireTimer t s).originalElementHTML = s.originalElementHTML := by
  cases t <;> simp [fireTimer]

@[simp] theorem fireTimer_currentLanguage (t : Timer) (s : State) :
    (fireTimer t s).currentLanguage = s.currentLanguage := by
  cases t <;> simp [fireTimer]

@[simp] theorem fireTimer_activeFeatures_perLang (t : Timer) (s : State) :
    (fireTimer t s).activeFeatures_perLang = s.activeFeatures_perLang := by
  cases t <;> simp [fireTimer]

@[simp] theorem fireTimer_isProcessingFeature (t : Timer) (s : State) :
    (fireTimer t s).isProcessingFeature = s.isProcessingFeature := by
  cases t <;> simp [fireTimer]

@[simp] theorem fireTimer_activeApiCallDetails (t : Timer) (s : State) :
    (fireTimer t s).activeApiCallDetails = s.activeApiCallDetails := by
  cases t <;> simp [fireTimer]

@[simp] theorem fireTimer_cachedChunkedHTML_perLang (t : Timer) (s : State) :
    (fireTimer t s).cachedChunkedHTML_perLang = s.cachedChunkedHTML_perLang := by
  cases t <;> simp [fireTimer]

@[simp] theorem fireTimer_cachedSimplifiedText_perLang (t : Timer) (s : State) :
    (fireTimer t s).cachedSimplifiedText_perLang = s.cachedSimplifiedText_perLang := by
  cases t <;> simp [fireTimer]

@[simp] theorem fireTimer_uiComplete (t : Timer) (s : State) :
    (fireTimer t s).uiComplete = s.uiComplete := by
  cases t <;> simp [fireTimer]

@[simp] theorem fireTimer_pending (t : Timer) (s : State) :
    (fireTimer t s).pending = s.pending := by
  cases t <;> simp [fireTimer]

@[simp] theorem fireTimer_timers (t : Timer) (s : State) :
    (fireTimer t s).timers = s.timers := by
  cases t <;> simp [fireTimer]

@[simp] theorem fireTimer_fetchLog (t : Timer) (s : State) :
    (fireTimer t s).fetchLog = s.fetchLog := by
  cases t <;> simp [fireTimer]


/-! ## The activation loop -/

section
variable (textContent : Markup → String)

/-- Induction over the activation loop: a property kept by each branch of the
loop body and by the normal end of the invocation holds after the loop. -/
theorem processElements_induct (f : Frame) (P : State → Prop)
    (hHit : ∀ s e html, P s → s.cached f.kind f.originalClickLanguage e = some html →
      P (s.setInnerHTML e html))
    (hEmpty : ∀ s e base, P s → s.cached f.kind f.originalClickLanguage e = none →
      s.originalElementHTML.get e = some base → jsTrim (textContent base) = "" →
      P (storeEmpty f e base s))
    (hFetch : ∀ s e rest base, P s → s.cached f.kind f.originalClickLanguage e = none →
      s.originalElementHTML.get e = some base → jsTrim (textContent base) ≠ "" →
      f.thisOperationWouldNeedApi = true → P (issueFetch f e rest (textContent base) s))
    (hFallback : ∀ s e base, P s → s.cached f.kind f.originalClickLanguage e = none →
      s.originalElementHTML.get e = some base → jsTrim (textContent base) ≠ "" →
      f.thisOperationWouldNeedApi = false → P (s.setInnerHTML e base))
    (hFinish : ∀ s, P s → P (finish f false s)) :
    ∀ (l : List Elem) (s : State), P s → P (processElements textContent f l s) := by
  intro l
  induction l with
  | nil => intro s hs; simpa [processElements] using hFinish s hs
  | cons e rest ih =>
    intro s hs
    unfold processElements
    cases hc : s.cached f.kind f.originalClickLanguage e with
    | some html => exact ih _ (hHit s e html hs hc)
    | none =>
      cases ho : s.originalElementHTML.get e with
      | none => exact ih _ hs
      | some base =>
        dsimp only
        by_cases ht : jsTrim (textContent base) = ""
        · rw [if_pos ht]; exact ih _ (hEmpty s e base hs hc ho ht)
        · rw [if_neg ht]
          by_cases hn : f.thisOperationWouldNeedApi = true
          · rw [if_pos hn]; exact hFetch s e rest base hs hc ho ht hn
          · rw [if_neg hn]
            exact ih _ (hFallback s e base hs hc ho ht (by simpa using hn))

/-- A quantity that no branch of the loop changes is the same after the loop. -/
theorem processElements_keeps {α : Type} (π : State → α) (f : Frame)
    (hDom : ∀ s e html, π (s.setInnerHTML e html) = π s)
    (hEmpty : ∀ s e base, π (storeEmpty f e base s) = π s)
    (hFetch : ∀ s e rest text, π (issueFetch f e rest text s) = π s)
    (hFinish : ∀ s, π (finish f false s) = π s)
    (l : List Elem) (s : State) : π (processElements textContent f l s) = π s :=
  processElements_induct textContent f (fun s' => π s' = π s)
    (fun s' e html h _ => (hDom s' e html).trans h)
    (fun s' e base h _ _ _ => (hEmpty s' e base).trans h)
    (fun s' e rest _ h _ _ _ _ => (hFetch s' e rest _).trans h)
    (fun s' e base h _ _ _ _ => (hDom s' e base).trans h)
    (fun s' h => (hFinish s').trans h) l s rfl

end

@[simp] theorem processElements_targetTextElements (textContent : Markup → String) (f : Frame)
    (l : List Elem) (s : State) :
    (processElements textContent f l s).targetTextElements = s.targetTextElements :=
  processElements_keeps textContent (fun s => s.targetTextElements) f (by simp) (by simp) (by simp) (by simp) l s

@[simp] theorem processElements_originalElementHTML (textContent : Markup → String) (f : Frame)
    (l : List Elem) (s : State) :
    (processElements textContent f l s).originalElementHTML = s.originalElementHTML :=
  processElements_keeps textContent (fun s => s.originalElementHTML) f (by simp) (by simp) (by simp) (by simp) l s

@[simp] theorem processElements_currentLanguage (textContent : Markup → String) (f : Frame)
    (l : List Elem) (s : State) :
    (processElements textContent f l s).currentLanguage = s.currentLanguage :=
  processElements_keeps textContent (fun s => s.currentLanguage) f (by simp) (by simp) (by simp) (by simp) l s

@[simp] theorem processElements_uiComplete (textContent : Markup → String) (f : Frame)
    (l : List Elem) (s : State) :
    (processElements textContent f l s).uiComplete = s.uiComplete :=
  processElements_keeps textContent (fun s => s.uiComplete) f (by simp) (by simp) (by simp) (by simp) l s

@[simp] theorem processElements_isShortAnimationActive (textContent : Markup → String) (f : Frame)
    (l : List Elem) (s : State) :
    (processElements textContent f l s).isShortAnimationActive = s.isShortAnimationActive :=
  processElements_keeps textContent (fun s => s.isShortAnimationActive) f (by simp) (by simp) (by simp) (by simp) l s

@[simp] theorem resume_targetTextElements (textContent : Markup → String) (inv : Invocation)
    (r : FetchOutcome) (s : State) :
    (resume textContent inv r s).targetTextElements = s.targetTextElements := by
  unfold resume; split <;> simp

@[simp] theorem resume_originalElementHTML (textContent : Markup → String) (inv : Invocation)
    (r : FetchOutcome) (s : State) :
    (resume textContent inv r s).originalElementHTML = s.originalElementHTML := by
  unfold resume; split <;> simp

@[simp] theorem resume_currentLanguage (textContent : Markup → String) (inv : Invocation)
    (r : FetchOutcome) (s : State) :
    (resume textContent inv r s).currentLanguage = s.currentLanguage := by
  unfold resume; split <;> simp

@[simp] theorem resume_uiComplete (textContent : Markup → String) (inv : Invocation)
    (r : FetchOutcome) (s : State) :
    (resume textContent inv r s).uiComplete = s.uiComplete := by
  unfold resume; split <;> simp

@[simp] theorem resume_isShortAnimationActive (textContent : Markup → String) (inv : Invocation)
    (r : FetchOutcome) (s : State) :
    (resume textContent inv r s).isShortAnimationActive = s.isShortAnimationActive := by
  unfold resume; split <;> simp

@[simp] theorem clickHandler_targetTextElements (textContent : Markup → String) (k : Kind) (s : State) :
    (clickHandler textContent k s).targetTextElements = s.targetTextElements := by
  unfold clickHandler completeClick; dsimp only; repeat' split
  all_goals simp

@[simp] theorem clickHandler_originalElementHTML (textContent : Markup → String) (k : Kind) (s : State) :
    (clickHandler textContent k s).originalElementHTML = s.originalElementHTML := by
  unfold clickHandler completeClick; dsimp only; repeat' split
  all_goals simp

@[simp] theorem clickHandler_currentLanguage (textContent : Markup → String) (k : Kind) (s : State) :
    (clickHandler textContent k s).currentLanguage = s.currentLanguage := by
  unfold clickHandler completeClick; dsimp only; repeat' split
  all_goals simp

@[simp] theorem clickHandler_uiComplete (textContent : Markup → String) (k : Kind) (s : State) :
    (clickHandler textContent k s).uiComplete = s.uiComplete := by
  unfold clickHandler completeClick; dsimp only; repeat' split
  all_goals simp

@[simp] theorem step_targetTextElements (textContent : Markup → String) (s : State) (ev : Event) :
    (step textContent s ev).targetTextElements = s.targetTextElements := by
  cases ev <;> simp only [step]
  · simp
  · simp
  · split <;> simp
  · split <;> simp

@[simp] theorem step_originalElementHTML (textContent : Markup → String) (s : State) (ev : Event) :
    (step textContent s ev).originalElementHTML = s.originalElementHTML := by
  cases ev <;> simp only [step]
  · simp
  · simp
  · split <;> simp
  · split <;> simp

@[simp] theorem step_uiComplete (textContent : Markup → String) (s : State) (ev : Event) :
    (step textContent s ev).uiComplete = s.uiComplete := by
  cases ev <;> simp only [step]
  · simp
  · simp
  · split <;> simp
  · split <;> simp

/-! ## Mutual exclusivity (C1) -/

theorem Exclusive_of_eq {s s' : State}
    (h : s'.activeFeatures_perLang = s.activeFeatures_perLang) (hs : Exclusive s) :
    Exclusive s' := by
  intro lang fs hget
  rw [h] at hget
  exact hs lang fs hget

theorem Exclusive_set {s s' : State} {l : Lang} {v : FeatureStates}
    (h : s'.activeFeatures_perLang = s.activeFeatures_perLang.set l v)
    (hv : ¬ (v.textInBlocks = true ∧ v.simplifiedText = true)) (hs : Exclusive s) :
    Exclusive s' := by
  intro lang' fs hget
  rw [h, JSMap.get_set] at hget
  by_cases hl : l = lang'
  · rw [if_pos hl] at hget
    cases hget
    exact hv
  · rw [if_neg hl] at hget
    exact hs lang' fs hget

theorem features_exclusive {s : State} (hs : Exclusive s) (lang : Lang) :
    ¬ ((s.features lang).textInBlocks = true ∧ (s.features lang).simplifiedText = true) := by
  unfold State.features
  cases hg : s.activeFeatures_perLang.get lang with
  | none => simp [FeatureStates.none]
  | some fs => simpa using hs lang fs hg

theorem newFeatureStates_exclusive (k : Kind) (fs : FeatureStates)
    (h : ¬ (fs.textInBlocks = true ∧ fs.simplifiedText = true)) :
    ¬ ((newFeatureStates k fs).textInBlocks = true ∧
       (newFeatureStates k fs).simplifiedText = true) := by
  obtain ⟨b, c⟩ := fs
  cases k <;> cases b <;> cases c <;>
    simp_all [newFeatureStates, FeatureStates.get, FeatureStates.set, Kind.other]

theorem toggleFeature_activeFeatures_perLang (k : Kind) (s : State) :
    (toggleFeature k s).activeFeatures_perLang =
      s.activeFeatures_perLang.set s.currentLanguage
        (newFeatureStates k (s.features s.currentLanguage)) := by
  unfold toggleFeature
  dsimp only
  split <;> simp

theorem set_false_exclusive (k : Kind) (fs : FeatureStates) :
    ¬ ((fs.set k false).textInBlocks = true ∧ (fs.set k false).simplifiedText = true) := by
  cases k <;> simp [FeatureStates.set]

theorem finish_activeFeatures_perLang (f : Frame) (b : Bool) (s : State) :
    (finish f b s).activeFeatures_perLang =
      if b then (revertActivation f s).activeFeatures_perLang
      else s.activeFeatures_perLang := by
  unfold finish
  split <;> simp

theorem Exclusive_finish (f : Frame) (b : Bool) {s : State} (hs : Exclusive s) :
    Exclusive (finish f b s) := by
  cases b with
  | false => exact Exclusive_of_eq (by simp [finish_activeFeatures_perLang]) hs
  | true =>
    refine Exclusive_set (l := f.originalClickLanguage)
      (v := (s.features f.originalClickLanguage).set f.kind false) ?_
      (set_false_exclusive _ _) hs
    simp [finish_activeFeatures_perLang, revertActivation]

theorem Exclusive_processElements (textContent : Markup → String) (f : Frame)
    (l : List Elem) {s : State} (hs : Exclusive s) :
    Exclusive (processElements textContent f l s) :=
  processElements_induct textContent f Exclusive
    (fun _ _ _ h _ => Exclusive_of_eq (by simp) h)
    (fun _ _ _ h _ _ _ => Exclusive_of_eq (by simp) h)
    (fun _ _ _ _ h _ _ _ _ => Exclusive_of_eq (by simp) h)
    (fun _ _ _ h _ _ _ _ => Exclusive_of_eq (by simp) h)
    (fun _ h => Exclusive_finish f false h) l s hs

theorem Exclusive_toggleFeature (k : Kind) {s : State} (hs : Exclusive s) :
    Exclusive (toggleFeature k s) :=
  Exclusive_set (toggleFeature_activeFeatures_perLang k s)
    (newFeatureStates_exclusive k _ (features_exclusive hs _)) hs

theorem Exclusive_clickHandler (textContent : Markup → String) (k : Kind) {s : State}
    (hs : Exclusive s) : Exclusive (clickHandler textContent k s) := by
  unfold clickHandler completeClick
  dsimp only
  split
  · exact Exclusive_of_eq (by simp) hs
  · have ht := Exclusive_toggleFeature k hs
    split
    · exact Exclusive_processElements textContent _ _
        (Exclusive_of_eq (s := toggleFeature k s) (by simp) ht)
    · exact Exclusive_finish _ _ (Exclusive_of_eq (s := toggleFeature k s) (by simp) ht)

theorem Exclusive_resume (textContent : Markup → String) (inv : Invocation)
    (r : FetchOutcome) {s : State} (hs : Exclusive s) :
    Exclusive (resume textContent inv r s) := by
  unfold resume
  split
  · exact Exclusive_processElements textContent _ _ (Exclusive_of_eq (by simp) hs)
  · exact Exclusive_finish _ _ hs

theorem Exclusive_step (textContent : Markup → String) (ev : Event) {s : State}
    (hs : Exclusive s) : Exclusive (step textContent s ev) := by
  cases ev with
  | click k => exact Exclusive_clickHandler textContent k hs
  | selectLanguage lang => exact Exclusive_of_eq (by simp [step]) hs
  | response i r =>
    simp only [step]
    split
    · exact Exclusive_resume textContent _ _ (Exclusive_of_eq (by simp) hs)
    · exact hs
  | timer i =>
    simp only [step]
    split
    · exact Exclusive_of_eq (by simp) hs
    · exact hs

theorem Exclusive_init (p : Page) : Exclusive (init p) := by
  intro lang fs hget
  simp [init, setupWidgetLogic, JSMap.get] at hget

theorem Exclusive_reachable (textContent : Markup → String) {s : State}
    (h : Reachable textContent s) : Exclusive s := by
  induction h with
  | start p => exact Exclusive_init p
  | next s ev _ ih => exact Exclusive_step textContent ev ih

/-- C1. Mutual exclusivity: in every state reachable from the start state of
any page by any sequence of clicks on the two transformation buttons, language
selections, request outcomes (success or failure) and timer callbacks, no
language has a stored feature state with `textInBlocks` and `simplifiedText`
both true. -/
theorem C1_mutual_exclusivity (textContent : Markup → String) (s : State)
    (h : Reachable textContent s) (lang : Lang) (fs : FeatureStates)
    (hget : s.activeFeatures_perLang.get lang = some fs) :
    ¬ (fs.textInBlocks = true ∧ fs.simplifiedText = true) := by
  exact Exclusive_reachable textContent h lang fs hget

/-- C1, on the page `pageHello`: after text-in-blocks is switched on and then
simplified-text is clicked in the same language, the stored state of `en` is
simplified-text only. -/
theorem C1_mutual_exclusivity_witness :
    (run sampleTextContent (init pageHello)
        [.click .textInBlocks, .click .simplifiedText]).activeFeatures_perLang.get "en"
      = some ⟨false, true⟩ ∧
    ¬ ((⟨false, true⟩ : FeatureStates).textInBlocks = true ∧
       (⟨false, true⟩ : FeatureStates).simplifiedText = true) :=
  ⟨by decide,
   C1_mutual_exclusivity sampleTextContent _
     (Reachable.next _ (.click .simplifiedText)
       (Reachable.next _ (.click .textInBlocks) (Reachable.start pageHello)))
     "en" ⟨false, true⟩ (by decide)⟩

/-! ## Requests outstanding at once (C2, C9) -/

/-- C2, the code at the failing input `partialCacheRun` on `pageAB`: every
click of the run lands on a button that is not disabled, and at the end two
text-in-blocks requests are outstanding at once, one for element 0 in `fr`
(whose invocation holds the ownership) and one for element 1 in `en`. -/
theorem C2_two_requests_outstanding :
    feasible sampleTextContent (init pageAB) partialCacheRun = true ∧
    (run sampleTextContent (init pageAB) partialCacheRun).pending.length = 2 ∧
    (run sampleTextContent (init pageAB) partialCacheRun).pending.map
        (fun inv => (inv.frame.kind, inv.frame.originalClickLanguage, inv.element,
          inv.frame.setProcessingFlagForThisCall))
      = [(Kind.textInBlocks, "fr", 0, true), (Kind.textInBlocks, "en", 1, false)] := by
  decide

/-- C9, the code at the failing input: `partialCacheRun` can be delivered (no
click on a disabled button) and ends with a click on text-in-blocks; in the
state reached by its first six events the ownership is held for
(text-in-blocks, `fr`) and element 1 is not cached for `en`; the activating
click on text-in-blocks in `en` does not take the ownership, and yet it issues
a request for element 1. -/
theorem C9_denied_click_issues_request :
    feasible sampleTextContent (init pageAB) partialCacheRun = true ∧
    partialCacheRun = partialCacheRun.take 6 ++ [.click .textInBlocks] ∧
    (run sampleTextContent (init pageAB) (partialCacheRun.take 6)).isProcessingFeature = true ∧
    (run sampleTextContent (init pageAB) (partialCacheRun.take 6)).activeApiCallDetails
      = some ⟨.textInBlocks, "fr"⟩ ∧
    (run sampleTextContent (init pageAB) (partialCacheRun.take 6)).currentLanguage = "en" ∧
    (run sampleTextContent (init pageAB) (partialCacheRun.take 6)).cached .textInBlocks "en" 1
      = none ∧
    (step sampleTextContent (run sampleTextContent (init pageAB) (partialCacheRun.take 6))
        (.click .textInBlocks)).fetchLog
      = (run sampleTextContent (init pageAB) (partialCacheRun.take 6)).fetchLog ++
        [⟨.textInBlocks, 1, "B", "en"⟩] ∧
    (step sampleTextContent (run sampleTextContent (init pageAB) (partialCacheRun.take 6))
        (.click .textInBlocks)).activeApiCallDetails = some ⟨.textInBlocks, "fr"⟩ := by
  decide

/-! ## The deactivation guard (C3) -/

/-- C3. Deactivation guard: when kind `k` is active for the displayed language
and the request owner is (`k`, displayed language), a click on the button of
`k` is refused: the feature table, both caches, the ownership, the
short-animation flag, the content of every element, the request log and the
set of outstanding requests are unchanged; only the bump class is set on the
button, with a timer to remove it. -/
theorem C3_deactivation_guard (textContent : Markup → String) (k : Kind) (s : State)
    (hproc : s.isProcessingFeature = true)
    (hown : s.activeApiCallDetails = some ⟨k, s.currentLanguage⟩)
    (hact : (s.features s.currentLanguage).get k = true) :
    (step textContent s (.click k)).activeFeatures_perLang = s.activeFeatures_perLang ∧
    (step textContent s (.click k)).cachedChunkedHTML_perLang = s.cachedChunkedHTML_perLang ∧
    (step textContent s (.click k)).cachedSimplifiedText_perLang
      = s.cachedSimplifiedText_perLang ∧
    (step textContent s (.click k)).isProcessingFeature = s.isProcessingFeature ∧
    (step textContent s (.click k)).activeApiCallDetails = s.activeApiCallDetails ∧
    (step textContent s (.click k)).isShortAnimationActive = s.isShortAnimationActive ∧
    (step textContent s (.click k)).innerHTML = s.innerHTML ∧
    (step textContent s (.click k)).fetchLog = s.fetchLog ∧
    (step textContent s (.click k)).pending = s.pending ∧
    ((step textContent s (.click k)).button k).bumpFeedback = true ∧
    (step textContent s (.click k)).timers = s.timers ++ [Timer.bump k] := by
  have hb : deactivationBlocked k s = true := by
    simp [deactivationBlocked, hproc, hown, hact]
  have hs : step textContent s (.click k) = bumpFeedback k s := by
    simp [step, clickHandler, hb]
  rw [hs]
  refine ⟨by simp, by simp, by simp, by simp, by simp, by simp, by simp, by simp, by simp,
    ?_, ?_⟩
  · cases k <;> rfl
  · cases k <;> rfl

/-- C3, on `helloRequested`: text-in-blocks is active for `en` and owns the
outstanding request; a second click on text-in-blocks changes none of the
listed parts of the state. -/
theorem C3_deactivation_guard_witness :
    helloRequested.isProcessingFeature = true ∧
    helloRequested.activeApiCallDetails = some ⟨.textInBlocks, helloRequested.currentLanguage⟩ ∧
    (helloRequested.features helloRequested.currentLanguage).get .textInBlocks = true ∧
    ((step sampleTextContent helloRequested (.click .textInBlocks)).activeFeatures_perLang
        = helloRequested.activeFeatures_perLang ∧
      (step sampleTextContent helloRequested (.click .textInBlocks)).cachedChunkedHTML_perLang
        = helloRequested.cachedChunkedHTML_perLang ∧
      (step sampleTextContent helloRequested (.click .textInBlocks)).cachedSimplifiedText_perLang
        = helloRequested.cachedSimplifiedText_perLang ∧
      (step sampleTextContent helloRequested (.click .textInBlocks)).isProcessingFeature
        = helloRequested.isProcessingFeature ∧
      (step sampleTextContent helloRequested (.click .textInBlocks)).activeApiCallDetails
        = helloRequested.activeApiCallDetails ∧
      (step sampleTextContent helloRequested (.click .textInBlocks)).isShortAnimationActive
        = helloRequested.isShortAnimationActive ∧
      (step sampleTextContent helloRequested (.click .textInBlocks)).innerHTML
        = helloRequested.innerHTML ∧
      (step sampleTextContent helloRequested (.click .textInBlocks)).fetchLog
        = helloRequested.fetchLog ∧
      (step sampleTextContent helloRequested (.click .textInBlocks)).pending
        = helloRequested.pending ∧
      ((step sampleTextContent helloRequested (.click .textInBlocks)).button
        .textInBlocks).bumpFeedback = true ∧
      (step sampleTextContent helloRequested (.click .textInBlocks)).timers
        = helloRequested.timers ++ [Timer.bump .textInBlocks]) :=
  ⟨by decide, by decide, by decide,
   C3_deactivation_guard sampleTextContent .textInBlocks helloRequested
     (by decide) (by decide) (by decide)⟩

/-! ## Loops that write the elements -/

/-- A loop whose body writes to the visited element a value that does not
depend on what the elements show: afterwards each visited element shows its
value, the others are as before. -/
theorem foldl_write (g : State → Elem → State) (w : State → Elem → Option Markup)
    (hg : ∀ s e, g s e = match w s e with
      | some v => s.setInnerHTML e v
      | none => s)
    (hw : ∀ s e' v e, w (s.setInnerHTML e' v) e = w s e) :
    ∀ (l : List Elem) (s : State) (x : Elem),
      (l.foldl g s).innerHTML x =
        if x ∈ l then (w s x).getD (s.innerHTML x) else s.innerHTML x := by
  intro l
  induction l with
  | nil => intro s x; simp
  | cons e t ih =>
    intro s x
    simp only [List.foldl_cons, List.mem_cons]
    rw [ih (g s e) x, hg s e]
    cases hwe : w s e with
    | none =>
      dsimp only
      by_cases hxe : x = e
      · subst hxe
        by_cases hxt : x ∈ t <;> simp [hxt, hwe]
      · by_cases hxt : x ∈ t <;> simp [hxt, hxe]
    | some v =>
      dsimp only
      rw [hw s e v x]
      by_cases hxe : x = e
      · subst hxe
        by_cases hxt : x ∈ t <;> simp [hxt, hwe, State.setInnerHTML]
      · by_cases hxt : x ∈ t <;> simp [hxt, hxe, State.setInnerHTML]

@[simp] theorem setInnerHTML_features (s : State) (e : Elem) (html : Markup) (lang : Lang) :
    (s.setInnerHTML e html).features lang = s.features lang := rfl

@[simp] theorem setInnerHTML_cached (s : State) (e : Elem) (html : Markup) (k : Kind)
    (lang : Lang) (x : Elem) :
    (s.setInnerHTML e html).cached k lang x = s.cached k lang x := by
  cases k <;> rfl

theorem refreshElement_eq (lang : Lang) (s : State) (e : Elem) :
    refreshElement lang s e =
      match (s.originalElementHTML.get e).map (renderedMarkup s lang e) with
      | some v => s.setInnerHTML e v
      | none => s := by
  unfold refreshElement renderedMarkup
  cases s.originalElementHTML.get e with
  | none => rfl
  | some h =>
    dsimp only [Option.map]
    by_cases hb : (s.features lang).textInBlocks = true
    · simp only [hb, if_true]
      cases s.cached .textInBlocks lang e <;> rfl
    · simp only [hb]
      by_cases hs : (s.features lang).simplifiedText = true
      · simp only [hs, if_true]
        cases s.cached .simplifiedText lang e <;> simp
      · simp [hs]

/-- The content of every element after `refreshContentElements`. -/
theorem refreshContentElements_innerHTML (lang : Lang) (s : State) (x : Elem) :
    (refreshContentElements lang s).innerHTML x =
      if x ∈ s.targetTextElements then
        ((s.originalElementHTML.get x).map (renderedMarkup s lang x)).getD (s.innerHTML x)
      else s.innerHTML x :=
  foldl_write (refreshElement lang)
    (fun s e => (s.originalElementHTML.get e).map (renderedMarkup s lang e))
    (refreshElement_eq lang)
    (fun s e' v e => by
      simp only [setInnerHTML_originalElementHTML]
      cases s.originalElementHTML.get e with
      | none => rfl
      | some h => simp [renderedMarkup])
    s.targetTextElements s x

/-- The content of every element after the revert loop. -/
theorem restoreOriginals_innerHTML (s : State) (x : Elem) :
    (restoreOriginals s).innerHTML x =
      if x ∈ s.targetTextElements then (s.originalElementHTML.get x).getD (s.innerHTML x)
      else s.innerHTML x :=
  foldl_write restoreElement (fun s e => s.originalElementHTML.get e)
    (fun _ _ => rfl)
    (fun _ _ _ _ => rfl) s.targetTextElements s x

/-! ## Revert on failure (C4) -/

theorem step_response (textContent : Markup → String) {s : State} {i : Nat}
    {inv : Invocation} (r : FetchOutcome) (h : s.pending.get? i = some inv) :
    step textContent s (.response i r) =
      resume textContent inv r (s.removePending i) := by
  simp only [step, h]

theorem fetchResult_of_not_ok (k : Kind) {r : FetchOutcome} (h : r.ok = false) :
    fetchResult k r = none := by
  cases r with
  | networkError => rfl
  | http status body =>
    simp only [FetchOutcome.ok] at h
    simp [fetchResult, h]

theorem features_congr {s s' : State}
    (h : s'.activeFeatures_perLang = s.activeFeatures_perLang) (lang : Lang) :
    s'.features lang = s.features lang := by
  unfold State.features; rw [h]

theorem FeatureStates.get_set_kind (fs : FeatureStates) (k : Kind) (b : Bool) :
    (fs.set k b).get k = b := by
  cases k <;> rfl

theorem FeatureStates.get_set_other (fs : FeatureStates) (k : Kind) (b : Bool) :
    (fs.set k b).get k.other = fs.get k.other := by
  cases k <;> rfl

theorem renderedMarkup_inactive {s : State} {lang : Lang} (k : Kind)
    (h1 : (s.features lang).get k = false) (h2 : (s.features lang).get k.other = false)
    (e : Elem) (html : Markup) : renderedMarkup s lang e html = html := by
  cases k <;> simp_all [renderedMarkup, FeatureStates.get, Kind.other]

/-- The stored feature state of the click language after a failed invocation. -/
theorem finish_error_get (f : Frame) (s : State) :
    (finish f true s).activeFeatures_perLang.get f.originalClickLanguage =
      some ((s.features f.originalClickLanguage).set f.kind false) := by
  simp [finish_activeFeatures_perLang, revertActivation, JSMap.get_set_self]

/-- The content of the elements after an invocation ends while its click
language is displayed. -/
theorem finish_innerHTML_displayed (f : Frame) (b : Bool) (s : State)
    (hl : f.originalClickLanguage = s.currentLanguage) (x : Elem) (hx : x ∈ s.targetTextElements)
    (html : Markup) (ho : s.originalElementHTML.get x = some html) :
    (finish f b s).innerHTML x = renderedMarkup (finish f b s) s.currentLanguage x html := by
  have hr : ∀ s2 : State, s2.currentLanguage = s.currentLanguage →
      s2.targetTextElements = s.targetTextElements →
      s2.originalElementHTML = s.originalElementHTML →
      (refreshIfDisplayed f.originalClickLanguage s2).innerHTML x
        = renderedMarkup (refreshIfDisplayed f.originalClickLanguage s2) s.currentLanguage x html := by
    intro s2 h1 h2 h3
    have hd : refreshIfDisplayed f.originalClickLanguage s2
        = refreshContentElements s2.currentLanguage s2 := by
      unfold refreshIfDisplayed; rw [if_pos (hl.trans h1.symm)]
    rw [hd, refreshContentElements_innerHTML, h2, if_pos hx, h3, ho, h1]
    simp [renderedMarkup, State.features, State.cached, State.cache]
  unfold finish
  exact hr _ (by split <;> simp) (by split <;> simp) (by split <;> simp)

/-- C4. Revert on failure: when the outcome of a request issued by an
activation of kind K for language L is a transport failure or a non-2xx status
(`r.ok = false`, e.g. HTTP 500), then after the step that delivers it the
stored feature state of L has K false; and if L is the displayed language and
the other kind is not active for L, every tracked element with a captured
original shows exactly its original markup. -/
theorem C4_revert_on_failure (textContent : Markup → String) (s : State) (i : Nat)
    (inv : Invocation) (r : FetchOutcome)
    (hinv : s.pending.get? i = some inv) (hfail : r.ok = false) :
    (∃ fs, (step textContent s (.response i r)).activeFeatures_perLang.get
        inv.frame.originalClickLanguage = some fs ∧ fs.get inv.frame.kind = false) ∧
    ((step textContent s (.response i r)).currentLanguage = inv.frame.originalClickLanguage →
      ((step textContent s (.response i r)).features
        inv.frame.originalClickLanguage).get inv.frame.kind.other = false →
      ∀ e ∈ (step textContent s (.response i r)).targetTextElements, ∀ html,
        (step textContent s (.response i r)).originalElementHTML.get e = some html →
        (step textContent s (.response i r)).innerHTML e = html) := by
  have hstep : step textContent s (.response i r) =
      finish inv.frame true (s.removePending i) := by
    rw [step_response textContent r hinv]
    simp [resume, fetchResult_of_not_ok inv.frame.kind hfail]
  rw [hstep]
  generalize s.removePending i = s0
  have hget := finish_error_get inv.frame s0
  refine ⟨⟨_, hget, FeatureStates.get_set_kind _ _ _⟩, ?_⟩
  intro hl hother e he html ho
  simp only [finish_currentLanguage, finish_targetTextElements,
    finish_originalElementHTML] at hl he ho
  have hk : ((finish inv.frame true s0).features
      inv.frame.originalClickLanguage).get inv.frame.kind = false := by
    simp [State.features, hget, FeatureStates.get_set_kind]
  rw [finish_innerHTML_displayed inv.frame true _ hl.symm e he html ho, hl]
  exact renderedMarkup_inactive inv.frame.kind hk hother e html

/-- C4, on `helloRequested`: the outstanding text-in-blocks request for the
element of `pageHello` returns HTTP 500. -/
theorem C4_revert_on_failure_witness :
    helloRequested.pending.get? 0 = some ⟨⟨.textInBlocks, "en", true, true, true, false⟩, 0, []⟩ ∧
    (FetchOutcome.http 500 .invalid).ok = false ∧
    ((∃ fs, (step sampleTextContent helloRequested
          (.response 0 (.http 500 .invalid))).activeFeatures_perLang.get "en" = some fs ∧
        fs.get .textInBlocks = false) ∧
      ((step sampleTextContent helloRequested
          (.response 0 (.http 500 .invalid))).currentLanguage = "en" →
        ((step sampleTextContent helloRequested
          (.response 0 (.http 500 .invalid))).features "en").get Kind.simplifiedText = false →
        ∀ e ∈ (step sampleTextContent helloRequested
            (.response 0 (.http 500 .invalid))).targetTextElements, ∀ html,
          (step sampleTextContent helloRequested
            (.response 0 (.http 500 .invalid))).originalElementHTML.get e = some html →
          (step sampleTextContent helloRequested
            (.response 0 (.http 500 .invalid))).innerHTML e = html)) :=
  ⟨by decide, by decide,
   C4_revert_on_failure sampleTextContent helloRequested 0
     ⟨⟨.textInBlocks, "en", true, true, true, false⟩, 0, []⟩ (.http 500 .invalid)
     (by decide) (by decide)⟩

/-! ## No request for an element without text (C6) -/

section
variable (textContent : Markup → String)

theorem LogSound_of_eq {s s' : State} (hf : s'.fetchLog = s.fetchLog)
    (ho : s'.originalElementHTML = s.originalElementHTML) (hs : LogSound textContent s) :
    LogSound textContent s' := by
  intro r hr
  rw [hf] at hr
  rw [ho]
  exact hs r hr

theorem LogSound_issueFetch (f : Frame) (e : Elem) (rest : List Elem) {s : State}
    {base : Markup} (ho : s.originalElementHTML.get e = some base)
    (ht : jsTrim (textContent base) ≠ "") (hs : LogSound textContent s) :
    LogSound textContent (issueFetch f e rest (textContent base) s) := by
  intro r hr
  simp only [issueFetch, List.mem_append, List.mem_singleton] at hr
  rcases hr with hr | hr
  · exact hs r hr
  · subst hr
    exact ⟨base, ho, ht, rfl⟩

theorem LogSound_processElements (f : Frame) (l : List Elem) {s : State}
    (hs : LogSound textContent s) : LogSound textContent (processElements textContent f l s) :=
  processElements_induct textContent f (LogSound textContent)
    (fun _ _ _ h _ => LogSound_of_eq textContent (by simp) (by simp) h)
    (fun _ _ _ h _ _ _ => LogSound_of_eq textContent (by simp) (by simp) h)
    (fun _ e rest _ h _ ho ht _ => LogSound_issueFetch textContent f e rest ho ht h)
    (fun _ _ _ h _ _ _ _ => LogSound_of_eq textContent (by simp) (by simp) h)
    (fun _ h => LogSound_of_eq textContent (by simp) (by simp) h) l s hs

theorem LogSound_clickHandler (k : Kind) {s : State} (hs : LogSound textContent s) :
    LogSound textContent (clickHandler textContent k s) := by
  unfold clickHandler completeClick
  dsimp only
  split
  · exact LogSound_of_eq textContent (by simp) (by simp) hs
  · split
    · exact LogSound_processElements textContent _ _
        (LogSound_of_eq textContent (s := s) (by simp) (by simp) hs)
    · exact LogSound_of_eq textContent (by simp) (by simp) hs

theorem LogSound_resume (inv : Invocation) (r : FetchOutcome) {s : State}
    (hs : LogSound textContent s) : LogSound textContent (resume textContent inv r s) := by
  unfold resume
  split
  · exact LogSound_processElements textContent _ _
      (LogSound_of_eq textContent (by simp) (by simp) hs)
  · exact LogSound_of_eq textContent (by simp) (by simp) hs

theorem LogSound_step (ev : Event) {s : State} (hs : LogSound textContent s) :
    LogSound textContent (step textContent s ev) := by
  cases ev with
  | click k => exact LogSound_clickHandler textContent k hs
  | selectLanguage lang => exact LogSound_of_eq textContent (by simp [step]) (by simp [step]) hs
  | response i r =>
    simp only [step]
    split
    · exact LogSound_resume textContent _ _ (LogSound_of_eq textContent (by simp) (by simp) hs)
    · exact hs
  | timer i =>
    simp only [step]
    split
    · exact LogSound_of_eq textContent (by simp) (by simp) hs
    · exact hs

theorem LogSound_init (p : Page) : LogSound textContent (init p) := by
  intro r hr
  simp [init, setupWidgetLogic] at hr

theorem LogSound_reachable {s : State} (h : Reachable textContent s) :
    LogSound textContent s := by
  induction h with
  | start p => exact LogSound_init textContent p
  | next s ev _ ih => exact LogSound_step textContent ev ih

end

/-- C6. Empty-text fast path: in every reachable state, every request that was
ever issued (for either kind and any language) is for an element whose captured
original has non-empty text after the markup-to-text conversion and trimming;
so no request is ever issued for an element whose original text is empty. -/
theorem C6_empty_text_never_requested (textContent : Markup → String) (s : State)
    (h : Reachable textContent s) (r : Request) (hr : r ∈ s.fetchLog) (html : Markup)
    (ho : s.originalElementHTML.get r.element = some html) :
    jsTrim (textContent html) ≠ "" := by
  obtain ⟨html', ho', ht, _⟩ := LogSound_reachable textContent h r hr
  rw [ho] at ho'
  cases ho'
  exact ht

/-- C6, on `helloRequested`: the one request issued so far is for the element
whose original text is `Hello world`. -/
theorem C6_empty_text_never_requested_witness :
    (⟨.textInBlocks, 0, "Hello world", "en"⟩ : Request) ∈ helloRequested.fetchLog ∧
    helloRequested.originalElementHTML.get 0 = some "Hello world" ∧
    jsTrim (sampleTextContent "Hello world") ≠ "" :=
  ⟨by decide, by decide,
   C6_empty_text_never_requested sampleTextContent helloRequested
     (Reachable.next _ (.click .textInBlocks) (Reachable.start pageHello))
     ⟨.textInBlocks, 0, "Hello world", "en"⟩ (by decide) "Hello world" (by decide)⟩

/-! ## Activation while the other kind is active (C8) -/

@[simp] theorem processElements_activeFeatures_perLang (textContent : Markup → String)
    (f : Frame) (l : List Elem) (s : State) :
    (processElements textContent f l s).activeFeatures_perLang = s.activeFeatures_perLang :=
  processElements_keeps textContent (fun s => s.activeFeatures_perLang) f
    (by simp) (by simp) (by simp) (by simp [finish_activeFeatures_perLang]) l s

@[simp] theorem completeClick_activeFeatures_perLang (textContent : Markup → String)
    (k : Kind) (a : Bool) (lang : Lang) (s : State) :
    (completeClick textContent k a lang s).activeFeatures_perLang
      = s.activeFeatures_perLang := by
  unfold completeClick
  dsimp only
  split <;> simp [finish_activeFeatures_perLang]

theorem features_toggleFeature (k : Kind) (s : State) :
    (toggleFeature k s).features s.currentLanguage
      = newFeatureStates k (s.features s.currentLanguage) := by
  simp [State.features, toggleFeature_activeFeatures_perLang, JSMap.get_set_self]

theorem clickHandler_of_inactive (textContent : Markup → String) (k : Kind) (s : State)
    (hk : (s.features s.currentLanguage).get k = false) :
    clickHandler textContent k s
      = completeClick textContent k true s.currentLanguage (toggleFeature k s) := by
  have hb : deactivationBlocked k s = false := by simp [deactivationBlocked, hk]
  simp [clickHandler, hb, hk]

/-- C8. Scenario B generalised: an activating click on kind `k` in the
displayed language L while the other kind is active for L first runs the
mutual-exclusivity block, whose result `toggleFeature k s` has issued no request
yet, has `k` true and the other kind false for L, and shows in every tracked
element with a captured original exactly its original markup; the rest of the
click (`completeClick`, where requests are issued) runs on that state, and
leaves the feature state of L as the block set it. -/
theorem C8_activation_reverts_other (textContent : Markup → String) (k : Kind) (s : State)
    (hk : (s.features s.currentLanguage).get k = false)
    (ho : (s.features s.currentLanguage).get k.other = true) :
    step textContent s (.click k)
      = completeClick textContent k true s.currentLanguage (toggleFeature k s) ∧
    (toggleFeature k s).fetchLog = s.fetchLog ∧
    (toggleFeature k s).pending = s.pending ∧
    ((toggleFeature k s).features s.currentLanguage).get k = true ∧
    ((toggleFeature k s).features s.currentLanguage).get k.other = false ∧
    (∀ e ∈ s.targetTextElements, ∀ html, s.originalElementHTML.get e = some html →
      (toggleFeature k s).innerHTML e = html) ∧
    ((step textContent s (.click k)).features s.currentLanguage).get k = true ∧
    ((step textContent s (.click k)).features s.currentLanguage).get k.other = false := by
  have hstep : step textContent s (.click k)
      = completeClick textContent k true s.currentLanguage (toggleFeature k s) :=
    clickHandler_of_inactive textContent k s hk
  have hnew : newFeatureStates k (s.features s.currentLanguage)
      = ((s.features s.currentLanguage).set k.other false).set k true := by
    simp [newFeatureStates, hk, ho]
  have h1 : ((toggleFeature k s).features s.currentLanguage).get k = true := by
    rw [features_toggleFeature, hnew, FeatureStates.get_set_kind]
  have h2 : ((toggleFeature k s).features s.currentLanguage).get k.other = false := by
    rw [features_toggleFeature, hnew, FeatureStates.get_set_other]
    cases k <;> rfl
  have hf : (step textContent s (.click k)).features s.currentLanguage
      = (toggleFeature k s).features s.currentLanguage := by
    rw [hstep]; exact features_congr (by simp) _
  refine ⟨hstep, by simp, by simp, h1, h2, ?_, by rw [hf]; exact h1, by rw [hf]; exact h2⟩
  intro e he html hoe
  have hdom : (toggleFeature k s).innerHTML = (restoreOriginals s).innerHTML := by
    simp [toggleFeature, hk, ho]
  rw [hdom, restoreOriginals_innerHTML, if_pos he, hoe]
  rfl

/-- C8, on `helloBlocks` (Scenario B): text-in-blocks is active for `en` and
simplified-text is clicked. -/
theorem C8_activation_reverts_other_witness :
    (helloBlocks.features helloBlocks.currentLanguage).get .simplifiedText = false ∧
    (helloBlocks.features helloBlocks.currentLanguage).get Kind.simplifiedText.other = true ∧
    helloBlocks.innerHTML 0 = "Hello<br><br>world" ∧
    (step sampleTextContent helloBlocks (.click .simplifiedText)
        = completeClick sampleTextContent .simplifiedText true helloBlocks.currentLanguage
            (toggleFeature .simplifiedText helloBlocks) ∧
      (toggleFeature .simplifiedText helloBlocks).fetchLog = helloBlocks.fetchLog ∧
      (toggleFeature .simplifiedText helloBlocks).pending = helloBlocks.pending ∧
      ((toggleFeature .simplifiedText helloBlocks).features
        helloBlocks.currentLanguage).get .simplifiedText = true ∧
      ((toggleFeature .simplifiedText helloBlocks).features
        helloBlocks.currentLanguage).get Kind.simplifiedText.other = false ∧
      (∀ e ∈ helloBlocks.targetTextElements, ∀ html,
        helloBlocks.originalElementHTML.get e = some html →
        (toggleFeature .simplifiedText helloBlocks).innerHTML e = html) ∧
      ((step sampleTextContent helloBlocks (.click .simplifiedText)).features
        helloBlocks.currentLanguage).get .simplifiedText = true ∧
      ((step sampleTextContent helloBlocks (.click .simplifiedText)).features
        helloBlocks.currentLanguage).get Kind.simplifiedText.other = false) :=
  ⟨by decide, by decide, by decide,
   C8_activation_reverts_other sampleTextContent .simplifiedText helloBlocks
     (by decide) (by decide)⟩

/-! ## Cache entries under the cache writes -/

theorem cached_cachePut (s : State) (k : Kind) (lang : Lang) (e : Elem) (html : Markup)
    (k' : Kind) (lang' : Lang) (e' : Elem) :
    (s.cachePut k lang e html).cached k' lang' e' =
      if k' = k ∧ lang' = lang ∧ e' = e then some html else s.cached k' lang' e' := by
  by_cases hk : k' = k
  · subst hk
    have hc : (s.cachePut k' lang e html).cache k'
        = (s.cache k').set lang ((((s.cache k').get lang).getD []).set e html) := by
      cases k' <;> rfl
    unfold State.cached
    rw [hc, JSMap.get_set]
    by_cases hl : lang = lang'
    · subst hl
      rw [if_pos rfl, Option.some_bind, JSMap.get_set]
      by_cases he : e = e'
      · subst he; simp
      · have he' : ¬ e' = e := fun h => he h.symm
        simp only [he, he', if_false, and_false]
        cases (s.cache k').get lang <;> simp [JSMap.get]
    · have hl' : ¬ lang' = lang := fun h => hl h.symm
      simp [hl, hl']
  · have hc : (s.cachePut k lang e html).cache k' = s.cache k' := by
      cases k <;> cases k' <;> first | rfl | exact absurd rfl hk
    unfold State.cached
    rw [hc]
    simp [hk]

theorem cached_ensureLangCache (k : Kind) (lang : Lang) (s : State) (k' : Kind)
    (lang' : Lang) (e : Elem) :
    (ensureLangCache k lang s).cached k' lang' e = s.cached k' lang' e := by
  unfold ensureLangCache
  cases hg : (s.cache k).get lang with
  | some m => rfl
  | none =>
    dsimp only
    by_cases hk : k' = k
    · subst hk
      have hc : (s.setCache k' ((s.cache k').set lang [])).cache k'
          = (s.cache k').set lang [] := by cases k' <;> rfl
      unfold State.cached
      rw [hc, JSMap.get_set]
      by_cases hl : lang = lang'
      · subst hl; simp [hg, JSMap.get]
      · simp [hl]
    · have hc : (s.setCache k ((s.cache k).set lang [])).cache k' = s.cache k' := by
        cases k <;> cases k' <;> first | rfl | exact absurd rfl hk
      unfold State.cached
      rw [hc]

theorem cached_congr {s s' : State}
    (h1 : s'.cachedChunkedHTML_perLang = s.cachedChunkedHTML_perLang)
    (h2 : s'.cachedSimplifiedText_perLang = s.cachedSimplifiedText_perLang)
    (k : Kind) (lang : Lang) (e : Elem) : s'.cached k lang e = s.cached k lang e := by
  cases k
  · simp [State.cached, State.cache, h1]
  · simp [State.cached, State.cache, h2]

/-! ## The loop up to its first request -/

theorem SameControl.same_refl (s : State) : SameControl s s := by
  constructor <;> rfl

theorem SameControl.chain {s s' s'' : State} (h1 : SameControl s s')
    (h2 : SameControl s' s'') : SameControl s s'' := by
  obtain ⟨a1, a2, a3, a4, a5, a6, a7, a8, a9, a10, a11, a12, a13, a14⟩ := h1
  obtain ⟨b1, b2, b3, b4, b5, b6, b7, b8, b9, b10, b11, b12, b13, b14⟩ := h2
  constructor <;> simp_all

theorem SameControl_setInnerHTML (s : State) (e : Elem) (html : Markup) :
    SameControl s (s.setInnerHTML e html) := by
  constructor <;> simp

theorem SameControl_storeEmpty (f : Frame) (e : Elem) (html : Markup) (s : State) :
    SameControl s (storeEmpty f e html s) := by
  constructor <;> simp

theorem SameControl_storeResult (inv : Invocation) (html : Markup) (s : State) :
    SameControl s (storeResult inv html s) := by
  constructor <;> simp

theorem SameControl_ensureLangCache (k : Kind) (lang : Lang) (s : State) :
    SameControl s (ensureLangCache k lang s) := by
  constructor <;> simp

section
variable (textContent : Markup → String)

theorem elementNeedsApi_iff (k : Kind) (lang : Lang) (s : State) (e : Elem) :
    elementNeedsApi textContent k lang s e = true ↔
      s.cached k lang e = none ∧
      ∃ html, s.originalElementHTML.get e = some html ∧ jsTrim (textContent html) ≠ "" := by
  unfold elementNeedsApi
  cases s.cached k lang e with
  | some v => simp
  | none =>
    cases s.originalElementHTML.get e with
    | none => simp
    | some html => simp

theorem cached_storeEmpty (f : Frame) (e : Elem) (html : Markup) (s : State) (k : Kind)
    (lang : Lang) (x : Elem) :
    (storeEmpty f e html s).cached k lang x =
      if k = f.kind ∧ lang = f.originalClickLanguage ∧ x = e then some html
      else s.cached k lang x := by
  unfold storeEmpty
  dsimp only
  split
  · rw [setInnerHTML_cached, cached_cachePut]
  · rw [cached_cachePut]

/-- When the scan of the remaining elements finds one that needs a request and
the invocation was judged to need the API, the loop runs up to a request: its
result is a request issued from a state that differs from the start only in
element contents and cache entries. -/
theorem processElements_suspends (f : Frame) (hn : f.thisOperationWouldNeedApi = true) :
    ∀ (l : List Elem) (s : State),
      (∃ x ∈ l, elementNeedsApi textContent f.kind f.originalClickLanguage s x = true) →
      ∃ e rest base s', processElements textContent f l s
          = issueFetch f e rest (textContent base) s' ∧ SameControl s s' := by
  intro l
  induction l with
  | nil => intro s ⟨x, hx, _⟩; cases hx
  | cons e t ih =>
    intro s ⟨x, hx, hneed⟩
    rw [elementNeedsApi_iff] at hneed
    obtain ⟨hxc, hx_html, hxo, hxt⟩ := hneed
    unfold processElements
    cases hc : s.cached f.kind f.originalClickLanguage e with
    | some html =>
      dsimp only
      have hne : x ≠ e := fun h => by rw [h, hc] at hxc; cases hxc
      have hxt' : x ∈ t := by
        rcases List.mem_cons.mp hx with h | h
        · exact absurd h hne
        · exact h
      obtain ⟨e', rest, base, s', h1, h2⟩ := ih (s.setInnerHTML e html)
        ⟨x, hxt', (elementNeedsApi_iff textContent _ _ _ _).mpr
          ⟨by simpa using hxc, hx_html, by simpa using hxo, hxt⟩⟩
      exact ⟨e', rest, base, s', h1, (SameControl_setInnerHTML s e html).chain h2⟩
    | none =>
      cases ho : s.originalElementHTML.get e with
      | none =>
        dsimp only
        have hne : x ≠ e := fun h => by rw [h, ho] at hxo; cases hxo
        have hxt' : x ∈ t := by
          rcases List.mem_cons.mp hx with h | h
          · exact absurd h hne
          · exact h
        exact ih s ⟨x, hxt', (elementNeedsApi_iff textContent _ _ _ _).mpr
          ⟨hxc, hx_html, hxo, hxt⟩⟩
      | some base =>
        dsimp only
        by_cases ht : jsTrim (textContent base) = ""
        · rw [if_pos ht]
          have hne : x ≠ e := fun h => by
            rw [h, ho] at hxo; cases hxo; exact hxt ht
          have hxt' : x ∈ t := by
            rcases List.mem_cons.mp hx with h | h
            · exact absurd h hne
            · exact h
          obtain ⟨e', rest, base', s', h1, h2⟩ := ih (storeEmpty f e base s)
            ⟨x, hxt', (elementNeedsApi_iff textContent _ _ _ _).mpr
              ⟨by rw [cached_storeEmpty]; simp [hne, hxc], hx_html, by simpa using hxo, hxt⟩⟩
          exact ⟨e', rest, base', s', h1, (SameControl_storeEmpty f e base s).chain h2⟩
        · rw [if_neg ht, if_pos hn]
          exact ⟨e, t, base, s, rfl, SameControl.same_refl s⟩

end

/-! ## Taking the request ownership (C10) -/

theorem OwnershipConsistent_of_eq {s s' : State}
    (h1 : s'.isProcessingFeature = s.isProcessingFeature)
    (h2 : s'.activeApiCallDetails = s.activeApiCallDetails) (hs : OwnershipConsistent s) :
    OwnershipConsistent s' := by
  unfold OwnershipConsistent at *
  rw [h1, h2, hs]

theorem OwnershipConsistent_acquire (k : Kind) (lang : Lang) (a n : Bool) {s : State}
    (hs : OwnershipConsistent s) : OwnershipConsistent (acquire k lang a n s).1 := by
  unfold acquire
  split
  · split
    · rfl
    · exact hs
  · split
    · exact hs
    · exact hs

theorem OwnershipConsistent_finish (f : Frame) (b : Bool) {s : State}
    (hs : OwnershipConsistent s) : OwnershipConsistent (finish f b s) := by
  have hr : ∀ s1 : State, OwnershipConsistent s1 →
      OwnershipConsistent (releaseOrAnimate f s1) := by
    intro s1 h1
    unfold releaseOrAnimate
    split
    · exact OwnershipConsistent_of_eq (s := releaseOwnership s1) (by simp) (by simp) rfl
    · split
      · exact h1
      · exact OwnershipConsistent_of_eq (by simp) (by simp) h1
  unfold finish
  refine OwnershipConsistent_of_eq
    (s := releaseOrAnimate f (if b = true then revertActivation f s else s))
    (by simp) (by simp) (hr _ ?_)
  split
  · exact OwnershipConsistent_of_eq (s := s) (by simp) (by simp) hs
  · exact hs

theorem OwnershipConsistent_processElements (textContent : Markup → String) (f : Frame)
    (l : List Elem) {s : State} (hs : OwnershipConsistent s) :
    OwnershipConsistent (processElements textContent f l s) :=
  processElements_induct textContent f OwnershipConsistent
    (fun _ _ _ h _ => OwnershipConsistent_of_eq (by simp) (by simp) h)
    (fun _ _ _ h _ _ _ => OwnershipConsistent_of_eq (by simp) (by simp) h)
    (fun _ _ _ _ h _ _ _ _ => OwnershipConsistent_of_eq (by simp) (by simp) h)
    (fun _ _ _ h _ _ _ _ => OwnershipConsistent_of_eq (by simp) (by simp) h)
    (fun _ h => OwnershipConsistent_finish f false h) l s hs

theorem OwnershipConsistent_completeClick (textContent : Markup → String) (k : Kind)
    (a : Bool) (lang : Lang) {s : State} (hs : OwnershipConsistent s) :
    OwnershipConsistent (completeClick textContent k a lang s) := by
  unfold completeClick
  dsimp only
  have ha := OwnershipConsistent_acquire k lang a
    (a && scanNeedsApi textContent k lang s) hs
  split
  · exact OwnershipConsistent_processElements textContent _ _
      (OwnershipConsistent_of_eq
        (s := (acquire k lang a (a && scanNeedsApi textContent k lang s) s).1)
        (by simp) (by simp) ha)
  · exact OwnershipConsistent_finish _ _
      (OwnershipConsistent_of_eq
        (s := (acquire k lang a (a && scanNeedsApi textContent k lang s) s).1)
        (by simp) (by simp) ha)

theorem OwnershipConsistent_step (textContent : Markup → String) (ev : Event) {s : State}
    (hs : OwnershipConsistent s) : OwnershipConsistent (step textContent s ev) := by
  cases ev with
  | click k =>
    simp only [step]
    unfold clickHandler
    split
    · exact OwnershipConsistent_of_eq (s := s) (by simp) (by simp) hs
    · exact OwnershipConsistent_completeClick textContent k _ _
        (OwnershipConsistent_of_eq (s := s) (by simp) (by simp) hs)
  | selectLanguage lang =>
    exact OwnershipConsistent_of_eq (s := s) (by simp [step]) (by simp [step]) hs
  | response i r =>
    simp only [step]
    split
    · unfold resume
      split
      · exact OwnershipConsistent_processElements textContent _ _
          (OwnershipConsistent_of_eq (s := s) (by simp) (by simp) hs)
      · exact OwnershipConsistent_finish _ _
          (OwnershipConsistent_of_eq (s := s) (by simp) (by simp) hs)
    · exact hs
  | timer i =>
    simp only [step]
    split
    · exact OwnershipConsistent_of_eq (s := s) (by simp) (by simp) hs
    · exact hs

theorem OwnershipConsistent_reachable (textContent : Markup → String) {s : State}
    (h : Reachable textContent s) : OwnershipConsistent s := by
  induction h with
  | start p =>
    exact OwnershipConsistent_of_eq (s := releaseOwnership (init p))
      (by simp [init, setupWidgetLogic]) (by simp [init, setupWidgetLogic]) rfl
  | next s ev _ ih => exact OwnershipConsistent_step textContent ev ih

theorem elementNeedsApi_congr (textContent : Markup → String) {s s' : State}
    (ho : s'.originalElementHTML = s.originalElementHTML)
    (hc : ∀ k lang e, s'.cached k lang e = s.cached k lang e) (k : Kind) (lang : Lang)
    (e : Elem) :
    elementNeedsApi textContent k lang s' e = elementNeedsApi textContent k lang s e := by
  unfold elementNeedsApi
  rw [hc, ho]

theorem scanNeedsApi_congr (textContent : Markup → String) {s s' : State}
    (ht : s'.targetTextElements = s.targetTextElements)
    (ho : s'.originalElementHTML = s.originalElementHTML)
    (hc : ∀ k lang e, s'.cached k lang e = s.cached k lang e) (k : Kind) (lang : Lang) :
    scanNeedsApi textContent k lang s' = scanNeedsApi textContent k lang s := by
  unfold scanNeedsApi
  rw [ht]
  congr 1
  funext e
  exact elementNeedsApi_congr textContent ho hc k lang e

theorem acquire_snd (k : Kind) (lang : Lang) (a n : Bool) (s : State) :
    (acquire k lang a n s).2 =
      ⟨k, lang, a, n, n && !s.isProcessingFeature, !n && a⟩ := by
  unfold acquire
  cases n <;> cases a <;> cases s.isProcessingFeature <;> rfl

theorem acquire_need_isProcessingFeature (k : Kind) (lang : Lang) (a : Bool) (s : State) :
    (acquire k lang a true s).1.isProcessingFeature = true := by
  unfold acquire
  cases h : s.isProcessingFeature <;> simp [h]

theorem acquire_need_activeApiCallDetails (k : Kind) (lang : Lang) (a : Bool) (s : State) :
    (acquire k lang a true s).1.activeApiCallDetails =
      if s.isProcessingFeature then s.activeApiCallDetails else some ⟨k, lang⟩ := by
  unfold acquire
  cases h : s.isProcessingFeature <;> simp [h]

theorem scanNeedsApi_eq_true (textContent : Markup → String) (k : Kind) (lang : Lang)
    (s : State) :
    scanNeedsApi textContent k lang s = true ↔
      ∃ x ∈ s.targetTextElements, elementNeedsApi textContent k lang s x = true := by
  unfold scanNeedsApi
  simp [List.any_eq_true]

/-- An activating click that needs the API ends at a request: the state it
leaves is a request issued, by the frame of the acquisition block, from a state
that differs from the one the presenter left only in element contents and
cache entries. -/
theorem clickHandler_needs_api (textContent : Markup → String) (k : Kind) (s : State)
    (hk : (s.features s.currentLanguage).get k = false)
    (hneed : scanNeedsApi textContent k s.currentLanguage s = true) :
    ∃ e rest base s', clickHandler textContent k s
        = issueFetch (acquire k s.currentLanguage true true (toggleFeature k s)).2
            e rest (textContent base) s' ∧
      SameControl (updateFeatureButtonStates s.currentLanguage
        (acquire k s.currentLanguage true true (toggleFeature k s)).1) s' := by
  have hscan : scanNeedsApi textContent k s.currentLanguage (toggleFeature k s) = true := by
    rw [scanNeedsApi_congr textContent (s := s) (by simp) (by simp)
      (fun _ _ _ => cached_congr (by simp) (by simp) _ _ _)]
    exact hneed
  rw [clickHandler_of_inactive textContent k s hk]
  unfold completeClick
  simp only [hscan, Bool.and_self, if_true, acquire_currentLanguage,
    toggleFeature_currentLanguage, updateFeatureButtonStates_targetTextElements,
    acquire_targetTextElements, toggleFeature_targetTextElements]
  obtain ⟨x, hx, hxn⟩ := (scanNeedsApi_eq_true textContent k _ s).mp hneed
  have hfk : (acquire k s.currentLanguage true true (toggleFeature k s)).2.kind = k := by
    rw [acquire_snd]
  have hfl : (acquire k s.currentLanguage true true (toggleFeature k s)).2.originalClickLanguage
      = s.currentLanguage := by rw [acquire_snd]
  have hfn : (acquire k s.currentLanguage true true
      (toggleFeature k s)).2.thisOperationWouldNeedApi = true := by rw [acquire_snd]
  obtain ⟨e, rest, base, s', h1, h2⟩ := processElements_suspends textContent
    (acquire k s.currentLanguage true true (toggleFeature k s)).2 hfn s.targetTextElements
    (ensureLangCache k s.currentLanguage (updateFeatureButtonStates s.currentLanguage
      (acquire k s.currentLanguage true true (toggleFeature k s)).1))
    ⟨x, hx, by
      rw [hfk, hfl, elementNeedsApi_congr textContent (s := s) (by simp)
        (fun _ _ _ => by
          rw [cached_ensureLangCache]
          exact cached_congr (by simp) (by simp) _ _ _)]
      exact hxn⟩
  exact ⟨e, rest, base, s', h1, (SameControl_ensureLangCache _ _ _).chain h2⟩

/-- C10. Try-acquire: an activating click on kind `k` that needs a remote call
(the scan finds an element to request) queues one invocation for (`k`,
displayed language), and that invocation takes the request ownership if and
only if no ownership was held before the click. If none was held the ownership
becomes (`k`, displayed language); if one was held, flag and details are left
exactly as they were. In every reachable state the flag is set exactly when
the details hold a (kind, language) pair: the ownership is none or one pair. -/
theorem C10_try_acquire (textContent : Markup → String) (k : Kind) (s : State)
    (hk : (s.features s.currentLanguage).get k = false)
    (hneed : scanNeedsApi textContent k s.currentLanguage s = true) :
    (∃ inv, (step textContent s (.click k)).pending = s.pending ++ [inv] ∧
      inv.frame.kind = k ∧ inv.frame.originalClickLanguage = s.currentLanguage ∧
      (inv.frame.setProcessingFlagForThisCall = true ↔ s.isProcessingFeature = false)) ∧
    (s.isProcessingFeature = false →
      (step textContent s (.click k)).isProcessingFeature = true ∧
      (step textContent s (.click k)).activeApiCallDetails = some ⟨k, s.currentLanguage⟩) ∧
    (s.isProcessingFeature = true →
      (step textContent s (.click k)).isProcessingFeature = true ∧
      (step textContent s (.click k)).activeApiCallDetails = s.activeApiCallDetails) ∧
    (∀ s', Reachable textContent s' →
      s'.isProcessingFeature = s'.activeApiCallDetails.isSome) := by
  obtain ⟨e, rest, base, s', h1, h2⟩ := clickHandler_needs_api textContent k s hk hneed
  have hstep : step textContent s (.click k) = issueFetch
      (acquire k s.currentLanguage true true (toggleFeature k s)).2 e rest
      (textContent base) s' := h1
  have hp : (step textContent s (.click k)).isProcessingFeature = true := by
    rw [hstep, issueFetch_isProcessingFeature, h2.isProcessingFeature,
      updateFeatureButtonStates_isProcessingFeature, acquire_need_isProcessingFeature]
  have hd : (step textContent s (.click k)).activeApiCallDetails =
      if s.isProcessingFeature then s.activeApiCallDetails
      else some ⟨k, s.currentLanguage⟩ := by
    rw [hstep, issueFetch_activeApiCallDetails, h2.activeApiCallDetails,
      updateFeatureButtonStates_activeApiCallDetails, acquire_need_activeApiCallDetails]
    simp
  refine ⟨⟨⟨(acquire k s.currentLanguage true true (toggleFeature k s)).2, e, rest⟩,
    ?_, ?_, ?_, ?_⟩, ?_, ?_, ?_⟩
  · rw [hstep]
    simp [issueFetch, h2.pending]
  · rw [acquire_snd]
  · rw [acquire_snd]
  · rw [acquire_snd]
    simp
  · intro h
    exact ⟨hp, by rw [hd]; simp [h]⟩
  · intro h
    exact ⟨hp, by rw [hd]; simp [h]⟩
  · intro s' hs'
    exact OwnershipConsistent_reachable textContent hs'

/-- C10, on the start state of `pageHello`: no ownership is held, the click on
text-in-blocks needs a request for the element and takes the ownership. -/
theorem C10_try_acquire_witness :
    ((init pageHello).features (init pageHello).currentLanguage).get .textInBlocks = false ∧
    scanNeedsApi sampleTextContent .textInBlocks (init pageHello).currentLanguage
      (init pageHello) = true ∧
    ((∃ inv, (step sampleTextContent (init pageHello) (.click .textInBlocks)).pending
          = (init pageHello).pending ++ [inv] ∧
        inv.frame.kind = .textInBlocks ∧
        inv.frame.originalClickLanguage = (init pageHello).currentLanguage ∧
        (inv.frame.setProcessingFlagForThisCall = true ↔
          (init pageHello).isProcessingFeature = false)) ∧
      ((init pageHello).isProcessingFeature = false →
        (step sampleTextContent (init pageHello) (.click .textInBlocks)).isProcessingFeature
          = true ∧
        (step sampleTextContent (init pageHello) (.click .textInBlocks)).activeApiCallDetails
          = some ⟨.textInBlocks, (init pageHello).currentLanguage⟩) ∧
      ((init pageHello).isProcessingFeature = true →
        (step sampleTextContent (init pageHello) (.click .textInBlocks)).isProcessingFeature
          = true ∧
        (step sampleTextContent (init pageHello) (.click .textInBlocks)).activeApiCallDetails
          = (init pageHello).activeApiCallDetails) ∧
      (∀ s', Reachable sampleTextContent s' →
        s'.isProcessingFeature = s'.activeApiCallDetails.isSome)) :=
  ⟨by decide, by decide,
   C10_try_acquire sampleTextContent .textInBlocks (init pageHello) (by decide) (by decide)⟩

/-! ## A successful text-in-blocks request (C7) -/

theorem finish_cached (f : Frame) (b : Bool) (s : State) (k : Kind) (lang : Lang) (e : Elem) :
    (finish f b s).cached k lang e = s.cached k lang e :=
  cached_congr (by simp) (by simp) k lang e

theorem renderedMarkup_congr {s s' : State}
    (hf : s'.activeFeatures_perLang = s.activeFeatures_perLang)
    (h1 : s'.cachedChunkedHTML_perLang = s.cachedChunkedHTML_perLang)
    (h2 : s'.cachedSimplifiedText_perLang = s.cachedSimplifiedText_perLang)
    (lang : Lang) (e : Elem) (html : Markup) :
    renderedMarkup s' lang e html = renderedMarkup s lang e html := by
  unfold renderedMarkup
  rw [features_congr hf, cached_congr h1 h2, cached_congr h1 h2]

/-- The content of every element after an invocation ends. -/
theorem finish_innerHTML (f : Frame) (b : Bool) (s : State) (x : Elem) :
    (finish f b s).innerHTML x =
      if f.originalClickLanguage = s.currentLanguage ∧ x ∈ s.targetTextElements then
        ((s.originalElementHTML.get x).map
          (renderedMarkup (finish f b s) s.currentLanguage x)).getD (s.innerHTML x)
      else s.innerHTML x := by
  have hr : ∀ s2 : State, s2.currentLanguage = s.currentLanguage →
      s2.targetTextElements = s.targetTextElements →
      s2.originalElementHTML = s.originalElementHTML → s2.innerHTML = s.innerHTML →
      (refreshIfDisplayed f.originalClickLanguage s2).innerHTML x =
        if f.originalClickLanguage = s.currentLanguage ∧ x ∈ s.targetTextElements then
          ((s.originalElementHTML.get x).map
            (renderedMarkup (refreshIfDisplayed f.originalClickLanguage s2)
              s.currentLanguage x)).getD (s.innerHTML x)
        else s.innerHTML x := by
    intro s2 h1 h2 h3 h4
    unfold refreshIfDisplayed
    by_cases hl : f.originalClickLanguage = s.currentLanguage
    · rw [if_pos (hl.trans h1.symm), refreshContentElements_innerHTML, h2, h3, h4, h1]
      by_cases hx : x ∈ s.targetTextElements
      · rw [if_pos hx, if_pos ⟨hl, hx⟩]
        cases s.originalElementHTML.get x with
        | none => rfl
        | some html =>
          simp only [Option.map_some', Option.getD_some]
          exact (renderedMarkup_congr (by simp) (by simp) (by simp) _ _ _).symm
      · rw [if_neg hx, if_neg (fun h => hx h.2)]
    · rw [if_neg (fun h => hl (h.trans h1)), if_neg (fun h => hl h.1), h4]
  unfold finish
  exact hr _ (by split <;> simp) (by split <;> simp) (by split <;> simp)
    (by split <;> simp)

theorem cached_storeResult (inv : Invocation) (html : Markup) (s : State) (k : Kind)
    (lang : Lang) (x : Elem) :
    (storeResult inv html s).cached k lang x =
      if k = inv.frame.kind ∧ lang = inv.frame.originalClickLanguage ∧ x = inv.element
      then some html else s.cached k lang x := by
  unfold storeResult
  dsimp only
  split
  · rw [cached_cachePut, setInnerHTML_cached]
  · rw [cached_cachePut]

theorem renderedMarkup_active {s : State} {k : Kind} {lang : Lang} {e : Elem}
    {html : Markup} (hc : s.cached k lang e = some html)
    (hk : (s.features lang).get k = true)
    (hko : k = .simplifiedText → (s.features lang).textInBlocks = false) (o : Markup) :
    renderedMarkup s lang e o = html := by
  unfold renderedMarkup
  cases k with
  | textInBlocks =>
    have hb : (s.features lang).textInBlocks = true := hk
    simp [hb, hc]
  | simplifiedText =>
    have hb : (s.features lang).simplifiedText = true := hk
    simp [hko rfl, hb, hc]

/-- A cache entry of the invocation's kind and language survives the rest of
the loop. -/
theorem processElements_keeps_entry (textContent : Markup → String) (f : Frame) (e : Elem)
    (html : Markup) (l : List Elem) (s : State)
    (hc : s.cached f.kind f.originalClickLanguage e = some html) :
    (processElements textContent f l s).cached f.kind f.originalClickLanguage e
      = some html := by
  refine processElements_induct textContent f
    (fun s' => s'.cached f.kind f.originalClickLanguage e = some html)
    ?_ ?_ ?_ ?_ ?_ l s hc
  · intro s' x v h _
    rw [setInnerHTML_cached]; exact h
  · intro s' x base h hx _ _
    have hne : ¬ e = x := fun he => by rw [he, hx] at h; cases h
    rw [cached_storeEmpty]
    simp [hne, h]
  · intro s' x rest base h _ _ _ _
    exact (cached_congr (by simp) (by simp) _ _ _).trans h
  · intro s' x v h _ _ _ _
    rw [setInnerHTML_cached]; exact h
  · intro s' h
    exact (finish_cached f false s' _ _ _).trans h

/-- While the click language is displayed and the kind of the invocation is
the one the renderer shows for it, an element that shows its cache entry still
shows it after the rest of the loop. -/
theorem processElements_keeps_shown (textContent : Markup → String) (f : Frame) (e : Elem)
    (html : Markup) (l : List Elem) (s : State)
    (hc : s.cached f.kind f.originalClickLanguage e = some html)
    (hd : s.innerHTML e = html) (hl : s.currentLanguage = f.originalClickLanguage)
    (hk : (s.features f.originalClickLanguage).get f.kind = true)
    (hko : f.kind = .simplifiedText →
      (s.features f.originalClickLanguage).textInBlocks = false) :
    (processElements textContent f l s).innerHTML e = html := by
  have key := processElements_induct textContent f
    (fun s' => s'.cached f.kind f.originalClickLanguage e = some html ∧
      s'.innerHTML e = html ∧ s'.currentLanguage = f.originalClickLanguage ∧
      s'.activeFeatures_perLang = s.activeFeatures_perLang)
    ?_ ?_ ?_ ?_ ?_ l s ⟨hc, hd, hl, rfl⟩
  · exact key.2.1
  · intro s' x v h hx
    obtain ⟨h1, h2, h3, h4⟩ := h
    refine ⟨by rw [setInnerHTML_cached]; exact h1, ?_, h3, h4⟩
    by_cases hxe : e = x
    · subst hxe
      rw [h1] at hx
      cases hx
      simp [State.setInnerHTML]
    · simp [State.setInnerHTML, hxe, h2]
  · intro s' x base h hx _ _
    obtain ⟨h1, h2, h3, h4⟩ := h
    have hne : ¬ e = x := fun he => by rw [he, hx] at h1; cases h1
    refine ⟨by rw [cached_storeEmpty]; simp [hne, h1], ?_, by simpa using h3,
      by simpa using h4⟩
    unfold storeEmpty
    dsimp only
    split
    · simp [State.setInnerHTML, hne, h2]
    · simpa using h2
  · intro s' x rest base h _ _ _ _
    obtain ⟨h1, h2, h3, h4⟩ := h
    exact ⟨(cached_congr (by simp) (by simp) _ _ _).trans h1, by simpa using h2,
      by simpa using h3, by simpa using h4⟩
  · intro s' x v h hx _ _ _
    obtain ⟨h1, h2, h3, h4⟩ := h
    have hne : ¬ e = x := fun he => by rw [he, hx] at h1; cases h1
    exact ⟨by rw [setInnerHTML_cached]; exact h1, by simp [State.setInnerHTML, hne, h2],
      h3, h4⟩
  · intro s' h
    obtain ⟨h1, h2, h3, h4⟩ := h
    have hfa : (finish f false s').activeFeatures_perLang = s.activeFeatures_perLang := by
      rw [finish_activeFeatures_perLang]; simpa using h4
    have h1' := (finish_cached f false s' f.kind f.originalClickLanguage e).trans h1
    refine ⟨h1', ?_, by simpa using h3, hfa⟩
    rw [finish_innerHTML]
    split
    · cases s'.originalElementHTML.get e with
      | none => simpa using h2
      | some o =>
        simp only [Option.map_some', Option.getD_some]
        rw [h3]
        exact renderedMarkup_active h1'
          (by rw [features_congr hfa]; exact hk)
          (fun hkk => by rw [features_congr hfa]; exact hko hkk) o
    · exact h2

theorem storeResult_innerHTML_displayed (inv : Invocation) (html : Markup) (s : State)
    (hl : s.currentLanguage = inv.frame.originalClickLanguage) :
    (storeResult inv html s).innerHTML inv.element = html := by
  unfold storeResult
  simp [hl, State.setInnerHTML]

/-- C7. Scenario A generalised: when the outcome of a text-in-blocks request
made for element `e` by an activation for language L is a 2xx response whose
`processed_text` is the list `cs`, the success branch (`storeResult`) makes the
cache entry (text-in-blocks, L, `e`) the items of `cs` joined with `<br><br>`
and, if L is the displayed language, makes `e` show that string; the loop then
goes on from that state. At the end of the step the cache entry is still that
string, and `e` still shows it when L is displayed and text-in-blocks is
still active for L. -/
theorem C7_blocks_success (textContent : Markup → String) (s : State) (i : Nat)
    (inv : Invocation) (status : Nat) (cs : List String)
    (hinv : s.pending.get? i = some inv) (hkind : inv.frame.kind = .textInBlocks)
    (hok : 200 ≤ status ∧ status ≤ 299) :
    step textContent s (.response i (.http status (.json (.arr cs))))
      = processElements textContent inv.frame inv.rest
          (storeResult inv (joinChunks cs) (s.removePending i)) ∧
    (storeResult inv (joinChunks cs) (s.removePending i)).cached .textInBlocks
      inv.frame.originalClickLanguage inv.element = some (joinChunks cs) ∧
    (s.currentLanguage = inv.frame.originalClickLanguage →
      (storeResult inv (joinChunks cs) (s.removePending i)).innerHTML inv.element
        = joinChunks cs) ∧
    (step textContent s (.response i (.http status (.json (.arr cs))))).cached .textInBlocks
      inv.frame.originalClickLanguage inv.element = some (joinChunks cs) ∧
    (s.currentLanguage = inv.frame.originalClickLanguage →
      (s.features inv.frame.originalClickLanguage).textInBlocks = true →
      (step textContent s (.response i (.http status (.json (.arr cs))))).innerHTML
        inv.element = joinChunks cs) := by
  have hres : fetchResult inv.frame.kind (.http status (.json (.arr cs)))
      = some (joinChunks cs) := by
    simp [fetchResult, processedHTML, hok.1, hok.2]
  have hstep : step textContent s (.response i (.http status (.json (.arr cs))))
      = processElements textContent inv.frame inv.rest
          (storeResult inv (joinChunks cs) (s.removePending i)) := by
    rw [step_response textContent _ hinv]
    simp only [resume, hres]
  have hc : (storeResult inv (joinChunks cs) (s.removePending i)).cached inv.frame.kind
      inv.frame.originalClickLanguage inv.element = some (joinChunks cs) := by
    rw [cached_storeResult]; simp
  refine ⟨hstep, by rw [← hkind]; exact hc, ?_, ?_, ?_⟩
  · intro hl
    exact storeResult_innerHTML_displayed inv _ _ (by simpa using hl)
  · rw [hstep, ← hkind]
    exact processElements_keeps_entry textContent inv.frame inv.element _ _ _ hc
  · intro hl hact
    rw [hstep]
    refine processElements_keeps_shown textContent inv.frame inv.element _ _ _ hc
      (storeResult_innerHTML_displayed inv _ _ (by simpa using hl)) (by simpa using hl) ?_ ?_
    · rw [features_congr (s := s) (by simp), hkind]; exact hact
    · intro h; rw [hkind] at h; cases h

/-- C7, on `helloRequested` (Scenario A): the request for the element returns
`{processed_text: ["Hello", "world"]}`, and the joined string is
`Hello<br><br>world`. -/
theorem C7_blocks_success_witness :
    helloRequested.pending.get? 0
      = some ⟨⟨.textInBlocks, "en", true, true, true, false⟩, 0, []⟩ ∧
    (200 ≤ 200 ∧ 200 ≤ 299) ∧
    joinChunks ["Hello", "world"] = "Hello<br><br>world" ∧
    helloRequested.currentLanguage = "en" ∧
    (helloRequested.features "en").textInBlocks = true ∧
    (step sampleTextContent helloRequested
        (.response 0 (.http 200 (.json (.arr ["Hello", "world"]))))
      = processElements sampleTextContent ⟨.textInBlocks, "en", true, true, true, false⟩ []
          (storeResult ⟨⟨.textInBlocks, "en", true, true, true, false⟩, 0, []⟩
            (joinChunks ["Hello", "world"]) (helloRequested.removePending 0)) ∧
      (storeResult ⟨⟨.textInBlocks, "en", true, true, true, false⟩, 0, []⟩
          (joinChunks ["Hello", "world"]) (helloRequested.removePending 0)).cached
        .textInBlocks "en" 0 = some (joinChunks ["Hello", "world"]) ∧
      (helloRequested.currentLanguage = "en" →
        (storeResult ⟨⟨.textInBlocks, "en", true, true, true, false⟩, 0, []⟩
          (joinChunks ["Hello", "world"]) (helloRequested.removePending 0)).innerHTML 0
          = joinChunks ["Hello", "world"]) ∧
      (step sampleTextContent helloRequested
          (.response 0 (.http 200 (.json (.arr ["Hello", "world"]))))).cached
        .textInBlocks "en" 0 = some (joinChunks ["Hello", "world"]) ∧
      (helloRequested.currentLanguage = "en" →
        (helloRequested.features "en").textInBlocks = true →
        (step sampleTextContent helloRequested
          (.response 0 (.http 200 (.json (.arr ["Hello", "world"]))))).innerHTML 0
          = joinChunks ["Hello", "world"])) :=
  ⟨by decide, by decide, by decide, by decide, by decide,
   C7_blocks_success sampleTextContent helloRequested 0
     ⟨⟨.textInBlocks, "en", true, true, true, false⟩, 0, []⟩ 200 ["Hello", "world"]
     (by decide) rfl (by decide)⟩

/-! ## A cached element is never requested again (C5) -/

theorem NoNewRequestFor.nothing (k : Kind) (lang : Lang) (e : Elem) (s : State) :
    NoNewRequestFor k lang e s s :=
  ⟨[], by simp, by simp⟩

theorem NoNewRequestFor.of_log_eq {k : Kind} {lang : Lang} {e : Elem} {s s' s'' : State}
    (h : NoNewRequestFor k lang e s s') (hf : s''.fetchLog = s'.fetchLog) :
    NoNewRequestFor k lang e s s'' := by
  obtain ⟨new, h1, h2⟩ := h
  exact ⟨new, hf.trans h1, h2⟩

theorem NoNewRequestFor.followed {k : Kind} {lang : Lang} {e : Elem} {s s' s'' : State}
    (h : NoNewRequestFor k lang e s s') (h' : NoNewRequestFor k lang e s' s'') :
    NoNewRequestFor k lang e s s'' := by
  obtain ⟨new, h1, h2⟩ := h
  obtain ⟨new', h1', h2'⟩ := h'
  refine ⟨new ++ new', by rw [h1', h1, List.append_assoc], ?_⟩
  intro r hr
  rcases List.mem_append.mp hr with h | h
  · exact h2 r h
  · exact h2' r h

theorem IsCached.of_cache_eq {k : Kind} {lang : Lang} {e : Elem} {s t : State}
    (h : IsCached s k lang e)
    (h1 : t.cachedChunkedHTML_perLang = s.cachedChunkedHTML_perLang)
    (h2 : t.cachedSimplifiedText_perLang = s.cachedSimplifiedText_perLang) :
    IsCached t k lang e := by
  unfold IsCached at *
  rw [cached_congr h1 h2]; exact h

theorem IsCached.storeEmpty {k : Kind} {lang : Lang} {e : Elem} {s : State}
    (h : IsCached s k lang e) (f : Frame) (x : Elem) (html : Markup) :
    IsCached (storeEmpty f x html s) k lang e := by
  unfold IsCached at *
  rw [cached_storeEmpty]
  split
  · rfl
  · exact h

theorem IsCached.storeResult {k : Kind} {lang : Lang} {e : Elem} {s : State}
    (h : IsCached s k lang e) (inv : Invocation) (html : Markup) :
    IsCached (storeResult inv html s) k lang e := by
  unfold IsCached at *
  rw [cached_storeResult]
  split
  · rfl
  · exact h

theorem IsCached.ensureLangCache {k : Kind} {lang : Lang} {e : Elem} {s : State}
    (h : IsCached s k lang e) (k' : Kind) (lang' : Lang) :
    IsCached (ensureLangCache k' lang' s) k lang e := by
  unfold IsCached at *
  rw [cached_ensureLangCache]; exact h

section
variable (textContent : Markup → String)

/-- The loop keeps every cache entry and issues no request for a cached element. -/
theorem processElements_cached (f : Frame) (k : Kind) (lang : Lang) (e : Elem)
    (l : List Elem) (s : State) (hc : IsCached s k lang e) :
    IsCached (processElements textContent f l s) k lang e ∧
    NoNewRequestFor k lang e s (processElements textContent f l s) := by
  refine processElements_induct textContent f
    (fun s' => IsCached s' k lang e ∧ NoNewRequestFor k lang e s s')
    ?_ ?_ ?_ ?_ ?_ l s ⟨hc, NoNewRequestFor.nothing k lang e s⟩
  · intro s' x v h _
    exact ⟨h.1.of_cache_eq (by simp) (by simp), h.2.of_log_eq (by simp)⟩
  · intro s' x base h _ _ _
    exact ⟨h.1.storeEmpty f x base, h.2.of_log_eq (by simp)⟩
  · intro s' x rest base h hx _ _ _
    refine ⟨h.1.of_cache_eq (by simp) (by simp), h.2.followed ⟨[_], rfl, ?_⟩⟩
    intro r hr
    rw [List.mem_singleton] at hr
    subst hr
    rintro ⟨h1, h2, h3⟩
    dsimp only at h1 h2 h3
    have := h.1
    unfold IsCached at this
    rw [← h1, ← h2, ← h3, hx] at this
    cases this
  · intro s' x v h _ _ _ _
    exact ⟨h.1.of_cache_eq (by simp) (by simp), h.2.of_log_eq (by simp)⟩
  · intro s' h
    exact ⟨h.1.of_cache_eq (by simp) (by simp), h.2.of_log_eq (by simp)⟩

theorem completeClick_cached (k : Kind) (lang : Lang) (e : Elem) (k' : Kind) (a : Bool)
    (lang' : Lang) (s : State) (hc : IsCached s k lang e) :
    IsCached (completeClick textContent k' a lang' s) k lang e ∧
    NoNewRequestFor k lang e s (completeClick textContent k' a lang' s) := by
  unfold completeClick
  dsimp only
  generalize (a && scanNeedsApi textContent k' lang' s) = n
  split
  · have h0 : IsCached (ensureLangCache k' lang'
        (updateFeatureButtonStates (acquire k' lang' a n s).1.currentLanguage
          (acquire k' lang' a n s).1)) k lang e :=
      (hc.of_cache_eq (t := updateFeatureButtonStates (acquire k' lang' a n s).1.currentLanguage
        (acquire k' lang' a n s).1) (by simp) (by simp)).ensureLangCache _ _
    have hpre : NoNewRequestFor k lang e s (ensureLangCache k' lang'
        (updateFeatureButtonStates (acquire k' lang' a n s).1.currentLanguage
          (acquire k' lang' a n s).1)) :=
      (NoNewRequestFor.nothing k lang e s).of_log_eq (by simp)
    exact ⟨(processElements_cached textContent _ k lang e _ _ h0).1,
      hpre.followed (processElements_cached textContent _ k lang e _ _ h0).2⟩
  · exact ⟨hc.of_cache_eq (by simp) (by simp), (NoNewRequestFor.nothing k lang e s).of_log_eq (by simp)⟩

/-- Every event keeps every cache entry and issues no request for a cached
element. -/
theorem step_cached (k : Kind) (lang : Lang) (e : Elem) (s : State) (ev : Event)
    (hc : IsCached s k lang e) :
    IsCached (step textContent s ev) k lang e ∧
    NoNewRequestFor k lang e s (step textContent s ev) := by
  cases ev with
  | click k' =>
    simp only [step]
    unfold clickHandler
    split
    · exact ⟨hc.of_cache_eq (by simp) (by simp), (NoNewRequestFor.nothing k lang e s).of_log_eq (by simp)⟩
    · obtain ⟨h1, h2⟩ := completeClick_cached textContent k lang e k'
        (!(s.features s.currentLanguage).get k') s.currentLanguage (toggleFeature k' s)
        (hc.of_cache_eq (by simp) (by simp))
      exact ⟨h1, ((NoNewRequestFor.nothing k lang e s).of_log_eq (by simp)).followed h2⟩
  | selectLanguage l =>
    exact ⟨hc.of_cache_eq (by simp [step]) (by simp [step]),
      (NoNewRequestFor.nothing k lang e s).of_log_eq (by simp [step])⟩
  | response i r =>
    simp only [step]
    split
    · unfold resume
      split
      · obtain ⟨h1, h2⟩ := processElements_cached textContent _ k lang e _ _
          ((hc.of_cache_eq (t := s.removePending i) (by simp) (by simp)).storeResult _ _)
        exact ⟨h1, ((NoNewRequestFor.nothing k lang e s).of_log_eq (by simp)).followed h2⟩
      · exact ⟨hc.of_cache_eq (by simp) (by simp),
          (NoNewRequestFor.nothing k lang e s).of_log_eq (by simp)⟩
    · exact ⟨hc, NoNewRequestFor.nothing k lang e s⟩
  | timer i =>
    simp only [step]
    split
    · exact ⟨hc.of_cache_eq (by simp) (by simp), (NoNewRequestFor.nothing k lang e s).of_log_eq (by simp)⟩
    · exact ⟨hc, NoNewRequestFor.nothing k lang e s⟩

/-- No sequence of events issues a request for an element that is cached. -/
theorem run_cached (k : Kind) (lang : Lang) (e : Elem) (evs : List Event) :
    ∀ s : State, IsCached s k lang e →
      IsCached (run textContent s evs) k lang e ∧
      NoNewRequestFor k lang e s (run textContent s evs) := by
  induction evs with
  | nil => intro s hc; exact ⟨hc, NoNewRequestFor.nothing k lang e s⟩
  | cons ev t ih =>
    intro s hc
    obtain ⟨h1, h2⟩ := step_cached textContent k lang e s ev hc
    obtain ⟨h3, h4⟩ := ih _ h1
    exact ⟨h3, h2.followed h4⟩

end

/-! ## The loop invariant: resolved prefixes -/

theorem first_occurrence_unique {α : Type} {x : α} :
    ∀ {pre pre' post post' : List α}, pre ++ x :: post = pre' ++ x :: post' →
      x ∉ pre → x ∉ pre' → pre = pre' := by
  intro pre
  induction pre with
  | nil =>
    intro pre' post post' h _ h2
    cases pre' with
    | nil => rfl
    | cons b t =>
      simp only [List.nil_append, List.cons_append, List.cons.injEq] at h
      exact absurd (by simp [h.1]) h2
  | cons a t ih =>
    intro pre' post post' h h1 h2
    cases pre' with
    | nil =>
      simp only [List.nil_append, List.cons_append, List.cons.injEq] at h
      exact absurd (by simp [h.1]) h1
    | cons b t' =>
      simp only [List.cons_append, List.cons.injEq] at h
      have := ih h.2 (fun hx => h1 (List.mem_cons_of_mem _ hx))
        (fun hx => h2 (List.mem_cons_of_mem _ hx))
      rw [h.1, this]

theorem exists_first_occurrence {α : Type} [DecidableEq α] {x : α} :
    ∀ {l : List α}, x ∈ l → ∃ pre post, l = pre ++ x :: post ∧ x ∉ pre := by
  intro l
  induction l with
  | nil => intro h; cases h
  | cons a t ih =>
    intro h
    by_cases hax : x = a
    · exact ⟨[], t, by simp [hax], by simp⟩
    · have ht : x ∈ t := by
        rcases List.mem_cons.mp h with h | h
        · exact absurd h hax
        · exact h
      obtain ⟨pre, post, h1, h2⟩ := ih ht
      refine ⟨a :: pre, post, by simp [h1], ?_⟩
      intro hm
      rcases List.mem_cons.mp hm with h | h
      · exact hax h
      · exact h2 h

theorem CacheGrew.same_grew (s : State) : CacheGrew s s :=
  ⟨rfl, rfl, fun _ _ _ h => h⟩

theorem CacheGrew.chain_grew {s s' s'' : State} (h : CacheGrew s s') (h' : CacheGrew s' s'') :
    CacheGrew s s'' :=
  ⟨h'.targetTextElements.trans h.targetTextElements,
   h'.originalElementHTML.trans h.originalElementHTML,
   fun k lang e hc => h'.keeps k lang e (h.keeps k lang e hc)⟩

theorem Resolved.lift {s s' : State} (h : CacheGrew s s') {k : Kind} {lang : Lang}
    {y : Elem} (hr : Resolved s k lang y) : Resolved s' k lang y := by
  rcases hr with hr | hr
  · exact Or.inl (h.keeps k lang y hr)
  · exact Or.inr (by rw [h.originalElementHTML]; exact hr)

theorem PendingResolved.lift_pending {s s' : State} (h : CacheGrew s s')
    (hq : s'.pending = s.pending) (hp : PendingResolved s) : PendingResolved s' := by
  intro inv hinv
  rw [hq] at hinv
  obtain ⟨h1, h2, pre, h3, h4⟩ := hp inv hinv
  exact ⟨h1, by rw [h.originalElementHTML]; exact h2, pre,
    by rw [h.targetTextElements]; exact h3, fun y hy => (h4 y hy).lift h⟩

/-- The resolved-prefix property survives when nothing new is cached. -/
theorem PrefixResolved.keep {s s' : State} (h : CacheGrew s s')
    (hback : ∀ k lang e, IsCached s' k lang e → IsCached s k lang e)
    (hp : PrefixResolved s) : PrefixResolved s' := by
  intro k lang pre x post hsplit hx hc y hy
  rw [h.targetTextElements] at hsplit
  exact (hp k lang pre x post hsplit hx (hback k lang x hc) y hy).lift h

/-- The resolved-prefix property survives a new cache entry for an element
that has an original and only resolved elements before it. -/
theorem PrefixResolved.extend {s s' : State} (h : CacheGrew s s') {k : Kind} {lang : Lang}
    {x : Elem} {pre rest : List Elem}
    (hback : ∀ k' lang' e, IsCached s' k' lang' e →
      IsCached s k' lang' e ∨ (k' = k ∧ lang' = lang ∧ e = x))
    (hsplit : s.targetTextElements = pre ++ x :: rest)
    (hpre : ∀ y ∈ pre, Resolved s k lang y)
    (ho : s.originalElementHTML.get x ≠ none)
    (hp : PrefixResolved s) : PrefixResolved s' := by
  intro k' lang' pre' z post' hsplit' hz hc y hy
  rw [h.targetTextElements] at hsplit'
  by_cases hold : IsCached s k' lang' z
  · exact (hp k' lang' pre' z post' hsplit' hz hold y hy).lift h
  · rcases hback k' lang' z hc with hc' | ⟨hk, hl, hzx⟩
    · exact absurd hc' hold
    · subst hk; subst hl; subst hzx
      have hzpre : z ∉ pre := by
        intro hm
        rcases hpre z hm with hr | hr
        · exact hold hr
        · exact ho hr
      have : pre = pre' := first_occurrence_unique (hsplit.symm.trans hsplit') hzpre hz
      subst this
      exact (hpre y hy).lift h

theorem CacheSame.toGrew {s s' : State} (h : CacheSame s s') : CacheGrew s s' :=
  ⟨h.targetTextElements, h.originalElementHTML,
   fun k lang e hc => by unfold IsCached at *; rw [h.cached]; exact hc⟩

theorem CacheSame.back {s s' : State} (h : CacheSame s s') (k : Kind) (lang : Lang)
    (e : Elem) (hc : IsCached s' k lang e) : IsCached s k lang e := by
  unfold IsCached at *; rw [← h.cached]; exact hc

theorem LoopInv.carry {s s' : State} (h : CacheSame s s') (hq : s'.pending = s.pending)
    (hi : LoopInv s) : LoopInv s' :=
  ⟨hi.1.keep h.toGrew h.back, hi.2.lift_pending h.toGrew hq⟩

theorem CacheSame.of_fields {s t : State}
    (h1 : t.targetTextElements = s.targetTextElements)
    (h2 : t.originalElementHTML = s.originalElementHTML)
    (h4 : t.cachedChunkedHTML_perLang = s.cachedChunkedHTML_perLang)
    (h5 : t.cachedSimplifiedText_perLang = s.cachedSimplifiedText_perLang) :
    CacheSame s t :=
  ⟨h1, h2, fun k lang e => cached_congr h4 h5 k lang e⟩

theorem CacheSame.chain_same {s s' s'' : State} (h : CacheSame s s') (h' : CacheSame s' s'') :
    CacheSame s s'' :=
  ⟨h'.targetTextElements.trans h.targetTextElements,
   h'.originalElementHTML.trans h.originalElementHTML,
   fun k lang e => (h'.cached k lang e).trans (h.cached k lang e)⟩

theorem CacheSame_ensureLangCache (k : Kind) (lang : Lang) (s : State) :
    CacheSame s (ensureLangCache k lang s) :=
  ⟨by simp, by simp, fun k' lang' e => cached_ensureLangCache k lang s k' lang' e⟩

theorem CacheGrew_storeEmpty (f : Frame) (x : Elem) (html : Markup) (s : State) :
    CacheGrew s (storeEmpty f x html s) :=
  ⟨by simp, by simp, fun _ _ _ h => h.storeEmpty f x html⟩

theorem CacheGrew_storeResult (inv : Invocation) (html : Markup) (s : State) :
    CacheGrew s (storeResult inv html s) :=
  ⟨by simp, by simp, fun _ _ _ h => h.storeResult inv html⟩

section
variable (textContent : Markup → String)

theorem elementNeedsApi_false_mono {s s' : State} (h : CacheGrew s s') {k : Kind}
    {lang : Lang} {y : Elem} (hn : elementNeedsApi textContent k lang s y = false) :
    elementNeedsApi textContent k lang s' y = false := by
  cases hs' : elementNeedsApi textContent k lang s' y with
  | false => rfl
  | true =>
    rw [elementNeedsApi_iff] at hs'
    obtain ⟨hc, html, ho, ht⟩ := hs'
    have hcs : s.cached k lang y = none := by
      cases hcs : s.cached k lang y with
      | none => rfl
      | some v =>
        have := h.keeps k lang y (by unfold IsCached; rw [hcs]; rfl)
        unfold IsCached at this
        rw [hc] at this
        cases this
    have : elementNeedsApi textContent k lang s y = true :=
      (elementNeedsApi_iff textContent k lang s y).mpr
        ⟨hcs, html, by rw [← h.originalElementHTML]; exact ho, ht⟩
    rw [hn] at this
    cases this

/-- The loop keeps the invariant when it starts at a position of the document
list whose earlier elements are resolved, in an invocation that either was
judged to need the API or has no element left that needs a request. -/
theorem LoopInv_processElements (f : Frame) :
    ∀ (l pre : List Elem) (s : State), s.targetTextElements = pre ++ l →
      (∀ y ∈ pre, Resolved s f.kind f.originalClickLanguage y) →
      (f.thisOperationWouldNeedApi = true ∨
        ∀ x ∈ l, elementNeedsApi textContent f.kind f.originalClickLanguage s x = false) →
      LoopInv s → LoopInv (processElements textContent f l s) := by
  intro l
  induction l with
  | nil =>
    intro pre s _ _ _ hi
    unfold processElements
    exact hi.carry (CacheSame.of_fields (by simp) (by simp) (by simp) (by simp)) (by simp)
  | cons x rest ih =>
    intro pre s hsplit hpre hneed hi
    have hsplit' : s.targetTextElements = (pre ++ [x]) ++ rest := by
      rw [hsplit]; simp
    unfold processElements
    cases hc : s.cached f.kind f.originalClickLanguage x with
    | some html =>
      dsimp only
      have hsame : CacheSame s (s.setInnerHTML x html) :=
        CacheSame.of_fields (by simp) (by simp) (by simp) (by simp)
      refine ih (pre ++ [x]) _ (by simpa using hsplit') ?_ ?_ (hi.carry hsame (by simp))
      · intro y hy
        rcases List.mem_append.mp hy with hy | hy
        · exact (hpre y hy).lift hsame.toGrew
        · rw [List.mem_singleton] at hy
          subst hy
          exact Or.inl (hsame.toGrew.keeps _ _ _ (by unfold IsCached; rw [hc]; rfl))
      · rcases hneed with hneed | hneed
        · exact Or.inl hneed
        · exact Or.inr (fun y hy => elementNeedsApi_false_mono textContent hsame.toGrew
            (hneed y (List.mem_cons_of_mem _ hy)))
    | none =>
      cases ho : s.originalElementHTML.get x with
      | none =>
        dsimp only
        refine ih (pre ++ [x]) s hsplit' ?_ ?_ hi
        · intro y hy
          rcases List.mem_append.mp hy with hy | hy
          · exact hpre y hy
          · rw [List.mem_singleton] at hy
            subst hy
            exact Or.inr ho
        · rcases hneed with hneed | hneed
          · exact Or.inl hneed
          · exact Or.inr (fun y hy => hneed y (List.mem_cons_of_mem _ hy))
      | some base =>
        dsimp only
        by_cases ht : jsTrim (textContent base) = ""
        · rw [if_pos ht]
          have hgrew := CacheGrew_storeEmpty f x base s
          have hpfx : PrefixResolved (storeEmpty f x base s) := by
            refine hi.1.extend hgrew ?_ hsplit hpre (by simp [ho])
            intro k' lang' e hce
            unfold IsCached at hce ⊢
            rw [cached_storeEmpty] at hce
            by_cases hcond : k' = f.kind ∧ lang' = f.originalClickLanguage ∧ e = x
            · exact Or.inr hcond
            · rw [if_neg hcond] at hce
              exact Or.inl hce
          refine ih (pre ++ [x]) _ (by simpa using hsplit') ?_ ?_
            ⟨hpfx, hi.2.lift_pending hgrew (by simp)⟩
          · intro y hy
            rcases List.mem_append.mp hy with hy | hy
            · exact (hpre y hy).lift hgrew
            · rw [List.mem_singleton] at hy
              subst hy
              refine Or.inl ?_
              unfold IsCached
              rw [cached_storeEmpty]
              simp
          · rcases hneed with hneed | hneed
            · exact Or.inl hneed
            · exact Or.inr (fun y hy => elementNeedsApi_false_mono textContent hgrew
                (hneed y (List.mem_cons_of_mem _ hy)))
        · rw [if_neg ht]
          have hfn : f.thisOperationWouldNeedApi = true := by
            rcases hneed with hneed | hneed
            · exact hneed
            · have h1 := hneed x (List.mem_cons_self _ _)
              have h2 : elementNeedsApi textContent f.kind f.originalClickLanguage s x = true :=
                (elementNeedsApi_iff textContent _ _ _ _).mpr ⟨hc, base, ho, ht⟩
              rw [h1] at h2
              cases h2
          rw [if_pos hfn]
          have hsame : CacheSame s (issueFetch f x rest (textContent base) s) :=
            CacheSame.of_fields (by simp) (by simp) (by simp) (by simp)
          constructor
          · exact hi.1.keep hsame.toGrew hsame.back
          · intro inv hinv
            simp only [issueFetch, List.mem_append, List.mem_singleton] at hinv
            rcases hinv with hinv | hinv
            · obtain ⟨h1, h2, pre', h3, h4⟩ := hi.2 inv hinv
              exact ⟨h1, h2, pre', h3, h4⟩
            · subst hinv
              exact ⟨hfn, by simp [ho], pre, hsplit, hpre⟩

end

/-! ## The loop invariant holds in every reachable state -/

section
variable (textContent : Markup → String)

theorem LoopInv_completeClick (k : Kind) (a : Bool) (lang : Lang) {s : State}
    (hi : LoopInv s) : LoopInv (completeClick textContent k a lang s) := by
  unfold completeClick
  dsimp only
  have hsame : ∀ n, CacheSame s (updateFeatureButtonStates
      (acquire k lang a n s).1.currentLanguage (acquire k lang a n s).1) :=
    fun n => CacheSame.of_fields (by simp) (by simp) (by simp) (by simp)
  split
  · have hsame' := (hsame (a && scanNeedsApi textContent k lang s)).chain_same
      (CacheSame_ensureLangCache k lang _)
    refine LoopInv_processElements textContent _ _ [] _ (by simp) (by simp) ?_
      (hi.carry hsame' (by simp))
    rw [acquire_snd]
    dsimp only
    rcases Bool.eq_false_or_eq_true (scanNeedsApi textContent k lang s) with hscan | hscan
    · left; simp_all
    · right
      intro x hx
      simp only [updateFeatureButtonStates_targetTextElements, acquire_targetTextElements] at hx
      have hx' : elementNeedsApi textContent k lang s x = false := by
        unfold scanNeedsApi at hscan
        rw [List.any_eq_false] at hscan
        simpa using hscan x hx
      exact (elementNeedsApi_congr textContent hsame'.originalElementHTML
        hsame'.cached k lang x).trans hx'
  · exact hi.carry (CacheSame.of_fields (by simp) (by simp) (by simp) (by simp)) (by simp)

theorem LoopInv_resume {s : State} {i : Nat} {inv : Invocation} (r : FetchOutcome)
    (hinv : s.pending.get? i = some inv) (hi : LoopInv s) :
    LoopInv (resume textContent inv r (s.removePending i)) := by
  have hmem : inv ∈ s.pending := List.get?_mem hinv
  obtain ⟨hneed, horig, pre, hsplit, hpre⟩ := hi.2 inv hmem
  have hsame0 : CacheSame s (s.removePending i) :=
    CacheSame.of_fields (by simp) (by simp) (by simp) (by simp)
  have hi0 : LoopInv (s.removePending i) := by
    refine ⟨hi.1.keep hsame0.toGrew hsame0.back, ?_⟩
    intro inv' hinv'
    have : inv' ∈ s.pending := List.mem_of_mem_eraseIdx hinv'
    obtain ⟨h1, h2, pre', h3, h4⟩ := hi.2 inv' this
    exact ⟨h1, h2, pre', h3, h4⟩
  unfold resume
  split
  · rename_i html _
    have hgrew := CacheGrew_storeResult inv html (s.removePending i)
    have hpfx : PrefixResolved (storeResult inv html (s.removePending i)) := by
      refine hi0.1.extend hgrew ?_ hsplit (fun y hy => (hpre y hy).lift hsame0.toGrew) horig
      intro k' lang' e hce
      unfold IsCached at hce ⊢
      rw [cached_storeResult] at hce
      by_cases hcond : k' = inv.frame.kind ∧ lang' = inv.frame.originalClickLanguage ∧
          e = inv.element
      · exact Or.inr hcond
      · rw [if_neg hcond] at hce
        exact Or.inl hce
    refine LoopInv_processElements textContent inv.frame inv.rest (pre ++ [inv.element]) _
      (by simpa using hsplit) ?_ (Or.inl hneed) ⟨hpfx, hi0.2.lift_pending hgrew (by simp)⟩
    intro y hy
    rcases List.mem_append.mp hy with hy | hy
    · exact ((hpre y hy).lift hsame0.toGrew).lift hgrew
    · rw [List.mem_singleton] at hy
      subst hy
      refine Or.inl ?_
      unfold IsCached
      rw [cached_storeResult]
      simp
  · exact hi0.carry (CacheSame.of_fields (by simp) (by simp) (by simp) (by simp)) (by simp)

theorem LoopInv_step (ev : Event) {s : State} (hi : LoopInv s) :
    LoopInv (step textContent s ev) := by
  cases ev with
  | click k =>
    simp only [step]
    unfold clickHandler
    split
    · exact hi.carry (CacheSame.of_fields (by simp) (by simp) (by simp) (by simp)) (by simp)
    · exact LoopInv_completeClick textContent k _ _
        (hi.carry (CacheSame.of_fields (by simp) (by simp) (by simp) (by simp)) (by simp))
  | selectLanguage lang =>
    exact hi.carry (CacheSame.of_fields (by simp [step]) (by simp [step]) (by simp [step])
      (by simp [step])) (by simp [step])
  | response i r =>
    simp only [step]
    split
    · rename_i inv hinv
      exact LoopInv_resume textContent r hinv hi
    · exact hi
  | timer i =>
    simp only [step]
    split
    · exact hi.carry (CacheSame.of_fields (by simp) (by simp) (by simp) (by simp)) (by simp)
    · exact hi

theorem LoopInv_init (p : Page) : LoopInv (init p) := by
  have hc : ∀ k lang e, (init p).cached k lang e = none := by
    intro k lang e
    cases k <;> simp [init, setupWidgetLogic, State.cached, State.cache, JSMap.get]
  constructor
  · intro k lang pre x post _ _ hx
    unfold IsCached at hx
    rw [hc] at hx
    cases hx
  · intro inv hinv
    simp [init, setupWidgetLogic] at hinv

theorem LoopInv_reachable {s : State} (h : Reachable textContent s) : LoopInv s := by
  induction h with
  | start p => exact LoopInv_init p
  | next s ev _ ih => exact LoopInv_step textContent ev ih

end

/-! ## The second activation is served from the cache (C5) -/

section
variable (textContent : Markup → String)

/-- When every element before `e` in the list is resolved and `e` is cached,
the loop reaches `e`, writes its cache entry, and `e` shows it afterwards. -/
theorem processElements_reaches (f : Frame) (e : Elem) (html : Markup) (post : List Elem) :
    ∀ (pre : List Elem) (s : State),
      (∀ y ∈ pre, Resolved s f.kind f.originalClickLanguage y) →
      s.cached f.kind f.originalClickLanguage e = some html →
      s.currentLanguage = f.originalClickLanguage →
      (s.features f.originalClickLanguage).get f.kind = true →
      (f.kind = .simplifiedText → (s.features f.originalClickLanguage).textInBlocks = false) →
      (processElements textContent f (pre ++ e :: post) s).innerHTML e = html := by
  intro pre
  induction pre with
  | nil =>
    intro s _ hc hl hk hko
    simp only [List.nil_append]
    unfold processElements
    rw [hc]
    exact processElements_keeps_shown textContent f e html post _
      (by rw [setInnerHTML_cached]; exact hc) (by simp [State.setInnerHTML]) hl hk hko
  | cons y t ih =>
    intro s hpre hc hl hk hko
    simp only [List.cons_append]
    unfold processElements
    cases hcy : s.cached f.kind f.originalClickLanguage y with
    | some v =>
      dsimp only
      refine ih _ ?_ (by rw [setInnerHTML_cached]; exact hc) hl hk hko
      intro z hz
      exact (hpre z (List.mem_cons_of_mem _ hz)).lift
        (CacheSame.of_fields (by simp) (by simp) (by simp) (by simp)).toGrew
    | none =>
      have hy : s.originalElementHTML.get y = none := by
        rcases hpre y (List.mem_cons_self _ _) with h | h
        · unfold IsCached at h
          rw [hcy] at h
          cases h
        · exact h
      rw [hy]
      exact ih s (fun z hz => hpre z (List.mem_cons_of_mem _ hz)) hc hl hk hko

theorem newFeatureStates_activating (k : Kind) (fs : FeatureStates)
    (hk : fs.get k = false) :
    (newFeatureStates k fs).get k = true ∧ (newFeatureStates k fs).get k.other = false := by
  obtain ⟨b, c⟩ := fs
  cases k <;> cases b <;> cases c <;>
    simp_all [newFeatureStates, FeatureStates.get, FeatureStates.set, Kind.other]

/-- In a state that satisfies the loop invariant, an activating click shows the
cache entry of every matched element that has one. -/
theorem clickHandler_shows_cached (k : Kind) (s : State) (hi : LoopInv s) (e : Elem)
    (html : Markup) (he : e ∈ s.targetTextElements)
    (hc : s.cached k s.currentLanguage e = some html)
    (hk : (s.features s.currentLanguage).get k = false) :
    (clickHandler textContent k s).innerHTML e = html := by
  obtain ⟨pre, post, hsplit, hepre⟩ := exists_first_occurrence he
  have hpre := hi.1 k s.currentLanguage pre e post hsplit hepre
    (by unfold IsCached; rw [hc]; rfl)
  rw [clickHandler_of_inactive textContent k s hk]
  unfold completeClick
  simp only [Bool.true_and, if_true, acquire_currentLanguage, toggleFeature_currentLanguage,
    updateFeatureButtonStates_targetTextElements, acquire_targetTextElements,
    toggleFeature_targetTextElements]
  generalize scanNeedsApi textContent k s.currentLanguage (toggleFeature k s) = n
  have hsame : CacheSame s (ensureLangCache k s.currentLanguage
      (updateFeatureButtonStates s.currentLanguage
        (acquire k s.currentLanguage true n (toggleFeature k s)).1)) :=
    (CacheSame.of_fields (t := updateFeatureButtonStates s.currentLanguage
      (acquire k s.currentLanguage true n (toggleFeature k s)).1)
      (by simp) (by simp) (by simp) (by simp)).chain_same (CacheSame_ensureLangCache _ _ _)
  have hfeat : (ensureLangCache k s.currentLanguage
      (updateFeatureButtonStates s.currentLanguage
        (acquire k s.currentLanguage true n (toggleFeature k s)).1)).features s.currentLanguage
      = newFeatureStates k (s.features s.currentLanguage) := by
    rw [features_congr (s := toggleFeature k s) (by simp)]
    exact features_toggleFeature k s
  have hnew := newFeatureStates_activating k _ hk
  rw [hsplit, acquire_snd]
  refine processElements_reaches textContent _ e html post pre _ ?_ ?_ ?_ ?_ ?_
  · intro y hy
    exact (hpre y hy).lift hsame.toGrew
  · exact (hsame.cached _ _ _).trans hc
  · simp
  · dsimp only
    rw [hfeat]; exact hnew.1
  · dsimp only
    intro hkk
    rw [hfeat]
    have h2 := hnew.2
    rw [hkk] at h2 ⊢
    exact h2

end

/-- The states reached by running events from a reachable state are reachable. -/
theorem Reachable_run (textContent : Markup → String) (evs : List Event) :
    ∀ {s : State}, Reachable textContent s → Reachable textContent (run textContent s evs) := by
  induction evs with
  | nil => intro s h; exact h
  | cons ev t ih => intro s h; exact ih (Reachable.next s ev h)

/-- C5. Cache idempotence: in a reachable state where the tracked element `e`
has a cache entry `html` for kind `k` and the displayed language (an earlier
activation completed for `e`; the widget never removes a cache entry), a click
that activates `k` again makes `e` show `html`, and neither that click nor any
later event (the continuations of the invocation included) issues a request
for (`k`, displayed language, `e`): the entry stays and the request log grows
only by requests for other targets. -/
theorem C5_cache_idempotence (textContent : Markup → String) (s : State)
    (hreach : Reachable textContent s) (k : Kind) (e : Elem) (html : Markup)
    (he : e ∈ s.targetTextElements)
    (hc : s.cached k s.currentLanguage e = some html)
    (hk : (s.features s.currentLanguage).get k = false) :
    (step textContent s (.click k)).innerHTML e = html ∧
    NoNewRequestFor k s.currentLanguage e s (step textContent s (.click k)) ∧
    (∀ evs : List Event,
      IsCached (run textContent s evs) k s.currentLanguage e ∧
      NoNewRequestFor k s.currentLanguage e s (run textContent s evs)) := by
  have hcached : IsCached s k s.currentLanguage e := by
    unfold IsCached; rw [hc]; rfl
  exact ⟨clickHandler_shows_cached textContent k s (LoopInv_reachable textContent hreach)
      e html he hc hk,
    (step_cached textContent k s.currentLanguage e s (.click k) hcached).2,
    fun evs => run_cached textContent k s.currentLanguage e evs s hcached⟩

/-- C5, on `helloDeactivated`: the element shows its original, is cached for
(text-in-blocks, `en`), and text-in-blocks is clicked a second time. -/
theorem C5_cache_idempotence_witness :
    (0 : Elem) ∈ helloDeactivated.targetTextElements ∧
    helloDeactivated.innerHTML 0 = "Hello world" ∧
    helloDeactivated.cached .textInBlocks helloDeactivated.currentLanguage 0
      = some "Hello<br><br>world" ∧
    (helloDeactivated.features helloDeactivated.currentLanguage).get .textInBlocks = false ∧
    ((step sampleTextContent helloDeactivated (.click .textInBlocks)).innerHTML 0
        = "Hello<br><br>world" ∧
      NoNewRequestFor .textInBlocks helloDeactivated.currentLanguage 0 helloDeactivated
        (step sampleTextContent helloDeactivated (.click .textInBlocks)) ∧
      (∀ evs : List Event,
        IsCached (run sampleTextContent helloDeactivated evs) .textInBlocks
          helloDeactivated.currentLanguage 0 ∧
        NoNewRequestFor .textInBlocks helloDeactivated.currentLanguage 0 helloDeactivated
          (run sampleTextContent helloDeactivated evs))) :=
  ⟨by decide, by decide, by decide, by decide,
   C5_cache_idempotence sampleTextContent helloDeactivated
     (Reachable_run sampleTextContent _ (Reachable.start pageHello))
     .textInBlocks 0 "Hello<br><br>world" (by decide) (by decide) (by decide)⟩

/-! ## The content renderer (C12, C13) -/

/-- C12. Content renderer: `refreshContentElements(lang)` sets every tracked
element `e` that has a captured original to `renderedMarkup`: the text-in-blocks
cache entry for (`lang`, `e`) when text-in-blocks is active for `lang` and the
entry exists, else the original when text-in-blocks is active, else the
simplified-text entry when simplified-text is active and the entry exists,
else the original. An element without a captured original, or not among the
tracked elements, is left as it is; a language without a stored feature state
counts as both inactive, so the original is shown. -/
theorem C12_content_renderer (lang : Lang) (s : State) :
    (∀ e ∈ s.targetTextElements, ∀ original, s.originalElementHTML.get e = some original →
      (refreshContentElements lang s).innerHTML e = renderedMarkup s lang e original ∧
      ((s.features lang).textInBlocks = true →
        ∀ html, s.cached .textInBlocks lang e = some html →
          (refreshContentElements lang s).innerHTML e = html) ∧
      ((s.features lang).textInBlocks = true → s.cached .textInBlocks lang e = none →
        (refreshContentElements lang s).innerHTML e = original) ∧
      ((s.features lang).textInBlocks = false → (s.features lang).simplifiedText = true →
        ∀ html, s.cached .simplifiedText lang e = some html →
          (refreshContentElements lang s).innerHTML e = html) ∧
      ((s.features lang).textInBlocks = false → (s.features lang).simplifiedText = true →
        s.cached .simplifiedText lang e = none →
        (refreshContentElements lang s).innerHTML e = original) ∧
      ((s.features lang).textInBlocks = false → (s.features lang).simplifiedText = false →
        (refreshContentElements lang s).innerHTML e = original) ∧
      (s.activeFeatures_perLang.get lang = none →
        (refreshContentElements lang s).innerHTML e = original)) ∧
    (∀ e, s.originalElementHTML.get e = none →
      (refreshContentElements lang s).innerHTML e = s.innerHTML e) ∧
    (∀ e, e ∉ s.targetTextElements →
      (refreshContentElements lang s).innerHTML e = s.innerHTML e) := by
  refine ⟨?_, ?_, ?_⟩
  · intro e he original ho
    have hr : (refreshContentElements lang s).innerHTML e = renderedMarkup s lang e original := by
      rw [refreshContentElements_innerHTML, if_pos he, ho]; rfl
    rw [hr]
    refine ⟨rfl, ?_, ?_, ?_, ?_, ?_, ?_⟩
    · intro hb html hc; simp [renderedMarkup, hb, hc]
    · intro hb hc; simp [renderedMarkup, hb, hc]
    · intro hb hs html hc; simp [renderedMarkup, hb, hs, hc]
    · intro hb hs hc; simp [renderedMarkup, hb, hs, hc]
    · intro hb hs; simp [renderedMarkup, hb, hs]
    · intro hn; simp [renderedMarkup, State.features, hn, FeatureStates.none]
  · intro e ho
    rw [refreshContentElements_innerHTML, ho]
    simp
  · intro e he
    rw [refreshContentElements_innerHTML, if_neg he]

/-- C12, on `helloBlocks`: text-in-blocks is active for `en` and the element
is cached, so the renderer shows the cached markup. -/
theorem C12_content_renderer_witness :
    (0 : Elem) ∈ helloBlocks.targetTextElements ∧
    helloBlocks.originalElementHTML.get 0 = some "Hello world" ∧
    (helloBlocks.features "en").textInBlocks = true ∧
    helloBlocks.cached .textInBlocks "en" 0 = some "Hello<br><br>world" ∧
    (refreshContentElements "en" helloBlocks).innerHTML 0 = "Hello<br><br>world" ∧
    (refreshContentElements "fr" helloBlocks).innerHTML 0 = "Hello world" :=
  ⟨by decide, by decide, by decide, by decide,
   ((C12_content_renderer "en" helloBlocks).1 0 (by decide) "Hello world"
      (by decide)).2.1 (by decide) "Hello<br><br>world" (by decide),
   ((C12_content_renderer "fr" helloBlocks).1 0 (by decide) "Hello world"
      (by decide)).2.2.2.2.2.2 (by decide)⟩

/-- C13. Content renderer idempotence: calling `refreshContentElements(lang)`
twice in a row leaves every element showing what one call leaves, and a call
changes nothing but element contents: the feature table, both caches, the
original store, the ownership, and every other part of the state are the same
after it. -/
theorem C13_renderer_idempotent (lang : Lang) (s : State) :
    (refreshContentElements lang (refreshContentElements lang s)).innerHTML
      = (refreshContentElements lang s).innerHTML ∧
    (refreshContentElements lang s).activeFeatures_perLang = s.activeFeatures_perLang ∧
    (refreshContentElements lang s).cachedChunkedHTML_perLang = s.cachedChunkedHTML_perLang ∧
    (refreshContentElements lang s).cachedSimplifiedText_perLang
      = s.cachedSimplifiedText_perLang ∧
    (refreshContentElements lang s).originalElementHTML = s.originalElementHTML ∧
    (refreshContentElements lang s).isProcessingFeature = s.isProcessingFeature ∧
    (refreshContentElements lang s).activeApiCallDetails = s.activeApiCallDetails ∧
    (refreshContentElements lang s).targetTextElements = s.targetTextElements ∧
    (refreshContentElements lang s).currentLanguage = s.currentLanguage ∧
    (refreshContentElements lang s).isShortAnimationActive = s.isShortAnimationActive ∧
    (refreshContentElements lang s).buttonTextInBlocks = s.buttonTextInBlocks ∧
    (refreshContentElements lang s).buttonSimplifiedText = s.buttonSimplifiedText ∧
    (refreshContentElements lang s).loadingOverlayElement = s.loadingOverlayElement ∧
    (refreshContentElements lang s).pending = s.pending ∧
    (refreshContentElements lang s).timers = s.timers ∧
    (refreshContentElements lang s).fetchLog = s.fetchLog := by
  refine ⟨?_, by simp, by simp, by simp, by simp, by simp, by simp, by simp, by simp,
    by simp, by simp, by simp, by simp, by simp, by simp, by simp⟩
  funext x
  rw [refreshContentElements_innerHTML lang (refreshContentElements lang s) x]
  simp only [refreshContentElements_targetTextElements,
    refreshContentElements_originalElementHTML]
  by_cases hx : x ∈ s.targetTextElements
  · rw [if_pos hx]
    cases ho : s.originalElementHTML.get x with
    | none => rfl
    | some original =>
      simp only [Option.map_some', Option.getD_some]
      rw [refreshContentElements_innerHTML, if_pos hx, ho]
      simp only [Option.map_some', Option.getD_some]
      exact renderedMarkup_congr (by simp) (by simp) (by simp) _ _ _
  · rw [if_neg hx]

/-! ## The button presenter (C14, C15, C16) -/

/-- C14. Presenter rule 3: when `updateFeatureButtonStates(lang)` runs while a
request is in flight whose owner is (`k`, `lang`), the button of `k` carries
the processing mark and is neither disabled nor marked unavailable, and the
button of the other kind is disabled and marked unavailable, without the
processing mark. Each button's active mark is the stored flag of its kind. -/
theorem C14_presenter_same_language (lang : Lang) (k : Kind) (s : State)
    (hproc : s.isProcessingFeature = true)
    (hown : s.activeApiCallDetails = some ⟨k, lang⟩) :
    ((updateFeatureButtonStates lang s).button k).processing = true ∧
    ((updateFeatureButtonStates lang s).button k).disabled = false ∧
    ((updateFeatureButtonStates lang s).button k).unavailable = false ∧
    ((updateFeatureButtonStates lang s).button k.other).disabled = true ∧
    ((updateFeatureButtonStates lang s).button k.other).unavailable = true ∧
    ((updateFeatureButtonStates lang s).button k.other).processing = false ∧
    ((updateFeatureButtonStates lang s).button k).active = (s.features lang).get k ∧
    ((updateFeatureButtonStates lang s).button k.other).active
      = (s.features lang).get k.other := by
  cases k <;>
    simp [updateFeatureButtonStates, hproc, hown, State.button, Kind.other, FeatureStates.get]

/-- C14, on `helloRequested`: the request for (text-in-blocks, `en`) is in
flight and the presenter runs for `en`. -/
theorem C14_presenter_same_language_witness :
    helloRequested.isProcessingFeature = true ∧
    helloRequested.activeApiCallDetails = some ⟨.textInBlocks, "en"⟩ ∧
    (((updateFeatureButtonStates "en" helloRequested).button .textInBlocks).processing = true ∧
      ((updateFeatureButtonStates "en" helloRequested).button .textInBlocks).disabled = false ∧
      ((updateFeatureButtonStates "en" helloRequested).button .textInBlocks).unavailable
        = false ∧
      ((updateFeatureButtonStates "en" helloRequested).button
        Kind.textInBlocks.other).disabled = true ∧
      ((updateFeatureButtonStates "en" helloRequested).button
        Kind.textInBlocks.other).unavailable = true ∧
      ((updateFeatureButtonStates "en" helloRequested).button
        Kind.textInBlocks.other).processing = false ∧
      ((updateFeatureButtonStates "en" helloRequested).button .textInBlocks).active
        = (helloRequested.features "en").get .textInBlocks ∧
      ((updateFeatureButtonStates "en" helloRequested).button Kind.textInBlocks.other).active
        = (helloRequested.features "en").get Kind.textInBlocks.other) :=
  ⟨by decide, by decide,
   C14_presenter_same_language "en" .textInBlocks helloRequested (by decide) (by decide)⟩

theorem hasAnyCached_iff (s : State) (k : Kind) (lang : Lang) :
    hasAnyCached s k lang = true ↔ ∃ e html, s.cached k lang e = some html := by
  unfold hasAnyCached State.cached
  cases (s.cache k).get lang with
  | none => simp
  | some m =>
    cases m with
    | nil => simp [JSMap.size, JSMap.get]
    | cons p t =>
      obtain ⟨e, html⟩ := p
      simp only [JSMap.size, List.length_cons, Nat.zero_lt_succ, decide_True, true_iff,
        Option.some_bind]
      exact ⟨e, html, by simp [JSMap.get]⟩

/-- C15. Presenter rule 2: when `updateFeatureButtonStates(lang)` runs while a
request is in flight whose owner language differs from `lang`, the button of
each kind is enabled if and only if that kind is active for `lang` or its cache
holds at least one entry for `lang`; otherwise it is disabled and marked
unavailable. No button carries the processing mark. In particular a kind that
is inactive for `lang` and has no cached entry for `lang` is unavailable. -/
theorem C15_presenter_other_language (lang : Lang) (s : State) (d : ApiCallDetails)
    (hproc : s.isProcessingFeature = true)
    (hown : s.activeApiCallDetails = some d) (hlang : d.lang ≠ lang) (k : Kind) :
    (((updateFeatureButtonStates lang s).button k).disabled = false ↔
      ((s.features lang).get k = true ∨ ∃ e html, s.cached k lang e = some html)) ∧
    ((updateFeatureButtonStates lang s).button k).unavailable
      = ((updateFeatureButtonStates lang s).button k).disabled ∧
    ((updateFeatureButtonStates lang s).button k).processing = false ∧
    ((s.features lang).get k = false → (∀ e, s.cached k lang e = none) →
      ((updateFeatureButtonStates lang s).button k).disabled = true ∧
      ((updateFeatureButtonStates lang s).button k).unavailable = true) := by
  have hany := hasAnyCached_iff s k lang
  have hnone : (∀ e, s.cached k lang e = none) → hasAnyCached s k lang = false := by
    intro h
    cases hh : hasAnyCached s k lang with
    | false => rfl
    | true =>
      obtain ⟨e, html, he⟩ := hany.mp hh
      rw [h e] at he
      cases he
  refine ⟨?_, ?_, ?_, ?_⟩
  · rw [← hany]
    cases k <;> cases hf1 : (s.features lang).textInBlocks <;>
      cases hf2 : (s.features lang).simplifiedText <;>
      cases hc1 : hasAnyCached s .textInBlocks lang <;>
      cases hc2 : hasAnyCached s .simplifiedText lang <;>
      simp [updateFeatureButtonStates, hproc, hown, hlang, State.button, FeatureStates.get,
        hf1, hf2, hc1, hc2]
  · cases k <;> cases hf1 : (s.features lang).textInBlocks <;>
      cases hf2 : (s.features lang).simplifiedText <;>
      cases hc1 : hasAnyCached s .textInBlocks lang <;>
      cases hc2 : hasAnyCached s .simplifiedText lang <;>
      simp [updateFeatureButtonStates, hproc, hown, hlang, State.button, FeatureStates.get,
        hf1, hf2, hc1, hc2]
  · cases k <;> cases hf1 : (s.features lang).textInBlocks <;>
      cases hf2 : (s.features lang).simplifiedText <;>
      cases hc1 : hasAnyCached s .textInBlocks lang <;>
      cases hc2 : hasAnyCached s .simplifiedText lang <;>
      simp [updateFeatureButtonStates, hproc, hown, hlang, State.button, FeatureStates.get,
        hf1, hf2, hc1, hc2]
  · intro hf hc
    have hc' := hnone hc
    cases k <;> cases hf1 : (s.features lang).textInBlocks <;>
      cases hf2 : (s.features lang).simplifiedText <;>
      cases hc1 : hasAnyCached s .textInBlocks lang <;>
      cases hc2 : hasAnyCached s .simplifiedText lang <;>
      simp_all [updateFeatureButtonStates, State.button, FeatureStates.get]

/-- C15, on `helloRequested` (Scenario C): the request for `en` is in flight
and the presenter runs for `fr`, where text-in-blocks is inactive and nothing
is cached: its button is unavailable. -/
theorem C15_presenter_other_language_witness :
    helloRequested.isProcessingFeature = true ∧
    helloRequested.activeApiCallDetails = some ⟨.textInBlocks, "en"⟩ ∧
    (⟨.textInBlocks, "en"⟩ : ApiCallDetails).lang ≠ "fr" ∧
    ((((updateFeatureButtonStates "fr" helloRequested).button .textInBlocks).disabled = false ↔
        ((helloRequested.features "fr").get .textInBlocks = true ∨
          ∃ e html, helloRequested.cached .textInBlocks "fr" e = some html)) ∧
      ((updateFeatureButtonStates "fr" helloRequested).button .textInBlocks).unavailable
        = ((updateFeatureButtonStates "fr" helloRequested).button .textInBlocks).disabled ∧
      ((updateFeatureButtonStates "fr" helloRequested).button .textInBlocks).processing
        = false ∧
      ((helloRequested.features "fr").get .textInBlocks = false →
        (∀ e, helloRequested.cached .textInBlocks "fr" e = none) →
        ((updateFeatureButtonStates "fr" helloRequested).button .textInBlocks).disabled
          = true ∧
        ((updateFeatureButtonStates "fr" helloRequested).button .textInBlocks).unavailable
          = true)) ∧
    ((updateFeatureButtonStates "fr" helloRequested).button .textInBlocks).disabled = true :=
  ⟨by decide, by decide, by decide,
   C15_presenter_other_language "fr" helloRequested ⟨.textInBlocks, "en"⟩
     (by decide) (by decide) (by decide) .textInBlocks,
   by decide⟩

/-- C16. Presenter rule 4: when `updateFeatureButtonStates(lang)` runs with no
request in flight and the stored state of `lang` is mutually exclusive, the
button of each kind is disabled, and marked unavailable, exactly when the
other kind is active for `lang`; no button carries the processing mark. So
with neither kind active both buttons are enabled, and the button of an active
kind is not disabled. -/
theorem C16_presenter_idle (lang : Lang) (s : State)
    (hidle : s.isProcessingFeature = false ∨ s.activeApiCallDetails = none)
    (hexcl : ¬ ((s.features lang).textInBlocks = true ∧ (s.features lang).simplifiedText = true))
    (k : Kind) :
    ((updateFeatureButtonStates lang s).button k).disabled = (s.features lang).get k.other ∧
    ((updateFeatureButtonStates lang s).button k).unavailable
      = (s.features lang).get k.other ∧
    ((updateFeatureButtonStates lang s).button k).processing = false ∧
    ((s.features lang).get k = true →
      ((updateFeatureButtonStates lang s).button k).disabled = false) ∧
    ((s.features lang).textInBlocks = false → (s.features lang).simplifiedText = false →
      (updateFeatureButtonStates lang s).buttonTextInBlocks.disabled = false ∧
      (updateFeatureButtonStates lang s).buttonSimplifiedText.disabled = false) := by
  rcases hidle with hidle | hidle
  · cases k <;> cases hf1 : (s.features lang).textInBlocks <;>
      cases hf2 : (s.features lang).simplifiedText <;>
      simp_all [updateFeatureButtonStates, State.button, FeatureStates.get, Kind.other]
  · cases hp : s.isProcessingFeature <;> cases k <;>
      cases hf1 : (s.features lang).textInBlocks <;>
      cases hf2 : (s.features lang).simplifiedText <;>
      simp_all [updateFeatureButtonStates, State.button, FeatureStates.get, Kind.other]

/-- C16, on `helloBlocks`: no request is in flight and text-in-blocks is
active for `en`, so the simplified-text button is disabled and the
text-in-blocks button is not. -/
theorem C16_presenter_idle_witness :
    (helloBlocks.isProcessingFeature = false ∨ helloBlocks.activeApiCallDetails = none) ∧
    ¬ ((helloBlocks.features "en").textInBlocks = true ∧
       (helloBlocks.features "en").simplifiedText = true) ∧
    (helloBlocks.features "en").get Kind.simplifiedText.other = true ∧
    (((updateFeatureButtonStates "en" helloBlocks).button .simplifiedText).disabled
        = (helloBlocks.features "en").get Kind.simplifiedText.other ∧
      ((updateFeatureButtonStates "en" helloBlocks).button .simplifiedText).unavailable
        = (helloBlocks.features "en").get Kind.simplifiedText.other ∧
      ((updateFeatureButtonStates "en" helloBlocks).button .simplifiedText).processing
        = false ∧
      ((helloBlocks.features "en").get .simplifiedText = true →
        ((updateFeatureButtonStates "en" helloBlocks).button .simplifiedText).disabled
          = false) ∧
      ((helloBlocks.features "en").textInBlocks = false →
        (helloBlocks.features "en").simplifiedText = false →
        (updateFeatureButtonStates "en" helloBlocks).buttonTextInBlocks.disabled = false ∧
        (updateFeatureButtonStates "en" helloBlocks).buttonSimplifiedText.disabled = false)) :=
  ⟨Or.inl (by decide), by decide, by decide,
   C16_presenter_idle "en" helloBlocks (Or.inl (by decide)) (by decide) .simplifiedText⟩

/-! ## The original-content store (C18) -/

theorem foldl_set_get (dom : Elem → Markup) :
    ∀ (els : List Elem) (m : JSMap Elem Markup) (x : Elem),
      (els.foldl (fun m e => m.set e (dom e)) m).get x
        = if x ∈ els then some (dom x) else m.get x := by
  intro els
  induction els with
  | nil => intro m x; simp
  | cons e t ih =>
    intro m x
    simp only [List.foldl_cons, List.mem_cons]
    rw [ih, JSMap.get_set]
    by_cases hxt : x ∈ t
    · simp [hxt]
    · by_cases hxe : e = x
      · subst hxe; simp [hxt]
      · have hxe' : ¬ x = e := fun h => hxe h.symm
        simp [hxt, hxe, hxe']

theorem run_originalElementHTML (textContent : Markup → String) (evs : List Event) :
    ∀ s : State, (run textContent s evs).originalElementHTML = s.originalElementHTML := by
  induction evs with
  | nil => intro s; rfl
  | cons ev t ih =>
    intro s
    show (run textContent (step textContent s ev) t).originalElementHTML = _
    rw [ih, step_originalElementHTML]

/-- C18. Original-content immutability: the initial capture leaves a map that
already has entries as it is, and fills an empty map with the markup each
matched element shows at that moment (and with nothing else); the start state
holds that capture; and afterwards no operation of the widget (a click on
either transformation button, a language selection, a request outcome, a
timer callback, the renderer, the presenter, or any sequence of events)
changes the map. -/
theorem C18_originals_immutable (textContent : Markup → String) :
    (∀ (originalElementHTML : JSMap Elem Markup) (els : List Elem) (dom : Elem → Markup),
      originalElementHTML.size ≠ 0 →
      captureOriginals originalElementHTML els dom = originalElementHTML) ∧
    (∀ (els : List Elem) (dom : Elem → Markup) (x : Elem),
      (captureOriginals [] els dom).get x = if x ∈ els then some (dom x) else none) ∧
    (∀ p : Page, (init p).originalElementHTML
      = captureOriginals [] p.targetTextElements p.innerHTML) ∧
    (∀ (s : State) (ev : Event),
      (step textContent s ev).originalElementHTML = s.originalElementHTML) ∧
    (∀ (s : State) (evs : List Event),
      (run textContent s evs).originalElementHTML = s.originalElementHTML) ∧
    (∀ (s : State) (k : Kind),
      (clickHandler textContent k s).originalElementHTML = s.originalElementHTML) ∧
    (∀ (s : State) (lang : Lang),
      (languageOptionClick lang s).originalElementHTML = s.originalElementHTML) ∧
    (∀ (s : State) (inv : Invocation) (r : FetchOutcome),
      (resume textContent inv r s).originalElementHTML = s.originalElementHTML) ∧
    (∀ (s : State) (lang : Lang),
      (refreshContentElements lang s).originalElementHTML = s.originalElementHTML) ∧
    (∀ (s : State) (lang : Lang),
      (updateFeatureButtonStates lang s).originalElementHTML = s.originalElementHTML) ∧
    (∀ (s : State) (t : Timer), (fireTimer t s).originalElementHTML = s.originalElementHTML) := by
  refine ⟨?_, ?_, ?_, ?_, ?_, ?_, ?_, ?_, ?_, ?_, ?_⟩
  · intro o els dom h
    simp [captureOriginals, h]
  · intro els dom x
    simp only [captureOriginals, JSMap.size, List.length_nil, if_true]
    rw [foldl_set_get]
    simp [JSMap.get]
  · intro p
    simp [init, setupWidgetLogic]
  · intro s ev; simp
  · intro s evs; exact run_originalElementHTML textContent evs s
  · intro s k; simp
  · intro s lang; simp
  · intro s inv r; simp
  · intro s lang; simp
  · intro s lang; simp
  · intro s t; simp

/-- C18, on `pageHello`: the start state holds the markup of the one element,
and the run of Scenario A followed by a deactivation leaves the map as it was. -/
theorem C18_originals_immutable_witness :
    (init pageHello).originalElementHTML = [(0, "Hello world")] ∧
    helloDeactivated.originalElementHTML = (init pageHello).originalElementHTML :=
  ⟨by decide,
   (C18_originals_immutable sampleTextContent).2.2.2.2.1 (init pageHello) _⟩

/-! ## Response shapes (C19, C20) -/

theorem successEffect_of_result (textContent : Markup → String) (s : State) (i : Nat)
    (inv : Invocation) (r : FetchOutcome) (html : Markup)
    (hinv : s.pending.get? i = some inv)
    (hres : fetchResult inv.frame.kind r = some html) :
    SuccessEffect textContent s i inv r html := by
  have hstep : step textContent s (.response i r)
      = processElements textContent inv.frame inv.rest
          (storeResult inv html (s.removePending i)) := by
    rw [step_response textContent _ hinv]
    simp only [resume, hres]
  have hc : (storeResult inv html (s.removePending i)).cached inv.frame.kind
      inv.frame.originalClickLanguage inv.element = some html := by
    rw [cached_storeResult]; simp
  refine ⟨hstep, hc, ?_, ?_, ?_⟩
  · intro hl
    exact storeResult_innerHTML_displayed inv _ _ (by simpa using hl)
  · rw [hstep]
    exact processElements_keeps_entry textContent inv.frame inv.element _ _ _ hc
  · intro hl hact hko
    rw [hstep]
    refine processElements_keeps_shown textContent inv.frame inv.element _ _ _ hc
      (storeResult_innerHTML_displayed inv _ _ (by simpa using hl)) (by simpa using hl) ?_ ?_
    · rw [features_congr (s := s) (by simp)]; exact hact
    · intro hk; rw [features_congr (s := s) (by simp)]; exact hko hk

/-- C19. Simplify response shapes: when the outcome of a simplify-text request
for element `e` of an activation for language L is a 2xx response, a
`processed_text` that is a string is taken verbatim and one that is a list is
taken as its items joined with `<br><br>`; in both cases the markup is stored
in the cache for (simplified-text, L, `e`) and `e` shows it if L is the
displayed language (`SuccessEffect`). -/
theorem C19_simplify_shapes (textContent : Markup → String) (s : State) (i : Nat)
    (inv : Invocation) (status : Nat)
    (hinv : s.pending.get? i = some inv) (hkind : inv.frame.kind = .simplifiedText)
    (hok : 200 ≤ status ∧ status ≤ 299) :
    (∀ t : String,
      SuccessEffect textContent s i inv (.http status (.json (.str t))) t) ∧
    (∀ cs : List String,
      SuccessEffect textContent s i inv (.http status (.json (.arr cs))) (joinChunks cs)) := by
  constructor
  · intro t
    exact successEffect_of_result textContent s i inv _ t hinv
      (by simp [fetchResult, processedHTML, hkind, hok.1, hok.2])
  · intro cs
    exact successEffect_of_result textContent s i inv _ _ hinv
      (by simp [fetchResult, processedHTML, hkind, hok.1, hok.2])

/-- C19, on `helloSimplifyRequested`: the simplify-text request for the element
of `pageHello` returns a string, or a list of two strings. -/
theorem C19_simplify_shapes_witness :
    helloSimplifyRequested.pending.get? 0
      = some ⟨⟨.simplifiedText, "en", true, true, true, false⟩, 0, []⟩ ∧
    (200 ≤ 200 ∧ 200 ≤ 299) ∧
    (run sampleTextContent helloSimplifyRequested
      [.response 0 (.http 200 (.json (.str "Hi <b>all</b>")))]).innerHTML 0
      = "Hi <b>all</b>" ∧
    (run sampleTextContent helloSimplifyRequested
      [.response 0 (.http 200 (.json (.arr ["Hi", "all"])))]).cached .simplifiedText "en" 0
      = some "Hi<br><br>all" ∧
    ((∀ t : String,
        SuccessEffect sampleTextContent helloSimplifyRequested 0
          ⟨⟨.simplifiedText, "en", true, true, true, false⟩, 0, []⟩
          (.http 200 (.json (.str t))) t) ∧
      (∀ cs : List String,
        SuccessEffect sampleTextContent helloSimplifyRequested 0
          ⟨⟨.simplifiedText, "en", true, true, true, false⟩, 0, []⟩
          (.http 200 (.json (.arr cs))) (joinChunks cs))) :=
  ⟨by decide, by decide, by decide, by decide,
   C19_simplify_shapes sampleTextContent helloSimplifyRequested 0
     ⟨⟨.simplifiedText, "en", true, true, true, false⟩, 0, []⟩ 200 (by decide) rfl
     (by decide)⟩

theorem step_response_failure (textContent : Markup → String) {s : State} {i : Nat}
    {inv : Invocation} {r : FetchOutcome} (hinv : s.pending.get? i = some inv)
    (hres : fetchResult inv.frame.kind r = none) :
    step textContent s (.response i r) = finish inv.frame true (s.removePending i) := by
  rw [step_response textContent _ hinv]
  simp only [resume, hres]

/-- C20. Malformed response is a failure: a 2xx response whose `processed_text`
the listener does not accept (for text-in-blocks anything that is not an array,
a plain string included; for simplify-text anything that is neither a string
nor an array), or whose body does not parse, leaves the same state as a
transport failure and as an HTTP 500: the invocation ends at once with the
error flag, so nothing is cached (both caches are unchanged), no later element
is processed (no request is issued, the invocation is no longer suspended), and
the stored feature state of the click language has the kind false. -/
theorem C20_malformed_is_failure (textContent : Markup → String) (s : State) (i : Nat)
    (inv : Invocation) (status : Nat) (pt : ProcessedText)
    (hinv : s.pending.get? i = some inv) (hok : 200 ≤ status ∧ status ≤ 299)
    (hbad : processedHTML inv.frame.kind pt = none) :
    step textContent s (.response i (.http status (.json pt)))
      = step textContent s (.response i .networkError) ∧
    step textContent s (.response i (.http status (.json pt)))
      = step textContent s (.response i (.http 500 .invalid)) ∧
    step textContent s (.response i (.http status .invalid))
      = step textContent s (.response i .networkError) ∧
    step textContent s (.response i (.http status (.json pt)))
      = finish inv.frame true (s.removePending i) ∧
    (step textContent s (.response i (.http status (.json pt)))).cachedChunkedHTML_perLang
      = s.cachedChunkedHTML_perLang ∧
    (step textContent s (.response i (.http status (.json pt)))).cachedSimplifiedText_perLang
      = s.cachedSimplifiedText_perLang ∧
    (step textContent s (.response i (.http status (.json pt)))).fetchLog = s.fetchLog ∧
    (step textContent s (.response i (.http status (.json pt)))).pending
      = s.pending.eraseIdx i ∧
    (∃ fs, (step textContent s (.response i (.http status (.json pt)))).activeFeatures_perLang.get
        inv.frame.originalClickLanguage = some fs ∧ fs.get inv.frame.kind = false) ∧
    (∀ p : ProcessedText,
      processedHTML .textInBlocks p = none ↔ ∀ items, p ≠ .arr items) ∧
    (∀ p : ProcessedText,
      processedHTML .simplifiedText p = none ↔
        (∀ items, p ≠ .arr items) ∧ ∀ t, p ≠ .str t) := by
  have h1 : step textContent s (.response i (.http status (.json pt)))
      = finish inv.frame true (s.removePending i) :=
    step_response_failure textContent hinv (by simp [fetchResult, hok.1, hok.2, hbad])
  have h2 : step textContent s (.response i .networkError)
      = finish inv.frame true (s.removePending i) :=
    step_response_failure textContent hinv rfl
  have h3 : step textContent s (.response i (.http 500 .invalid))
      = finish inv.frame true (s.removePending i) :=
    step_response_failure textContent hinv (by simp [fetchResult])
  have h4 : step textContent s (.response i (.http status .invalid))
      = finish inv.frame true (s.removePending i) :=
    step_response_failure textContent hinv (by simp [fetchResult])
  refine ⟨h1.trans h2.symm, h1.trans h3.symm, h4.trans h2.symm, h1, ?_, ?_, ?_, ?_, ?_, ?_, ?_⟩
  · rw [h1]; simp
  · rw [h1]; simp
  · rw [h1]; simp
  · rw [h1]; simp [State.removePending]
  · rw [h1]
    exact ⟨_, finish_error_get inv.frame _, FeatureStates.get_set_kind _ _ _⟩
  · intro p
    cases p <;> simp [processedHTML]
  · intro p
    cases p <;> simp [processedHTML]

/-- C20, on `helloRequested`: the text-in-blocks request returns HTTP 200 with
a plain string as `processed_text`. -/
theorem C20_malformed_is_failure_witness :
    helloRequested.pending.get? 0
      = some ⟨⟨.textInBlocks, "en", true, true, true, false⟩, 0, []⟩ ∧
    (200 ≤ 200 ∧ 200 ≤ 299) ∧
    processedHTML .textInBlocks (.str "Hello world") = none ∧
    (step sampleTextContent helloRequested
      (.response 0 (.http 200 (.json (.str "Hello world"))))).innerHTML 0 = "Hello world" ∧
    (step sampleTextContent helloRequested
      (.response 0 (.http 200 (.json (.str "Hello world"))))).cachedChunkedHTML_perLang
      = helloRequested.cachedChunkedHTML_perLang ∧
    (∃ fs, (step sampleTextContent helloRequested
        (.response 0 (.http 200 (.json (.str "Hello world"))))).activeFeatures_perLang.get "en"
        = some fs ∧ fs.get .textInBlocks = false) :=
  ⟨by decide, by decide, by decide, by decide,
   (C20_malformed_is_failure sampleTextContent helloRequested 0
     ⟨⟨.textInBlocks, "en", true, true, true, false⟩, 0, []⟩ 200 (.str "Hello world")
     (by decide) (by decide) (by decide)).2.2.2.2.1,
   (C20_malformed_is_failure sampleTextContent helloRequested 0
     ⟨⟨.textInBlocks, "en", true, true, true, false⟩, 0, []⟩ 200 (.str "Hello world")
     (by decide) (by decide) (by decide)).2.2.2.2.2.2.2.2.1⟩

/-! ## Release of ownership (C11) -/

theorem SameOwnership.of_control {s s' : State} (h : SameControl s s') : SameOwnership s s' :=
  ⟨h.isProcessingFeature, h.activeApiCallDetails⟩

theorem SameOwnership.follow {s t u : State} (h1 : SameOwnership s t) (h2 : SameOwnership t u) :
    SameOwnership s u :=
  ⟨h2.1.trans h1.1, h2.2.trans h1.2⟩

/-- The end of an invocation clears the ownership when the invocation had
acquired it, and leaves the ownership variables alone when it had not. -/
theorem finish_ownership (f : Frame) (b : Bool) (s : State) :
    (f.setProcessingFlagForThisCall = true → OwnershipNone (finish f b s)) ∧
    (f.setProcessingFlagForThisCall = false → SameOwnership s (finish f b s)) := by
  constructor
  · intro h
    unfold OwnershipNone finish
    simp only [refreshIfDisplayed_isProcessingFeature, refreshIfDisplayed_activeApiCallDetails]
    unfold releaseOrAnimate
    simp [h]
  · intro h
    unfold SameOwnership finish
    simp only [refreshIfDisplayed_isProcessingFeature, refreshIfDisplayed_activeApiCallDetails]
    unfold releaseOrAnimate
    simp only [h]
    cases b <;> cases f.setShortAnimationForCache <;> simp

/-- The loop ends in one of two ways: at a request, or at the end of the
invocation; up to there it changes only element contents and cache entries. -/
theorem processElements_outcome (textContent : Markup → String) (f : Frame) :
    ∀ (l : List Elem) (s : State),
      (∃ x r text s', processElements textContent f l s = issueFetch f x r text s' ∧
        SameControl s s') ∨
      (∃ s', processElements textContent f l s = finish f false s' ∧ SameControl s s') := by
  intro l
  induction l with
  | nil => intro s; exact Or.inr ⟨s, rfl, SameControl.same_refl s⟩
  | cons e rest ih =>
    intro s
    have lift : ∀ s1 : State, SameControl s s1 →
        (∃ x r text s', processElements textContent f rest s1 = issueFetch f x r text s' ∧
          SameControl s s') ∨
        (∃ s', processElements textContent f rest s1 = finish f false s' ∧
          SameControl s s') := by
      intro s1 h1
      rcases ih s1 with ⟨e', r', t', s', h, hc⟩ | ⟨s', h, hc⟩
      · exact Or.inl ⟨e', r', t', s', h, h1.chain hc⟩
      · exact Or.inr ⟨s', h, h1.chain hc⟩
    unfold processElements
    cases hc : s.cached f.kind f.originalClickLanguage e with
    | some html => exact lift _ (SameControl_setInnerHTML s e html)
    | none =>
      cases ho : s.originalElementHTML.get e with
      | none => exact lift _ (SameControl.same_refl s)
      | some base =>
        dsimp only
        by_cases ht : jsTrim (textContent base) = ""
        · rw [if_pos ht]; exact lift _ (SameControl_storeEmpty f e base s)
        · rw [if_neg ht]
          by_cases hn : f.thisOperationWouldNeedApi = true
          · rw [if_pos hn]
            exact Or.inl ⟨e, rest, _, s, rfl, SameControl.same_refl s⟩
          · rw [if_neg hn]; exact lift _ (SameControl_setInnerHTML s e base)

/-- The loop, started from a state with the suspended invocations `before`,
leaves a segment outcome. -/
theorem processElements_segment (textContent : Markup → String) (f : Frame) (l : List Elem)
    (s : State) : SegmentOutcome f s.pending s (processElements textContent f l s) := by
  rcases processElements_outcome textContent f l s with ⟨e, rest, text, s', h, hc⟩ | ⟨s', h, hc⟩
  · left
    rw [h]
    refine ⟨⟨e, rest, ?_⟩, ?_, ?_⟩
    · simp [issueFetch, hc.pending]
    · simp [hc.isProcessingFeature]
    · simp [hc.activeApiCallDetails]
  · right
    rw [h]
    refine ⟨by simp [hc.pending], (finish_ownership f false s').1, fun hf => ?_⟩
    exact (SameOwnership.of_control hc).follow ((finish_ownership f false s').2 hf)

theorem SegmentOutcome.of_start {f : Frame} {before : List Invocation} {s0 s t : State}
    (hp : s.pending = before) (ho : SameOwnership s0 s)
    (h : SegmentOutcome f s.pending s t) : SegmentOutcome f before s0 t := by
  subst hp
  rcases h with ⟨h1, h2⟩ | ⟨h1, h2, h3⟩
  · exact Or.inl ⟨h1, ho.follow h2⟩
  · exact Or.inr ⟨h1, h2, fun hf => ho.follow (h3 hf)⟩

theorem SegmentOutcome.not_acquired {f : Frame} {before : List Invocation} {s t : State}
    (h : SegmentOutcome f before s t) (hf : f.setProcessingFlagForThisCall = false) :
    SameOwnership s t := by
  rcases h with ⟨_, h2⟩ | ⟨_, _, h3⟩
  · exact h2
  · exact h3 hf

theorem SegmentOutcome.settled {f : Frame} {before : List Invocation} {s t : State}
    (h : SegmentOutcome f before s t) (hp : t.pending = before)
    (hf : f.setProcessingFlagForThisCall = true) : OwnershipNone t := by
  rcases h with ⟨⟨e, rest, h1⟩, _⟩ | ⟨_, h2, _⟩
  · rw [hp] at h1
    exact absurd h1 (by simp)
  · exact h2 hf

theorem finish_segment (f : Frame) (b : Bool) (s : State) :
    SegmentOutcome f s.pending s (finish f b s) :=
  Or.inr ⟨by simp, (finish_ownership f b s).1, (finish_ownership f b s).2⟩

/-- A resumed invocation leaves a segment outcome. -/
theorem step_response_segment (textContent : Markup → String) {s : State} {i : Nat}
    {inv : Invocation} (r : FetchOutcome) (hinv : s.pending.get? i = some inv) :
    SegmentOutcome inv.frame (s.pending.eraseIdx i) s (step textContent s (.response i r)) := by
  rw [step_response textContent _ hinv]
  unfold resume
  cases fetchResult inv.frame.kind r with
  | none =>
    exact SegmentOutcome.of_start (by simp [State.removePending]) ⟨by simp, by simp⟩
      (finish_segment inv.frame true (s.removePending i))
  | some html =>
    exact SegmentOutcome.of_start (by simp [State.removePending]) ⟨by simp, by simp⟩
      (processElements_segment textContent inv.frame inv.rest
        (storeResult inv html (s.removePending i)))

theorem acquire_not_acquired (k : Kind) (lang : Lang) (a n : Bool) (s : State)
    (h : (acquire k lang a n s).2.setProcessingFlagForThisCall = false) :
    SameOwnership s (acquire k lang a n s).1 := by
  unfold acquire at h ⊢
  cases n <;> cases a <;> cases hp : s.isProcessingFeature <;>
    simp_all [SameOwnership]

/-- The listener after the mutual-exclusivity block leaves a segment outcome,
relative to the ownership the acquisition block left. -/
theorem completeClick_segment (textContent : Markup → String) (k : Kind) (a : Bool)
    (lang : Lang) (s1 : State) :
    SegmentOutcome
      (acquire k lang a (a && scanNeedsApi textContent k lang s1) s1).2 s1.pending
      (acquire k lang a (a && scanNeedsApi textContent k lang s1) s1).1
      (completeClick textContent k a lang s1) := by
  unfold completeClick
  cases a with
  | true =>
    simp only [if_true]
    exact SegmentOutcome.of_start (by simp) ⟨by simp, by simp⟩
      (processElements_segment textContent _ _ _)
  | false =>
    simp only [Bool.false_eq_true, if_false]
    exact SegmentOutcome.of_start (by simp) ⟨by simp, by simp⟩
      (finish_segment _ false _)

/-- C11. Release on every exit path. When the outcome of the request of a
suspended invocation arrives, the invocation is either suspended again at its
next request, with the ownership variables untouched, or it settles; when it
settles and had acquired the ownership (`setProcessingFlagForThisCall`), the
ownership is none at the end of the step: `isProcessingFeature` is false and
`activeApiCallDetails` is `null`. It settles on every failure (transport
failure, non-2xx status, body that does not parse, malformed `processed_text`)
and on a success at the last element. An invocation that did not acquire the
ownership leaves both ownership variables exactly as they were, in the segment
a click starts and in every resumed segment. A click that acquires does not
settle in its first segment: it is suspended holding the ownership. A refused
click, a language switch and a timer callback leave the ownership as it was. -/
theorem C11_release_on_every_exit (textContent : Markup → String) (s : State) (i : Nat)
    (inv : Invocation) (r : FetchOutcome) (hinv : s.pending.get? i = some inv) :
    SegmentOutcome inv.frame (s.pending.eraseIdx i) s (step textContent s (.response i r)) ∧
    ((step textContent s (.response i r)).pending = s.pending.eraseIdx i →
      inv.frame.setProcessingFlagForThisCall = true →
      (step textContent s (.response i r)).isProcessingFeature = false ∧
      (step textContent s (.response i r)).activeApiCallDetails = none) ∧
    (fetchResult inv.frame.kind r = none →
      (step textContent s (.response i r)).pending = s.pending.eraseIdx i) ∧
    (fetchResult inv.frame.kind .networkError = none ∧
      (∀ status body, ¬ (200 ≤ status ∧ status ≤ 299) →
        fetchResult inv.frame.kind (.http status body) = none) ∧
      (∀ status, fetchResult inv.frame.kind (.http status .invalid) = none) ∧
      (∀ status pt, processedHTML inv.frame.kind pt = none →
        fetchResult inv.frame.kind (.http status (.json pt)) = none)) ∧
    (inv.rest = [] →
      (step textContent s (.response i r)).pending = s.pending.eraseIdx i) ∧
    (inv.frame.setProcessingFlagForThisCall = false →
      (step textContent s (.response i r)).isProcessingFeature = s.isProcessingFeature ∧
      (step textContent s (.response i r)).activeApiCallDetails = s.activeApiCallDetails) ∧
    (∀ k, deactivationBlocked k s = false →
      ((clickFrame textContent k s).setProcessingFlagForThisCall = false →
        (step textContent s (.click k)).isProcessingFeature = s.isProcessingFeature ∧
        (step textContent s (.click k)).activeApiCallDetails = s.activeApiCallDetails) ∧
      ((clickFrame textContent k s).setProcessingFlagForThisCall = true →
        (∃ e rest, (step textContent s (.click k)).pending
          = s.pending ++ [⟨clickFrame textContent k s, e, rest⟩]) ∧
        (step textContent s (.click k)).isProcessingFeature = true ∧
        (step textContent s (.click k)).activeApiCallDetails
          = some ⟨k, s.currentLanguage⟩)) ∧
    (∀ k, deactivationBlocked k s = true →
      (step textContent s (.click k)).pending = s.pending ∧
      (step textContent s (.click k)).isProcessingFeature = s.isProcessingFeature ∧
      (step textContent s (.click k)).activeApiCallDetails = s.activeApiCallDetails) ∧
    (∀ lang, SameOwnership s (step textContent s (.selectLanguage lang))) ∧
    (∀ j, SameOwnership s (step textContent s (.timer j))) := by
  have hseg := step_response_segment textContent r hinv
  refine ⟨hseg, fun hp hf => hseg.settled hp hf, ?_, ⟨rfl, ?_, ?_, ?_⟩, ?_,
    fun hf => hseg.not_acquired hf, ?_, ?_, ?_, ?_⟩
  · intro hres
    rw [step_response_failure textContent hinv hres]
    simp [State.removePending]
  · intro status body h
    have : (decide (200 ≤ status) && decide (status ≤ 299)) = false := by
      rw [Bool.and_eq_false_iff]
      by_cases h1 : 200 ≤ status
      · right; simpa using fun h2 => h ⟨h1, h2⟩
      · left; simpa using h1
    simp [fetchResult, this]
  · intro status
    simp [fetchResult]
  · intro status pt hpt
    simp [fetchResult, hpt]
  · intro hrest
    rw [step_response textContent _ hinv]
    unfold resume
    cases fetchResult inv.frame.kind r with
    | none => simp [State.removePending]
    | some html =>
      rw [hrest]
      simp [processElements, State.removePending]
  · intro k hb
    have hstep : step textContent s (.click k)
        = completeClick textContent k (!(s.features s.currentLanguage).get k)
            s.currentLanguage (toggleFeature k s) := by
      simp [step, clickHandler, hb]
    have hcs := completeClick_segment textContent k (!(s.features s.currentLanguage).get k)
      s.currentLanguage (toggleFeature k s)
    rw [← hstep] at hcs
    constructor
    · intro hf
      have h1 := acquire_not_acquired _ _ _ _ _ hf
      have h2 := hcs.not_acquired hf
      have h3 : SameOwnership s (toggleFeature k s) := ⟨by simp, by simp⟩
      exact (h3.follow h1).follow h2
    · intro hf
      have hf2 := hf
      unfold clickFrame at hf2
      rw [acquire_snd] at hf2
      simp only [Bool.and_eq_true, Bool.not_eq_true', toggleFeature_isProcessingFeature] at hf2
      obtain ⟨⟨hk, hscan⟩, hproc⟩ := hf2
      have hneed : scanNeedsApi textContent k s.currentLanguage s = true := by
        have hsame : scanNeedsApi textContent k s.currentLanguage (toggleFeature k s)
            = scanNeedsApi textContent k s.currentLanguage s :=
          scanNeedsApi_congr textContent (s := s) (by simp) (by simp)
            (fun _ _ _ => cached_congr (by simp) (by simp) _ _ _) k s.currentLanguage
        rw [← hsame]
        exact hscan
      obtain ⟨e, rest, base, s', h1, h2⟩ := clickHandler_needs_api textContent k s hk hneed
      have hfr : clickFrame textContent k s
          = (acquire k s.currentLanguage true true (toggleFeature k s)).2 := by
        unfold clickFrame
        rw [hk, hscan]
        rfl
      have hst : step textContent s (.click k) = issueFetch
          (acquire k s.currentLanguage true true (toggleFeature k s)).2 e rest
          (textContent base) s' := h1
      refine ⟨⟨e, rest, ?_⟩, ?_, ?_⟩
      · rw [hst, hfr]
        simp [issueFetch, h2.pending]
      · rw [hst, issueFetch_isProcessingFeature, h2.isProcessingFeature,
          updateFeatureButtonStates_isProcessingFeature, acquire_need_isProcessingFeature]
      · rw [hst, issueFetch_activeApiCallDetails, h2.activeApiCallDetails,
          updateFeatureButtonStates_activeApiCallDetails, acquire_need_activeApiCallDetails]
        simp [hproc]
  · intro k hb
    have hstep : step textContent s (.click k) = bumpFeedback k s := by
      simp [step, clickHandler, hb]
    rw [hstep]
    simp
  · intro lang
    exact ⟨by simp [step], by simp [step]⟩
  · intro j
    show SameOwnership s (match s.timers.get? j with
      | some t => fireTimer t (s.removeTimer j)
      | none => s)
    cases s.timers.get? j <;> exact ⟨by simp, by simp⟩

/-- C11, on `helloRequested`: the invocation that acquired the ownership for
(text-in-blocks, "en") settles on a successful response and on an HTTP 500,
and the ownership is none after either. -/
theorem C11_release_on_every_exit_witness :
    helloRequested.pending.get? 0
      = some ⟨⟨.textInBlocks, "en", true, true, true, false⟩, 0, []⟩ ∧
    helloRequested.isProcessingFeature = true ∧
    helloRequested.activeApiCallDetails = some ⟨.textInBlocks, "en"⟩ ∧
    ((step sampleTextContent helloRequested
        (.response 0 (.http 200 (.json (.arr ["Hello", "world"]))))).isProcessingFeature
        = false ∧
      (step sampleTextContent helloRequested
        (.response 0 (.http 200 (.json (.arr ["Hello", "world"]))))).activeApiCallDetails
        = none) ∧
    ((step sampleTextContent helloRequested
        (.response 0 (.http 500 .invalid))).isProcessingFeature = false ∧
      (step sampleTextContent helloRequested
        (.response 0 (.http 500 .invalid))).activeApiCallDetails = none) :=
  ⟨by decide, by decide, by decide,
   (C11_release_on_every_exit sampleTextContent helloRequested 0
     ⟨⟨.textInBlocks, "en", true, true, true, false⟩, 0, []⟩
     (.http 200 (.json (.arr ["Hello", "world"]))) (by decide)).2.1 (by decide) rfl,
   (C11_release_on_every_exit sampleTextContent helloRequested 0
     ⟨⟨.textInBlocks, "en", true, true, true, false⟩, 0, []⟩
     (.http 500 .invalid) (by decide)).2.1 (by decide) rfl⟩

/-! ## The loading indicator (C17) -/

/-- What the presenter does to the overlay. -/
theorem updateFeatureButtonStates_loadingOverlayElement (lang : Lang) (s : State) :
    (updateFeatureButtonStates lang s).loadingOverlayElement
      = if s.isShortAnimationActive then s.loadingOverlayElement
        else s.loadingOverlayElement.map (fun _ => inFlightFor s lang) := by
  unfold updateFeatureButtonStates showLoadingAnimation hideLoadingAnimation inFlightFor
  dsimp only
  cases s.isShortAnimationActive <;> cases s.isProcessingFeature <;>
    cases s.activeApiCallDetails <;> simp <;> repeat' split
  all_goals simp_all

theorem overlayCorrect_ready {s : State} (h : OverlayCorrect s) : OverlayReady s := by
  unfold OverlayCorrect at h
  unfold OverlayReady
  rw [h]
  refine ⟨rfl, fun hf => ?_⟩
  rw [hf]
  rfl

/-- After the presenter has run for the displayed language the overlay is right. -/
theorem overlayCorrect_of_presenter {s : State} (h : OverlayReady s) :
    OverlayCorrect (updateFeatureButtonStates s.currentLanguage s) := by
  unfold OverlayCorrect
  rw [updateFeatureButtonStates_loadingOverlayElement]
  have hi : inFlightFor (updateFeatureButtonStates s.currentLanguage s)
      (updateFeatureButtonStates s.currentLanguage s).currentLanguage
      = inFlightFor s s.currentLanguage := by
    simp [inFlightFor]
  rw [hi, updateFeatureButtonStates_isShortAnimationActive]
  obtain ⟨h1, h2⟩ := h
  cases hf : s.isShortAnimationActive with
  | true => simpa using h2 hf
  | false =>
    obtain ⟨b, hb⟩ := Option.isSome_iff_exists.mp h1
    simp [hb]

theorem overlayCorrect_of_fields {s t : State}
    (h1 : t.loadingOverlayElement = s.loadingOverlayElement)
    (h2 : t.isShortAnimationActive = s.isShortAnimationActive)
    (h3 : t.isProcessingFeature = s.isProcessingFeature)
    (h4 : t.activeApiCallDetails = s.activeApiCallDetails)
    (h5 : t.currentLanguage = s.currentLanguage)
    (h : OverlayCorrect s) : OverlayCorrect t := by
  unfold OverlayCorrect inFlightFor at h ⊢
  rw [h1, h2, h3, h4, h5]
  exact h

theorem overlayReady_of_fields {s t : State}
    (h1 : t.loadingOverlayElement = s.loadingOverlayElement)
    (h2 : t.isShortAnimationActive = s.isShortAnimationActive)
    (h : OverlayReady s) : OverlayReady t := by
  unfold OverlayReady at h ⊢
  rw [h1, h2]
  exact h

theorem overlayReady_acquire (k : Kind) (lang : Lang) (a n : Bool) {s : State}
    (h : OverlayReady s) : OverlayReady (acquire k lang a n s).1 := by
  unfold AdaptEase.acquire
  obtain ⟨h1, h2⟩ := h
  obtain ⟨b, hb⟩ := Option.isSome_iff_exists.mp h1
  cases n <;> cases a <;> cases hp : s.isProcessingFeature <;>
    simp_all [OverlayReady, showLoadingAnimation]

theorem overlayCorrect_finish (f : Frame) (b : Bool) {s : State} (h : OverlayCorrect s) :
    OverlayCorrect (finish f b s) := by
  have hr : ∀ s1 : State, OverlayCorrect s1 → OverlayCorrect (releaseOrAnimate f s1) := by
    intro s1 h1
    unfold releaseOrAnimate
    split
    · have := overlayCorrect_of_presenter (s := releaseOwnership s1)
        (overlayReady_of_fields (by simp) (by simp) (overlayCorrect_ready h1))
      simpa using this
    · split
      · exact overlayCorrect_of_fields rfl rfl rfl rfl rfl h1
      · exact overlayCorrect_of_presenter (overlayCorrect_ready h1)
  have h0 : OverlayCorrect (if b then revertActivation f s else s) := by
    cases b
    · exact h
    · exact overlayCorrect_of_fields (s := s) (by simp) (by simp) (by simp) (by simp)
        (by simp) h
  unfold AdaptEase.finish
  exact overlayCorrect_of_fields (s := releaseOrAnimate f (if b then revertActivation f s else s))
    (by simp) (by simp) (by simp) (by simp) (by simp) (hr _ h0)

theorem overlayCorrect_processElements (textContent : Markup → String) (f : Frame)
    (l : List Elem) {s : State} (h : OverlayCorrect s) :
    OverlayCorrect (processElements textContent f l s) :=
  processElements_induct textContent f OverlayCorrect
    (fun s e html hs _ =>
      overlayCorrect_of_fields (s := s) (by simp) (by simp) (by simp) (by simp) (by simp) hs)
    (fun s e base hs _ _ _ =>
      overlayCorrect_of_fields (s := s) (by simp) (by simp) (by simp) (by simp) (by simp) hs)
    (fun s e rest base hs _ _ _ _ =>
      overlayCorrect_of_fields (s := s) (by simp) (by simp) (by simp) (by simp) (by simp) hs)
    (fun s e base hs _ _ _ _ =>
      overlayCorrect_of_fields (s := s) (by simp) (by simp) (by simp) (by simp) (by simp) hs)
    (fun s hs => overlayCorrect_finish f false hs) l s h

theorem overlayCorrect_completeClick (textContent : Markup → String) (k : Kind) (a : Bool)
    (lang : Lang) {s1 : State} (h : OverlayReady s1) :
    OverlayCorrect (completeClick textContent k a lang s1) := by
  unfold AdaptEase.completeClick
  have h3 := overlayCorrect_of_presenter
    (overlayReady_acquire k lang a (a && scanNeedsApi textContent k lang s1) h)
  dsimp only
  split
  · exact overlayCorrect_processElements textContent _ _
      (overlayCorrect_of_fields (by simp) (by simp) (by simp) (by simp) (by simp) h3)
  · exact overlayCorrect_finish _ false h3

theorem overlayCorrect_updateUIText {s : State} (hui : s.uiComplete = true)
    (h : OverlayReady s) : OverlayCorrect (updateUIText s.currentLanguage s) := by
  have he : updateUIText s.currentLanguage s
      = refreshContentElements s.currentLanguage
          (updateFeatureButtonStates s.currentLanguage s) := by
    simp [AdaptEase.updateUIText, hui]
  rw [he]
  exact overlayCorrect_of_fields (by simp) (by simp) (by simp) (by simp) (by simp)
    (overlayCorrect_of_presenter h)

/-- Every event keeps the overlay right when every UI element exists. -/
theorem overlayCorrect_step (textContent : Markup → String) {s : State}
    (hui : s.uiComplete = true) (h : OverlayCorrect s) (ev : Event) :
    OverlayCorrect (step textContent s ev) := by
  cases ev with
  | click k =>
    show OverlayCorrect (clickHandler textContent k s)
    unfold clickHandler
    split
    · exact overlayCorrect_of_fields (s := s) (by simp) (by simp) (by simp) (by simp)
        (by simp) h
    · exact overlayCorrect_completeClick textContent k _ _
        (overlayReady_of_fields (s := s) (by simp) (by simp) (overlayCorrect_ready h))
  | selectLanguage lang =>
    show OverlayCorrect (languageOptionClick lang s)
    unfold languageOptionClick
    split
    · have h1 : OverlayReady { s with currentLanguage := lang } :=
        overlayReady_of_fields (s := s) rfl rfl (overlayCorrect_ready h)
      exact overlayCorrect_updateUIText (s := { s with currentLanguage := lang }) hui h1
    · exact h
  | response i r =>
    show OverlayCorrect (match s.pending.get? i with
      | some inv => resume textContent inv r (s.removePending i)
      | none => s)
    cases s.pending.get? i with
    | none => exact h
    | some inv =>
      have h0 : OverlayCorrect (s.removePending i) :=
        overlayCorrect_of_fields (s := s) (by simp) (by simp) (by simp) (by simp) (by simp) h
      show OverlayCorrect (resume textContent inv r (s.removePending i))
      unfold resume
      split
      · exact overlayCorrect_processElements textContent _ _
          (overlayCorrect_of_fields (by simp) (by simp) (by simp) (by simp) (by simp) h0)
      · exact overlayCorrect_finish _ true h0
  | timer j =>
    show OverlayCorrect (match s.timers.get? j with
      | some t => fireTimer t (s.removeTimer j)
      | none => s)
    cases s.timers.get? j with
    | none => exact h
    | some t =>
      have h0 : OverlayReady (s.removeTimer j) :=
        overlayReady_of_fields (s := s) (by simp) (by simp) (overlayCorrect_ready h)
      show OverlayCorrect (fireTimer t (s.removeTimer j))
      cases t with
      | shortAnimation =>
        unfold fireTimer
        dsimp only
        refine overlayCorrect_of_presenter
          (s := { hideLoadingAnimation (s.removeTimer j) with isShortAnimationActive := false })
          ⟨?_, fun hf => by cases hf⟩
        obtain ⟨b, hb⟩ := Option.isSome_iff_exists.mp (overlayCorrect_ready h).1
        simp [hideLoadingAnimation, hb]
      | bump k =>
        exact overlayCorrect_of_fields (s := s) (by simp [fireTimer]) (by simp [fireTimer])
          (by simp [fireTimer]) (by simp [fireTimer]) (by simp [fireTimer]) h

theorem overlayCorrect_run (textContent : Markup → String) (evs : List Event) :
    ∀ s : State, s.uiComplete = true → OverlayCorrect s →
      OverlayCorrect (run textContent s evs) := by
  induction evs with
  | nil => intro s _ h; exact h
  | cons ev t ih =>
    intro s hui h
    show OverlayCorrect (AdaptEase.run textContent (AdaptEase.step textContent s ev) t)
    exact ih _ (by simpa using hui) (overlayCorrect_step textContent hui h ev)

theorem overlayCorrect_init (p : Page) (hui : p.uiComplete = true)
    (hov : p.loadingOverlayElement ≠ none) : OverlayCorrect (init p) := by
  obtain ⟨b, hb⟩ := Option.ne_none_iff_exists'.mp hov
  unfold AdaptEase.init setupWidgetLogic
  exact overlayCorrect_updateUIText hui ⟨by simp [hb], fun hf => by cases hf⟩

/-- C17, counterexample. On a page where one element required by `updateUIText`
is missing (here the footer text) the language switch returns before the
presenter runs: after a click on text-in-blocks in "en" (the request is in
flight, the overlay is displayed) and a switch to "fr", every click having hit
a button that is not disabled, the overlay is still displayed although the
short-animation flag is not set and the owner language "en" is not the
displayed language. On a page without the overlay element, nothing is
displayed while the request for the displayed language is in flight. -/
theorem C17_indicator_counterexample :
    feasible sampleTextContent (init pageNoFooter)
      [.click .textInBlocks, .selectLanguage "fr"] = true ∧
    overlayVisible (run sampleTextContent (init pageNoFooter)
      [.click .textInBlocks, .selectLanguage "fr"]) = true ∧
    (run sampleTextContent (init pageNoFooter)
      [.click .textInBlocks, .selectLanguage "fr"]).isShortAnimationActive = false ∧
    (run sampleTextContent (init pageNoFooter)
      [.click .textInBlocks, .selectLanguage "fr"]).currentLanguage = "fr" ∧
    (run sampleTextContent (init pageNoFooter)
      [.click .textInBlocks, .selectLanguage "fr"]).isProcessingFeature = true ∧
    (run sampleTextContent (init pageNoFooter)
      [.click .textInBlocks, .selectLanguage "fr"]).activeApiCallDetails
      = some ⟨.textInBlocks, "en"⟩ ∧
    inFlightFor (run sampleTextContent (init pageNoFooter)
      [.click .textInBlocks, .selectLanguage "fr"]) "fr" = false ∧
    feasible sampleTextContent (init pageNoOverlay) [.click .textInBlocks] = true ∧
    overlayVisible (run sampleTextContent (init pageNoOverlay) [.click .textInBlocks])
      = false ∧
    (run sampleTextContent (init pageNoOverlay) [.click .textInBlocks]).currentLanguage
      = "en" ∧
    inFlightFor (run sampleTextContent (init pageNoOverlay) [.click .textInBlocks]) "en"
      = true := by
  decide

/-- C17, amended. Loading indicator: on a page that has the overlay element and
every element `updateUIText` requires, at the end of every synchronous step
(after any sequence of clicks, language switches, request outcomes and timer
callbacks from the start state) the overlay is displayed if and only if the
short-animation flag is set or the ownership is held for the displayed
language (`isProcessingFeature` with `activeApiCallDetails.lang` equal to
`currentLanguage`). -/
theorem C17_indicator_when_ui_present (textContent : Markup → String) (p : Page)
    (hui : p.uiComplete = true) (hov : p.loadingOverlayElement ≠ none) (evs : List Event) :
    (run textContent (init p) evs).loadingOverlayElement
      = some ((run textContent (init p) evs).isShortAnimationActive ||
          inFlightFor (run textContent (init p) evs)
            (run textContent (init p) evs).currentLanguage) ∧
    (overlayVisible (run textContent (init p) evs) = true ↔
      (run textContent (init p) evs).isShortAnimationActive = true ∨
      ((run textContent (init p) evs).isProcessingFeature = true ∧
        ∃ d, (run textContent (init p) evs).activeApiCallDetails = some d ∧
          d.lang = (run textContent (init p) evs).currentLanguage)) := by
  have hui0 : (init p).uiComplete = true := by
    unfold init setupWidgetLogic
    simpa using hui
  have h : OverlayCorrect (run textContent (init p) evs) :=
    overlayCorrect_run textContent evs (init p) hui0 (overlayCorrect_init p hui hov)
  refine ⟨h, ?_⟩
  unfold OverlayCorrect at h
  unfold overlayVisible
  rw [h]
  unfold inFlightFor
  cases (run textContent (init p) evs).activeApiCallDetails <;> simp

/-- C17, on `pageHello`: while the request for "en" is in flight and "en" is
displayed the overlay is displayed; after the switch to "fr" it is hidden; after
the response it is hidden; a later activation served from the cache sets the
short-animation flag and displays the overlay until the timer fires. -/
theorem C17_indicator_when_ui_present_witness :
    pageHello.uiComplete = true ∧ pageHello.loadingOverlayElement ≠ none ∧
    (run sampleTextContent (init pageHello) [.click .textInBlocks]).loadingOverlayElement
      = some true ∧
    (run sampleTextContent (init pageHello)
      [.click .textInBlocks, .selectLanguage "fr"]).loadingOverlayElement = some false ∧
    (run sampleTextContent (init pageHello)
      [.click .textInBlocks,
       .response 0 (.http 200 (.json (.arr ["Hello", "world"])))]).loadingOverlayElement
      = some false ∧
    (run sampleTextContent (init pageHello)
      [.click .textInBlocks, .response 0 (.http 200 (.json (.arr ["Hello", "world"]))),
       .click .textInBlocks, .click .textInBlocks]).isShortAnimationActive = true ∧
    (run sampleTextContent (init pageHello)
      [.click .textInBlocks, .response 0 (.http 200 (.json (.arr ["Hello", "world"]))),
       .click .textInBlocks, .click .textInBlocks]).loadingOverlayElement = some true ∧
    (run sampleTextContent (init pageHello)
      [.click .textInBlocks, .response 0 (.http 200 (.json (.arr ["Hello", "world"]))),
       .click .textInBlocks, .click .textInBlocks, .timer 0]).loadingOverlayElement
      = some false ∧
    ((run sampleTextContent (init pageHello) [.click .textInBlocks]).loadingOverlayElement
      = some ((run sampleTextContent (init pageHello)
            [.click .textInBlocks]).isShortAnimationActive ||
          inFlightFor (run sampleTextContent (init pageHello) [.click .textInBlocks])
            (run sampleTextContent (init pageHello) [.click .textInBlocks]).currentLanguage)) :=
  ⟨by decide, by decide, by decide, by decide, by decide, by decide, by decide, by decide,
   (C17_indicator_when_ui_present sampleTextContent pageHello (by decide) (by decide)
     [.click .textInBlocks]).1⟩

/-! ## The language switch (C21) -/

/-- C21. Language switch: selecting a language other than the displayed one
makes it the displayed language and, when every UI element `updateUIText`
requires is present, leaves every tracked element that has a captured original
showing what the content renderer prescribes for the new language; the
feature-state table, both caches, the original store and the request ownership
are unchanged; selecting the displayed language changes nothing at all. No
click on a transformation button, no resumed segment of its listener and no
timer callback changes the displayed language. -/
theorem C21_language_switch (textContent : Markup → String) (s : State) (lang : Lang) :
    (lang ≠ s.currentLanguage →
      (step textContent s (.selectLanguage lang)).currentLanguage = lang ∧
      (s.uiComplete = true → ∀ e ∈ s.targetTextElements, ∀ html,
        s.originalElementHTML.get e = some html →
        (step textContent s (.selectLanguage lang)).innerHTML e
          = renderedMarkup (step textContent s (.selectLanguage lang)) lang e html ∧
        (step textContent s (.selectLanguage lang)).innerHTML e
          = renderedMarkup s lang e html)) ∧
    ((step textContent s (.selectLanguage lang)).activeFeatures_perLang
        = s.activeFeatures_perLang ∧
      (step textContent s (.selectLanguage lang)).cachedChunkedHTML_perLang
        = s.cachedChunkedHTML_perLang ∧
      (step textContent s (.selectLanguage lang)).cachedSimplifiedText_perLang
        = s.cachedSimplifiedText_perLang ∧
      (step textContent s (.selectLanguage lang)).originalElementHTML
        = s.originalElementHTML ∧
      (step textContent s (.selectLanguage lang)).isProcessingFeature
        = s.isProcessingFeature ∧
      (step textContent s (.selectLanguage lang)).activeApiCallDetails
        = s.activeApiCallDetails) ∧
    (lang = s.currentLanguage → step textContent s (.selectLanguage lang) = s) ∧
    (∀ k, (step textContent s (.click k)).currentLanguage = s.currentLanguage) ∧
    (∀ i r, (step textContent s (.response i r)).currentLanguage = s.currentLanguage) ∧
    (∀ j, (step textContent s (.timer j)).currentLanguage = s.currentLanguage) := by
  refine ⟨fun hne => ?_, ?_, fun heq => ?_, fun k => ?_, fun i r => ?_, fun j => ?_⟩
  · have hstep : step textContent s (.selectLanguage lang)
        = updateUIText lang { s with currentLanguage := lang } := by
      simp [step, languageOptionClick, hne]
    refine ⟨by rw [hstep]; simp, fun hui e he html ho => ?_⟩
    have hstep2 : step textContent s (.selectLanguage lang)
        = refreshContentElements lang
            (updateFeatureButtonStates lang { s with currentLanguage := lang }) := by
      rw [hstep]
      simp [updateUIText, hui]
    have hshow : (step textContent s (.selectLanguage lang)).innerHTML e
        = renderedMarkup s lang e html := by
      rw [hstep2, refreshContentElements_innerHTML]
      simp only [updateFeatureButtonStates_targetTextElements,
        updateFeatureButtonStates_originalElementHTML]
      rw [if_pos he, ho]
      exact renderedMarkup_congr (s := s) (by simp) (by simp) (by simp) lang e html
    refine ⟨?_, hshow⟩
    rw [hshow]
    exact (renderedMarkup_congr (s := s) (by simp [step]) (by simp [step]) (by simp [step])
      lang e html).symm
  · simp [step]
  · simp [step, languageOptionClick, heq]
  · simp [step]
  · show (match s.pending.get? i with
      | some inv => resume textContent inv r (s.removePending i)
      | none => s).currentLanguage = s.currentLanguage
    cases s.pending.get? i <;> simp
  · show (match s.timers.get? j with
      | some t => fireTimer t (s.removeTimer j)
      | none => s).currentLanguage = s.currentLanguage
    cases s.timers.get? j <;> simp

/-- C21, on `helloBlocks` (text-in-blocks active and cached for "en"): the
switch to "fr" shows the original, the switch back to "en" shows the cached
blocks again. -/
theorem C21_language_switch_witness :
    "fr" ≠ helloBlocks.currentLanguage ∧ helloBlocks.uiComplete = true ∧
    helloBlocks.innerHTML 0 = "Hello<br><br>world" ∧
    (step sampleTextContent helloBlocks (.selectLanguage "fr")).currentLanguage = "fr" ∧
    (step sampleTextContent helloBlocks (.selectLanguage "fr")).innerHTML 0
      = renderedMarkup helloBlocks "fr" 0 "Hello world" ∧
    renderedMarkup helloBlocks "fr" 0 "Hello world" = "Hello world" ∧
    (run sampleTextContent helloBlocks [.selectLanguage "fr", .selectLanguage "en"]).innerHTML 0
      = "Hello<br><br>world" :=
  ⟨by decide, by decide, by decide,
   ((C21_language_switch sampleTextContent helloBlocks "fr").1 (by decide)).1,
   (((C21_language_switch sampleTextContent helloBlocks "fr").1 (by decide)).2 (by decide)
     0 (by decide) "Hello world" (by decide)).2,
   by decide, by decide⟩

/-! ## The need-API determination (C22) -/

/-- A loop whose invocation was judged not to need the API issues no request
and is not suspended. -/
theorem processElements_no_request (textContent : Markup → String) (f : Frame)
    (hn : f.thisOperationWouldNeedApi = false) (l : List Elem) (s : State) :
    (processElements textContent f l s).fetchLog = s.fetchLog ∧
    (processElements textContent f l s).pending = s.pending :=
  processElements_induct textContent f
    (fun s' => s'.fetchLog = s.fetchLog ∧ s'.pending = s.pending)
    (fun s' e html h _ => by simpa using h)
    (fun s' e base h _ _ _ => by simpa using h)
    (fun s' e rest base _ _ _ _ hf => by rw [hn] at hf; cases hf)
    (fun s' e base h _ _ _ _ => by simpa using h)
    (fun s' h => by simpa using h) l s ⟨rfl, rfl⟩

/-- A click that the guard lets through runs the rest of the listener with the
locals `clickFrame`. -/
theorem clickHandler_eq_loop (textContent : Markup → String) (k : Kind) (s : State)
    (hb : deactivationBlocked k s = false) :
    clickHandler textContent k s =
      if (s.features s.currentLanguage).get k = false then
        processElements textContent (clickFrame textContent k s) s.targetTextElements
          (ensureLangCache k s.currentLanguage
            (updateFeatureButtonStates s.currentLanguage
              (acquire k s.currentLanguage true
                (scanNeedsApi textContent k s.currentLanguage (toggleFeature k s))
                (toggleFeature k s)).1))
      else
        finish (clickFrame textContent k s) false
          (updateFeatureButtonStates s.currentLanguage
            (acquire k s.currentLanguage false false (toggleFeature k s)).1) := by
  unfold clickHandler clickFrame completeClick
  rw [hb]
  cases hk : (s.features s.currentLanguage).get k <;> simp

theorem clickFrame_need (textContent : Markup → String) (k : Kind) (s : State) :
    (clickFrame textContent k s).thisOperationWouldNeedApi
      = (!(s.features s.currentLanguage).get k &&
          scanNeedsApi textContent k s.currentLanguage s) := by
  unfold clickFrame
  rw [acquire_snd]
  have hsame : scanNeedsApi textContent k s.currentLanguage (toggleFeature k s)
      = scanNeedsApi textContent k s.currentLanguage s :=
    scanNeedsApi_congr textContent (s := s) (by simp) (by simp)
      (fun _ _ _ => cached_congr (by simp) (by simp) _ _ _) k s.currentLanguage
  rw [hsame]

/-- C22. Needs-API determination: on a click on kind `k` in the displayed
language, the listener sets `thisOperationWouldNeedApi` if and only if the
click is activating and some tracked element is absent from the cache for
(`k`, displayed language), has a captured original, and the trimmed text of
that original is not empty. When the flag is not set, the click issues no
request and its invocation is not suspended: it ends within the click. -/
theorem C22_needs_api (textContent : Markup → String) (k : Kind) (s : State) :
    ((clickFrame textContent k s).thisOperationWouldNeedApi = true ↔
      (s.features s.currentLanguage).get k = false ∧
      ∃ e ∈ s.targetTextElements, s.cached k s.currentLanguage e = none ∧
        ∃ html, s.originalElementHTML.get e = some html ∧
          jsTrim (textContent html) ≠ "") ∧
    ((clickFrame textContent k s).thisOperationWouldNeedApi = false →
      (step textContent s (.click k)).fetchLog = s.fetchLog ∧
      (step textContent s (.click k)).pending = s.pending) ∧
    (deactivationBlocked k s = false →
      step textContent s (.click k) =
        if (s.features s.currentLanguage).get k = false then
          processElements textContent (clickFrame textContent k s) s.targetTextElements
            (ensureLangCache k s.currentLanguage
              (updateFeatureButtonStates s.currentLanguage
                (acquire k s.currentLanguage true
                  (scanNeedsApi textContent k s.currentLanguage (toggleFeature k s))
                  (toggleFeature k s)).1))
        else
          finish (clickFrame textContent k s) false
            (updateFeatureButtonStates s.currentLanguage
              (acquire k s.currentLanguage false false (toggleFeature k s)).1)) := by
  refine ⟨?_, fun hn => ?_, fun hb => clickHandler_eq_loop textContent k s hb⟩
  · rw [clickFrame_need, Bool.and_eq_true, scanNeedsApi_eq_true]
    constructor
    · rintro ⟨hk, e, he, hne⟩
      rw [elementNeedsApi_iff] at hne
      exact ⟨by simpa using hk, e, he, hne⟩
    · rintro ⟨hk, e, he, hne⟩
      exact ⟨by simpa using hk, e, he, (elementNeedsApi_iff textContent k _ s e).mpr hne⟩
  · show (clickHandler textContent k s).fetchLog = s.fetchLog ∧
      (clickHandler textContent k s).pending = s.pending
    rcases Bool.eq_false_or_eq_true (deactivationBlocked k s) with hb | hb
    · have : clickHandler textContent k s = bumpFeedback k s := by
        simp [clickHandler, hb]
      rw [this]
      simp
    · rw [clickHandler_eq_loop textContent k s hb]
      split
      · have h := processElements_no_request textContent _ hn s.targetTextElements
          (ensureLangCache k s.currentLanguage
            (updateFeatureButtonStates s.currentLanguage
              (acquire k s.currentLanguage true
                (scanNeedsApi textContent k s.currentLanguage (toggleFeature k s))
                (toggleFeature k s)).1))
        simpa using h
      · simp

/-- C22, on `helloDeactivated` (the element is cached for text-in-blocks in
"en", the kind is off): the activating click is judged not to need the API and
issues no request; on the start state of `pageHello` it is judged to need it. -/
theorem C22_needs_api_witness :
    (clickFrame sampleTextContent .textInBlocks helloDeactivated).thisOperationWouldNeedApi
      = false ∧
    ((step sampleTextContent helloDeactivated (.click .textInBlocks)).fetchLog
        = helloDeactivated.fetchLog ∧
      (step sampleTextContent helloDeactivated (.click .textInBlocks)).pending
        = helloDeactivated.pending) ∧
    (step sampleTextContent helloDeactivated (.click .textInBlocks)).innerHTML 0
      = "Hello<br><br>world" ∧
    (clickFrame sampleTextContent .textInBlocks (init pageHello)).thisOperationWouldNeedApi
      = true :=
  ⟨by decide,
   (C22_needs_api sampleTextContent .textInBlocks helloDeactivated).2.1 (by decide),
   by decide, by decide⟩

/-! ## The cache entry of an element without text (C23) -/

theorem CacheGrew_setInnerHTML (s : State) (e : Elem) (html : Markup) :
    CacheGrew s (s.setInnerHTML e html) :=
  ⟨by simp, by simp, fun k lang x h => by
    unfold IsCached at h ⊢
    rw [cached_congr (s := s) (by simp) (by simp)]
    exact h⟩

/-- The loop reaches an element when no element before it makes it wait for a
request; if that element has a captured original without text, it has the
original as its entry when the segment ends. -/
theorem processElements_reaches_empty (textContent : Markup → String) (f : Frame) (e : Elem)
    (base : Markup) (rest : List Elem) (ht : jsTrim (textContent base) = "") :
    ∀ (pre : List Elem) (s : State),
      (∀ y ∈ pre, elementNeedsApi textContent f.kind f.originalClickLanguage s y = false) →
      s.originalElementHTML.get e = some base →
      (s.cached f.kind f.originalClickLanguage e = none ∨
        s.cached f.kind f.originalClickLanguage e = some base) →
      (processElements textContent f (pre ++ e :: rest) s).cached f.kind
        f.originalClickLanguage e = some base := by
  intro pre
  induction pre with
  | nil =>
    intro s _ ho hc
    show (processElements textContent f (e :: rest) s).cached _ _ e = some base
    unfold processElements
    rcases hc with hc | hc
    · rw [hc, ho]
      dsimp only
      rw [if_pos ht]
      exact processElements_keeps_entry textContent f e base rest _
        (by rw [cached_storeEmpty]; simp)
    · rw [hc]
      exact processElements_keeps_entry textContent f e base rest _
        (by rw [cached_congr (s := s) (by simp) (by simp)]; exact hc)
  | cons y pre ih =>
    intro s hpre ho hc
    have hy := hpre y (List.mem_cons_self _ _)
    have hrest : ∀ z ∈ pre,
        elementNeedsApi textContent f.kind f.originalClickLanguage s z = false :=
      fun z hz => hpre z (List.mem_cons_of_mem _ hz)
    show (processElements textContent f (y :: (pre ++ e :: rest)) s).cached _ _ e = some base
    unfold processElements
    cases hcy : s.cached f.kind f.originalClickLanguage y with
    | some html =>
      dsimp only
      refine ih _ (fun z hz => elementNeedsApi_false_mono textContent
        (CacheGrew_setInnerHTML s y html) (hrest z hz)) (by simpa using ho) ?_
      rw [cached_congr (s := s) (by simp) (by simp)]
      exact hc
    | none =>
      cases hoy : s.originalElementHTML.get y with
      | none => exact ih s hrest ho hc
      | some basey =>
        dsimp only
        by_cases hty : jsTrim (textContent basey) = ""
        · rw [if_pos hty]
          refine ih _ (fun z hz => elementNeedsApi_false_mono textContent
            (CacheGrew_storeEmpty f y basey s) (hrest z hz)) (by simpa using ho) ?_
          rw [cached_storeEmpty]
          by_cases hye : e = y
          · subst hye
            rw [ho] at hoy
            cases hoy
            right; simp
          · simpa [hye] using hc
        · exfalso
          have : elementNeedsApi textContent f.kind f.originalClickLanguage s y = true :=
            (elementNeedsApi_iff textContent _ _ s y).mpr ⟨hcy, basey, hoy, hty⟩
          rw [this] at hy
          cases hy

/-- C23. Empty-text cache entry: in the activation loop of any invocation
(whatever its locals, so whether or not it acquired the ownership), an element
that is not cached for the kind and click language of the invocation and whose
captured original has no text after trimming gets that original as its cache
entry, without a request. This holds at the branch, when the element is the
next one of the loop, and at the end of the segment whenever no element before
it makes the loop wait for a request. Rendering the element from a state with
that entry, in which the kind is the one the renderer shows, gives the original
markup. -/
theorem C23_empty_text_entry (textContent : Markup → String) (f : Frame) (e : Elem)
    (base : Markup) (s : State)
    (hc : s.cached f.kind f.originalClickLanguage e = none)
    (ho : s.originalElementHTML.get e = some base)
    (ht : jsTrim (textContent base) = "") :
    (∀ rest, processElements textContent f (e :: rest) s
      = processElements textContent f rest (storeEmpty f e base s)) ∧
    (storeEmpty f e base s).cached f.kind f.originalClickLanguage e = some base ∧
    (storeEmpty f e base s).fetchLog = s.fetchLog ∧
    (storeEmpty f e base s).pending = s.pending ∧
    (∀ pre rest,
      (∀ y ∈ pre, elementNeedsApi textContent f.kind f.originalClickLanguage s y = false) →
      (processElements textContent f (pre ++ e :: rest) s).cached f.kind
        f.originalClickLanguage e = some base) ∧
    (∀ t : State, t.cached f.kind f.originalClickLanguage e = some base →
      (t.features f.originalClickLanguage).get f.kind = true →
      (f.kind = .simplifiedText → (t.features f.originalClickLanguage).textInBlocks = false) →
      t.originalElementHTML.get e = some base → e ∈ t.targetTextElements →
      renderedMarkup t f.originalClickLanguage e base = base ∧
      (refreshContentElements f.originalClickLanguage t).innerHTML e = base) := by
  refine ⟨fun rest => ?_, by rw [cached_storeEmpty]; simp, by simp, by simp,
    fun pre rest hpre =>
      processElements_reaches_empty textContent f e base rest ht pre s hpre ho (Or.inl hc),
    fun t htc hk hko hto hte => ?_⟩
  · conv_lhs => unfold processElements
    rw [hc, ho]
    dsimp only
    rw [if_pos ht]
  · have hr : renderedMarkup t f.originalClickLanguage e base = base :=
      renderedMarkup_active htc hk hko base
    refine ⟨hr, ?_⟩
    rw [refreshContentElements_innerHTML, if_pos hte, hto]
    exact hr

/-- C23, on `pageBlank`: element 0 holds only a line break. The loop of a
text-in-blocks activation for "en" stores `<br>` for it; the click itself does
so, requests only element 1, and element 0 still shows `<br>`. -/
theorem C23_empty_text_entry_witness :
    (init pageBlank).cached .textInBlocks "en" 0 = none ∧
    (init pageBlank).originalElementHTML.get 0 = some "<br>" ∧
    jsTrim (sampleTextContent "<br>") = "" ∧
    (processElements sampleTextContent ⟨.textInBlocks, "en", true, true, false, false⟩
      ([] ++ 0 :: [1]) (init pageBlank)).cached .textInBlocks "en" 0 = some "<br>" ∧
    (step sampleTextContent (init pageBlank) (.click .textInBlocks)).cached
      .textInBlocks "en" 0 = some "<br>" ∧
    (step sampleTextContent (init pageBlank) (.click .textInBlocks)).fetchLog
      = [⟨.textInBlocks, 1, "Hello", "en"⟩] ∧
    (step sampleTextContent (init pageBlank) (.click .textInBlocks)).innerHTML 0 = "<br>" :=
  ⟨by decide, by decide, by decide,
   (C23_empty_text_entry sampleTextContent ⟨.textInBlocks, "en", true, true, false, false⟩
     0 "<br>" (init pageBlank) (by decide) (by decide) (by decide)).2.2.2.2.1 [] [1]
     (fun y hy => by cases hy),
   by decide, by decide, by decide⟩

/-! ## A failed request ends the invocation (C24) -/

/-- C24. Failure aborts the rest: when the request of a suspended invocation
fails (transport failure, non-2xx status, body that does not parse, malformed
`processed_text`), the step is the end of the invocation with the error flag:
the loop does not go on to the elements still to be visited, so no request is
issued, the invocation is no longer suspended, and every cache entry is what
it was before the step (none is added, those stored for earlier elements are
kept). On success, in contrast, the loop goes on with the remaining elements. -/
theorem C24_failure_aborts (textContent : Markup → String) (s : State) (i : Nat)
    (inv : Invocation) (r : FetchOutcome) (hinv : s.pending.get? i = some inv)
    (hfail : fetchResult inv.frame.kind r = none) :
    step textContent s (.response i r) = finish inv.frame true (s.removePending i) ∧
    (step textContent s (.response i r)).fetchLog = s.fetchLog ∧
    (step textContent s (.response i r)).pending = s.pending.eraseIdx i ∧
    (step textContent s (.response i r)).cachedChunkedHTML_perLang
      = s.cachedChunkedHTML_perLang ∧
    (step textContent s (.response i r)).cachedSimplifiedText_perLang
      = s.cachedSimplifiedText_perLang ∧
    (∀ k lang e, (step textContent s (.response i r)).cached k lang e = s.cached k lang e) ∧
    (∀ html r', fetchResult inv.frame.kind r' = some html →
      step textContent s (.response i r')
        = processElements textContent inv.frame inv.rest
            (storeResult inv html (s.removePending i))) := by
  have h := step_response_failure textContent hinv hfail
  refine ⟨h, by rw [h]; simp, by rw [h]; simp [State.removePending], by rw [h]; simp,
    by rw [h]; simp, fun k lang e => ?_, fun html r' hr => ?_⟩
  · rw [h]
    exact cached_congr (by simp) (by simp) k lang e
  · rw [step_response textContent _ hinv]
    simp only [resume, hr]

/-- C24, on `abcSecondRequested`: the request for element 1 fails with HTTP
500; the entry of element 0 is kept, elements 1 and 2 get none, and no request
for element 2 is issued. -/
theorem C24_failure_aborts_witness :
    abcSecondRequested.pending.get? 0
      = some ⟨⟨.textInBlocks, "en", true, true, true, false⟩, 1, [2]⟩ ∧
    fetchResult .textInBlocks (.http 500 .invalid) = none ∧
    (step sampleTextContent abcSecondRequested (.response 0 (.http 500 .invalid))).fetchLog
      = abcSecondRequested.fetchLog ∧
    abcSecondRequested.fetchLog
      = [⟨.textInBlocks, 0, "A", "en"⟩, ⟨.textInBlocks, 1, "B", "en"⟩] ∧
    (step sampleTextContent abcSecondRequested (.response 0 (.http 500 .invalid))).pending
      = [] ∧
    (step sampleTextContent abcSecondRequested (.response 0 (.http 500 .invalid))).cached
      .textInBlocks "en" 0 = some "a" ∧
    (step sampleTextContent abcSecondRequested (.response 0 (.http 500 .invalid))).cached
      .textInBlocks "en" 1 = none ∧
    (step sampleTextContent abcSecondRequested (.response 0 (.http 500 .invalid))).cached
      .textInBlocks "en" 2 = none :=
  ⟨by decide, by decide,
   (C24_failure_aborts sampleTextContent abcSecondRequested 0
     ⟨⟨.textInBlocks, "en", true, true, true, false⟩, 1, [2]⟩ (.http 500 .invalid)
     (by decide) (by decide)).2.1,
   by decide, by decide, by decide, by decide, by decide⟩

/-! ## The caches only grow (C25) -/

theorem EntriesFrom.of_cache_same {textContent : Markup → String}
    {extra : Kind → Lang → Elem → Markup → Prop} {s t u : State}
    (ho : u.originalElementHTML = t.originalElementHTML)
    (h1 : u.cachedChunkedHTML_perLang = t.cachedChunkedHTML_perLang)
    (h2 : u.cachedSimplifiedText_perLang = t.cachedSimplifiedText_perLang)
    (h : EntriesFrom textContent extra s t) : EntriesFrom textContent extra s u := by
  refine ⟨ho.trans h.1, fun k lang e html hc => ?_⟩
  rw [cached_congr (s := t) h1 h2] at hc
  exact h.2 k lang e html hc

theorem EntriesFrom.at_start (textContent : Markup → String)
    (extra : Kind → Lang → Elem → Markup → Prop) (s : State) :
    EntriesFrom textContent extra s s :=
  ⟨rfl, fun _ _ _ _ hc => Or.inl hc⟩

/-- The loop adds entries only for elements without text. -/
theorem EntriesFrom.through_loop (textContent : Markup → String)
    (extra : Kind → Lang → Elem → Markup → Prop) (f : Frame) (l : List Elem) {s t : State}
    (h : EntriesFrom textContent extra s t) :
    EntriesFrom textContent extra s (processElements textContent f l t) :=
  processElements_induct textContent f (EntriesFrom textContent extra s)
    (fun s' e html hs _ => hs.of_cache_same (by simp) (by simp) (by simp))
    (fun s' e base hs _ ho ht => by
      refine ⟨by simpa using hs.1, fun k lang x html hc => ?_⟩
      rw [cached_storeEmpty] at hc
      split at hc
      · next heq =>
        cases hc
        obtain ⟨_, _, hx⟩ := heq
        subst hx
        rw [hs.1] at ho
        exact Or.inr (Or.inl ⟨ho, ht⟩)
      · exact hs.2 k lang x html hc)
    (fun s' e rest base hs _ _ _ _ => hs.of_cache_same (by simp) (by simp) (by simp))
    (fun s' e base hs _ _ _ _ => hs.of_cache_same (by simp) (by simp) (by simp))
    (fun s' hs => hs.of_cache_same (by simp) (by simp) (by simp)) l t h

theorem EntriesFrom.after_click (textContent : Markup → String) (k : Kind) (s : State) :
    EntriesFrom textContent (fun _ _ _ _ => False) s (clickHandler textContent k s) := by
  unfold clickHandler
  split
  · exact (EntriesFrom.at_start textContent _ s).of_cache_same (by simp) (by simp) (by simp)
  · unfold completeClick
    dsimp only
    split
    · refine EntriesFrom.through_loop textContent _ _ _ ⟨by simp, fun k' lang e html hc => ?_⟩
      rw [cached_ensureLangCache, cached_congr (s := s) (by simp) (by simp)] at hc
      exact Or.inl hc
    · exact (EntriesFrom.at_start textContent _ s).of_cache_same (by simp) (by simp) (by simp)

theorem EntriesFrom.after_response (textContent : Markup → String) (s : State) (i : Nat)
    (inv : Invocation) (r : FetchOutcome) :
    EntriesFrom textContent
      (fun k lang e html => k = inv.frame.kind ∧ lang = inv.frame.originalClickLanguage ∧
        e = inv.element ∧ fetchResult inv.frame.kind r = some html)
      s (resume textContent inv r (s.removePending i)) := by
  unfold resume
  cases hr : fetchResult inv.frame.kind r with
  | none =>
    exact (EntriesFrom.at_start textContent _ s).of_cache_same (by simp) (by simp) (by simp)
  | some html' =>
    refine EntriesFrom.through_loop textContent _ _ _ ⟨by simp, fun k lang e html hc => ?_⟩
    rw [cached_storeResult] at hc
    split at hc
    · next heq =>
      cases hc
      exact Or.inr (Or.inr ⟨heq.1, heq.2.1, heq.2.2, rfl⟩)
    · rw [cached_congr (s := s) (by simp) (by simp)] at hc
      exact Or.inl hc

/-- C25. Caches only grow, and only on success or empty text: across every
step of the widget an element that has an entry for (kind, language) still has
one after the step, and an entry for (`k`, `lang`, `e`) that was not there
before the step and is there after it is either the markup the listener took
from a well-formed 2xx response delivered in this step to a suspended
invocation of kind `k` for language `lang` waiting on `e`, or the captured
original of `e`, whose trimmed text is empty. -/
theorem C25_caches_only_grow (textContent : Markup → String) (s : State) (ev : Event) :
    (∀ k lang e, (s.cached k lang e).isSome = true →
      ((step textContent s ev).cached k lang e).isSome = true) ∧
    (∀ k lang e html, s.cached k lang e = none →
      (step textContent s ev).cached k lang e = some html →
      (∃ i inv r, ev = .response i r ∧ s.pending.get? i = some inv ∧
        inv.frame.kind = k ∧ inv.frame.originalClickLanguage = lang ∧ inv.element = e ∧
        fetchResult k r = some html) ∨
      (s.originalElementHTML.get e = some html ∧ jsTrim (textContent html) = "")) := by
  refine ⟨fun k lang e h => (step_cached textContent k lang e s ev h).1,
    fun k lang e html hnone hsome => ?_⟩
  cases ev with
  | click k' =>
    rcases (EntriesFrom.after_click textContent k' s).2 k lang e html hsome with h | h | h
    · rw [hnone] at h; cases h
    · exact Or.inr h
    · exact h.elim
  | selectLanguage l =>
    have : (step textContent s (.selectLanguage l)).cached k lang e = s.cached k lang e :=
      cached_congr (by simp [step]) (by simp [step]) k lang e
    rw [this, hnone] at hsome
    cases hsome
  | response i r =>
    cases hinv : s.pending.get? i with
    | none =>
      have : step textContent s (.response i r) = s := by
        show (match s.pending.get? i with
          | some inv => resume textContent inv r (s.removePending i)
          | none => s) = s
        rw [hinv]
      rw [this, hnone] at hsome
      cases hsome
    | some inv =>
      rw [step_response textContent _ hinv] at hsome
      rcases (EntriesFrom.after_response textContent s i inv r).2 k lang e html hsome
        with h | h | h
      · rw [hnone] at h; cases h
      · exact Or.inr h
      · obtain ⟨h1, h2, h3, h4⟩ := h
        exact Or.inl ⟨i, inv, r, rfl, hinv, h1.symm, h2.symm, h3.symm, by rw [h1]; exact h4⟩
  | timer j =>
    have : (step textContent s (.timer j)).cached k lang e = s.cached k lang e := by
      show (match s.timers.get? j with
        | some t => fireTimer t (s.removeTimer j)
        | none => s).cached k lang e = s.cached k lang e
      cases s.timers.get? j with
      | none => rfl
      | some t => exact cached_congr (by simp) (by simp) k lang e
    rw [this, hnone] at hsome
    cases hsome

/-- C25, on `helloRequested`: the entry that the successful response adds for
(text-in-blocks, "en", element 0) is the markup taken from that response. -/
theorem C25_caches_only_grow_witness :
    helloRequested.cached .textInBlocks "en" 0 = none ∧
    (step sampleTextContent helloRequested
      (.response 0 (.http 200 (.json (.arr ["Hello", "world"]))))).cached
        .textInBlocks "en" 0 = some "Hello<br><br>world" ∧
    ((∃ i inv r, Event.response 0 (.http 200 (.json (.arr ["Hello", "world"])))
          = .response i r ∧
        helloRequested.pending.get? i = some inv ∧
        inv.frame.kind = .textInBlocks ∧ inv.frame.originalClickLanguage = "en" ∧
        inv.element = 0 ∧ fetchResult .textInBlocks r = some "Hello<br><br>world") ∨
      (helloRequested.originalElementHTML.get 0 = some "Hello<br><br>world" ∧
        jsTrim (sampleTextContent "Hello<br><br>world") = "")) :=
  ⟨by decide, by decide,
   (C25_caches_only_grow sampleTextContent helloRequested
     (.response 0 (.http 200 (.json (.arr ["Hello", "world"]))))).2
     .textInBlocks "en" 0 "Hello<br><br>world" (by decide) (by decide)⟩

/-! ## Writes while another language is displayed (C26) -/

/-- C26, failing run. On `pageABC`, after the first twelve events of
`staleWriteRun` "fr" is displayed, every element shows its original, and the
invocation started for "en" waits for element 1 with element 2 still to visit,
which by then has the entry `c` for (text-in-blocks, "en"). Its successful
response is handled while "fr" is displayed: the entry of element 1 is stored
and element 1 is not written (the guarded success branch), but the loop then
finds element 2 in the cache and writes `c` into it, although the click
language "en" is not the displayed one; the renderer prescribes the original
`C` for "fr". Every event of the run can be delivered. -/
theorem C26_cache_hit_write_unguarded :
    feasible sampleTextContent (init pageABC) staleWriteRun = true ∧
    (run sampleTextContent (init pageABC) (staleWriteRun.take 12)).currentLanguage = "fr" ∧
    (run sampleTextContent (init pageABC) (staleWriteRun.take 12)).innerHTML 2 = "C" ∧
    (run sampleTextContent (init pageABC) (staleWriteRun.take 12)).pending.get? 1
      = some ⟨⟨.textInBlocks, "en", true, true, false, false⟩, 1, [2]⟩ ∧
    (run sampleTextContent (init pageABC) (staleWriteRun.take 12)).cached
      .textInBlocks "en" 2 = some "c" ∧
    (run sampleTextContent (init pageABC) staleWriteRun).currentLanguage = "fr" ∧
    (run sampleTextContent (init pageABC) staleWriteRun).cached .textInBlocks "en" 1
      = some "b" ∧
    (run sampleTextContent (init pageABC) staleWriteRun).innerHTML 1 = "B" ∧
    (run sampleTextContent (init pageABC) staleWriteRun).innerHTML 2 = "c" ∧
    renderedMarkup (run sampleTextContent (init pageABC) staleWriteRun) "fr" 2 "C" = "C" := by
  decide

/-! ## Deactivation (C27) -/

theorem features_of_get {s : State} {lang : Lang} {fs : FeatureStates}
    (h : s.activeFeatures_perLang.get lang = some fs) : s.features lang = fs := by
  simp [State.features, h]

/-- C27. Deactivation restores the original: in a state whose feature table is
mutually exclusive, with kind `k` active for the displayed language L and the
ownership not held by (`k`, L), a click on `k` stores for L the feature state
with `k` false and the other kind as it was (false), issues no request,
suspends nothing, leaves both caches and the ownership as they were, and at the
end of the click every tracked element that has a captured original shows
exactly that original. -/
theorem C27_deactivation_restores (textContent : Markup → String) (k : Kind) (s : State)
    (hexcl : Exclusive s)
    (hk : (s.features s.currentLanguage).get k = true)
    (hown : ¬ (s.isProcessingFeature = true ∧
      s.activeApiCallDetails = some ⟨k, s.currentLanguage⟩)) :
    (step textContent s (.click k)).activeFeatures_perLang
      = s.activeFeatures_perLang.set s.currentLanguage
          ((s.features s.currentLanguage).set k false) ∧
    ((step textContent s (.click k)).features s.currentLanguage).get k = false ∧
    ((step textContent s (.click k)).features s.currentLanguage).get k.other
      = (s.features s.currentLanguage).get k.other ∧
    (step textContent s (.click k)).fetchLog = s.fetchLog ∧
    (step textContent s (.click k)).pending = s.pending ∧
    (step textContent s (.click k)).cachedChunkedHTML_perLang = s.cachedChunkedHTML_perLang ∧
    (step textContent s (.click k)).cachedSimplifiedText_perLang
      = s.cachedSimplifiedText_perLang ∧
    (step textContent s (.click k)).isProcessingFeature = s.isProcessingFeature ∧
    (step textContent s (.click k)).activeApiCallDetails = s.activeApiCallDetails ∧
    (∀ e ∈ s.targetTextElements, ∀ html, s.originalElementHTML.get e = some html →
      (step textContent s (.click k)).innerHTML e = html) := by
  have hb : deactivationBlocked k s = false := by
    unfold deactivationBlocked
    rcases Bool.eq_false_or_eq_true s.isProcessingFeature with hp | hp
    · cases hd : s.activeApiCallDetails with
      | none => simp
      | some d =>
        have hne : ¬ (d.name = k ∧ d.lang = s.currentLanguage) := by
          rintro ⟨h1, h2⟩
          apply hown
          refine ⟨hp, ?_⟩
          rw [hd]
          cases d
          simp_all
        simp only [hp, hk, Bool.true_and, Bool.and_true, Bool.and_eq_false_iff,
          decide_eq_false_iff_not]
        by_cases h1 : d.name = k
        · right; exact fun h2 => hne ⟨h1, h2⟩
        · left; exact h1
    · simp [hp]
  have hacq : (acquire k s.currentLanguage false false (toggleFeature k s))
      = (toggleFeature k s, ⟨k, s.currentLanguage, false, false, false, false⟩) := by
    simp [acquire]
  have hfr : clickFrame textContent k s = ⟨k, s.currentLanguage, false, false, false, false⟩ := by
    unfold clickFrame
    rw [acquire_snd, hk]
    simp
  have hstep : step textContent s (.click k)
      = finish ⟨k, s.currentLanguage, false, false, false, false⟩ false
          (updateFeatureButtonStates s.currentLanguage (toggleFeature k s)) := by
    show clickHandler textContent k s = _
    rw [clickHandler_eq_loop textContent k s hb, hk, hfr, hacq]
    simp
  have hnew : newFeatureStates k (s.features s.currentLanguage)
      = (s.features s.currentLanguage).set k false := by
    simp [newFeatureStates, hk]
  have hfeat : (step textContent s (.click k)).activeFeatures_perLang
      = s.activeFeatures_perLang.set s.currentLanguage
          ((s.features s.currentLanguage).set k false) := by
    rw [hstep, finish_activeFeatures_perLang]
    simp only [Bool.false_eq_true, if_false, updateFeatureButtonStates_activeFeatures_perLang]
    rw [toggleFeature_activeFeatures_perLang, hnew]
  have hfs : (step textContent s (.click k)).features s.currentLanguage
      = (s.features s.currentLanguage).set k false :=
    features_of_get (by rw [hfeat, JSMap.get_set_self])
  have hother : (s.features s.currentLanguage).get k.other = false := by
    have := features_exclusive hexcl s.currentLanguage
    cases k <;> simp_all [FeatureStates.get, Kind.other]
  have hko : ((step textContent s (.click k)).features s.currentLanguage).get k.other
      = (s.features s.currentLanguage).get k.other := by
    rw [hfs, FeatureStates.get_set_other]
  refine ⟨hfeat, by rw [hfs, FeatureStates.get_set_kind], hko,
    by rw [hstep]; simp, by rw [hstep]; simp, by rw [hstep]; simp, by rw [hstep]; simp,
    ?_, ?_, fun e he html ho => ?_⟩
  · rw [hstep]
    exact ((finish_ownership _ false _).2 rfl).1.trans (by simp)
  · rw [hstep]
    exact ((finish_ownership _ false _).2 rfl).2.trans (by simp)
  · have hshow := finish_innerHTML_displayed
      ⟨k, s.currentLanguage, false, false, false, false⟩ false
      (updateFeatureButtonStates s.currentLanguage (toggleFeature k s))
      (by simp) e (by simpa using he) html (by simpa using ho)
    rw [← hstep] at hshow
    rw [hshow]
    simp only [updateFeatureButtonStates_currentLanguage, toggleFeature_currentLanguage]
    exact renderedMarkup_inactive k (by rw [hfs, FeatureStates.get_set_kind])
      (by rw [hko]; exact hother) e html

/-- C27, on `helloBlocks` (text-in-blocks active and cached for "en", no
request in flight): the click switches the kind off and the element shows
`Hello world` again; the cache keeps its entry. -/
theorem C27_deactivation_restores_witness :
    (helloBlocks.features helloBlocks.currentLanguage).get .textInBlocks = true ∧
    helloBlocks.innerHTML 0 = "Hello<br><br>world" ∧
    (step sampleTextContent helloBlocks (.click .textInBlocks)).innerHTML 0 = "Hello world" ∧
    (step sampleTextContent helloBlocks (.click .textInBlocks)).cached .textInBlocks "en" 0
      = some "Hello<br><br>world" :=
  ⟨by decide, by decide,
   (C27_deactivation_restores sampleTextContent .textInBlocks helloBlocks
     (Exclusive_reachable sampleTextContent
       (Reachable_run sampleTextContent _ (Reachable.start pageHello)))
     (by decide) (by decide)).2.2.2.2.2.2.2.2.2 0 (by decide) "Hello world" (by decide),
   by decide⟩

/-! ## A successful activation (C28) -/

/-- The loop of an invocation judged to need the API either waits at a request
for some element, with every element visited before it resolved, or reaches the
end of the invocation with every element of the list resolved. -/
theorem processElements_progress (textContent : Markup → String) (f : Frame)
    (hn : f.thisOperationWouldNeedApi = true) :
    ∀ (l pre : List Elem) (u : State),
      (∀ y ∈ pre, Resolved u f.kind f.originalClickLanguage y) →
      (∃ mid e rest text u', l = mid ++ e :: rest ∧
          processElements textContent f l u = issueFetch f e rest text u' ∧
          SameControl u u' ∧
          ∀ y ∈ pre ++ mid, Resolved u' f.kind f.originalClickLanguage y) ∨
      (∃ u', processElements textContent f l u = finish f false u' ∧ SameControl u u' ∧
          ∀ y ∈ pre ++ l, Resolved u' f.kind f.originalClickLanguage y) := by
  intro l
  induction l with
  | nil =>
    intro pre u hpre
    exact Or.inr ⟨u, rfl, SameControl.same_refl u, by simpa using hpre⟩
  | cons x l ih =>
    intro pre u hpre
    have next : ∀ u1 : State, SameControl u u1 → CacheGrew u u1 →
        Resolved u1 f.kind f.originalClickLanguage x →
        (∃ mid e rest text u', x :: l = mid ++ e :: rest ∧
            processElements textContent f l u1 = issueFetch f e rest text u' ∧
            SameControl u u' ∧
            ∀ y ∈ pre ++ mid, Resolved u' f.kind f.originalClickLanguage y) ∨
        (∃ u', processElements textContent f l u1 = finish f false u' ∧ SameControl u u' ∧
            ∀ y ∈ pre ++ x :: l, Resolved u' f.kind f.originalClickLanguage y) := by
      intro u1 hsc hcg hx
      have hpre1 : ∀ y ∈ pre ++ [x], Resolved u1 f.kind f.originalClickLanguage y := by
        intro y hy
        rcases List.mem_append.mp hy with h | h
        · exact (hpre y h).lift hcg
        · rw [List.mem_singleton] at h
          rw [h]; exact hx
      rcases ih (pre ++ [x]) u1 hpre1 with ⟨mid, e, rest, text, u', h1, h2, h3, h4⟩ |
        ⟨u', h2, h3, h4⟩
      · refine Or.inl ⟨x :: mid, e, rest, text, u', by rw [h1]; rfl, h2, hsc.chain h3, ?_⟩
        intro y hy
        exact h4 y (by simpa [List.append_assoc] using hy)
      · refine Or.inr ⟨u', h2, hsc.chain h3, ?_⟩
        intro y hy
        exact h4 y (by simpa [List.append_assoc] using hy)
    unfold processElements
    cases hc : u.cached f.kind f.originalClickLanguage x with
    | some html =>
      refine next _ (SameControl_setInnerHTML u x html) (CacheGrew_setInnerHTML u x html)
        (Or.inl ?_)
      unfold IsCached
      rw [cached_congr (s := u) (by simp) (by simp), hc]
      rfl
    | none =>
      cases ho : u.originalElementHTML.get x with
      | none => exact next u (SameControl.same_refl u) (CacheGrew.same_grew u) (Or.inr ho)
      | some base =>
        dsimp only
        by_cases ht : jsTrim (textContent base) = ""
        · rw [if_pos ht]
          refine next _ (SameControl_storeEmpty f x base u) (CacheGrew_storeEmpty f x base u)
            (Or.inl ?_)
          unfold IsCached
          rw [cached_storeEmpty]
          simp
        · rw [if_neg ht, if_pos hn]
          exact Or.inl ⟨[], x, l, _, u, rfl, rfl, SameControl.same_refl u,
            by simpa using hpre⟩

theorem ActivationCommon.carried {s t u : State} {k : Kind}
    (h1 : u.targetTextElements = t.targetTextElements)
    (h2 : u.originalElementHTML = t.originalElementHTML)
    (h3 : u.currentLanguage = t.currentLanguage)
    (h4 : u.activeFeatures_perLang = t.activeFeatures_perLang)
    (h : ActivationCommon s k t) : ActivationCommon s k u := by
  obtain ⟨a, b, c, d, e⟩ := h
  exact ⟨h1.trans a, h2.trans b, h3.trans c, by rw [features_congr h4]; exact d,
    by rw [features_congr h4]; exact e⟩

theorem Resolved.same_cache {s t : State} {k : Kind} {lang : Lang} {y : Elem}
    (h : Resolved s k lang y)
    (ho : t.originalElementHTML = s.originalElementHTML)
    (h1 : t.cachedChunkedHTML_perLang = s.cachedChunkedHTML_perLang)
    (h2 : t.cachedSimplifiedText_perLang = s.cachedSimplifiedText_perLang) :
    Resolved t k lang y := by
  rcases h with h | h
  · exact Or.inl (h.of_cache_eq h1 h2)
  · exact Or.inr (by rw [ho]; exact h)

/-- A segment of the loop of an undisturbed activation that holds the
ownership leaves the invocation waiting further on, or settled. -/
theorem activation_segment (textContent : Markup → String) (s : State) (k : Kind)
    (l pre : List Elem) (c : Nat) (u : State)
    (hcom : ActivationCommon s k u) (hp : u.isProcessingFeature = true)
    (hd : u.activeApiCallDetails = some ⟨k, s.currentLanguage⟩)
    (hpend : u.pending = s.pending) (hl : s.targetTextElements = pre ++ l)
    (hc : c ≤ pre.length) (hpre : ∀ y ∈ pre, Resolved u k s.currentLanguage y) :
    ActivationInFlight s k c
      (processElements textContent ⟨k, s.currentLanguage, true, true, true, false⟩ l u) ∨
    ActivationDone s k
      (processElements textContent ⟨k, s.currentLanguage, true, true, true, false⟩ l u) := by
  rcases processElements_progress textContent ⟨k, s.currentLanguage, true, true, true, false⟩
      rfl l pre u hpre with ⟨mid, e, rest, text, u', h1, h2, h3, h4⟩ | ⟨u', h2, h3, h4⟩
  · left
    rw [h2]
    refine ⟨hcom.carried (by simp [h3.targetTextElements]) (by simp [h3.originalElementHTML])
      (by simp [h3.currentLanguage]) (by simp [h3.activeFeatures_perLang]),
      by simp [h3.isProcessingFeature, hp], by simp [h3.activeApiCallDetails, hd],
      pre ++ mid, e, rest, by simp [issueFetch, h3.pending, hpend],
      by rw [hl, h1, List.append_assoc], by rw [List.length_append]; omega, ?_⟩
    intro y hy
    exact (h4 y hy).same_cache (by simp) (by simp) (by simp)
  · right
    rw [h2]
    have hcom' : ActivationCommon s k (finish ⟨k, s.currentLanguage, true, true, true, false⟩
        false u') :=
      hcom.carried (by simp [h3.targetTextElements]) (by simp [h3.originalElementHTML])
        (by simp [h3.currentLanguage])
        (by rw [finish_activeFeatures_perLang]; simp [h3.activeFeatures_perLang])
    refine ⟨hcom', by simp [h3.pending, hpend], ?_, ?_, fun e he html ho => ?_⟩
    · exact ((finish_ownership ⟨k, s.currentLanguage, true, true, true, false⟩ false u').1 rfl).1
    · exact ((finish_ownership ⟨k, s.currentLanguage, true, true, true, false⟩ false u').1 rfl).2
    · have hu't : u'.targetTextElements = s.targetTextElements :=
        h3.targetTextElements.trans hcom.1
      have hu'o : u'.originalElementHTML = s.originalElementHTML :=
        h3.originalElementHTML.trans hcom.2.1
      have hu'l : u'.currentLanguage = s.currentLanguage :=
        h3.currentLanguage.trans hcom.2.2.1
      have hres := h4 e (by rw [← hl]; exact he)
      have hcached : ∃ c, u'.cached k s.currentLanguage e = some c := by
        rcases hres with h | h
        · exact Option.isSome_iff_exists.mp h
        · rw [hu'o, ho] at h; cases h
      obtain ⟨m, hm⟩ := hcached
      have hfin : (finish ⟨k, s.currentLanguage, true, true, true, false⟩ false u').cached k
          s.currentLanguage e = some m := by
        rw [finish_cached]; exact hm
      refine ⟨m, hfin, ?_⟩
      rw [finish_innerHTML_displayed ⟨k, s.currentLanguage, true, true, true, false⟩ false u'
        hu'l.symm e (by rw [hu't]; exact he) html (by rw [hu'o]; exact ho), hu'l]
      refine renderedMarkup_active hfin hcom'.2.2.2.1 (fun hks => ?_) html
      have := hcom'.2.2.2.2
      rw [hks] at this
      exact this

/-- The activating click that acquires the ownership. -/
theorem activation_click (textContent : Markup → String) (k : Kind) (s : State)
    (hk : (s.features s.currentLanguage).get k = false)
    (hproc : s.isProcessingFeature = false)
    (hneed : scanNeedsApi textContent k s.currentLanguage s = true) :
    ActivationInFlight s k 0 (step textContent s (.click k)) ∨
    ActivationDone s k (step textContent s (.click k)) := by
  have hscan : scanNeedsApi textContent k s.currentLanguage (toggleFeature k s) = true := by
    rw [scanNeedsApi_congr textContent (s := s) (by simp) (by simp)
      (fun _ _ _ => cached_congr (by simp) (by simp) _ _ _)]
    exact hneed
  have hfr : (acquire k s.currentLanguage true true (toggleFeature k s)).2
      = ⟨k, s.currentLanguage, true, true, true, false⟩ := by
    rw [acquire_snd]
    simp [hproc]
  have hstep : step textContent s (.click k)
      = processElements textContent ⟨k, s.currentLanguage, true, true, true, false⟩
          s.targetTextElements
          (ensureLangCache k s.currentLanguage
            (updateFeatureButtonStates s.currentLanguage
              (acquire k s.currentLanguage true true (toggleFeature k s)).1)) := by
    show clickHandler textContent k s = _
    rw [clickHandler_of_inactive textContent k s hk]
    unfold completeClick
    simp only [hscan, Bool.and_self, if_true, hfr, acquire_currentLanguage,
      toggleFeature_currentLanguage, updateFeatureButtonStates_targetTextElements,
      acquire_targetTextElements, toggleFeature_targetTextElements]
  rw [hstep]
  have hnew := newFeatureStates_activating k (s.features s.currentLanguage) hk
  have hfeat : ∀ u : State,
      u.activeFeatures_perLang = (toggleFeature k s).activeFeatures_perLang →
      u.features s.currentLanguage = newFeatureStates k (s.features s.currentLanguage) := by
    intro u hu
    rw [features_congr hu]
    exact features_toggleFeature k s
  refine activation_segment textContent s k s.targetTextElements [] 0 _
    ⟨by simp, by simp, by simp, ?_, ?_⟩ ?_ ?_ (by simp) rfl (Nat.le_refl _)
    (fun y hy => by cases hy)
  · rw [hfeat _ (by simp)]; exact hnew.1
  · rw [hfeat _ (by simp)]; exact hnew.2
  · simp [acquire_need_isProcessingFeature]
  · simp [acquire_need_activeApiCallDetails, hproc]

theorem eraseIdx_append_last {α : Type} (l : List α) (a : α) :
    (l ++ [a]).eraseIdx l.length = l := by
  induction l with
  | nil => rfl
  | cons x l ih => simp [List.eraseIdx, ih]

/-- A successful response delivered to the waiting invocation. -/
theorem activation_response (textContent : Markup → String) (k : Kind) (s : State) (c : Nat)
    (t : State) (r : FetchOutcome) (hr : (fetchResult k r).isSome = true)
    (h : ActivationInFlight s k c t) :
    ActivationInFlight s k (c + 1) (step textContent t (.response s.pending.length r)) ∨
    ActivationDone s k (step textContent t (.response s.pending.length r)) := by
  obtain ⟨hcom, hp, hd, pre, e, rest, hpend, hl, hc, hpre⟩ := h
  obtain ⟨html, hhtml⟩ := Option.isSome_iff_exists.mp hr
  have hget : t.pending.get? s.pending.length
      = some ⟨⟨k, s.currentLanguage, true, true, true, false⟩, e, rest⟩ := by
    rw [hpend]
    simp
  rw [step_response textContent _ hget]
  have hres : resume textContent ⟨⟨k, s.currentLanguage, true, true, true, false⟩, e, rest⟩ r
      (t.removePending s.pending.length)
      = processElements textContent ⟨k, s.currentLanguage, true, true, true, false⟩ rest
          (storeResult ⟨⟨k, s.currentLanguage, true, true, true, false⟩, e, rest⟩ html
            (t.removePending s.pending.length)) := by
    simp only [resume, hhtml]
  rw [hres]
  refine activation_segment textContent s k rest (pre ++ [e]) (c + 1) _
    (hcom.carried (by simp) (by simp) (by simp) (by simp)) (by simpa using hp)
    (by simpa using hd) ?_ (by rw [hl]; simp) (by rw [List.length_append]; simpa using hc) ?_
  · simp [State.removePending, hpend, eraseIdx_append_last]
  · intro y hy
    rcases List.mem_append.mp hy with hy | hy
    · have h1 : Resolved (t.removePending s.pending.length) k s.currentLanguage y :=
        (hpre y hy).same_cache (by simp) (by simp) (by simp)
      exact h1.lift (CacheGrew_storeResult _ html _)
    · rw [List.mem_singleton] at hy
      rw [hy]
      left
      unfold IsCached
      rw [cached_storeResult]
      simp

/-- A timer callback changes none of the fields an undisturbed activation is
described by. -/
theorem timer_keeps (textContent : Markup → String) (t : State) (j : Nat) :
    (step textContent t (.timer j)).targetTextElements = t.targetTextElements ∧
    (step textContent t (.timer j)).innerHTML = t.innerHTML ∧
    (step textContent t (.timer j)).originalElementHTML = t.originalElementHTML ∧
    (step textContent t (.timer j)).currentLanguage = t.currentLanguage ∧
    (step textContent t (.timer j)).activeFeatures_perLang = t.activeFeatures_perLang ∧
    (step textContent t (.timer j)).isProcessingFeature = t.isProcessingFeature ∧
    (step textContent t (.timer j)).activeApiCallDetails = t.activeApiCallDetails ∧
    (step textContent t (.timer j)).cachedChunkedHTML_perLang = t.cachedChunkedHTML_perLang ∧
    (step textContent t (.timer j)).cachedSimplifiedText_perLang
      = t.cachedSimplifiedText_perLang ∧
    (step textContent t (.timer j)).pending = t.pending := by
  have hstep : step textContent t (.timer j) = (match t.timers.get? j with
      | some tm => fireTimer tm (t.removeTimer j)
      | none => t) := rfl
  rw [hstep]
  cases t.timers.get? j <;> simp

theorem activation_timer (textContent : Markup → String) (k : Kind) (s : State) (c : Nat)
    (t : State) (j : Nat)
    (h : ActivationInFlight s k c t ∨ ActivationDone s k t) :
    ActivationInFlight s k c (step textContent t (.timer j)) ∨
    ActivationDone s k (step textContent t (.timer j)) := by
  obtain ⟨h1, h2, h3, h4, h5, h6, h7, h8, h9, h10⟩ := timer_keeps textContent t j
  rcases h with ⟨hcom, hp, hd, pre, e, rest, hpend, hl, hc, hpre⟩ |
    ⟨hcom, hpend, hp, hd, hall⟩
  · exact Or.inl ⟨hcom.carried h1 h3 h4 h5, h6.trans hp, h7.trans hd, pre, e, rest,
      h10.trans hpend, hl, hc, fun y hy => (hpre y hy).same_cache h3 h8 h9⟩
  · refine Or.inr ⟨hcom.carried h1 h3 h4 h5, h10.trans hpend, h6.trans hp, h7.trans hd,
      fun e he html ho => ?_⟩
    obtain ⟨m, hm1, hm2⟩ := hall e he html ho
    exact ⟨m, by rw [cached_congr h8 h9]; exact hm1, by rw [h2]; exact hm2⟩

/-- Once the invocation has settled, an outcome addressed to it finds nothing. -/
theorem activation_settled_response (textContent : Markup → String) (k : Kind) (s t : State)
    (r : FetchOutcome) (h : ActivationDone s k t) :
    step textContent t (.response s.pending.length r) = t := by
  show (match t.pending.get? s.pending.length with
    | some inv => resume textContent inv r (t.removePending s.pending.length)
    | none => t) = t
  rw [h.2.1]
  simp

theorem ActivationInFlight.fewer {s : State} {k : Kind} {c c' : Nat} {t : State}
    (h : ActivationInFlight s k c t) (hc : c' ≤ c) : ActivationInFlight s k c' t := by
  obtain ⟨hcom, hp, hd, pre, e, rest, hpend, hl, hle, hpre⟩ := h
  exact ⟨hcom, hp, hd, pre, e, rest, hpend, hl, Nat.le_trans hc hle, hpre⟩

/-- A settled activation stays settled under timers and late outcomes. -/
theorem activation_done_run (textContent : Markup → String) (k : Kind) (s : State) :
    ∀ (evs : List Event) (t : State),
      (∀ ev ∈ evs, ownSuccess k s.pending.length ev = true) →
      ActivationDone s k t → ActivationDone s k (run textContent t evs) := by
  intro evs
  induction evs with
  | nil => intro t _ h; exact h
  | cons ev evs ih =>
    intro t hevs h
    have hev := hevs ev (List.mem_cons_self _ _)
    have hrest : ∀ ev' ∈ evs, ownSuccess k s.pending.length ev' = true :=
      fun ev' h' => hevs ev' (List.mem_cons_of_mem _ h')
    show ActivationDone s k (run textContent (step textContent t ev) evs)
    cases ev with
    | click k' => simp [ownSuccess] at hev
    | selectLanguage l => simp [ownSuccess] at hev
    | timer j =>
      rcases activation_timer textContent k s 0 t j (Or.inr h) with h' | h'
      · exfalso
        obtain ⟨_, _, _, pre, e, rest, hpend, _⟩ := h'
        rw [(timer_keeps textContent t j).2.2.2.2.2.2.2.2.2, h.2.1] at hpend
        exact absurd hpend (by simp)
      · exact ih _ hrest h'
    | response i r =>
      simp only [ownSuccess, Bool.and_eq_true, decide_eq_true_eq] at hev
      obtain ⟨hi, _⟩ := hev
      subst hi
      rw [activation_settled_response textContent k s t r h]
      exact ih t hrest h

/-- The run of an undisturbed activation: after `c` successful responses and the
events `evs`, the invocation waits behind at least `c + responseCount evs`
resolved elements, or has settled. -/
theorem activation_run (textContent : Markup → String) (k : Kind) (s : State) :
    ∀ (evs : List Event) (c : Nat) (t : State),
      (∀ ev ∈ evs, ownSuccess k s.pending.length ev = true) →
      ActivationInFlight s k c t ∨ ActivationDone s k t →
      ActivationInFlight s k (c + responseCount evs) (run textContent t evs) ∨
      ActivationDone s k (run textContent t evs) := by
  intro evs
  induction evs with
  | nil => intro c t _ h; simpa [responseCount, run] using h
  | cons ev evs ih =>
    intro c t hevs h
    rcases h with h | h
    · have hev := hevs ev (List.mem_cons_self _ _)
      have hrest : ∀ ev' ∈ evs, ownSuccess k s.pending.length ev' = true :=
        fun ev' h' => hevs ev' (List.mem_cons_of_mem _ h')
      show ActivationInFlight s k (c + responseCount (ev :: evs))
          (run textContent (step textContent t ev) evs) ∨
        ActivationDone s k (run textContent (step textContent t ev) evs)
      cases ev with
      | click k' => simp [ownSuccess] at hev
      | selectLanguage l => simp [ownSuccess] at hev
      | timer j =>
        have := ih c _ hrest (activation_timer textContent k s c t j (Or.inl h))
        simpa [responseCount] using this
      | response i r =>
        simp only [ownSuccess, Bool.and_eq_true, decide_eq_true_eq] at hev
        obtain ⟨hi, hr⟩ := hev
        subst hi
        have hcount : c + responseCount (Event.response s.pending.length r :: evs)
            = (c + 1) + responseCount evs := by
          simp only [responseCount]; omega
        rw [hcount]
        exact ih (c + 1) _ hrest (activation_response textContent k s c t r hr h)
    · exact Or.inr (activation_done_run textContent k s _ t hevs h)

/-- The postcondition of a successful activation in an undisturbed run: let a
click on kind `k`, not active for the displayed language L, find no ownership
held and an element that needs a request, so that it acquires the ownership;
let it be followed only by successful, well-formed responses to its own
requests and by timer callbacks (no click, no language switch, no outcome for
any other suspended invocation). Then, once its invocation is no longer
suspended, the feature state of L has `k` true and the other kind false, the
ownership is none, and every tracked element that has a captured original has
a cache entry for (`k`, L) and shows exactly that entry. The invocation does
settle: as many successful responses as there are tracked elements are enough.
Until then it holds the ownership. -/
theorem undisturbed_activation (textContent : Markup → String) (k : Kind) (s : State)
    (hk : (s.features s.currentLanguage).get k = false)
    (hproc : s.isProcessingFeature = false)
    (hneed : scanNeedsApi textContent k s.currentLanguage s = true)
    (evs : List Event) (hevs : ∀ ev ∈ evs, ownSuccess k s.pending.length ev = true) :
    (clickFrame textContent k s).setProcessingFlagForThisCall = true ∧
    ((run textContent s (.click k :: evs)).pending = s.pending →
      ((run textContent s (.click k :: evs)).features s.currentLanguage).get k = true ∧
      ((run textContent s (.click k :: evs)).features s.currentLanguage).get k.other = false ∧
      (run textContent s (.click k :: evs)).isProcessingFeature = false ∧
      (run textContent s (.click k :: evs)).activeApiCallDetails = none ∧
      (run textContent s (.click k :: evs)).currentLanguage = s.currentLanguage ∧
      ∀ e ∈ s.targetTextElements, ∀ html, s.originalElementHTML.get e = some html →
        ∃ c, (run textContent s (.click k :: evs)).cached k s.currentLanguage e = some c ∧
          (run textContent s (.click k :: evs)).innerHTML e = c) ∧
    (s.targetTextElements.length ≤ responseCount evs →
      (run textContent s (.click k :: evs)).pending = s.pending) ∧
    ((run textContent s (.click k :: evs)).pending ≠ s.pending →
      (run textContent s (.click k :: evs)).isProcessingFeature = true ∧
      (run textContent s (.click k :: evs)).activeApiCallDetails
        = some ⟨k, s.currentLanguage⟩) := by
  have hrun : ActivationInFlight s k (0 + responseCount evs)
        (run textContent s (.click k :: evs)) ∨
      ActivationDone s k (run textContent s (.click k :: evs)) :=
    activation_run textContent k s evs 0 _ hevs
      (activation_click textContent k s hk hproc hneed)
  refine ⟨?_, fun hp => ?_, fun hlen => ?_, fun hp => ?_⟩
  · rw [show (clickFrame textContent k s).setProcessingFlagForThisCall
        = ((clickFrame textContent k s).thisOperationWouldNeedApi && !s.isProcessingFeature) by
      unfold clickFrame
      rw [acquire_snd]
      simp]
    rw [clickFrame_need, hk, hneed, hproc]
    rfl
  · rcases hrun with h | h
    · exfalso
      obtain ⟨_, _, _, pre, e, rest, hpend, _⟩ := h
      rw [hp] at hpend
      exact absurd hpend (by simp)
    · obtain ⟨⟨_, _, h3, h4, h5⟩, _, h7, h8, h9⟩ := h
      exact ⟨h4, h5, h7, h8, h3, h9⟩
  · rcases hrun with h | h
    · exfalso
      obtain ⟨_, _, _, pre, e, rest, _, hl, hc, _⟩ := h
      have : s.targetTextElements.length = pre.length + (rest.length + 1) := by
        rw [hl]; simp
      omega
    · exact h.2.1
  · rcases hrun with h | h
    · exact ⟨h.2.1, h.2.2.1⟩
    · exact absurd h.2.1 hp

/-- An undisturbed activation on `pageABC`: text-in-blocks is clicked and the
service answers the three requests; the invocation settles with the three
elements cached and shown, and the ownership released. -/
theorem undisturbed_activation_on_pageABC :
    ((init pageABC).features (init pageABC).currentLanguage).get .textInBlocks = false ∧
    (init pageABC).isProcessingFeature = false ∧
    scanNeedsApi sampleTextContent .textInBlocks (init pageABC).currentLanguage
      (init pageABC) = true ∧
    (run sampleTextContent (init pageABC)
      [.click .textInBlocks, .response 0 (.http 200 (.json (.arr ["a"]))),
       .response 0 (.http 200 (.json (.arr ["b", "b"]))),
       .response 0 (.http 200 (.json (.arr ["c"])))]).pending = (init pageABC).pending ∧
    (run sampleTextContent (init pageABC)
      [.click .textInBlocks, .response 0 (.http 200 (.json (.arr ["a"]))),
       .response 0 (.http 200 (.json (.arr ["b", "b"]))),
       .response 0 (.http 200 (.json (.arr ["c"])))]).innerHTML 1 = "b<br><br>b" ∧
    (run sampleTextContent (init pageABC)
      [.click .textInBlocks, .response 0 (.http 200 (.json (.arr ["a"]))),
       .response 0 (.http 200 (.json (.arr ["b", "b"]))),
       .response 0 (.http 200 (.json (.arr ["c"])))]).activeApiCallDetails = none :=
  ⟨by decide, by decide, by decide,
   (undisturbed_activation sampleTextContent .textInBlocks (init pageABC)
     (by decide) (by decide) (by decide)
     [.response 0 (.http 200 (.json (.arr ["a"]))),
      .response 0 (.http 200 (.json (.arr ["b", "b"]))),
      .response 0 (.http 200 (.json (.arr ["c"])))] (by decide)).2.2.1 (by decide),
   by decide, by decide⟩

/-- C28, failing run. On `pageAB`, after the first nine events of
`leftoverFailureRun` "en" is displayed, no ownership is held, text-in-blocks is
off for "en", and an invocation for (text-in-blocks, "en") that never held the
ownership still waits for element 1. The tenth event, a click on text-in-blocks,
is activating and acquires the ownership; it is followed by no click and no
language switch. The outcome of the leftover request is HTTP 500: its error
revert switches text-in-blocks off for "en". The one request of the acquiring
click then succeeds, and its invocation settles with the ownership released and
both elements cached, but text-in-blocks is off for "en" and the elements show
their originals. Every event of the run can be delivered. -/
theorem C28_leftover_failure_reverts :
    feasible sampleTextContent (init pageAB) leftoverFailureRun = true ∧
    (run sampleTextContent (init pageAB) (leftoverFailureRun.take 9)).currentLanguage
      = "en" ∧
    (run sampleTextContent (init pageAB) (leftoverFailureRun.take 9)).isProcessingFeature
      = false ∧
    ((run sampleTextContent (init pageAB) (leftoverFailureRun.take 9)).features "en").get
      .textInBlocks = false ∧
    (run sampleTextContent (init pageAB) (leftoverFailureRun.take 9)).pending
      = [⟨⟨.textInBlocks, "en", true, true, false, false⟩, 1, []⟩] ∧
    (run sampleTextContent (init pageAB) (leftoverFailureRun.take 10)).activeApiCallDetails
      = some ⟨.textInBlocks, "en"⟩ ∧
    (run sampleTextContent (init pageAB) (leftoverFailureRun.take 10)).pending
      = [⟨⟨.textInBlocks, "en", true, true, false, false⟩, 1, []⟩,
         ⟨⟨.textInBlocks, "en", true, true, true, false⟩, 1, []⟩] ∧
    leftoverFailureRun.drop 10
      = [.response 0 (.http 500 .invalid), .response 0 (.http 200 (.json (.arr ["b"])))] ∧
    (run sampleTextContent (init pageAB) (leftoverFailureRun.take 11)).pending
      = [⟨⟨.textInBlocks, "en", true, true, true, false⟩, 1, []⟩] ∧
    (run sampleTextContent (init pageAB) leftoverFailureRun).pending = [] ∧
    (run sampleTextContent (init pageAB) leftoverFailureRun).isProcessingFeature = false ∧
    (run sampleTextContent (init pageAB) leftoverFailureRun).activeApiCallDetails = none ∧
    (run sampleTextContent (init pageAB) leftoverFailureRun).currentLanguage = "en" ∧
    (run sampleTextContent (init pageAB) leftoverFailureRun).cached .textInBlocks "en" 0
      = some "a" ∧
    (run sampleTextContent (init pageAB) leftoverFailureRun).cached .textInBlocks "en" 1
      = some "b" ∧
    ((run sampleTextContent (init pageAB) leftoverFailureRun).features "en").get
      .textInBlocks = false ∧
    (run sampleTextContent (init pageAB) leftoverFailureRun).innerHTML 0 = "A" ∧
    (run sampleTextContent (init pageAB) leftoverFailureRun).innerHTML 1 = "B" := by
  decide

/-! ## Per-language isolation (C29) -/

theorem IsolatedFrom.same_start (lang : Lang) (s : State) : IsolatedFrom lang s s :=
  fun _ _ => ⟨rfl, fun _ _ => rfl⟩

theorem IsolatedFrom.andThen {lang : Lang} {s t u : State} (h1 : IsolatedFrom lang s t)
    (h2 : IsolatedFrom lang t u) : IsolatedFrom lang s u :=
  fun o ho => ⟨((h2 o ho).1).trans (h1 o ho).1,
    fun k e => ((h2 o ho).2 k e).trans ((h1 o ho).2 k e)⟩

theorem IsolatedFrom.of_same_tables {lang : Lang} {s t : State}
    (hf : t.activeFeatures_perLang = s.activeFeatures_perLang)
    (h1 : t.cachedChunkedHTML_perLang = s.cachedChunkedHTML_perLang)
    (h2 : t.cachedSimplifiedText_perLang = s.cachedSimplifiedText_perLang) :
    IsolatedFrom lang s t :=
  fun _ _ => ⟨by rw [hf], fun k e => cached_congr h1 h2 k _ e⟩

theorem IsolatedFrom.at_finish (f : Frame) (b : Bool) (s : State) :
    IsolatedFrom f.originalClickLanguage s (finish f b s) := by
  intro o ho
  refine ⟨?_, fun k e => finish_cached f b s k o e⟩
  rw [finish_activeFeatures_perLang]
  cases b
  · rfl
  · simp only [if_true, revertActivation]
    exact JSMap.get_set_ne _ _ (Ne.symm ho)

theorem IsolatedFrom.in_loop (textContent : Markup → String) (f : Frame) (l : List Elem)
    (s : State) : IsolatedFrom f.originalClickLanguage s (processElements textContent f l s) :=
  processElements_induct textContent f (IsolatedFrom f.originalClickLanguage s)
    (fun s' e html h _ => h.andThen (IsolatedFrom.of_same_tables (by simp) (by simp) (by simp)))
    (fun s' e base h _ _ _ => h.andThen (fun o ho => ⟨by simp, fun k x => by
      rw [cached_storeEmpty, if_neg (fun hh => ho hh.2.1)]⟩))
    (fun s' e rest base h _ _ _ _ =>
      h.andThen (IsolatedFrom.of_same_tables (by simp) (by simp) (by simp)))
    (fun s' e base h _ _ _ _ =>
      h.andThen (IsolatedFrom.of_same_tables (by simp) (by simp) (by simp)))
    (fun s' h => h.andThen (IsolatedFrom.at_finish f false s')) l s
    (IsolatedFrom.same_start _ s)

theorem IsolatedFrom.loop_for (textContent : Markup → String) (f : Frame) {lang : Lang}
    (hl : f.originalClickLanguage = lang) (l : List Elem) (s : State) :
    IsolatedFrom lang s (processElements textContent f l s) := by
  subst hl
  exact IsolatedFrom.in_loop textContent f l s

theorem IsolatedFrom.finish_for (f : Frame) {lang : Lang}
    (hl : f.originalClickLanguage = lang) (b : Bool) (s : State) :
    IsolatedFrom lang s (finish f b s) := by
  subst hl
  exact IsolatedFrom.at_finish f b s

theorem IsolatedFrom.by_click (textContent : Markup → String) (k : Kind) (s : State) :
    IsolatedFrom s.currentLanguage s (clickHandler textContent k s) := by
  unfold clickHandler
  split
  · exact IsolatedFrom.of_same_tables (by simp) (by simp) (by simp)
  · have h1 : IsolatedFrom s.currentLanguage s (toggleFeature k s) := by
      intro o ho
      refine ⟨?_, fun k' e => cached_congr (by simp) (by simp) k' o e⟩
      rw [toggleFeature_activeFeatures_perLang]
      exact JSMap.get_set_ne _ _ (Ne.symm ho)
    refine h1.andThen ?_
    generalize toggleFeature k s = s1
    generalize (!(s.features s.currentLanguage).get k) = a
    unfold completeClick
    dsimp only
    have hl : (acquire k s.currentLanguage a
        (a && scanNeedsApi textContent k s.currentLanguage s1) s1).2.originalClickLanguage
        = s.currentLanguage := by rw [acquire_snd]
    have h2 : IsolatedFrom s.currentLanguage s1
        (updateFeatureButtonStates
          (acquire k s.currentLanguage a
            (a && scanNeedsApi textContent k s.currentLanguage s1) s1).1.currentLanguage
          (acquire k s.currentLanguage a
            (a && scanNeedsApi textContent k s.currentLanguage s1) s1).1) :=
      IsolatedFrom.of_same_tables (by simp) (by simp) (by simp)
    split
    · refine h2.andThen (IsolatedFrom.andThen ?_
        (IsolatedFrom.loop_for textContent _ hl _ _))
      exact fun o _ => ⟨by simp, fun k' e => cached_ensureLangCache _ _ _ _ _ _⟩
    · exact h2.andThen (IsolatedFrom.finish_for _ hl _ _)

theorem IsolatedFrom.by_response (textContent : Markup → String) (s : State) (i : Nat)
    (inv : Invocation) (r : FetchOutcome) (hinv : s.pending.get? i = some inv) :
    IsolatedFrom inv.frame.originalClickLanguage s (step textContent s (.response i r)) := by
  rw [step_response textContent _ hinv]
  have h0 : IsolatedFrom inv.frame.originalClickLanguage s (s.removePending i) :=
    IsolatedFrom.of_same_tables (by simp) (by simp) (by simp)
  refine h0.andThen ?_
  unfold resume
  split
  · next html _ =>
    refine IsolatedFrom.andThen (t := storeResult inv html (s.removePending i)) ?_
      (IsolatedFrom.in_loop textContent _ _ _)
    exact fun o ho => ⟨by simp, fun k x => by
      rw [cached_storeResult, if_neg (fun hh => ho hh.2.1)]⟩
  · exact IsolatedFrom.at_finish _ true _

theorem ownPending_click (textContent : Markup → String) (k : Kind) (s : State) :
    OwnPending s (step textContent s (.click k)) := by
  show OwnPending s (clickHandler textContent k s)
  unfold clickHandler
  split
  · exact Or.inl (by simp)
  · rcases completeClick_segment textContent k (!(s.features s.currentLanguage).get k)
        s.currentLanguage (toggleFeature k s) with ⟨⟨e, rest, hp⟩, _⟩ | ⟨hp, _, _⟩
    · refine Or.inr ⟨⟨(acquire k s.currentLanguage (!(s.features s.currentLanguage).get k)
          (!(s.features s.currentLanguage).get k &&
            scanNeedsApi textContent k s.currentLanguage (toggleFeature k s))
          (toggleFeature k s)).2, e, rest⟩, ?_, ?_⟩
      · rw [hp]; simp
      · show (acquire _ _ _ _ _).2.originalClickLanguage = _
        rw [acquire_snd]
    · exact Or.inl (by rw [hp]; simp)

theorem own_response (textContent : Markup → String) (s t : State) (r : FetchOutcome)
    (hp : OwnPending s t) (hiso : IsolatedFrom s.currentLanguage s t) :
    OwnPending s (step textContent t (.response s.pending.length r)) ∧
    IsolatedFrom s.currentLanguage s (step textContent t (.response s.pending.length r)) := by
  rcases hp with hp | ⟨inv, hp, hl⟩
  · have : step textContent t (.response s.pending.length r) = t := by
      show (match t.pending.get? s.pending.length with
        | some inv => resume textContent inv r (t.removePending s.pending.length)
        | none => t) = t
      rw [hp]
      simp
    rw [this]
    exact ⟨Or.inl hp, hiso⟩
  · have hget : t.pending.get? s.pending.length = some inv := by
      rw [hp]; simp
    have hiso2 := IsolatedFrom.by_response textContent t s.pending.length inv r hget
    rw [hl] at hiso2
    refine ⟨?_, hiso.andThen hiso2⟩
    have herase : t.pending.eraseIdx s.pending.length = s.pending := by
      rw [hp, eraseIdx_append_last]
    rcases step_response_segment textContent r hget with ⟨⟨e, rest, h1⟩, _⟩ | ⟨h1, _, _⟩
    · exact Or.inr ⟨⟨inv.frame, e, rest⟩, by rw [h1, herase], hl⟩
    · exact Or.inl (by rw [h1, herase])

theorem own_run (textContent : Markup → String) (s : State) :
    ∀ (evs : List Event) (t : State),
      (∀ ev ∈ evs, ownOrSwitch s.pending.length ev = true) →
      OwnPending s t → IsolatedFrom s.currentLanguage s t →
      OwnPending s (run textContent t evs) ∧
      IsolatedFrom s.currentLanguage s (run textContent t evs) := by
  intro evs
  induction evs with
  | nil => intro t _ hp hiso; exact ⟨hp, hiso⟩
  | cons ev evs ih =>
    intro t hevs hp hiso
    have hev := hevs ev (List.mem_cons_self _ _)
    have hrest : ∀ ev' ∈ evs, ownOrSwitch s.pending.length ev' = true :=
      fun ev' h' => hevs ev' (List.mem_cons_of_mem _ h')
    show OwnPending s (run textContent (step textContent t ev) evs) ∧
      IsolatedFrom s.currentLanguage s (run textContent (step textContent t ev) evs)
    cases ev with
    | click k' => simp [ownOrSwitch] at hev
    | selectLanguage l =>
      refine ih _ hrest ?_ (hiso.andThen
        (IsolatedFrom.of_same_tables (by simp [step]) (by simp [step]) (by simp [step])))
      have hpend : (step textContent t (.selectLanguage l)).pending = t.pending := by
        simp [step]
      rcases hp with hp | ⟨inv, hp, hl⟩
      · exact Or.inl (hpend.trans hp)
      · exact Or.inr ⟨inv, hpend.trans hp, hl⟩
    | timer j =>
      obtain ⟨_, _, _, _, h5, _, _, h8, h9, h10⟩ := timer_keeps textContent t j
      refine ih _ hrest ?_ (hiso.andThen (IsolatedFrom.of_same_tables h5 h8 h9))
      rcases hp with hp | ⟨inv, hp, hl⟩
      · exact Or.inl (h10.trans hp)
      · exact Or.inr ⟨inv, h10.trans hp, hl⟩
    | response i r =>
      simp only [ownOrSwitch, decide_eq_true_eq] at hev
      subst hev
      obtain ⟨h1, h2⟩ := own_response textContent s t r hp hiso
      exact ih _ hrest h1 h2

/-- C29. Per-language isolation: a click on a transformation button while L is
displayed, followed by any outcomes (successes or failures) of the requests of
its own invocation, language switches and timer callbacks, leaves for every
language other than L the stored feature state and every entry of both caches
as they were before the click, at every moment and so when the invocation has
settled. More generally, any single step of an invocation (its click, or the
handling of an outcome) changes no feature state and no cache entry of a
language other than its click language. -/
theorem C29_language_isolation (textContent : Markup → String) (k : Kind) (s : State)
    (evs : List Event) (hevs : ∀ ev ∈ evs, ownOrSwitch s.pending.length ev = true) :
    (∀ other, other ≠ s.currentLanguage →
      (run textContent s (.click k :: evs)).activeFeatures_perLang.get other
        = s.activeFeatures_perLang.get other ∧
      ∀ k' e, (run textContent s (.click k :: evs)).cached k' other e
        = s.cached k' other e) ∧
    (∀ other, other ≠ s.currentLanguage →
      (step textContent s (.click k)).activeFeatures_perLang.get other
        = s.activeFeatures_perLang.get other ∧
      ∀ k' e, (step textContent s (.click k)).cached k' other e = s.cached k' other e) ∧
    (∀ i inv r, s.pending.get? i = some inv →
      ∀ other, other ≠ inv.frame.originalClickLanguage →
        (step textContent s (.response i r)).activeFeatures_perLang.get other
          = s.activeFeatures_perLang.get other ∧
        ∀ k' e, (step textContent s (.response i r)).cached k' other e
          = s.cached k' other e) :=
  ⟨(own_run textContent s evs _ hevs (ownPending_click textContent k s)
      (IsolatedFrom.by_click textContent k s)).2,
   IsolatedFrom.by_click textContent k s,
   fun i inv r hinv => IsolatedFrom.by_response textContent s i inv r hinv⟩

/-- C29, on `frenchBlocks` ("en" displayed; for "fr" text-in-blocks is active
and both elements are cached): text-in-blocks is clicked for "en", "fr" is
selected while the request waits, and the request fails. The state stored for
"fr" and its cache entries are as before. -/
theorem C29_language_isolation_witness :
    frenchBlocks.currentLanguage = "en" ∧
    frenchBlocks.activeFeatures_perLang.get "fr" = some ⟨true, false⟩ ∧
    frenchBlocks.cached .textInBlocks "fr" 1 = some "y" ∧
    (run sampleTextContent frenchBlocks
      [.click .textInBlocks, .selectLanguage "fr",
       .response 0 (.http 500 .invalid)]).activeFeatures_perLang.get "fr"
      = frenchBlocks.activeFeatures_perLang.get "fr" ∧
    (run sampleTextContent frenchBlocks
      [.click .textInBlocks, .selectLanguage "fr",
       .response 0 (.http 500 .invalid)]).cached .textInBlocks "fr" 1
      = frenchBlocks.cached .textInBlocks "fr" 1 ∧
    (run sampleTextContent frenchBlocks
      [.click .textInBlocks, .selectLanguage "fr",
       .response 0 (.http 500 .invalid)]).activeFeatures_perLang.get "en"
      = some ⟨false, false⟩ :=
  ⟨by decide, by decide, by decide,
   ((C29_language_isolation sampleTextContent .textInBlocks frenchBlocks
     [.selectLanguage "fr", .response 0 (.http 500 .invalid)] (by decide)).1 "fr"
     (by decide)).1,
   ((C29_language_isolation sampleTextContent .textInBlocks frenchBlocks
     [.selectLanguage "fr", .response 0 (.http 500 .invalid)] (by decide)).1 "fr"
     (by decide)).2 .textInBlocks 1,
   by decide⟩

/-! ## The cache-only fallback branch (C30) -/

theorem takesFallback_of_need (textContent : Markup → String) (f : Frame)
    (hn : f.thisOperationWouldNeedApi = true) :
    ∀ (l : List Elem) (s : State), takesFallback textContent f l s = false := by
  intro l
  induction l with
  | nil => intro s; rfl
  | cons e rest ih =>
    intro s
    unfold takesFallback
    cases s.cached f.kind f.originalClickLanguage e with
    | some html => exact ih _
    | none =>
      cases s.originalElementHTML.get e with
      | none => exact ih _
      | some base =>
        dsimp only
        split
        · exact ih _
        · simp [hn]

theorem takesFallback_of_scan (textContent : Markup → String) (f : Frame) :
    ∀ (l : List Elem) (s : State),
      (∀ x ∈ l, elementNeedsApi textContent f.kind f.originalClickLanguage s x = false) →
      takesFallback textContent f l s = false := by
  intro l
  induction l with
  | nil => intro s _; rfl
  | cons e rest ih =>
    intro s hall
    have he := hall e (List.mem_cons_self _ _)
    have hrest : ∀ x ∈ rest,
        elementNeedsApi textContent f.kind f.originalClickLanguage s x = false :=
      fun x hx => hall x (List.mem_cons_of_mem _ hx)
    unfold takesFallback
    cases hc : s.cached f.kind f.originalClickLanguage e with
    | some html =>
      exact ih _ (fun x hx => elementNeedsApi_false_mono textContent
        (CacheGrew_setInnerHTML s e html) (hrest x hx))
    | none =>
      cases ho : s.originalElementHTML.get e with
      | none => exact ih _ hrest
      | some base =>
        dsimp only
        by_cases ht : jsTrim (textContent base) = ""
        · rw [if_pos ht]
          exact ih _ (fun x hx => elementNeedsApi_false_mono textContent
            (CacheGrew_storeEmpty f e base s) (hrest x hx))
        · exfalso
          have : elementNeedsApi textContent f.kind f.originalClickLanguage s e = true :=
            (elementNeedsApi_iff textContent _ _ s e).mpr ⟨hc, base, ho, ht⟩
          rw [this] at he
          cases he

/-- C30. The cache-only fallback branch is unreachable. The activation loop
runs in two places: in an activating click, with the locals `clickFrame` from
the state the presenter left, and when a successful outcome resumes a suspended
invocation. In a click it does not take the fallback branch, whatever the state
(when the need-API flag is false the scan found no element that is uncached,
has an original and has text, and the elements the loop visits are the ones the
scan visited, with the same cache and originals); in a resumed segment of a
reachable state it does not take it either, since every suspended invocation
has the need-API flag set. The branch is taken by a loop whose flag is false on
an element that needs a request, a combination no listener produces. -/
theorem C30_fallback_unreachable (textContent : Markup → String) :
    (∀ (k : Kind) (s : State), (s.features s.currentLanguage).get k = false →
      clickHandler textContent k s
        = processElements textContent (clickFrame textContent k s) s.targetTextElements
          (ensureLangCache k s.currentLanguage
            (updateFeatureButtonStates s.currentLanguage
              (acquire k s.currentLanguage true
                (scanNeedsApi textContent k s.currentLanguage (toggleFeature k s))
                (toggleFeature k s)).1)) ∧
      takesFallback textContent (clickFrame textContent k s) s.targetTextElements
          (ensureLangCache k s.currentLanguage
            (updateFeatureButtonStates s.currentLanguage
              (acquire k s.currentLanguage true
                (scanNeedsApi textContent k s.currentLanguage (toggleFeature k s))
                (toggleFeature k s)).1)) = false) ∧
    (∀ (s : State), Reachable textContent s → ∀ i inv r html,
      s.pending.get? i = some inv → fetchResult inv.frame.kind r = some html →
      step textContent s (.response i r)
        = processElements textContent inv.frame inv.rest
            (storeResult inv html (s.removePending i)) ∧
      inv.frame.thisOperationWouldNeedApi = true ∧
      takesFallback textContent inv.frame inv.rest
        (storeResult inv html (s.removePending i)) = false) ∧
    (∀ (f : Frame) (e : Elem) (rest : List Elem) (s : State),
      f.thisOperationWouldNeedApi = false →
      elementNeedsApi textContent f.kind f.originalClickLanguage s e = true →
      takesFallback textContent f (e :: rest) s = true) := by
  refine ⟨fun k s hk => ?_, fun s hs i inv r html hinv hres => ?_,
    fun f e rest s hn hne => ?_⟩
  · have hb : deactivationBlocked k s = false := by simp [deactivationBlocked, hk]
    refine ⟨by rw [clickHandler_eq_loop textContent k s hb, if_pos hk], ?_⟩
    rcases Bool.eq_false_or_eq_true (clickFrame textContent k s).thisOperationWouldNeedApi
      with hn | hn
    · exact takesFallback_of_need textContent _ hn _ _
    · apply takesFallback_of_scan
      intro x hx
      have hkind : (clickFrame textContent k s).kind = k := by
        unfold clickFrame; rw [acquire_snd]
      have hlang : (clickFrame textContent k s).originalClickLanguage = s.currentLanguage := by
        unfold clickFrame; rw [acquire_snd]
      rw [hkind, hlang]
      rw [clickFrame_need, hk] at hn
      have hscan : scanNeedsApi textContent k s.currentLanguage s = false := by
        simpa using hn
      have hx' : x ∈ s.targetTextElements := by simpa using hx
      have hsx : elementNeedsApi textContent k s.currentLanguage s x = false := by
        by_contra hcon
        have : scanNeedsApi textContent k s.currentLanguage s = true :=
          (scanNeedsApi_eq_true textContent k _ s).mpr ⟨x, hx', by simpa using hcon⟩
        rw [this] at hscan
        cases hscan
      rw [← hsx]
      exact elementNeedsApi_congr textContent (by simp) (fun k' l' e' => by
        rw [cached_ensureLangCache]
        exact cached_congr (by simp) (by simp) _ _ _) _ _ _
  · have hneed : inv.frame.thisOperationWouldNeedApi = true :=
      ((LoopInv_reachable textContent hs).2 inv (List.get?_mem hinv)).1
    refine ⟨?_, hneed, takesFallback_of_need textContent _ hneed _ _⟩
    rw [step_response textContent _ hinv]
    simp only [resume, hres]
  · rw [elementNeedsApi_iff] at hne
    obtain ⟨hc, base, ho, ht⟩ := hne
    unfold takesFallback
    rw [hc, ho]
    simp [ht, hn]

/-- C30, on `helloDeactivated` (the element is cached for text-in-blocks, the
kind is off): the activating click runs the loop with the need-API flag false
and does not take the fallback branch. A loop with the flag false started on
the uncached `Hello world` of the start state would take it. -/
theorem C30_fallback_unreachable_witness :
    (helloDeactivated.features helloDeactivated.currentLanguage).get .textInBlocks = false ∧
    (clickFrame sampleTextContent .textInBlocks helloDeactivated).thisOperationWouldNeedApi
      = false ∧
    takesFallback sampleTextContent (clickFrame sampleTextContent .textInBlocks helloDeactivated)
      helloDeactivated.targetTextElements
      (ensureLangCache .textInBlocks helloDeactivated.currentLanguage
        (updateFeatureButtonStates helloDeactivated.currentLanguage
          (acquire .textInBlocks helloDeactivated.currentLanguage true
            (scanNeedsApi sampleTextContent .textInBlocks helloDeactivated.currentLanguage
              (toggleFeature .textInBlocks helloDeactivated))
            (toggleFeature .textInBlocks helloDeactivated)).1)) = false ∧
    takesFallback sampleTextContent ⟨.textInBlocks, "en", true, false, false, true⟩ [0]
      (init pageHello) = true :=
  ⟨by decide, by decide,
   ((C30_fallback_unreachable sampleTextContent).1 .textInBlocks helloDeactivated
     (by decide)).2,
   by decide⟩

end AdaptEase
